import Mathlib

/-!
# Nachos lab7 address spaces: demand paging and page replacement

A shallow embedding of `code/lab7/addrspace.cc` (class `AddrSpace`), followed by
the two-level file header of `code/lab5/filehdr.cc` (class `FileHeader`).

* C arrays reached through a pointer (`pageTable`, `pagesInMem`,
  `machine->mainMemory`) are functions from an index to the element, with the
  array length kept next to them (`numPages`, `maxFramesPerProc`).  Reading or
  writing an index outside the array is undefined behaviour in C; in the model
  it reads or writes a cell that no statement about the array mentions.
* `int` values that can be `-1` (page numbers in `pagesInMem`, frame numbers)
  are `Int`; cursors and lengths that are never negative are `Nat`.
* `currentThread->Finish()` and a failed `ASSERT` never return to the caller:
  the model returns `none`.
* The compile-time constants `PageSize`, `NumPhysPages`, `maxFramesPerProc` and
  the process-wide settings `pageRepAlg`, `bRecRefStr` are declared outside the
  files embedded here; they are the fields of `Config`.  The constants of the
  file header (`SectorSize`, `NumIndex1`, `NumIndex2`, `MaxFileSectors`,
  `NumSectors`) are the fields of `FsConfig`.
-/

namespace Nachos

/-- Page replacement algorithm, `enum PageRepAlg` of addrspace.h. -/
inductive PageRepAlg where
  | PRA_OPT
  | PRA_FIFO
  | PRA_2ND
  | PRA_E2ND
  | PRA_LRU
  | PRA_RAND
deriving DecidableEq, Repr

/-- Kernel-wide constants and settings read by `AddrSpace`. -/
structure Config where
  PageSize : Nat
  NumPhysPages : Nat
  maxFramesPerProc : Nat
  pageRepAlg : PageRepAlg
  bRecRefStr : Bool
deriving Repr

/-- One page-table entry (`TranslationEntry`), the fields `AddrSpace` sets. -/
structure TranslationEntry where
  virtualPage : Int
  physicalPage : Int
  valid : Bool
  use : Bool
  dirty : Bool
  readOnly : Bool
deriving DecidableEq, Repr

/-- Modelled from the spec: the file handle of the file system (section 1,
`ReadAt/WriteAt(buf,len,offset)`), whose code is not among the embedded
files.  A file is its length and its bytes by offset. -/
structure OpenFile where
  length : Nat
  data : Nat → Nat

/-- Modelled from the spec: `WriteAt(buf, numBytes, position)` stores
`numBytes` bytes of `buf` at `position`, growing the file when the range ends
past its length. -/
def OpenFile.WriteAt (f : OpenFile) (buf : Nat → Nat) (numBytes position : Nat) : OpenFile :=
  { length := max f.length (position + numBytes)
    data := fun a => if position ≤ a ∧ a < position + numBytes then buf (a - position) else f.data a }

/-- Number of bytes a `ReadAt(buf, numBytes, position)` transfers: none at or
past the end of the file, otherwise at most what is left of the file. -/
def OpenFile.readLen (f : OpenFile) (numBytes position : Nat) : Nat :=
  if f.length ≤ position then 0 else min numBytes (f.length - position)

/-- Modelled from the spec: `ReadAt(&mem[off], numBytes, position)` copies the
bytes read from `position` to memory from address `off` on and returns the
memory. -/
def OpenFile.ReadAt (f : OpenFile) (mem : Nat → Nat) (off numBytes position : Nat) : Nat → Nat :=
  fun a => if off ≤ a ∧ a < off + f.readLen numBytes position then f.data (position + (a - off)) else mem a

/-- Modelled from the spec: the bitmap of section 4.1 (class `BitMap`, not
among the embedded files): `numBits` bits, a set bit is an allocated frame. -/
structure BitMap where
  numBits : Nat
  map : Nat → Bool

/-- Modelled from the spec: `Find()` returns the index of a free bit and marks
it, or `-1` when none is free.  The spec leaves the choice open; the lowest
free index is taken, and the proofs use only that the bit was free. -/
def BitMap.Find (b : BitMap) : Int × BitMap :=
  match (List.range b.numBits).find? (fun i => !b.map i) with
  | some i => ((i : Int), { b with map := Function.update b.map i true })
  | none => (-1, b)

/-- Modelled from the spec: `Clear(i)` releases bit `i`. -/
def BitMap.Clear (b : BitMap) (which : Int) : BitMap :=
  { b with map := Function.update b.map which.toNat false }

/-- Modelled from the spec: `NumClear()` is the number of free bits. -/
def BitMap.NumClear (b : BitMap) : Nat :=
  ((List.range b.numBits).filter (fun i => !b.map i)).length

/-- The globals `replacePage` touches: `machine->mainMemory`, `freeMM_Map`,
`stats->numPageFaults`, `stats->numPageWrites`. -/
structure Machine where
  mainMemory : Nat → Nat
  freeMM_Map : BitMap
  numPageFaults : Nat
  numPageWrites : Nat

/-- The data members of `AddrSpace` (addrspace.h).  `fdRefStr` and `fpRefStr`
hold what has been written to the binary (one 16-bit item per entry) and to the
text capture file. -/
structure AddrSpace where
  pageTable : Nat → TranslationEntry
  numPages : Nat
  spaceID : Nat
  swapFile : OpenFile
  pagesInMem : Nat → Int
  idx : Nat
  bottom : Nat
  count : Nat
  lastVirtPage : Int
  fdRefStr : List Nat
  fpRefStr : List Int
  optRefStr : List Nat
  refIdx : Nat

/-- The state the constructor leaves behind (lines 105-116 and 168-229): every
entry invalid with `physicalPage = -1`, `pagesInMem` all `-1`, cursors `0`.
The parts of the constructor that read the executable fix `numPages`, the swap
file and, under OPT, the reference string; they are inputs here. -/
def AddrSpace.fresh (spaceID numPages : Nat) (swap : OpenFile) (refStr : List Nat) : AddrSpace :=
  { pageTable := fun i =>
      { virtualPage := i, physicalPage := -1, valid := false, use := false, dirty := false,
        readOnly := false }
    numPages := numPages
    spaceID := spaceID
    swapFile := swap
    pagesInMem := fun _ => -1
    idx := 0
    bottom := 0
    count := 0
    lastVirtPage := -1
    fdRefStr := []
    fpRefStr := []
    optRefStr := refStr
    refIdx := 0 }

/-- The `AddrSpace::findPageFIFO` routine. -/
def findPageFIFO (c : Config) (inPage : Int) (s : AddrSpace) : Int × AddrSpace :=
  (s.pagesInMem s.idx,
   { s with pagesInMem := Function.update s.pagesInMem s.idx inPage
            idx := (s.idx + 1) % c.maxFramesPerProc })

/-- The `while(!bFound)` loop of `AddrSpace::findPage2ndChance`; each unit of
fuel is one iteration, `none` means the fuel ran out. -/
def findPage2ndChanceLoop (c : Config) (inPage : Int) : Nat → AddrSpace → Option (Int × AddrSpace)
  | 0, _ => none
  | fuel + 1, s =>
    if s.pagesInMem s.idx < 0 then
      some (-1, { s with pagesInMem := Function.update s.pagesInMem s.idx inPage
                         idx := (s.idx + 1) % c.maxFramesPerProc })
    else if (s.pageTable (s.pagesInMem s.idx).toNat).use then
      findPage2ndChanceLoop c inPage fuel
        { s with pageTable := Function.update s.pageTable (s.pagesInMem s.idx).toNat
                   { s.pageTable (s.pagesInMem s.idx).toNat with use := false }
                 idx := (s.idx + 1) % c.maxFramesPerProc }
    else
      some (s.pagesInMem s.idx,
            { s with pagesInMem := Function.update s.pagesInMem s.idx inPage
                     idx := (s.idx + 1) % c.maxFramesPerProc })

/-- The `AddrSpace::findPage2ndChance` routine.  Every iteration that does not
return clears the use bit under the cursor, so with the cursor inside the
array the loop returns within `maxFramesPerProc + 1` iterations. -/
def findPage2ndChance (c : Config) (inPage : Int) (s : AddrSpace) : Option (Int × AddrSpace) :=
  findPage2ndChanceLoop c inPage (c.maxFramesPerProc + 1) s

/-- Outcome of a scan of `findPageE2ndChance`: returned from inside the loops
with a result, or still scanning. -/
inductive Scan where
  | ret : Int → AddrSpace → Scan
  | go : AddrSpace → Scan

/-- One iteration of the inner `for` of `findPageE2ndChance` in pass `loop`. -/
def e2ndStep (c : Config) (inPage : Int) (loop : Nat) (s : AddrSpace) : Scan :=
  let cur := s.pagesInMem s.idx
  let e := s.pageTable cur.toNat
  let next := (s.idx + 1) % c.maxFramesPerProc
  let taken : AddrSpace :=
    { s with pagesInMem := Function.update s.pagesInMem s.idx inPage, idx := next }
  if loop = 1 ∨ loop = 3 then
    if loop = 1 ∧ cur < 0 then Scan.ret (-1) taken
    else if !e.use && !e.dirty then Scan.ret cur taken
    else Scan.go { s with idx := next }
  else
    if !e.use && e.dirty then Scan.ret cur taken
    else if loop = 2 ∧ e.use = true then
      Scan.go { s with pageTable := Function.update s.pageTable cur.toNat { e with use := false }
                       idx := next }
    else Scan.go { s with idx := next }

/-- The inner `for(i = 0; i < maxFramesPerProc; i++)` of pass `loop`, with
`n` iterations left. -/
def e2ndPass (c : Config) (inPage : Int) (loop : Nat) : Nat → AddrSpace → Scan
  | 0, s => Scan.go s
  | n + 1, s =>
    match e2ndStep c inPage loop s with
    | Scan.ret v t => Scan.ret v t
    | Scan.go t => e2ndPass c inPage loop n t

/-- The outer `for(loop = 1; loop <= 4; loop++)`, from pass `loop` on with
`passes` passes left; after the last pass the routine prints its fatal message
and returns `-1`. -/
def e2ndLoops (c : Config) (inPage : Int) : Nat → Nat → AddrSpace → Int × AddrSpace
  | 0, _, s => (-1, s)
  | passes + 1, loop, s =>
    match e2ndPass c inPage loop c.maxFramesPerProc s with
    | Scan.ret v t => (v, t)
    | Scan.go t => e2ndLoops c inPage passes (loop + 1) t

/-- The `AddrSpace::findPageE2ndChance` routine. -/
def findPageE2ndChance (c : Config) (inPage : Int) (s : AddrSpace) : Int × AddrSpace :=
  e2ndLoops c inPage 4 1 s

/-- The search `for(i = 0; i < count; i++)` of `updatePageLRU`: the first
offset from `i` on whose window slot holds `vpn`, with `n` offsets left. -/
def lruSearch (c : Config) (s : AddrSpace) (vpn : Int) : Nat → Nat → Option Nat
  | 0, _ => none
  | n + 1, i =>
    if s.pagesInMem ((s.bottom + i) % c.maxFramesPerProc) = vpn then some i
    else lruSearch c s vpn n (i + 1)

/-- The copy loop `for(j = i; j < count; j++)` of `updatePageLRU`, with `n`
iterations left. -/
def lruSlide (c : Config) (bottom : Nat) : Nat → Nat → (Nat → Int) → (Nat → Int)
  | 0, _, p => p
  | n + 1, j, p =>
    lruSlide c bottom n (j + 1)
      (Function.update p ((bottom + j) % c.maxFramesPerProc)
        (p ((bottom + j + 1) % c.maxFramesPerProc)))

/-- The `AddrSpace::updatePageLRU` routine.  When `vpn` is not in the window
the routine prints its fatal message and returns with nothing changed. -/
def updatePageLRU (c : Config) (vpn : Int) (s : AddrSpace) : AddrSpace :=
  match lruSearch c s vpn s.count 0 with
  | some i =>
    { s with
      pagesInMem := Function.update (lruSlide c s.bottom (s.count - i) i s.pagesInMem)
          ((s.bottom + s.count - 1) % c.maxFramesPerProc) vpn }
  | none => s

/-- The `AddrSpace::findPageLRU` routine. -/
def findPageLRU (c : Config) (inPage : Int) (s : AddrSpace) : Int × AddrSpace :=
  if s.count < c.maxFramesPerProc then
    (-1, { s with
           pagesInMem := Function.update s.pagesInMem
               ((s.bottom + s.count) % c.maxFramesPerProc) inPage
           count := s.count + 1 })
  else
    (s.pagesInMem s.bottom,
     { s with pagesInMem := Function.update s.pagesInMem s.bottom inPage
              bottom := (s.bottom + 1) % c.maxFramesPerProc })

/-- The `AddrSpace::updatePageOpt` routine; `none` is `currentThread->Finish()`. -/
def updatePageOpt (vpn : Int) (s : AddrSpace) : Option AddrSpace :=
  if ((s.optRefStr.getD s.refIdx 0 : Nat) : Int) = vpn then some s
  else if s.optRefStr.length ≤ s.refIdx + 1 then none
  else if ((s.optRefStr.getD (s.refIdx + 1) 0 : Nat) : Int) ≠ vpn then none
  else some { s with refIdx := s.refIdx + 1 }

/-- The inner `for(j = refIdx; j < optRefStrLen; j++)` of `findPageOpt`: the
first `j` from `j` on with `optRefStr[j] == lookPage`, with `n` entries left. -/
def optNextUse (refStr : List Nat) (lookPage : Int) : Nat → Nat → Option Nat
  | 0, _ => none
  | n + 1, j =>
    if lookPage = ((refStr.getD j 0 : Nat) : Int) then some j
    else optNextUse refStr lookPage n (j + 1)

/-- The outer `for(i = 0; i < maxFramesPerProc; i++)` of `findPageOpt` with the
locals `dist` and `index`, `n` iterations left, followed by the eviction of
`pagesInMem[index]`. -/
def findPageOptScan (inPage : Int) (s : AddrSpace) : Nat → Nat → Int → Nat → Int × AddrSpace
  | 0, _, _, index =>
    (s.pagesInMem index, { s with pagesInMem := Function.update s.pagesInMem index inPage })
  | n + 1, i, dist, index =>
    match optNextUse s.optRefStr (s.pagesInMem i) (s.optRefStr.length - s.refIdx) s.refIdx with
    | some j =>
      if (j : Int) - (s.refIdx : Int) > dist then
        findPageOptScan inPage s n (i + 1) ((j : Int) - (s.refIdx : Int)) i
      else findPageOptScan inPage s n (i + 1) dist index
    | none =>
      (s.pagesInMem i, { s with pagesInMem := Function.update s.pagesInMem i inPage })

/-- The `AddrSpace::findPageOpt` routine. -/
def findPageOpt (c : Config) (inPage : Int) (s : AddrSpace) : Int × AddrSpace :=
  if s.pagesInMem s.idx < 0 then
    (-1, { s with pagesInMem := Function.update s.pagesInMem s.idx inPage
                  idx := (s.idx + 1) % c.maxFramesPerProc })
  else findPageOptScan inPage s c.maxFramesPerProc 0 (-1) 0

/-- The `AddrSpace::findPageRand` routine; `rnd` is the value of `Random()`. -/
def findPageRand (c : Config) (rnd : Nat) (inPage : Int) (s : AddrSpace) : Int × AddrSpace :=
  if s.pagesInMem s.idx < 0 then
    (-1, { s with pagesInMem := Function.update s.pagesInMem s.idx inPage
                  idx := (s.idx + 1) % c.maxFramesPerProc })
  else
    (s.pagesInMem (rnd % c.maxFramesPerProc),
     { s with pagesInMem := Function.update s.pagesInMem (rnd % c.maxFramesPerProc) inPage })

/-- The `switch(pageRepAlg)` of `replacePage`: the victim and the state after
the policy's find routine; `none` when the routine does not return. -/
def findVictim (c : Config) (rnd : Nat) (inPage : Int) (s : AddrSpace) : Option (Int × AddrSpace) :=
  match c.pageRepAlg with
  | PageRepAlg.PRA_FIFO => some (findPageFIFO c inPage s)
  | PageRepAlg.PRA_2ND => findPage2ndChance c inPage s
  | PageRepAlg.PRA_E2ND => some (findPageE2ndChance c inPage s)
  | PageRepAlg.PRA_OPT => some (findPageOpt c inPage s)
  | PageRepAlg.PRA_RAND => some (findPageRand c rnd inPage s)
  | PageRepAlg.PRA_LRU => some (findPageLRU c inPage s)

/-- The constant `SHRT_MAX` of limits.h. -/
def SHRT_MAX : Int := 32767

/-- The recording part of `updatePage` (lines 578-591).  Both capture files
are open whenever `bRecRefStr` holds, the constructor finishing the thread
otherwise; `write(fdRefStr, &vpn, sizeof(unsigned short))` stores the low 16
bits of `vpn` (little-endian host). -/
def recordRef (c : Config) (vpn : Int) (s : AddrSpace) : AddrSpace :=
  if c.bRecRefStr = true ∧ vpn ≠ s.lastVirtPage then
    { s with lastVirtPage := vpn
             fdRefStr := if vpn > SHRT_MAX then s.fdRefStr else s.fdRefStr ++ [(vpn % 65536).toNat]
             fpRefStr := s.fpRefStr ++ [vpn] }
  else s

/-- The `AddrSpace::updatePage` routine; `none` is a `Finish()` inside
`updatePageOpt`. -/
def updatePage (c : Config) (vpn : Int) (s : AddrSpace) : Option AddrSpace :=
  if c.pageRepAlg = PageRepAlg.PRA_LRU then some (recordRef c vpn (updatePageLRU c vpn s))
  else if c.pageRepAlg = PageRepAlg.PRA_OPT then updatePageOpt vpn s
  else some (recordRef c vpn s)

/-- The `AddrSpace::writeBack` routine. -/
def writeBack (c : Config) (victimPage : Int) (s : AddrSpace) (k : Machine) : AddrSpace × Machine :=
  if (s.pageTable victimPage.toNat).dirty then
    ({ s with
       swapFile := s.swapFile.WriteAt
           (fun i => k.mainMemory ((s.pageTable victimPage.toNat).physicalPage.toNat * c.PageSize + i))
           c.PageSize (victimPage.toNat * c.PageSize) },
     { k with numPageWrites := k.numPageWrites + 1 })
  else (s, k)

/-- Lines 647-653 of `replacePage`: mark the incoming entry and read its page
from the swap file into its frame. -/
def pageIn (c : Config) (inPage : Nat) (s : AddrSpace) (k : Machine) : AddrSpace × Machine :=
  ({ s with
     pageTable := Function.update s.pageTable inPage
         { s.pageTable inPage with valid := true, use := true, dirty := false } },
   { k with
     mainMemory := s.swapFile.ReadAt k.mainMemory
         ((s.pageTable inPage).physicalPage.toNat * c.PageSize) c.PageSize (inPage * c.PageSize) })

/-- The first-fill branch of `replacePage` (lines 632-640) after a successful
`Find()`: the incoming entry takes the frame `frame`. -/
def takeFrame (inPage : Nat) (frame : Int) (s : AddrSpace) : AddrSpace :=
  { s with
    pageTable := Function.update s.pageTable inPage
        { s.pageTable inPage with physicalPage := frame } }

/-- Lines 644-645 of `replacePage`: the victim is marked invalid, then its
frame number is copied to the incoming entry. -/
def handOver (inPage : Nat) (outPage : Int) (s : AddrSpace) : AddrSpace :=
  takeFrame inPage
    ((Function.update s.pageTable outPage.toNat
        { s.pageTable outPage.toNat with valid := false }) outPage.toNat).physicalPage
    { s with
      pageTable := Function.update s.pageTable outPage.toNat
          { s.pageTable outPage.toNat with valid := false } }

/-- The `AddrSpace::replacePage` routine; `none` when the call does not return
(the find routine does not return, or `Find()` fails and the thread is
finished). -/
def replacePage (c : Config) (rnd : Nat) (badVAddr : Nat) (s : AddrSpace) (k : Machine) :
    Option (AddrSpace × Machine) :=
  match findVictim c rnd ((badVAddr / c.PageSize : Nat) : Int) s with
  | none => none
  | some (outPage, s1) =>
    if outPage < 0 then
      if (k.freeMM_Map.Find).1 < 0 then none
      else
        some (pageIn c (badVAddr / c.PageSize)
          (takeFrame (badVAddr / c.PageSize) (k.freeMM_Map.Find).1 s1)
          { k with numPageFaults := k.numPageFaults + 1, freeMM_Map := (k.freeMM_Map.Find).2 })
    else
      some (pageIn c (badVAddr / c.PageSize)
        (handOver (badVAddr / c.PageSize) outPage (writeBack c outPage s1 k).1)
        { (writeBack c outPage s1 k).2 with numPageFaults := k.numPageFaults + 1 })

/-- A memory access of the machine to a resident page (translation sets
`use`, a store also sets `dirty`); the bits are set to arbitrary values here. -/
def setBits (v : Nat) (use dirty : Bool) (s : AddrSpace) : AddrSpace :=
  { s with
    pageTable := Function.update s.pageTable v { s.pageTable v with use := use, dirty := dirty } }

/-- Page `v` is resident: inside the page table with `valid` set. -/
def AddrSpace.resident (s : AddrSpace) (v : Nat) : Prop :=
  v < s.numPages ∧ (s.pageTable v).valid = true

instance AddrSpace.decidableResident (s : AddrSpace) (v : Nat) : Decidable (s.resident v) := by
  unfold AddrSpace.resident
  infer_instance

/-- Number of page-table entries with `valid = true`. -/
def AddrSpace.numValid (s : AddrSpace) : Nat :=
  ((List.range s.numPages).filter (fun v => (s.pageTable v).valid)).length

/-- Bookkeeping of the policy cursors: the first `k` slots of `pagesInMem` are
in use, the others still hold `-1`; while a slot is unused the cursor that the
policy fills next (`idx`, or `bottom + count` under LRU) is that slot. -/
structure Shape (c : Config) (s : AddrSpace) : Prop where
  mpos : 0 < c.maxFramesPerProc
  idx_lt : s.idx < c.maxFramesPerProc
  bottom_lt : s.bottom < c.maxFramesPerProc
  loaded : ∃ k, k ≤ c.maxFramesPerProc ∧
    (∀ j, j < k → 0 ≤ s.pagesInMem j) ∧
    (∀ j, k ≤ j → j < c.maxFramesPerProc → s.pagesInMem j = -1) ∧
    (c.pageRepAlg = PageRepAlg.PRA_LRU → s.count = k ∧ (k < c.maxFramesPerProc → s.bottom = 0)) ∧
    (c.pageRepAlg ≠ PageRepAlg.PRA_LRU → k < c.maxFramesPerProc → s.idx = k)

/-- The invariant of an address space: `pagesInMem` lists exactly the resident
pages, each in one slot, and a resident page has a frame number. -/
structure Inv (c : Config) (s : AddrSpace) : Prop where
  shape : Shape c s
  listed : ∀ j, j < c.maxFramesPerProc → 0 ≤ s.pagesInMem j → s.resident (s.pagesInMem j).toNat
  complete : ∀ v, s.resident v → ∃ j, j < c.maxFramesPerProc ∧ s.pagesInMem j = (v : Int)
  inj : ∀ i j, i < c.maxFramesPerProc → j < c.maxFramesPerProc → 0 ≤ s.pagesInMem i →
    s.pagesInMem i = s.pagesInMem j → i = j
  frame : ∀ v, s.resident v → 0 ≤ (s.pageTable v).physicalPage

/-- What a find routine does to the state `s`: the victim is the content of one
slot, which receives `inPage`; a page is evicted only when no slot is unused;
of the page table only use bits change. -/
structure FindOK (c : Config) (inPage : Int) (s : AddrSpace) (victim : Int) (s1 : AddrSpace) :
    Prop where
  slot : ∃ i, i < c.maxFramesPerProc ∧ s.pagesInMem i = victim ∧
    s1.pagesInMem = Function.update s.pagesInMem i inPage
  full : 0 ≤ victim → ∀ j, j < c.maxFramesPerProc → 0 ≤ s.pagesInMem j
  shape : Shape c s1
  numPages : s1.numPages = s.numPages
  swap : s1.swapFile = s.swapFile
  entries : ∀ v, (s1.pageTable v).valid = (s.pageTable v).valid ∧
    (s1.pageTable v).dirty = (s.pageTable v).dirty ∧
    (s1.pageTable v).physicalPage = (s.pageTable v).physicalPage

/-- What a find routine leaves unchanged while it is still scanning: the
slots, the LRU cursors, and of the page table everything but use bits, which
are only ever cleared. -/
structure FindKeep (s t : AddrSpace) : Prop where
  pages : t.pagesInMem = s.pagesInMem
  bottom : t.bottom = s.bottom
  count : t.count = s.count
  numPages : t.numPages = s.numPages
  swap : t.swapFile = s.swapFile
  entries : ∀ v, (t.pageTable v).valid = (s.pageTable v).valid ∧
    (t.pageTable v).dirty = (s.pageTable v).dirty ∧
    (t.pageTable v).physicalPage = (s.pageTable v).physicalPage
  use_mono : ∀ v, (s.pageTable v).use = false → (t.pageTable v).use = false

/-- The result of a find routine without the cursor bookkeeping: the victim is
the content of slot `i`, which receives `inPage`. -/
structure FindCore (c : Config) (inPage : Int) (s : AddrSpace) (victim : Int) (s1 : AddrSpace) :
    Prop where
  slot : ∃ i, i < c.maxFramesPerProc ∧ s.pagesInMem i = victim ∧
    s1.pagesInMem = Function.update s.pagesInMem i inPage
  idx_lt : s1.idx < c.maxFramesPerProc
  bottom : s1.bottom = s.bottom
  count : s1.count = s.count
  numPages : s1.numPages = s.numPages
  swap : s1.swapFile = s.swapFile
  entries : ∀ v, (s1.pageTable v).valid = (s.pageTable v).valid ∧
    (s1.pageTable v).dirty = (s.pageTable v).dirty ∧
    (s1.pageTable v).physicalPage = (s.pageTable v).physicalPage

/-- States of one address space reachable from the constructor by page faults
on non-resident pages, `updatePage` on resident pages and accesses of the
machine to resident pages.  The machine state of each fault is arbitrary. -/
inductive Reachable (c : Config) : AddrSpace → Prop where
  | fresh (spaceID numPages : Nat) (swap : OpenFile) (refStr : List Nat) :
      0 < c.maxFramesPerProc → 0 < c.PageSize → numPages * c.PageSize ≤ swap.length →
      Reachable c (AddrSpace.fresh spaceID numPages swap refStr)
  | fault (s s1 : AddrSpace) (k k1 : Machine) (rnd badVAddr : Nat) :
      Reachable c s → badVAddr / c.PageSize < s.numPages →
      (s.pageTable (badVAddr / c.PageSize)).valid = false →
      replacePage c rnd badVAddr s k = some (s1, k1) → Reachable c s1
  | touch (s s1 : AddrSpace) (vpn : Nat) :
      Reachable c s → s.resident vpn → updatePage c (vpn : Int) s = some s1 → Reachable c s1
  | access (s : AddrSpace) (v : Nat) (use dirty : Bool) :
      Reachable c s → s.resident v → Reachable c (setBits v use dirty s)

/-- The kernel: the machine globals, the process bitmap `ProgMap` and the live
address spaces by `spaceID`. -/
structure Kernel where
  machine : Machine
  ProgMap : Nat → Bool
  spaces : Nat → Option AddrSpace

/-- The kernel before any user program is started: every frame and every
`spaceID` free. -/
def Kernel.boot (c : Config) (mem : Nat → Nat) : Kernel :=
  { machine :=
      { mainMemory := mem
        freeMM_Map := { numBits := c.NumPhysPages, map := fun _ => false }
        numPageFaults := 0
        numPageWrites := 0 }
    ProgMap := fun _ => false
    spaces := fun _ => none }

/-- The constructor `AddrSpace::AddrSpace` seen from the kernel (lines 64-74,
97-98, 105-116, 168-175): the lowest free `spaceID` is taken, the two `ASSERT`s
must hold, and the new space is entered.  `numPages`, the swap file and the
reference string come from the parts that read the files. -/
def Kernel.construct (c : Config) (numPages : Nat) (swap : OpenFile) (refStr : List Nat)
    (K : Kernel) : Option (Nat × Kernel) :=
  match (List.range c.NumPhysPages).find? (fun i => !K.ProgMap i) with
  | none => none
  | some id =>
    if c.maxFramesPerProc ≤ c.NumPhysPages ∧
        c.maxFramesPerProc ≤ K.machine.freeMM_Map.NumClear then
      some (id,
        { K with
          ProgMap := Function.update K.ProgMap id true
          spaces := Function.update K.spaces id (some (AddrSpace.fresh id numPages swap refStr)) })
    else none

/-- The loop of `AddrSpace::~AddrSpace` (lines 245-247) over the first `n`
page-table entries. -/
def AddrSpace.releaseFrames (s : AddrSpace) (b : BitMap) : Nat → BitMap
  | 0 => b
  | n + 1 =>
    if (s.pageTable n).valid then (s.releaseFrames b n).Clear (s.pageTable n).physicalPage
    else s.releaseFrames b n

/-- The destructor `AddrSpace::~AddrSpace` of the space with key `id`. -/
def Kernel.destroy (id : Nat) (K : Kernel) : Option Kernel :=
  match K.spaces id with
  | none => none
  | some s =>
    some
      { machine := { K.machine with freeMM_Map := s.releaseFrames K.machine.freeMM_Map s.numPages }
        ProgMap := Function.update K.ProgMap s.spaceID false
        spaces := Function.update K.spaces id none }

/-- A page fault of the space with key `id` at address `badVAddr`: its
`replacePage` runs on the machine globals of the kernel. -/
def Kernel.pageFault (c : Config) (rnd id badVAddr : Nat) (K : Kernel) : Option Kernel :=
  match K.spaces id with
  | none => none
  | some s =>
    match replacePage c rnd badVAddr s K.machine with
    | none => none
    | some r => some { K with machine := r.2, spaces := Function.update K.spaces id (some r.1) }

/-- One operation of the kernel on its address spaces: construction of a
space, a page fault on a non-resident page of a live space, destruction of a
live space. -/
inductive Kernel.Step (c : Config) : Kernel → Kernel → Prop where
  | construct (K K1 : Kernel) (numPages : Nat) (swap : OpenFile) (refStr : List Nat) (id : Nat) :
      K.construct c numPages swap refStr = some (id, K1) → Kernel.Step c K K1
  | fault (K K1 : Kernel) (id rnd badVAddr : Nat) (s : AddrSpace) :
      K.spaces id = some s → badVAddr / c.PageSize < s.numPages →
      (s.pageTable (badVAddr / c.PageSize)).valid = false →
      K.pageFault c rnd id badVAddr = some K1 → Kernel.Step c K K1
  | destroy (K K1 : Kernel) (id : Nat) :
      K.destroy id = some K1 → Kernel.Step c K K1

/-- Kernel states reachable from boot. -/
def Kernel.Reachable (c : Config) (K : Kernel) : Prop :=
  0 < c.maxFramesPerProc ∧ 0 < c.PageSize ∧
    ∃ mem, Relation.ReflTransGen (Kernel.Step c) (Kernel.boot c mem) K

/-- The kernel invariant: every live space satisfies `Inv`, the frame of every
valid entry is a marked bit of `freeMM_Map`, and no frame belongs to two valid
entries. -/
structure Kernel.Inv (c : Config) (K : Kernel) : Prop where
  spaces : ∀ id s, K.spaces id = some s → Nachos.Inv c s
  marked : ∀ id s v, K.spaces id = some s → s.resident v →
    (s.pageTable v).physicalPage.toNat < K.machine.freeMM_Map.numBits ∧
      K.machine.freeMM_Map.map (s.pageTable v).physicalPage.toNat = true
  unique : ∀ id1 id2 s1 s2 v1 v2, K.spaces id1 = some s1 → K.spaces id2 = some s2 →
    s1.resident v1 → s2.resident v2 →
    (s1.pageTable v1).physicalPage = (s2.pageTable v2).physicalPage → id1 = id2 ∧ v1 = v2

/-- One operation on an address space other than a page fault on page `v`:
a fault on another page (any machine state), `updatePage`, or an access of the
machine to a resident page. -/
inductive StepAway (c : Config) (v : Nat) : AddrSpace → AddrSpace → Prop where
  | fault (s s1 : AddrSpace) (k k1 : Machine) (rnd badVAddr : Nat) :
      badVAddr / c.PageSize < s.numPages →
      (s.pageTable (badVAddr / c.PageSize)).valid = false → badVAddr / c.PageSize ≠ v →
      replacePage c rnd badVAddr s k = some (s1, k1) → StepAway c v s s1
  | touch (s s1 : AddrSpace) (vpn : Nat) :
      s.resident vpn → updatePage c (vpn : Int) s = some s1 → StepAway c v s s1
  | access (s : AddrSpace) (x : Nat) (use dirty : Bool) :
      s.resident x → StepAway c v s (setBits x use dirty s)

/-- Successive calls of `findPageFIFO`, one per page of the list: the victims
returned and the final state. -/
def faultsFIFO (c : Config) : List Int → AddrSpace → List Int × AddrSpace
  | [], s => ([], s)
  | p :: ps, s =>
    ((findPageFIFO c p s).1 :: (faultsFIFO c ps (findPageFIFO c p s).2).1,
     (faultsFIFO c ps (findPageFIFO c p s).2).2)

/-- Successive page faults at the addresses of the list; `none` when one of
the calls of `replacePage` does not return. -/
def runFaults (c : Config) (rnd : Nat) : List Nat → AddrSpace × Machine → Option (AddrSpace × Machine)
  | [], st => some st
  | a :: rest, st =>
    match replacePage c rnd a st.1 st.2 with
    | none => none
    | some st1 => runFaults c rnd rest st1

/-- The victims the policy returns along `runFaults`. -/
def victimsOf (c : Config) (rnd : Nat) : List Nat → AddrSpace × Machine → List Int
  | [], _ => []
  | a :: rest, st =>
    match findVictim c rnd ((a / c.PageSize : Nat) : Int) st.1, replacePage c rnd a st.1 st.2 with
    | some r, some st1 => r.1 :: victimsOf c rnd rest st1
    | _, _ => []

/-- Configuration of end-to-end scenario 1 of the spec: `PageSize = 128`,
`maxFramesPerProc = 2`, FIFO. -/
def scenarioConfig : Config :=
  { PageSize := 128, NumPhysPages := 32, maxFramesPerProc := 2,
    pageRepAlg := PageRepAlg.PRA_FIFO, bRecRefStr := false }

/-- A four-page address space fresh from the constructor, with a swap file of
`4 * 128` bytes. -/
def scenarioSpace : AddrSpace :=
  AddrSpace.fresh 0 4 { length := 512, data := fun a => a % 251 } []

/-- The machine at boot: memory zeroed, all frames free, counters `0`. -/
def scenarioMachine : Machine := (Kernel.boot scenarioConfig (fun _ => 0)).machine

/-- The state after a run of page faults of the scenario (the start state
when a call does not return). -/
def scenarioAfter (addrs : List Nat) : AddrSpace × Machine :=
  (runFaults scenarioConfig 0 addrs (scenarioSpace, scenarioMachine)).getD
    (scenarioSpace, scenarioMachine)

/-- Scenario 1 after the faults on pages 0 and 1 and a store of the machine
to page 0: the entry of page 0 has `use` and `dirty` set. -/
def scenarioDirty : AddrSpace := setBits 0 true true (scenarioAfter [0, 128]).1

/-- The machine after that store: frame 0 holds the byte 7 at every offset. -/
def scenarioDirtyMachine : Machine :=
  { (scenarioAfter [0, 128]).2 with
    mainMemory := fun a => if a < 128 then 7 else (scenarioAfter [0, 128]).2.mainMemory a }

/-- The fault on page 2 (address 256) that evicts the dirty page 0. -/
def scenarioEvicted : AddrSpace × Machine :=
  (replacePage scenarioConfig 0 256 scenarioDirty scenarioDirtyMachine).getD
    (scenarioDirty, scenarioDirtyMachine)

/-- A fault on page 3 (address 384) after the eviction of page 0. -/
def scenarioBetween : AddrSpace × Machine :=
  (replacePage scenarioConfig 0 384 scenarioEvicted.1 scenarioEvicted.2).getD scenarioEvicted

/-- The later fault on page 0 (address 0) that brings the page back, the
machine memory zeroed in between. -/
def scenarioBack : AddrSpace × Machine :=
  (replacePage scenarioConfig 0 0 scenarioBetween.1
      { scenarioBetween.2 with mainMemory := fun _ => 0 }).getD scenarioBetween

/-- The kernel of scenario 1 at boot. -/
def scenarioBoot : Kernel := Kernel.boot scenarioConfig (fun _ => 0)

/-- Two address spaces of four pages constructed after boot. -/
def scenarioTwoSpaces : Kernel :=
  ((((scenarioBoot.construct scenarioConfig 4 { length := 512, data := fun a => a % 251 }
      []).getD (0, scenarioBoot)).2.construct scenarioConfig 4
      { length := 512, data := fun _ => 9 } []).getD (0, scenarioBoot)).2

/-- Both spaces have faulted on their page 0. -/
def scenarioTwoFaults : Kernel :=
  (((scenarioTwoSpaces.pageFault scenarioConfig 0 0 0).getD scenarioTwoSpaces).pageFault
    scenarioConfig 0 1 0).getD scenarioTwoSpaces

/-- The references of a program driven through the address space (fault-handler
and translation contracts of the spec): on a hit `updatePage(vpn)` is called,
on a miss `replacePage(vpn * PageSize)` and then `updatePage(vpn)`.  The result
carries the number of calls of `replacePage`; `none` when a call does not
return. -/
def drive (c : Config) (rnd : Nat) : List Nat → AddrSpace × Machine → Option (Nat × AddrSpace × Machine)
  | [], st => some (0, st)
  | v :: rest, st =>
    if (st.1.pageTable v).valid then
      match updatePage c (v : Int) st.1 with
      | none => none
      | some s1 => drive c rnd rest (s1, st.2)
    else
      match replacePage c rnd (v * c.PageSize) st.1 st.2 with
      | none => none
      | some st1 =>
        match updatePage c (v : Int) st1.1 with
        | none => none
        | some s2 => (drive c rnd rest (s2, st1.2)).map (fun r => (r.1 + 1, r.2))

/-- The address space after the references `refs` have been driven through
`s` on the scenario machine (`s` itself when a call does not return). -/
def driven (c : Config) (refs : List Nat) (s : AddrSpace) : AddrSpace :=
  ((drive c 0 refs (s, scenarioMachine)).getD (0, s, scenarioMachine)).2.1

/-- Successive calls of `updatePage`, one per page number of the list; `none`
when a call takes a fatal path. -/
def updatePages (c : Config) : List Int → AddrSpace → Option AddrSpace
  | [], s => some s
  | v :: rest, s =>
    match updatePage c v s with
    | none => none
    | some s1 => updatePages c rest s1

/-- A sequence of page numbers with adjacent repeats collapsed. -/
def collapse : List Int → List Int
  | [] => []
  | [a] => [a]
  | a :: b :: rest => if a = b then collapse (b :: rest) else a :: collapse (b :: rest)

/-- Modelled from the spec: serving a reference string with `m` frames and an
arbitrary sequence of eviction choices, the yardstick of "optimal" (Belady's
MIN).  `resident` are the pages in memory; on a fault with all frames in use
the next page of `choices` is evicted.  The result is the number of page
faults, `none` when a choice is missing or not resident. -/
def faultsWith (m : Nat) : List Nat → List Nat → List Nat → Option Nat
  | [], _, _ => some 0
  | v :: rest, resident, choices =>
    if v ∈ resident then faultsWith m rest resident choices
    else if resident.length < m then (faultsWith m rest (v :: resident) choices).map (· + 1)
    else
      match choices with
      | [] => none
      | e :: later =>
        if e ∈ resident then (faultsWith m rest (v :: resident.erase e) later).map (· + 1)
        else none

/-- Configuration of end-to-end scenario 3 of the spec: OPT with
`maxFramesPerProc = 3`. -/
def optConfig : Config :=
  { PageSize := 128, NumPhysPages := 32, maxFramesPerProc := 3,
    pageRepAlg := PageRepAlg.PRA_OPT, bRecRefStr := false }

/-- An address space of eight pages fresh from the constructor under OPT, with
the reference string of scenario 3 loaded. -/
def beladySpace : AddrSpace :=
  AddrSpace.fresh 0 8 { length := 1024, data := fun _ => 0 } [7, 0, 1, 2, 0, 3, 0, 4, 2, 3, 0, 3, 2]

/-- OPT with two frames. -/
def optTwoConfig : Config :=
  { PageSize := 128, NumPhysPages := 32, maxFramesPerProc := 2,
    pageRepAlg := PageRepAlg.PRA_OPT, bRecRefStr := false }

/-- An address space of four pages under OPT with the reference string
`0, 1, 2, 0` loaded. -/
def optShortSpace : AddrSpace :=
  AddrSpace.fresh 0 4 { length := 512, data := fun _ => 0 } [0, 1, 2, 0]

/-- An address space under OPT with the reference string `5, 7` loaded. -/
def optSkipSpace : AddrSpace :=
  AddrSpace.fresh 0 8 { length := 1024, data := fun _ => 0 } [5, 7]

/-- An address space of four pages under OPT with the reference string
`0, 1, 0, 2, 1` loaded. -/
def optLateSpace : AddrSpace :=
  AddrSpace.fresh 0 4 { length := 512, data := fun _ => 0 } [0, 1, 0, 2, 1]

/-- Second-Chance with three frames (end-to-end scenario 5 of the spec). -/
def clockConfig : Config :=
  { PageSize := 128, NumPhysPages := 32, maxFramesPerProc := 3,
    pageRepAlg := PageRepAlg.PRA_2ND, bRecRefStr := false }

/-- Scenario 5: pages 0, 1, 2 resident in slots 0, 1, 2, the cursor back at
slot 0, use bits `[1, 0, 1]`. -/
def clockSpace : AddrSpace :=
  setBits 1 false false (driven clockConfig [0, 1, 2] scenarioSpace)


/-! ## Enhanced Second-Chance: instrumented scan -/

/-- The page in the slot `j` places after the cursor `idx`, as a page-table
index. -/
def AddrSpace.pageAt (c : Config) (s : AddrSpace) (j : Nat) : Nat :=
  (s.pagesInMem ((s.idx + j) % c.maxFramesPerProc)).toNat

/-- The test with which pass `loop` of `findPageE2ndChance` picks the entry
under the cursor: `!use && !dirty` in passes 1 and 3, `!use && dirty` in
passes 2 and 4. -/
def e2ndWants (loop : Nat) (e : TranslationEntry) : Bool :=
  if loop = 1 ∨ loop = 3 then !e.use && !e.dirty else !e.use && e.dirty

/-- What pass `loop` does to an entry that it visits and does not pick: pass 2
clears the use bit, the other passes write nothing. -/
def e2ndTouch (loop : Nat) (e : TranslationEntry) : TranslationEntry :=
  if loop = 2 then { e with use := false } else e

/-- The rank of the `(use, dirty)` class of an entry in the order `(0,0)`,
`(0,1)`, `(1,0)`, `(1,1)` of the spec. -/
def classRank (e : TranslationEntry) : Nat :=
  (if e.use then 2 else 0) + (if e.dirty then 1 else 0)

/-- The loops of `findPageE2ndChance` with the number of the pass in which the
routine returns; `none` when all passes end without a `return`, which is where
the routine prints "failed to find victim frame". -/
def e2ndRun (c : Config) (inPage : Int) : Nat → Nat → AddrSpace → Option (Nat × Int × AddrSpace)
  | 0, _, _ => none
  | passes + 1, loop, s =>
    match e2ndPass c inPage loop c.maxFramesPerProc s with
    | Scan.ret v t => some (loop, v, t)
    | Scan.go t => e2ndRun c inPage passes (loop + 1) t

/-- The index with which one iteration of pass `loop` reads the page table, if
it reads it: in pass 1 the first-fill test `pagesInMem[idx] < 0` returns before
any read, in every other case `pageTable[pagesInMem[idx]]` is evaluated. -/
def e2ndIndex (loop : Nat) (s : AddrSpace) : Option Int :=
  if loop = 1 ∧ s.pagesInMem s.idx < 0 then none else some (s.pagesInMem s.idx)

/-- The slot visits of one pass, in order: the pass number and the page-table
index read at each visit. -/
def e2ndPassLog (c : Config) (inPage : Int) (loop : Nat) : Nat → AddrSpace → List (Nat × Option Int)
  | 0, _ => []
  | n + 1, s =>
    (loop, e2ndIndex loop s) ::
      match e2ndStep c inPage loop s with
      | Scan.ret _ _ => []
      | Scan.go t => e2ndPassLog c inPage loop n t

/-- The slot visits of `findPageE2ndChance` from pass `loop` on. -/
def e2ndLoopsLog (c : Config) (inPage : Int) : Nat → Nat → AddrSpace → List (Nat × Option Int)
  | 0, _, _ => []
  | passes + 1, loop, s =>
    e2ndPassLog c inPage loop c.maxFramesPerProc s ++
      match e2ndPass c inPage loop c.maxFramesPerProc s with
      | Scan.ret _ _ => []
      | Scan.go t => e2ndLoopsLog c inPage passes (loop + 1) t

/-- Enhanced Second-Chance with three frames (end-to-end scenario 6 of the
spec). -/
def e2ndConfig : Config :=
  { PageSize := 128, NumPhysPages := 32, maxFramesPerProc := 3,
    pageRepAlg := PageRepAlg.PRA_E2ND, bRecRefStr := false }

/-- Pages 0, 1, 2 resident in slots 0, 1, 2 under Enhanced Second-Chance, the
cursor back at slot 0. -/
def e2ndLoaded : AddrSpace := driven e2ndConfig [0, 1, 2] scenarioSpace

/-- Scenario 6: the three resident pages all have `use = 0`, `dirty = 1`. -/
def e2ndDirtySpace : AddrSpace :=
  setBits 2 false true (setBits 1 false true (setBits 0 false true e2ndLoaded))

/-- The machine after the references of `driven`. -/
def drivenMachine (c : Config) (refs : List Nat) (s : AddrSpace) : Machine :=
  ((drive c 0 refs (s, scenarioMachine)).getD (0, s, scenarioMachine)).2.2

/-- The machine of scenario 6 after a store to page 0: the frame of page 0
holds the byte 7 at every offset. -/
def e2ndDirtyMachine : Machine :=
  { drivenMachine e2ndConfig [0, 1, 2] scenarioSpace with
    mainMemory := fun a =>
      if (e2ndLoaded.pageTable 0).physicalPage.toNat * 128 ≤ a ∧
          a < (e2ndLoaded.pageTable 0).physicalPage.toNat * 128 + 128 then 7
      else (drivenMachine e2ndConfig [0, 1, 2] scenarioSpace).mainMemory a }

/-- The fault on page 3 (address 384) in scenario 6. -/
def e2ndDirtyFault : AddrSpace × Machine :=
  (replacePage e2ndConfig 0 384 e2ndDirtySpace e2ndDirtyMachine).getD
    (e2ndDirtySpace, e2ndDirtyMachine)

/-- Three resident pages with `(use, dirty)` bits `(1,0)`, `(0,0)`, `(1,1)`,
the cursor at slot 0. -/
def e2ndMixedSpace : AddrSpace :=
  setBits 2 true true (setBits 1 false false (setBits 0 true false e2ndLoaded))

/-- Three resident pages with `(use, dirty)` bits `(1,1)`, `(0,1)`, `(1,0)`,
the cursor at slot 0. -/
def e2ndClearSpace : AddrSpace :=
  setBits 2 true false (setBits 1 false true (setBits 0 true true e2ndLoaded))

/-! ## OPT: next use in the reference string -/

/-- Page `p` does not occur in the reference string from the cursor `refIdx`
on. -/
def AddrSpace.unusedFrom (s : AddrSpace) (p : Int) : Prop :=
  ∀ j, j < s.optRefStr.length → s.refIdx ≤ j → p ≠ ((s.optRefStr.getD j 0 : Nat) : Int)

instance AddrSpace.decidableUnusedFrom (s : AddrSpace) (p : Int) : Decidable (s.unusedFrom p) := by
  unfold AddrSpace.unusedFrom
  infer_instance

/-- Index `j` is the first occurrence of page `p` in the reference string at
an index `≥ refIdx`. -/
def AddrSpace.firstUse (s : AddrSpace) (p : Int) (j : Nat) : Prop :=
  s.refIdx ≤ j ∧ j < s.optRefStr.length ∧ p = ((s.optRefStr.getD j 0 : Nat) : Int) ∧
    ∀ i, i < j → s.refIdx ≤ i → p ≠ ((s.optRefStr.getD i 0 : Nat) : Int)

instance AddrSpace.decidableFirstUse (s : AddrSpace) (p : Int) (j : Nat) :
    Decidable (s.firstUse p j) := by
  unfold AddrSpace.firstUse
  infer_instance

/-- Scenario 3 after the references `7, 0, 1, 2, 0, 3, 0`: all three slots in
use, the cursor of the reference string at index 6. -/
def optFullSpace : AddrSpace := driven optConfig [7, 0, 1, 2, 0, 3, 0] beladySpace

/-! ## LRU: the stack window and the abstract recency list -/

/-- The LRU stack: `pagesInMem` read circularly from `bottom` for `count`
entries, bottom first. -/
def lruWindow (c : Config) (s : AddrSpace) : List Int :=
  (List.range s.count).map (fun j => s.pagesInMem ((s.bottom + j) % c.maxFramesPerProc))

/-- One reference to page `v` in the abstract recency list of the spec, which
holds the resident pages from least to most recently referenced with capacity
`m`: a listed page moves to the end; a new page is appended, after the removal
of the least recently referenced page when the list is full. -/
def recencyRef (m : Nat) (l : List Nat) (v : Nat) : List Nat :=
  if v ∈ l then l.erase v ++ [v]
  else if l.length < m then l ++ [v]
  else l.tail ++ [v]

/-- The abstract recency list after the references `refs`, starting empty. -/
def recencyList (m : Nat) (refs : List Nat) : List Nat :=
  refs.foldl (recencyRef m) []

/-- Configuration of end-to-end scenario 2 of the spec: LRU with
`maxFramesPerProc = 2`. -/
def lruConfig : Config :=
  { PageSize := 128, NumPhysPages := 32, maxFramesPerProc := 2,
    pageRepAlg := PageRepAlg.PRA_LRU, bRecRefStr := false }

/-- Scenario 2: the references `0, 1, 0, 2, 1, 2` driven through a fresh
address space of four pages under LRU; the result carries the number of page
faults. -/
def lruRun : Nat × AddrSpace × Machine :=
  (drive lruConfig 0 [0, 1, 0, 2, 1, 2] (scenarioSpace, scenarioMachine)).getD
    (0, scenarioSpace, scenarioMachine)

/-! ## The constructor: NOFF header, size of the address space, swap file -/

/-- A segment of the NOFF header (noff.h, not among the embedded files): three
32-bit words, taken as natural numbers. -/
structure Segment where
  size : Nat
  virtualAddr : Nat
  inFileAddr : Nat
deriving DecidableEq, Repr

/-- The NOFF header `noffH` as `ReadAt` leaves it in memory: the magic word and
the segments `code`, `initData`, `uninitData`. -/
structure NoffHeader where
  noffMagic : Nat
  code : Segment
  initData : Segment
  uninitData : Segment
deriving DecidableEq, Repr

/-- Modelled from the spec: the magic word `NOFFMAGIC` of section 6. -/
def NOFFMAGIC : Nat := 0xbadfad

/-- Modelled from the spec: `WordToHost` on a host whose byte order differs
from that of the file, the reversal of the four bytes of a 32-bit word. -/
def WordToHost (w : Nat) : Nat :=
  (w % 256) * 16777216 + (w / 256 % 256) * 65536 + (w / 65536 % 256) * 256 + w / 16777216 % 256

/-- The static function `SwapHeader` (lines 30-43). -/
def SwapHeader (h : NoffHeader) : NoffHeader :=
  { noffMagic := WordToHost h.noffMagic
    code :=
      { size := WordToHost h.code.size
        virtualAddr := WordToHost h.code.virtualAddr
        inFileAddr := WordToHost h.code.inFileAddr }
    initData :=
      { size := WordToHost h.initData.size
        virtualAddr := WordToHost h.initData.virtualAddr
        inFileAddr := WordToHost h.initData.inFileAddr }
    uninitData :=
      { size := WordToHost h.uninitData.size
        virtualAddr := WordToHost h.uninitData.virtualAddr
        inFileAddr := WordToHost h.uninitData.inFileAddr } }

/-- Lines 85-87 of the constructor: the header is swapped when its magic word
is not `NOFFMAGIC` and the swapped magic word is. -/
def fixHeader (raw : NoffHeader) : NoffHeader :=
  if raw.noffMagic ≠ NOFFMAGIC ∧ WordToHost raw.noffMagic = NOFFMAGIC then SwapHeader raw
  else raw

/-- Lines 85-88 of the constructor: the header after the swap, if any, and
`ASSERT(noffH.noffMagic == NOFFMAGIC)`, whose failure is `none`. -/
def loadHeader (raw : NoffHeader) : Option NoffHeader :=
  if (fixHeader raw).noffMagic = NOFFMAGIC then some (fixHeader raw) else none

/-- The constant `UserStackSize` of addrspace.h. -/
def UserStackSize : Nat := 1024

/-- Modelled from the spec: the macro `divRoundUp(n, s)` of utility.h (not among
the embedded files), the quotient rounded up: `n / s`, plus one when the
division leaves a remainder. -/
def divRoundUp (n s : Nat) : Nat :=
  n / s + (if n % s > 0 then 1 else 0)

/-- Line 91: `memSize`, an `unsigned int`, is the sum of the three segment sizes
and `UserStackSize` modulo `2^32`. -/
def memSizeOf (h : NoffHeader) : Nat :=
  (h.code.size + h.initData.size + h.uninitData.size + UserStackSize) % 4294967296

/-- Line 94: `numPages = divRoundUp(memSize, PageSize)`. -/
def numPagesOf (c : Config) (h : NoffHeader) : Nat :=
  divRoundUp (memSizeOf h) c.PageSize

/-- The loop of lines 135-136 after `n` iterations: page `i` of the swap file
is written with `PageSize` zero bytes. -/
def zeroFill (c : Config) (f : OpenFile) : Nat → OpenFile
  | 0 => f
  | n + 1 => (zeroFill c f n).WriteAt (fun _ => 0) c.PageSize (n * c.PageSize)

/-- A value of C type `int`: the representative in `[-2^31, 2^31)`. -/
def toInt32 (x : Int) : Int :=
  (x + 2147483648) % 4294967296 - 2147483648

/-- Lines 141-148 and 151-158: a segment whose `size` is positive is read from
the executable into a new buffer (content `junk` before the read) and written
to the swap file at its virtual address.  `size` is a C `int`: its 32-bit word
is a positive `int` when it is not zero and below `2^31` (`segPositive_iff`);
a word from `2^31` on is a negative `int` and the segment is skipped. -/
def copySegment (exe : OpenFile) (junk : Nat → Nat) (seg : Segment) (swap : OpenFile) : OpenFile :=
  if 0 < seg.size ∧ seg.size < 2147483648 then
    swap.WriteAt (exe.ReadAt junk 0 seg.size seg.inFileAddr) seg.size seg.virtualAddr
  else swap

/-- Lines 119-158: the swap file after construction.  `Create(sFileName, 0)`
gives a file of length 0 (`stale` is what the medium holds past its end); it
is zero-filled page by page, then the code segment and then the
initialised-data segment are copied in. -/
def buildSwap (c : Config) (h : NoffHeader) (exe : OpenFile) (stale junk : Nat → Nat) : OpenFile :=
  copySegment exe junk h.initData
    (copySegment exe junk h.code
      (zeroFill c { length := 0, data := stale } (numPagesOf c h)))

/-- An executable of 600 bytes with byte `a % 7 + 1` at offset `a`. -/
def demoExecutable : OpenFile := { length := 600, data := fun a => a % 7 + 1 }

/-- A header with a code segment of 300 bytes at virtual address 0 (file offset
40), initialised data of 100 bytes at virtual address 256 (file offset 340),
overlapping the end of the code, and 50 bytes of uninitialised data. -/
def demoHeader : NoffHeader :=
  { noffMagic := NOFFMAGIC
    code := { size := 300, virtualAddr := 0, inFileAddr := 40 }
    initData := { size := 100, virtualAddr := 256, inFileAddr := 340 }
    uninitData := { size := 50, virtualAddr := 356, inFileAddr := 0 } }

/-! ## `InitRegisters` -/

/-- The register constants of machine.h (not among the embedded files) that
`InitRegisters` names. -/
structure RegLayout where
  NumTotalRegs : Nat
  PCReg : Nat
  NextPCReg : Nat
  StackReg : Nat
deriving Repr

/-- The values of machine.h in the MIPS simulator. -/
def mipsLayout : RegLayout :=
  { NumTotalRegs := 40, PCReg := 34, NextPCReg := 35, StackReg := 29 }

/-- The loop `for (i = 0; i < NumTotalRegs; i++) machine->WriteRegister(i, 0)`
after `n` iterations. -/
def zeroRegisters : Nat → (Nat → Int) → (Nat → Int)
  | 0, regs => regs
  | n + 1, regs => Function.update (zeroRegisters n regs) n 0

/-- The `AddrSpace::InitRegisters` routine on the register file of the machine
(`WriteRegister(num, value)` stores `value` in register `num`). -/
def InitRegisters (l : RegLayout) (c : Config) (s : AddrSpace) (regs : Nat → Int) : Nat → Int :=
  Function.update
    (Function.update
      (Function.update (zeroRegisters l.NumTotalRegs regs) l.PCReg 0)
      l.NextPCReg 4)
    l.StackReg (toInt32 ((s.numPages : Int) * (c.PageSize : Int) - 16))

/-! ## Reference string: capture and the load for the replay -/

/-- The page numbers a capture records for the calls `vs` of `updatePage` when
`lastVirtPage` holds `last` before the first of them: a page number is
recorded when it differs from the one passed just before. -/
def recordedFrom (last : Int) : List Int → List Int
  | [] => []
  | v :: rest => if v ≠ last then v :: recordedFrom v rest else recordedFrom v rest

/-- The bytes of the binary capture file whose 16-bit items are `items`: each
`write(fdRefStr, &vpn, sizeof(unsigned short))` appends the two bytes of the
item in host order (low byte first). -/
def refStrBytes (items : List Nat) : List Nat :=
  items.flatMap (fun x => [x % 256, x / 256 % 256])

/-- An array of `unsigned short` read from the bytes of a file, in host order
(low byte first). -/
def shortsOfBytes : List Nat → List Nat
  | lo :: hi :: rest => (lo + 256 * hi) :: shortsOfBytes rest
  | _ => []

/-- Lines 199-229 of the constructor under OPT: a file of odd length finishes
the thread (`none`); otherwise the whole file is read into `optRefStr`. -/
def loadRefStr (bytes : List Nat) : Option (List Nat) :=
  if bytes.length % 2 = 1 then none else some (shortsOfBytes bytes)

/-- FIFO with two frames and the recording of the reference string switched
on. -/
def recordConfig : Config :=
  { PageSize := 128, NumPhysPages := 32, maxFramesPerProc := 2,
    pageRepAlg := PageRepAlg.PRA_FIFO, bRecRefStr := true }

/-! ## The constructor seen from the kernel -/

/-- Modelled from the spec: what the file system and the host give one run of
the constructor (section 1: `Open(name)`, `Create(name, size)`; the host calls
`open`, `fopen`, `read` for the reference-string files). -/
structure Files where
  /-- The result of `fileSystem->Open(noffFileName)`; `none` is `NULL`. -/
  executable : Option OpenFile
  /-- The ten words of `noffH` after `ReadAt((char *)&noffH, sizeof(noffH), 0)`. -/
  header : NoffHeader
  /-- `Create` and `Open` of the swap file: `none` when one of them fails,
  otherwise what the medium holds past the end of the new, empty file. -/
  swapStale : Option (Nat → Nat)
  /-- The content of a buffer from `new char[]` before anything is read. -/
  junk : Nat → Nat
  /-- Whether both capture files can be opened for writing. -/
  captureOk : Bool
  /-- The bytes of the binary reference-string file; `none` when `open` fails. -/
  refStrFile : Option (List Nat)

/-- Lines 177-229 of the constructor: the reference string the new space
starts with; `none` when the thread is finished (a capture file cannot be
opened; under OPT the file cannot be opened or has odd length). -/
def loadCapture (c : Config) (fl : Files) : Option (List Nat) :=
  if c.bRecRefStr then (if fl.captureOk then some [] else none)
  else if c.pageRepAlg = PageRepAlg.PRA_OPT then
    match fl.refStrFile with
    | none => none
    | some bytes => loadRefStr bytes
  else some []

/-- How a run of the constructor ends: a failed `ASSERT` aborts the kernel;
`currentThread->Finish()` ends the thread and leaves the kernel without a new
address space; otherwise the new space is live under its `spaceID`. -/
inductive Built where
  | abort : Built
  | finish : Kernel → Built
  | ok : Nat → Kernel → Built

/-- The constructor `AddrSpace::AddrSpace` with its exits in the order of the
source: the `spaceID` is taken (lines 64-74), the executable opened (77-81),
the header checked (84-88), the frame budget asserted (97-98), the swap file
created and filled (119-158), the reference-string files opened (177-229). -/
def Kernel.build (c : Config) (fl : Files) (K : Kernel) : Built :=
  match (List.range c.NumPhysPages).find? (fun i => !K.ProgMap i) with
  | none => Built.abort
  | some id =>
    match fl.executable with
    | none => Built.finish { K with ProgMap := Function.update K.ProgMap id true }
    | some exe =>
      match loadHeader fl.header with
      | none => Built.abort
      | some h =>
        if c.maxFramesPerProc ≤ c.NumPhysPages ∧
            c.maxFramesPerProc ≤ K.machine.freeMM_Map.NumClear then
          match fl.swapStale, loadCapture c fl with
          | some stale, some refStr =>
            Built.ok id
              { K with
                ProgMap := Function.update K.ProgMap id true
                spaces := Function.update K.spaces id
                  (some (AddrSpace.fresh id (numPagesOf c h) (buildSwap c h exe stale fl.junk)
                    refStr)) }
          | _, _ => Built.finish { K with ProgMap := Function.update K.ProgMap id true }
        else Built.abort

/-- Lines 65-73 of the constructor: the search for a `spaceID`, the lowest
index below `NumPhysPages` whose `ProgMap` entry is free; `none` when `flag`
stays false and `ASSERT(flag)` fails. -/
def Kernel.freeId (c : Config) (K : Kernel) : Option Nat :=
  (List.range c.NumPhysPages).find? (fun i => !K.ProgMap i)

/-- The bookkeeping of `spaceID`s: a live space is kept under its own
`spaceID`, which is below `NumPhysPages`, and `ProgMap` marks exactly the
`spaceID`s of the live spaces. -/
structure Kernel.IdInv (c : Config) (K : Kernel) : Prop where
  keyed : ∀ id s, K.spaces id = some s → s.spaceID = id ∧ id < c.NumPhysPages
  marks : ∀ i, K.ProgMap i = true ↔ ∃ s, K.spaces i = some s

/-- The files of a run of the constructor on the demonstration executable. -/
def demoFiles : Files :=
  { executable := some demoExecutable
    header := demoHeader
    swapStale := some (fun _ => 9)
    junk := fun _ => 5
    captureOk := true
    refStrFile := none }

/-- Scenario 1 after the first space has been destroyed: the second space
(`spaceID = 1`) is the only live one. -/
def scenarioOneLeft : Kernel := (scenarioTwoFaults.destroy 0).getD scenarioTwoFaults

/-- The `spaceID` of a run of the constructor that returns. -/
def Built.spaceId : Built → Option Nat
  | Built.ok id _ => some id
  | _ => none

/-! ## The two-level file header of lab5 (`filehdr.cc`) -/

/-- The constants of `filehdr.h` and `disk.h` that `filehdr.cc` uses.  The two
headers are not among the sources at hand, so the constants are parameters of
the model. -/
structure FsConfig where
  SectorSize : Nat
  NumIndex1 : Nat
  NumIndex2 : Nat
  MaxFileSectors : Nat
  NumSectors : Nat

/-- The fields of `FileHeader` that `filehdr.cc` reads and writes.
`dataSectors[0 .. NumIndex1-1]` are the direct entries, `dataSectors[NumIndex1]`
is the sector of the second-level index block. -/
structure FileHeader where
  numBytes : Int
  numSectors : Int
  dataSectors : Nat → Int
  bHdrChange : Bool

/-- Modelled from the spec: the synchronous disk, which supplies `ReadSector`
and `WriteSector` by sector number.  A sector is kept as the array of `int` that
`filehdr.cc` reads from it and writes to it. -/
structure SynchDisk where
  sectors : Int → Nat → Int

/-- Modelled from the spec: `ReadSector(sector, data)`. -/
def SynchDisk.ReadSector (d : SynchDisk) (sector : Int) : Nat → Int :=
  d.sectors sector

/-- Modelled from the spec: `WriteSector(sector, data)`. -/
def SynchDisk.WriteSector (d : SynchDisk) (sector : Int) (data : Nat → Int) : SynchDisk :=
  { sectors := Function.update d.sectors sector data }

/-- Modelled from the spec: the macro `divRoundUp(n, s)` of `utility.h` on C
`int`s, `n / s + (n % s > 0 ? 1 : 0)` with the division of C, which truncates
towards zero. -/
def divRoundUpInt (n s : Int) : Int :=
  Int.tdiv n s + (if Int.tmod n s > 0 then 1 else 0)

/-- The loop `for (i = start; i < start + n; i++) arr[i] = freeMap->Find();`
of lines 134-135, 139-140 and 143-144: the array and the free map after `n`
rounds. -/
def findInto (start : Nat) (arr : Nat → Int) (b : BitMap) : Nat → (Nat → Int) × BitMap
  | 0 => (arr, b)
  | n + 1 =>
    let r := findInto start arr b n
    (Function.update r.1 (start + n) r.2.Find.1, r.2.Find.2)

/-- What a call of `Allocate` leaves behind: the value returned, the header, the
free map of the caller and the disk. -/
structure AllocResult where
  ret : Bool
  hdr : FileHeader
  freeMap : BitMap
  disk : SynchDisk

/-- `FileHeader::Allocate(freeMap, fileSize)`, lines 123-149.  `junk` is the
content of the local array `dataSectors2` at its declaration (line 142), which
the code does not initialise. -/
def FileHeader.Allocate (c : FsConfig) (junk : Nat → Int) (h : FileHeader) (freeMap : BitMap)
    (disk : SynchDisk) (fileSize : Int) : AllocResult :=
  let numSectors := divRoundUpInt fileSize c.SectorSize
  let h1 : FileHeader := { h with numBytes := fileSize, numSectors := numSectors }
  if numSectors > c.MaxFileSectors ∨ (freeMap.NumClear : Int) < numSectors then
    { ret := false, hdr := h1, freeMap := freeMap, disk := disk }
  else if numSectors ≤ c.NumIndex1 then
    let r := findInto 0 h1.dataSectors freeMap numSectors.toNat
    { ret := true
      hdr := { h1 with dataSectors := Function.update r.1 c.NumIndex1 (-1) }
      freeMap := r.2
      disk := disk }
  else
    let r := findInto 0 h1.dataSectors freeMap (c.NumIndex1 + 1)
    let r2 := findInto 0 junk r.2 (numSectors - c.NumIndex1).toNat
    { ret := true
      hdr := { h1 with dataSectors := r.1 }
      freeMap := r2.2
      disk := disk.WriteSector (r.1 c.NumIndex1) r2.1 }

/-- A small instance of the constants: sectors of 128 bytes, 4 direct entries,
an index block of 32 entries, a disk of 16 sectors. -/
def demoFs : FsConfig :=
  { SectorSize := 128, NumIndex1 := 4, NumIndex2 := 32, MaxFileSectors := 36, NumSectors := 16 }

/-- A free map of 16 sectors of which the last 5 (11 .. 15) are free. -/
def demoFreeMap : BitMap :=
  { numBits := 16, map := fun i => decide (i < 11) }

/-- A header as the constructor leaves it (line 33: `dataSectors` zeroed). -/
def demoFileHeader : FileHeader :=
  { numBytes := 0, numSectors := 0, dataSectors := fun _ => 0, bHdrChange := false }

/-- A disk whose sectors hold zeros. -/
def demoDisk : SynchDisk :=
  { sectors := fun _ _ => 0 }

/-- The kernel state a run of the constructor leaves to the other threads:
`Finish()` ends the calling thread only, a failed `ASSERT` stops the
simulator. -/
def Built.leftover : Built → Option Kernel
  | Built.abort => none
  | Built.finish K => some K
  | Built.ok _ K => some K

/-- Whether the run of the constructor ended in `currentThread->Finish()`. -/
def Built.finished : Built → Bool
  | Built.finish _ => true
  | _ => false

/-- The files of a run of the constructor whose executable cannot be opened
(`fileSystem->Open` returns `NULL`, line 77). -/
def missingFiles : Files :=
  { demoFiles with executable := none }

/-- The kernel after boot and one run of the constructor on an executable that
cannot be opened. -/
def scenarioLeak : Kernel :=
  ((scenarioBoot.build scenarioConfig missingFiles).leftover).getD scenarioBoot

/-- Scenario 5 with the second page referenced as well: pages 0, 1, 2 resident
in slots 0, 1, 2, the cursor at slot 0, every use bit set. -/
def clockUsedSpace : AddrSpace :=
  setBits 1 true false clockSpace

/-- Modelled from the spec: `Test(i)` of the bitmap tells whether bit `i` is
marked; an index outside the map is not a marked bit. -/
def BitMap.Test (b : BitMap) (which : Int) : Bool :=
  decide (0 ≤ which) && decide (which.toNat < b.numBits) && b.map which.toNat

/-- Modelled from the spec: the part of the disk that `filehdr.cc` works on,
the sectors it reads and writes as index blocks (`synchDisk`) and the free map
kept in the file of sector 0, which `BitMap::FetchFrom` reads and
`BitMap::WriteBack` writes. -/
structure FileSys where
  synchDisk : SynchDisk
  freeMapFile : Nat → Bool

/-- Lines 63-65 of `ChangeFileSize`: `new BitMap(NumSectors)` filled by
`FetchFrom` from the free-map file. -/
def FileSys.fetchFreeMap (c : FsConfig) (fs : FileSys) : BitMap :=
  { numBits := c.NumSectors, map := fs.freeMapFile }

/-- What a call of `ChangeFileSize` leaves behind: the value returned, the
header and the disk. -/
structure ChangeResult where
  ret : Bool
  hdr : FileHeader
  fs : FileSys

/-- `FileHeader::ChangeFileSize(newFileSize)`, lines 49-110, for a header with
`numSectors ≥ 0`.  The loops `for (i = numSectors; ...)` are runs of `findInto`
from `numSectors`; line 89 sets `numSectors = NumIndex1` before the index block
is read (line 93), extended from entry `numSectors - NumIndex1` on (lines
94-97) and written back (line 98). -/
def FileHeader.ChangeFileSize (c : FsConfig) (h : FileHeader) (fs : FileSys)
    (newFileSize : Int) : ChangeResult :=
  if newFileSize ≤ h.numBytes then { ret := true, hdr := h, fs := fs }
  else
    let numSectorsSet := divRoundUpInt newFileSize c.SectorSize
    if numSectorsSet = h.numSectors then
      { ret := true, hdr := { h with numBytes := newFileSize, bHdrChange := true }, fs := fs }
    else
      let freeMap := fs.fetchFreeMap c
      if numSectorsSet > c.MaxFileSectors ∨
          (freeMap.NumClear : Int) < numSectorsSet - h.numSectors then
        { ret := false, hdr := h, fs := fs }
      else if numSectorsSet ≤ c.NumIndex1 then
        let r := findInto h.numSectors.toNat h.dataSectors freeMap
          (numSectorsSet - h.numSectors).toNat
        { ret := true
          hdr :=
            { h with
              dataSectors := r.1, numBytes := newFileSize, numSectors := numSectorsSet,
              bHdrChange := true }
          fs := { fs with freeMapFile := r.2.map } }
      else
        let r :=
          if h.numSectors ≤ c.NumIndex1 then
            findInto h.numSectors.toNat h.dataSectors freeMap
              ((c.NumIndex1 : Int) + 1 - h.numSectors).toNat
          else (h.dataSectors, freeMap)
        let numSectors1 : Int := if h.numSectors ≤ c.NumIndex1 then c.NumIndex1 else h.numSectors
        let r2 := findInto (numSectors1 - c.NumIndex1).toNat
          (fs.synchDisk.ReadSector (r.1 c.NumIndex1)) r.2 (numSectorsSet - numSectors1).toNat
        { ret := true
          hdr :=
            { h with
              dataSectors := r.1, numBytes := newFileSize, numSectors := numSectorsSet,
              bHdrChange := true }
          fs :=
            { synchDisk := fs.synchDisk.WriteSector (r.1 c.NumIndex1) r2.1
              freeMapFile := r2.2.map } }

/-- The loop `for (i = 0; i < n; i++) { ASSERT(freeMap->Test(arr[i]));
freeMap->Clear(arr[i]); }` of `Deallocate`; `none` when an assertion fails. -/
def clearFrom (arr : Nat → Int) (b : BitMap) : Nat → Option BitMap
  | 0 => some b
  | n + 1 =>
    match clearFrom arr b n with
    | none => none
    | some b1 => if b1.Test (arr n) then some (b1.Clear (arr n)) else none

/-- `FileHeader::Deallocate(freeMap)`, lines 158-180: the free map after the
call, `none` when an "ought to be marked" assertion fails. -/
def FileHeader.Deallocate (c : FsConfig) (h : FileHeader) (freeMap : BitMap)
    (disk : SynchDisk) : Option BitMap :=
  if h.numSectors ≤ c.NumIndex1 then clearFrom h.dataSectors freeMap h.numSectors.toNat
  else
    match clearFrom h.dataSectors freeMap (c.NumIndex1 + 1) with
    | none => none
    | some b1 =>
      clearFrom (disk.ReadSector (h.dataSectors c.NumIndex1)) b1
        (h.numSectors - c.NumIndex1).toNat

/-- `FileHeader::ByteToSector(offset)`, lines 224-236, for `offset ≥ 0`. -/
def FileHeader.ByteToSector (c : FsConfig) (h : FileHeader) (disk : SynchDisk)
    (offset : Int) : Int :=
  let sector := Int.tdiv offset c.SectorSize
  if sector < c.NumIndex1 then h.dataSectors sector.toNat
  else (disk.ReadSector (h.dataSectors c.NumIndex1)) (sector - c.NumIndex1).toNat

/-- `FileHeader::FileLength()`, lines 243-247. -/
def FileHeader.FileLength (h : FileHeader) : Int :=
  h.numBytes

/-- The sector numbers a header records, in the order in which `Deallocate`
visits them: the direct entries, and with a second-level index the sector of
the index block and the entries of the index block. -/
def FileHeader.sectors (c : FsConfig) (h : FileHeader) (disk : SynchDisk) : List Int :=
  if h.numSectors ≤ c.NumIndex1 then (List.range h.numSectors.toNat).map h.dataSectors
  else
    (List.range (c.NumIndex1 + 1)).map h.dataSectors ++
      (List.range (h.numSectors - c.NumIndex1).toNat).map
        (disk.ReadSector (h.dataSectors c.NumIndex1))

/-- The demonstration disk with the free map of `demoFreeMap` in its free-map
file. -/
def demoFileSys : FileSys :=
  { synchDisk := demoDisk, freeMapFile := fun i => decide (i < 11) }

/-- A free map of 16 sectors of which the last 7 (9 .. 15) are free. -/
def roomyFreeMap : BitMap :=
  { numBits := 16, map := fun i => decide (i < 9) }

/-- The demonstration disk with 7 free sectors (9 .. 15) in its free-map
file. -/
def roomyFileSys : FileSys :=
  { synchDisk := demoDisk, freeMapFile := fun i => decide (i < 9) }

/-- The demonstration disk with 3 free sectors (13 .. 15) in its free-map
file. -/
def tightFileSys : FileSys :=
  { synchDisk := demoDisk, freeMapFile := fun i => decide (i < 13) }

/-- The header of a file of 200 bytes in the sectors 3 and 4, without an index
block. -/
def twoSectorHeader : FileHeader :=
  { numBytes := 200
    numSectors := 2
    dataSectors := fun i => if i = 0 then 3 else if i = 1 then 4 else if i = 4 then -1 else 0
    bHdrChange := false }

/-! ## Runs of the kernel with failed constructions, references and stores -/

/-- One event of a run of the kernel: an operation of `Kernel.Step`
(construction that returns, page fault, destruction); a run of the constructor
that ends in `currentThread->Finish()` after it has taken its `spaceID`; a call
of `updatePage` for a resident page of a live space that returns; an access of
the machine to a resident page of a live space, which sets its use and dirty
bits; a store of the machine to main memory. -/
inductive Kernel.Event (c : Config) : Kernel → Kernel → Prop where
  | step (K K1 : Kernel) : Kernel.Step c K K1 → Kernel.Event c K K1
  | abandon (K K1 : Kernel) (fl : Files) :
      K.build c fl = Built.finish K1 → Kernel.Event c K K1
  | touch (K K1 : Kernel) (id vpn : Nat) (s s1 : AddrSpace) :
      K.spaces id = some s → s.resident vpn → updatePage c (vpn : Int) s = some s1 →
      K1 = { K with spaces := Function.update K.spaces id (some s1) } → Kernel.Event c K K1
  | access (K K1 : Kernel) (id v : Nat) (use dirty : Bool) (s : AddrSpace) :
      K.spaces id = some s → s.resident v →
      K1 = { K with spaces := Function.update K.spaces id (some (setBits v use dirty s)) } →
      Kernel.Event c K K1
  | store (K K1 : Kernel) (addr val : Nat) :
      K1 = { K with
        machine :=
          { K.machine with mainMemory := Function.update K.machine.mainMemory addr val } } →
      Kernel.Event c K K1

/-- Kernel states reached from boot by the events of `Kernel.Event`. -/
def Kernel.Reached (c : Config) (K : Kernel) : Prop :=
  0 < c.maxFramesPerProc ∧ 0 < c.PageSize ∧
    ∃ mem, Relation.ReflTransGen (Kernel.Event c) (Kernel.boot c mem) K

/-- The bookkeeping of `spaceID`s that every run keeps: a live space is kept
under its own `spaceID`, which is below `NumPhysPages`, and `ProgMap` marks the
`spaceID` of every live space. -/
structure Kernel.IdHeld (c : Config) (K : Kernel) : Prop where
  keyed : ∀ id s, K.spaces id = some s → s.spaceID = id ∧ id < c.NumPhysPages
  marked : ∀ id s, K.spaces id = some s → K.ProgMap id = true

/-- The kernel after an access of the machine to page `v` of the live space
`id` (the event `Kernel.Event.access`). -/
def Kernel.accessed (id v : Nat) (use dirty : Bool) (K : Kernel) : Kernel :=
  match K.spaces id with
  | none => K
  | some s => { K with spaces := Function.update K.spaces id (some (setBits v use dirty s)) }

/-- The kernel after `updatePage(vpn)` of the live space `id` (the event
`Kernel.Event.touch`). -/
def Kernel.touched (c : Config) (id vpn : Nat) (K : Kernel) : Kernel :=
  match K.spaces id with
  | none => K
  | some s =>
    match updatePage c (vpn : Int) s with
    | none => K
    | some s1 => { K with spaces := Function.update K.spaces id (some s1) }

/-- The kernel after a store of the machine to main memory (the event
`Kernel.Event.store`). -/
def Kernel.stored (addr val : Nat) (K : Kernel) : Kernel :=
  { K with
    machine := { K.machine with mainMemory := Function.update K.machine.mainMemory addr val } }

/-- Scenario 1 with two spaces after a run of the constructor on an executable
that cannot be opened. -/
def scenarioFailedThird : Kernel :=
  ((scenarioTwoFaults.build scenarioConfig missingFiles).leftover).getD scenarioTwoFaults

/-- Then the machine stores the byte 7 at address 5, in page 0 of the first
space: the use and dirty bits of the page are set, the byte is written, and
`updatePage(0)` is called. -/
def scenarioBusy : Kernel :=
  ((scenarioFailedThird.accessed 0 0 true true).stored 5 7).touched scenarioConfig 0 0

/-- The fault on page 2 (address 256) that evicts the dirty page 0 of
`scenarioDirty` when the store to page 0 wrote the bytes the page already
held: the machine is the one the faults on pages 0 and 1 left, frame 0 holds
page 0 as read from the swap file. -/
def scenarioRewritten : AddrSpace × Machine :=
  (replacePage scenarioConfig 0 256 scenarioDirty (scenarioAfter [0, 128]).2).getD
    (scenarioDirty, (scenarioAfter [0, 128]).2)

/-! ## The find routines -/

theorem Shape.split {c : Config} {s : AddrSpace} (h : Shape c s)
    (hp : c.pageRepAlg ≠ PageRepAlg.PRA_LRU) :
    (s.pagesInMem s.idx = -1 ∧ (∀ j, j < s.idx → 0 ≤ s.pagesInMem j) ∧
        ∀ j, s.idx ≤ j → j < c.maxFramesPerProc → s.pagesInMem j = -1) ∨
      ∀ j, j < c.maxFramesPerProc → 0 ≤ s.pagesInMem j := by
  obtain ⟨k, hk, hlo, hhi, -, hcur⟩ := h.loaded
  rcases Nat.lt_or_ge k c.maxFramesPerProc with hlt | hge
  · have hidx := hcur hp hlt
    left
    rw [hidx]
    exact ⟨hhi k le_rfl hlt, hlo, hhi⟩
  · right
    intro j hj
    exact hlo j (by omega)

theorem Shape.all_or_unused {c : Config} {s : AddrSpace} (h : Shape c s) :
    (∃ j, j < c.maxFramesPerProc ∧ s.pagesInMem j = -1) ∨
      ∀ j, j < c.maxFramesPerProc → 0 ≤ s.pagesInMem j := by
  obtain ⟨k, hk, hlo, hhi, -, -⟩ := h.loaded
  rcases Nat.lt_or_ge k c.maxFramesPerProc with hlt | hge
  · exact Or.inl ⟨k, hlt, hhi k le_rfl hlt⟩
  · exact Or.inr fun j hj => hlo j (by omega)

/-- Filling the first unused slot under a policy that fills at `idx`. -/
theorem Shape.fill {c : Config} {s s1 : AddrSpace} {inPage : Int} (h : Shape c s)
    (hp : c.pageRepAlg ≠ PageRepAlg.PRA_LRU) (hin : 0 ≤ inPage)
    (hlo : ∀ j, j < s.idx → 0 ≤ s.pagesInMem j)
    (hhi : ∀ j, s.idx ≤ j → j < c.maxFramesPerProc → s.pagesInMem j = -1)
    (hp1 : s1.pagesInMem = Function.update s.pagesInMem s.idx inPage)
    (hidx : s1.idx = (s.idx + 1) % c.maxFramesPerProc) (hb : s1.bottom = s.bottom) :
    Shape c s1 := by
  have hm := h.mpos
  have hi := h.idx_lt
  refine ⟨hm, ?_, ?_, s.idx + 1, ?_, ?_, ?_, ?_, ?_⟩
  · rw [hidx]; exact Nat.mod_lt _ hm
  · rw [hb]; exact h.bottom_lt
  · omega
  · intro j hj
    rw [hp1]
    by_cases hji : j = s.idx
    · subst hji; simpa using hin
    · rw [Function.update_noteq hji]; exact hlo j (by omega)
  · intro j hj hjm
    rw [hp1, Function.update_noteq (by omega)]
    exact hhi j (by omega) hjm
  · intro hl; exact absurd hl hp
  · intro _ hlt
    rw [hidx]; exact Nat.mod_eq_of_lt hlt

/-- Replacing the content of a slot when every slot is in use. -/
theorem Shape.evict {c : Config} {s s1 : AddrSpace} {inPage : Int} {i : Nat} (h : Shape c s)
    (hin : 0 ≤ inPage) (hfull : ∀ j, j < c.maxFramesPerProc → 0 ≤ s.pagesInMem j)
    (hp1 : s1.pagesInMem = Function.update s.pagesInMem i inPage)
    (hidx : s1.idx < c.maxFramesPerProc) (hb : s1.bottom < c.maxFramesPerProc)
    (hc : s1.count = s.count) : Shape c s1 := by
  obtain ⟨k, hk, hlo, hhi, hlru, -⟩ := h.loaded
  have hkm : k = c.maxFramesPerProc := by
    rcases Nat.lt_or_ge k c.maxFramesPerProc with hlt | hge
    · have h1 := hhi k le_rfl hlt
      have h2 := hfull k hlt
      omega
    · omega
  refine ⟨h.mpos, hidx, hb, c.maxFramesPerProc, le_rfl, ?_, ?_, ?_, ?_⟩
  · intro j hj
    rw [hp1]
    by_cases hji : j = i
    · subst hji; simpa using hin
    · rw [Function.update_noteq hji]; exact hfull j hj
  · intro j hj hjm; omega
  · intro hl
    refine ⟨?_, fun hlt => absurd hlt (lt_irrefl _)⟩
    rw [hc, (hlru hl).1, hkm]
  · intro _ hlt; exact absurd hlt (lt_irrefl _)

theorem findPageFIFO_ok {c : Config} {s : AddrSpace} {inPage : Int} (h : Shape c s)
    (hp : c.pageRepAlg ≠ PageRepAlg.PRA_LRU) (hin : 0 ≤ inPage) :
    FindOK c inPage s (findPageFIFO c inPage s).1 (findPageFIFO c inPage s).2 := by
  have hm := h.mpos
  refine ⟨⟨s.idx, h.idx_lt, rfl, rfl⟩, ?_, ?_, rfl, rfl, fun v => ⟨rfl, rfl, rfl⟩⟩
  · intro hv
    rcases h.split hp with ⟨h1, -, -⟩ | hfull
    · simp only [findPageFIFO] at hv; omega
    · exact hfull
  · rcases h.split hp with ⟨-, hlo, hhi⟩ | hfull
    · exact h.fill hp hin hlo hhi rfl rfl rfl
    · exact h.evict hin hfull rfl (Nat.mod_lt _ hm) h.bottom_lt rfl

theorem findPageRand_ok {c : Config} {s : AddrSpace} {inPage : Int} (rnd : Nat) (h : Shape c s)
    (hp : c.pageRepAlg ≠ PageRepAlg.PRA_LRU) (hin : 0 ≤ inPage) :
    FindOK c inPage s (findPageRand c rnd inPage s).1 (findPageRand c rnd inPage s).2 := by
  have hm := h.mpos
  unfold findPageRand
  rcases h.split hp with ⟨h1, hlo, hhi⟩ | hfull
  · have hneg : s.pagesInMem s.idx < 0 := by omega
    rw [if_pos hneg]
    refine ⟨⟨s.idx, h.idx_lt, h1, rfl⟩, ?_, h.fill hp hin hlo hhi rfl rfl rfl, rfl, rfl,
      fun v => ⟨rfl, rfl, rfl⟩⟩
    intro hv; simp at hv
  · have hneg : ¬ s.pagesInMem s.idx < 0 := by have := hfull _ h.idx_lt; omega
    rw [if_neg hneg]
    exact ⟨⟨rnd % c.maxFramesPerProc, Nat.mod_lt _ hm, rfl, rfl⟩, fun _ => hfull,
      h.evict hin hfull rfl h.idx_lt h.bottom_lt rfl, rfl, rfl, fun v => ⟨rfl, rfl, rfl⟩⟩

theorem findPageOptScan_slot (inPage : Int) (s : AddrSpace) (m : Nat) :
    ∀ (n i : Nat) (dist : Int) (index : Nat), index < m → i + n ≤ m →
      ∃ x, x < m ∧ findPageOptScan inPage s n i dist index =
        (s.pagesInMem x, { s with pagesInMem := Function.update s.pagesInMem x inPage }) := by
  intro n
  induction n with
  | zero => intro i dist index hidx _; exact ⟨index, hidx, rfl⟩
  | succ n ih =>
    intro i dist index hidx hin
    unfold findPageOptScan
    cases hnext : optNextUse s.optRefStr (s.pagesInMem i) (s.optRefStr.length - s.refIdx)
        s.refIdx with
    | none => exact ⟨i, by omega, rfl⟩
    | some j =>
      simp only
      split
      · exact ih (i + 1) _ i (by omega) (by omega)
      · exact ih (i + 1) _ index hidx (by omega)

theorem findPageOpt_ok {c : Config} {s : AddrSpace} {inPage : Int} (h : Shape c s)
    (hp : c.pageRepAlg ≠ PageRepAlg.PRA_LRU) (hin : 0 ≤ inPage) :
    FindOK c inPage s (findPageOpt c inPage s).1 (findPageOpt c inPage s).2 := by
  have hm := h.mpos
  unfold findPageOpt
  rcases h.split hp with ⟨h1, hlo, hhi⟩ | hfull
  · have hneg : s.pagesInMem s.idx < 0 := by omega
    rw [if_pos hneg]
    refine ⟨⟨s.idx, h.idx_lt, h1, rfl⟩, ?_, h.fill hp hin hlo hhi rfl rfl rfl, rfl, rfl,
      fun v => ⟨rfl, rfl, rfl⟩⟩
    intro hv; simp at hv
  · have hneg : ¬ s.pagesInMem s.idx < 0 := by have := hfull _ h.idx_lt; omega
    rw [if_neg hneg]
    obtain ⟨x, hx, heq⟩ :=
      findPageOptScan_slot inPage s c.maxFramesPerProc c.maxFramesPerProc 0 (-1) 0 hm (by omega)
    rw [heq]
    exact ⟨⟨x, hx, rfl, rfl⟩, fun _ => hfull,
      h.evict hin hfull rfl h.idx_lt h.bottom_lt rfl, rfl, rfl, fun v => ⟨rfl, rfl, rfl⟩⟩

theorem findPageLRU_ok {c : Config} {s : AddrSpace} {inPage : Int} (h : Shape c s)
    (hp : c.pageRepAlg = PageRepAlg.PRA_LRU) (hin : 0 ≤ inPage) :
    FindOK c inPage s (findPageLRU c inPage s).1 (findPageLRU c inPage s).2 := by
  have hm := h.mpos
  obtain ⟨k, hk, hlo, hhi, hlru, -⟩ := h.loaded
  obtain ⟨hcount, hbot⟩ := hlru hp
  unfold findPageLRU
  by_cases hlt : s.count < c.maxFramesPerProc
  · rw [if_pos hlt]
    have hb : s.bottom = 0 := hbot (by omega)
    have hslot : (s.bottom + s.count) % c.maxFramesPerProc = k := by
      rw [hb, hcount, Nat.zero_add]; exact Nat.mod_eq_of_lt (by omega)
    simp only [hslot]
    refine ⟨⟨k, by omega, hhi k le_rfl (by omega), rfl⟩, ?_, ?_, rfl, rfl,
      fun v => ⟨rfl, rfl, rfl⟩⟩
    · intro hv; simp at hv
    · refine ⟨hm, h.idx_lt, h.bottom_lt, k + 1, by omega, ?_, ?_, ?_, ?_⟩
      · intro j hj
        by_cases hjk : j = k
        · subst hjk; simpa using hin
        · simp only [Function.update_noteq hjk]; exact hlo j (by omega)
      · intro j hj hjm
        simp only [Function.update_noteq (show j ≠ k by omega)]
        exact hhi j (by omega) hjm
      · intro _
        exact ⟨by simp [hcount], fun _ => hb⟩
      · intro hne; exact absurd hp hne
  · rw [if_neg hlt]
    have hkm : k = c.maxFramesPerProc := by omega
    have hfull : ∀ j, j < c.maxFramesPerProc → 0 ≤ s.pagesInMem j := fun j hj =>
      hlo j (by omega)
    exact ⟨⟨s.bottom, h.bottom_lt, rfl, rfl⟩, fun _ => hfull,
      h.evict hin hfull rfl h.idx_lt (Nat.mod_lt _ hm) rfl, rfl, rfl, fun v => ⟨rfl, rfl, rfl⟩⟩


theorem FindKeep.refl (s : AddrSpace) : FindKeep s s :=
  ⟨rfl, rfl, rfl, rfl, rfl, fun _ => ⟨rfl, rfl, rfl⟩, fun _ h => h⟩

theorem FindKeep.trans {s t u : AddrSpace} (h1 : FindKeep s t) (h2 : FindKeep t u) :
    FindKeep s u :=
  ⟨h2.pages.trans h1.pages, h2.bottom.trans h1.bottom, h2.count.trans h1.count,
    h2.numPages.trans h1.numPages, h2.swap.trans h1.swap,
    fun v => ⟨(h2.entries v).1.trans (h1.entries v).1, (h2.entries v).2.1.trans (h1.entries v).2.1,
      (h2.entries v).2.2.trans (h1.entries v).2.2⟩,
    fun v h => h2.use_mono v (h1.use_mono v h)⟩

theorem FindKeep.core {c : Config} {inPage v : Int} {s t u : AddrSpace} (h1 : FindKeep s t)
    (h2 : FindCore c inPage t v u) : FindCore c inPage s v u := by
  obtain ⟨i, hi, hv, hp⟩ := h2.slot
  refine ⟨⟨i, hi, ?_, ?_⟩, h2.idx_lt, h2.bottom.trans h1.bottom, h2.count.trans h1.count,
    h2.numPages.trans h1.numPages, h2.swap.trans h1.swap,
    fun v => ⟨(h2.entries v).1.trans (h1.entries v).1, (h2.entries v).2.1.trans (h1.entries v).2.1,
      (h2.entries v).2.2.trans (h1.entries v).2.2⟩⟩
  · rw [← hv, h1.pages]
  · rw [hp, h1.pages]

/-- A find result that evicts with every slot in use keeps the bookkeeping. -/
theorem FindCore.ok_of_full {c : Config} {inPage v : Int} {s s1 : AddrSpace} (h : Shape c s)
    (hin : 0 ≤ inPage) (hfull : ∀ j, j < c.maxFramesPerProc → 0 ≤ s.pagesInMem j)
    (hc : FindCore c inPage s v s1) : FindOK c inPage s v s1 := by
  obtain ⟨i, hi, hv, hp⟩ := hc.slot
  exact ⟨⟨i, hi, hv, hp⟩, fun _ => hfull,
    h.evict hin hfull hp hc.idx_lt (hc.bottom ▸ h.bottom_lt) hc.count, hc.numPages, hc.swap,
    hc.entries⟩

/-- Clearing the use bit of one entry and moving the cursor. -/
theorem FindKeep.clearUse (s : AddrSpace) (x i : Nat) :
    FindKeep s
      { s with
        pageTable := Function.update s.pageTable x { s.pageTable x with use := false }
        idx := i } := by
  refine ⟨rfl, rfl, rfl, rfl, rfl, fun v => ?_, fun v hv => ?_⟩
  · by_cases hvx : v = x
    · subst hvx; simp
    · simp [Function.update_noteq hvx]
  · by_cases hvx : v = x
    · subst hvx; simp
    · simpa [Function.update_noteq hvx] using hv

theorem findPage2ndChanceLoop_ok {c : Config} {inPage : Int} (hm : 0 < c.maxFramesPerProc) :
    ∀ (fuel : Nat) (s : AddrSpace), s.idx < c.maxFramesPerProc →
      (∀ j, j < c.maxFramesPerProc → 0 ≤ s.pagesInMem j) →
      (∃ u, u < fuel ∧
        (s.pageTable (s.pagesInMem ((s.idx + u) % c.maxFramesPerProc)).toNat).use = false) →
      ∃ v s1, findPage2ndChanceLoop c inPage fuel s = some (v, s1) ∧ FindCore c inPage s v s1 := by
  intro fuel
  induction fuel with
  | zero =>
    intro s _ _ hu
    obtain ⟨u, hu, _⟩ := hu
    omega
  | succ n ih =>
    intro s hidx hfull hu
    obtain ⟨u, hu, huse⟩ := hu
    have h0 : ¬ s.pagesInMem s.idx < 0 := by have := hfull _ hidx; omega
    unfold findPage2ndChanceLoop
    rw [if_neg h0]
    by_cases hcur : (s.pageTable (s.pagesInMem s.idx).toNat).use = true
    · rw [if_pos hcur]
      have hu0 : u ≠ 0 := by
        rintro rfl
        rw [Nat.add_zero, Nat.mod_eq_of_lt hidx, hcur] at huse
        cases huse
      have hkeep := FindKeep.clearUse s (s.pagesInMem s.idx).toNat ((s.idx + 1) % c.maxFramesPerProc)
      obtain ⟨v, s1, heq, hcore⟩ := ih
        ({ s with
          pageTable := Function.update s.pageTable (s.pagesInMem s.idx).toNat
              { s.pageTable (s.pagesInMem s.idx).toNat with use := false }
          idx := (s.idx + 1) % c.maxFramesPerProc })
        (Nat.mod_lt _ hm) hfull
        ⟨u - 1, by omega, by
          apply hkeep.use_mono
          have hmod : ((s.idx + 1) % c.maxFramesPerProc + (u - 1)) % c.maxFramesPerProc
              = (s.idx + u) % c.maxFramesPerProc := by
            rw [Nat.mod_add_mod]; congr 1; omega
          simp only [hmod]
          exact huse⟩
      exact ⟨v, s1, heq, hkeep.core hcore⟩
    · rw [if_neg hcur]
      exact ⟨_, _, rfl, ⟨s.idx, hidx, rfl, rfl⟩, Nat.mod_lt _ hm, rfl, rfl, rfl, rfl,
        fun v => ⟨rfl, rfl, rfl⟩⟩

/-- More fuel does not change the result of the loop: a result, once reached,
is the result of the `while` loop of the source. -/
theorem findPage2ndChanceLoop_mono {c : Config} {inPage : Int} :
    ∀ (fuel : Nat) (s : AddrSpace) (r : Int × AddrSpace),
      findPage2ndChanceLoop c inPage fuel s = some r →
      findPage2ndChanceLoop c inPage (fuel + 1) s = some r := by
  intro fuel
  induction fuel with
  | zero => intro s r h; cases h
  | succ n ih =>
    intro s r h
    unfold findPage2ndChanceLoop at h ⊢
    split_ifs at h ⊢ with h1 h2
    · exact h
    · exact ih _ r h
    · exact h

theorem findPage2ndChance_ok {c : Config} {s : AddrSpace} {inPage : Int} (h : Shape c s)
    (hp : c.pageRepAlg ≠ PageRepAlg.PRA_LRU) (hin : 0 ≤ inPage) :
    ∃ v s1, findPage2ndChance c inPage s = some (v, s1) ∧ FindOK c inPage s v s1 := by
  have hm := h.mpos
  have hidx := h.idx_lt
  unfold findPage2ndChance
  rcases h.split hp with ⟨h1, hlo, hhi⟩ | hfull
  · have hneg : s.pagesInMem s.idx < 0 := by omega
    unfold findPage2ndChanceLoop
    rw [if_pos hneg]
    refine ⟨_, _, rfl, ⟨s.idx, hidx, h1, rfl⟩, ?_, h.fill hp hin hlo hhi rfl rfl rfl, rfl, rfl,
      fun v => ⟨rfl, rfl, rfl⟩⟩
    intro hv; simp at hv
  · have h0 : ¬ s.pagesInMem s.idx < 0 := by have := hfull _ hidx; omega
    by_cases hcur : (s.pageTable (s.pagesInMem s.idx).toNat).use = true
    · unfold findPage2ndChanceLoop
      rw [if_neg h0, if_pos hcur]
      have hkeep := FindKeep.clearUse s (s.pagesInMem s.idx).toNat ((s.idx + 1) % c.maxFramesPerProc)
      obtain ⟨v, s1, heq, hcore⟩ := @findPage2ndChanceLoop_ok c inPage hm
        c.maxFramesPerProc
        ({ s with
          pageTable := Function.update s.pageTable (s.pagesInMem s.idx).toNat
              { s.pageTable (s.pagesInMem s.idx).toNat with use := false }
          idx := (s.idx + 1) % c.maxFramesPerProc })
        (Nat.mod_lt _ hm) hfull
        ⟨c.maxFramesPerProc - 1, by omega, by
          have hmod : ((s.idx + 1) % c.maxFramesPerProc + (c.maxFramesPerProc - 1))
              % c.maxFramesPerProc = s.idx := by
            rw [Nat.mod_add_mod]
            have : s.idx + 1 + (c.maxFramesPerProc - 1) = s.idx + c.maxFramesPerProc := by omega
            rw [this, Nat.add_mod_right, Nat.mod_eq_of_lt hidx]
          dsimp only
          rw [hmod, Function.update_same]⟩
      exact ⟨v, s1, heq, (hkeep.core hcore).ok_of_full h hin hfull⟩
    · unfold findPage2ndChanceLoop
      rw [if_neg h0, if_neg hcur]
      refine ⟨_, _, rfl, FindCore.ok_of_full h hin hfull ?_⟩
      exact ⟨⟨s.idx, hidx, rfl, rfl⟩, Nat.mod_lt _ hm, rfl, rfl, rfl, rfl,
        fun v => ⟨rfl, rfl, rfl⟩⟩


theorem FindKeep.moveIdx (s : AddrSpace) (i : Nat) : FindKeep s { s with idx := i } :=
  ⟨rfl, rfl, rfl, rfl, rfl, fun _ => ⟨rfl, rfl, rfl⟩, fun _ h => h⟩

theorem FindCore.take {c : Config} (inPage : Int) (s : AddrSpace) (hm : 0 < c.maxFramesPerProc)
    (hidx : s.idx < c.maxFramesPerProc) :
    FindCore c inPage s (s.pagesInMem s.idx)
      { s with
        pagesInMem := Function.update s.pagesInMem s.idx inPage
        idx := (s.idx + 1) % c.maxFramesPerProc } :=
  ⟨⟨s.idx, hidx, rfl, rfl⟩, Nat.mod_lt _ hm, rfl, rfl, rfl, rfl, fun _ => ⟨rfl, rfl, rfl⟩⟩

theorem e2ndStep_ret {c : Config} {inPage v : Int} {loop : Nat} {s t : AddrSpace}
    (hm : 0 < c.maxFramesPerProc) (hidx : s.idx < c.maxFramesPerProc)
    (hcur : 0 ≤ s.pagesInMem s.idx) (h : e2ndStep c inPage loop s = Scan.ret v t) :
    FindCore c inPage s v t := by
  simp only [e2ndStep] at h
  split_ifs at h with h1 h2 h3 h4 h5
  · omega
  · cases h; exact FindCore.take inPage s hm hidx
  · cases h; exact FindCore.take inPage s hm hidx

theorem e2ndStep_go {c : Config} {inPage : Int} {loop : Nat} {s t : AddrSpace}
    (h : e2ndStep c inPage loop s = Scan.go t) :
    FindKeep s t ∧ t.idx = (s.idx + 1) % c.maxFramesPerProc ∧
      (loop = 2 → (t.pageTable (s.pagesInMem s.idx).toNat).use = false) ∧
      (loop ≠ 2 → t.pageTable = s.pageTable) ∧
      (loop = 3 → (s.pageTable (s.pagesInMem s.idx).toNat).use = false →
        (s.pageTable (s.pagesInMem s.idx).toNat).dirty = true) := by
  simp only [e2ndStep] at h
  split_ifs at h with h1 h2 h3 h4 h5
  · cases h
    refine ⟨FindKeep.moveIdx s _, rfl, fun h2 => by omega, fun _ => rfl, fun _ hu => ?_⟩
    rw [hu] at h3
    simpa using h3
  · cases h
    refine ⟨FindKeep.clearUse s _ _, rfl, fun _ => ?_, fun hne => absurd h5.1 hne,
      fun h3 => absurd (Or.inr h3) h1⟩
    dsimp only
    rw [Function.update_same]
  · cases h
    refine ⟨FindKeep.moveIdx s _, rfl, fun h2 => ?_, fun _ => rfl, fun h3 => absurd (Or.inr h3) h1⟩
    have : ¬ (s.pageTable (s.pagesInMem s.idx).toNat).use = true := fun hu => h5 ⟨h2, hu⟩
    simpa using this

theorem e2ndPass_pos (c : Config) (inPage : Int) (loop : Nat) {n : Nat} (hn : 0 < n)
    (s : AddrSpace) :
    e2ndPass c inPage loop n s =
      match e2ndStep c inPage loop s with
      | Scan.ret v t => Scan.ret v t
      | Scan.go t => e2ndPass c inPage loop (n - 1) t := by
  cases n with
  | zero => omega
  | succ n => rfl

theorem e2ndPass_spec {c : Config} {inPage : Int} (hm : 0 < c.maxFramesPerProc) (loop : Nat) :
    ∀ (n : Nat) (s : AddrSpace), s.idx < c.maxFramesPerProc →
      (∀ j, j < c.maxFramesPerProc → 0 ≤ s.pagesInMem j) →
      (∀ v t, e2ndPass c inPage loop n s = Scan.ret v t → FindCore c inPage s v t) ∧
      (∀ t, e2ndPass c inPage loop n s = Scan.go t →
        FindKeep s t ∧ t.idx = (s.idx + n) % c.maxFramesPerProc ∧
        (loop = 2 → 0 < n → (t.pageTable (s.pagesInMem s.idx).toNat).use = false) ∧
        (loop ≠ 2 → t.pageTable = s.pageTable) ∧
        (loop = 3 → 0 < n → (s.pageTable (s.pagesInMem s.idx).toNat).use = false →
          (s.pageTable (s.pagesInMem s.idx).toNat).dirty = true)) := by
  intro n
  induction n with
  | zero =>
    intro s hidx _
    refine ⟨fun v t h => (by cases h), fun t h => ?_⟩
    cases h
    exact ⟨FindKeep.refl s, by rw [Nat.add_zero, Nat.mod_eq_of_lt hidx],
      fun _ h0 => absurd h0 (lt_irrefl 0), fun _ => rfl, fun _ h0 => absurd h0 (lt_irrefl 0)⟩
  | succ n ih =>
    intro s hidx hfull
    rw [e2ndPass_pos c inPage loop (Nat.succ_pos n)]
    cases hstep : e2ndStep c inPage loop s with
    | ret v1 t1 =>
      refine ⟨fun v t h => ?_, fun t h => by cases h⟩
      cases h
      exact e2ndStep_ret hm hidx (hfull _ hidx) hstep
    | go t1 =>
      obtain ⟨hk1, hi1, h2, hne2, h3⟩ := e2ndStep_go hstep
      have hidx1 : t1.idx < c.maxFramesPerProc := by rw [hi1]; exact Nat.mod_lt _ hm
      have hfull1 : ∀ j, j < c.maxFramesPerProc → 0 ≤ t1.pagesInMem j := by
        rw [hk1.pages]; exact hfull
      obtain ⟨hret, hgo⟩ := ih t1 hidx1 hfull1
      simp only [Nat.add_sub_cancel]
      refine ⟨fun v t h => hk1.core (hret v t h), fun t h => ?_⟩
      obtain ⟨hk2, hi2, -, hne2b, -⟩ := hgo t h
      refine ⟨hk1.trans hk2, ?_, fun hl _ => hk2.use_mono _ (h2 hl), fun hl => ?_,
        fun hl _ => h3 hl⟩
      · rw [hi2, hi1, Nat.mod_add_mod]; congr 1; omega
      · rw [hne2b hl, hne2 hl]

theorem findPageE2ndChance_ok {c : Config} {s : AddrSpace} {inPage : Int} (h : Shape c s)
    (hp : c.pageRepAlg ≠ PageRepAlg.PRA_LRU) (hin : 0 ≤ inPage) :
    FindOK c inPage s (findPageE2ndChance c inPage s).1 (findPageE2ndChance c inPage s).2 := by
  have hm := h.mpos
  have hidx := h.idx_lt
  have hround : ∀ i, i < c.maxFramesPerProc →
      (i + c.maxFramesPerProc) % c.maxFramesPerProc = i := fun i hi => by
    rw [Nat.add_mod_right, Nat.mod_eq_of_lt hi]
  unfold findPageE2ndChance
  rcases h.split hp with ⟨h1, hlo, hhi⟩ | hfull
  · have hneg : s.pagesInMem s.idx < 0 := by omega
    have hstep : e2ndStep c inPage 1 s = Scan.ret (-1)
        { s with
          pagesInMem := Function.update s.pagesInMem s.idx inPage
          idx := (s.idx + 1) % c.maxFramesPerProc } := by
      simp [e2ndStep, hneg]
    unfold e2ndLoops
    rw [e2ndPass_pos c inPage 1 hm, hstep]
    refine ⟨⟨s.idx, hidx, h1, rfl⟩, ?_, h.fill hp hin hlo hhi rfl rfl rfl, rfl, rfl,
      fun v => ⟨rfl, rfl, rfl⟩⟩
    intro hv; simp at hv
  · apply FindCore.ok_of_full h hin hfull
    obtain ⟨hret1, hgo1⟩ := @e2ndPass_spec c inPage hm 1 c.maxFramesPerProc s hidx hfull
    unfold e2ndLoops
    cases hp1 : e2ndPass c inPage 1 c.maxFramesPerProc s with
    | ret v t => exact hret1 v t hp1
    | go t1 =>
      obtain ⟨hk1, hi1, -, -, -⟩ := hgo1 t1 hp1
      rw [hround _ hidx] at hi1
      have hfull1 : ∀ j, j < c.maxFramesPerProc → 0 ≤ t1.pagesInMem j := by
        rw [hk1.pages]; exact hfull
      obtain ⟨hret2, hgo2⟩ :=
        @e2ndPass_spec c inPage hm 2 c.maxFramesPerProc t1 (hi1 ▸ hidx) hfull1
      dsimp only
      unfold e2ndLoops
      cases hp2 : e2ndPass c inPage (1 + 1) c.maxFramesPerProc t1 with
      | ret v t => exact hk1.core (hret2 v t hp2)
      | go t2 =>
        obtain ⟨hk2, hi2, hu2, -, -⟩ := hgo2 t2 hp2
        have hu2 := hu2 rfl hm
        rw [hi1, hround _ hidx] at hi2
        rw [hi1, hk1.pages] at hu2
        have hfull2 : ∀ j, j < c.maxFramesPerProc → 0 ≤ t2.pagesInMem j := by
          rw [hk2.pages]; exact hfull1
        obtain ⟨hret3, hgo3⟩ :=
          @e2ndPass_spec c inPage hm 3 c.maxFramesPerProc t2 (hi2 ▸ hidx) hfull2
        dsimp only
        unfold e2ndLoops
        cases hp3 : e2ndPass c inPage (1 + 1 + 1) c.maxFramesPerProc t2 with
        | ret v t => exact hk1.core (hk2.core (hret3 v t hp3))
        | go t3 =>
          obtain ⟨hk3, hi3, -, hpt3, hd3⟩ := hgo3 t3 hp3
          rw [hi2, hround _ hidx] at hi3
          rw [hi2, hk2.pages, hk1.pages] at hd3
          have hd3 := hd3 rfl hm hu2
          have hfull3 : ∀ j, j < c.maxFramesPerProc → 0 ≤ t3.pagesInMem j := by
            rw [hk3.pages]; exact hfull2
          obtain ⟨hret4, -⟩ :=
            @e2ndPass_spec c inPage hm 4 c.maxFramesPerProc t3 (hi3 ▸ hidx) hfull3
          have hstep : e2ndStep c inPage 4 t3 = Scan.ret (t3.pagesInMem t3.idx)
              { t3 with
                pagesInMem := Function.update t3.pagesInMem t3.idx inPage
                idx := (t3.idx + 1) % c.maxFramesPerProc } := by
            have hpg : t3.pagesInMem t3.idx = s.pagesInMem s.idx := by
              rw [hk3.pages, hk2.pages, hk1.pages, hi3]
            simp [e2ndStep, hpg, hpt3 (by decide), hu2, hd3]
          have hp4 : e2ndPass c inPage 4 c.maxFramesPerProc t3 = Scan.ret (t3.pagesInMem t3.idx)
              { t3 with
                pagesInMem := Function.update t3.pagesInMem t3.idx inPage
                idx := (t3.idx + 1) % c.maxFramesPerProc } := by
            rw [e2ndPass_pos c inPage 4 hm, hstep]
          dsimp only
          unfold e2ndLoops
          rw [show 1 + 1 + 1 + 1 = 4 from rfl, hp4]
          exact hk1.core (hk2.core (hk3.core (hret4 _ _ hp4)))


theorem findVictim_ok {c : Config} {s : AddrSpace} {inPage : Int} (rnd : Nat) (h : Shape c s)
    (hin : 0 ≤ inPage) :
    ∃ v s1, findVictim c rnd inPage s = some (v, s1) ∧ FindOK c inPage s v s1 := by
  unfold findVictim
  cases hp : c.pageRepAlg with
  | PRA_OPT => exact ⟨_, _, rfl, findPageOpt_ok h (by simp [hp]) hin⟩
  | PRA_FIFO => exact ⟨_, _, rfl, findPageFIFO_ok h (by simp [hp]) hin⟩
  | PRA_2ND => exact findPage2ndChance_ok h (by simp [hp]) hin
  | PRA_E2ND => exact ⟨_, _, rfl, findPageE2ndChance_ok h (by simp [hp]) hin⟩
  | PRA_LRU => exact ⟨_, _, rfl, findPageLRU_ok h hp hin⟩
  | PRA_RAND => exact ⟨_, _, rfl, findPageRand_ok rnd h (by simp [hp]) hin⟩

/-- The two ways `replacePage` returns: first fill with a frame from `Find()`,
or eviction of the victim. -/
theorem replacePage_some {c : Config} {rnd badVAddr : Nat} {s s' : AddrSpace} {k k' : Machine}
    (h : replacePage c rnd badVAddr s k = some (s', k')) :
    ∃ v s1, findVictim c rnd ((badVAddr / c.PageSize : Nat) : Int) s = some (v, s1) ∧
      ((v < 0 ∧ 0 ≤ (k.freeMM_Map.Find).1 ∧
          (s', k') = pageIn c (badVAddr / c.PageSize)
            (takeFrame (badVAddr / c.PageSize) (k.freeMM_Map.Find).1 s1)
            { k with numPageFaults := k.numPageFaults + 1, freeMM_Map := (k.freeMM_Map.Find).2 }) ∨
        (0 ≤ v ∧
          (s', k') = pageIn c (badVAddr / c.PageSize)
            (handOver (badVAddr / c.PageSize) v (writeBack c v s1 k).1)
            { (writeBack c v s1 k).2 with numPageFaults := k.numPageFaults + 1 })) := by
  unfold replacePage at h
  cases hf : findVictim c rnd ((badVAddr / c.PageSize : Nat) : Int) s with
  | none => rw [hf] at h; cases h
  | some r =>
    obtain ⟨v, s1⟩ := r
    rw [hf] at h
    refine ⟨v, s1, rfl, ?_⟩
    dsimp only at h
    by_cases hv : v < 0
    · rw [if_pos hv] at h
      by_cases hfr : (k.freeMM_Map.Find).1 < 0
      · rw [if_pos hfr] at h; cases h
      · rw [if_neg hfr] at h
        exact Or.inl ⟨hv, by omega, (Option.some.inj h).symm⟩
    · rw [if_neg hv] at h
      exact Or.inr ⟨by omega, (Option.some.inj h).symm⟩

theorem Shape.of_same_cursors {c : Config} {s t : AddrSpace} (h : Shape c s)
    (hp : t.pagesInMem = s.pagesInMem) (hi : t.idx = s.idx) (hb : t.bottom = s.bottom)
    (hc : t.count = s.count) : Shape c t := by
  obtain ⟨k, hk⟩ := h.loaded
  refine ⟨h.mpos, hi ▸ h.idx_lt, hb ▸ h.bottom_lt, k, ?_⟩
  rw [hp, hi, hb, hc]
  exact hk

/-- The invariant after a page fault, from what the find routine and the rest
of `replacePage` do to the state. -/
theorem Inv.swapIn {c : Config} {s s1 s' : AddrSpace} {inPage : Nat} {v : Int} (hinv : Inv c s)
    (hfind : FindOK c (inPage : Int) s v s1) (hrange : inPage < s.numPages)
    (hnres : (s.pageTable inPage).valid = false)
    (hp : s'.pagesInMem = s1.pagesInMem) (hi : s'.idx = s1.idx) (hb : s'.bottom = s1.bottom)
    (hc : s'.count = s1.count) (hn : s'.numPages = s1.numPages)
    (hvalid : ∀ x, (s'.pageTable x).valid =
      if x = inPage then true else if (x : Int) = v then false else (s1.pageTable x).valid)
    (hframe : ∀ x, x ≠ inPage → (s'.pageTable x).physicalPage = (s1.pageTable x).physicalPage)
    (hnew : 0 ≤ (s'.pageTable inPage).physicalPage) : Inv c s' := by
  obtain ⟨i, him, hiv, hp1⟩ := hfind.slot
  have hnum : s'.numPages = s.numPages := hn.trans hfind.numPages
  have hval1 : ∀ x, (s1.pageTable x).valid = (s.pageTable x).valid := fun x => (hfind.entries x).1
  have hres_of : ∀ x, x ≠ inPage → s'.resident x → s.resident x ∧ (x : Int) ≠ v := by
    intro x hx hr
    obtain ⟨hr1, hr2⟩ := hr
    rw [hvalid, if_neg hx] at hr2
    by_cases hxv : (x : Int) = v
    · rw [if_pos hxv] at hr2; cases hr2
    · rw [if_neg hxv, hval1] at hr2
      exact ⟨⟨hnum ▸ hr1, hr2⟩, hxv⟩
  have hnot : ∀ j, j < c.maxFramesPerProc → s.pagesInMem j ≠ (inPage : Int) := by
    intro j hj hje
    have := hinv.listed j hj (by omega)
    rw [hje, Int.toNat_natCast] at this
    rw [this.2] at hnres
    cases hnres
  refine ⟨hfind.shape.of_same_cursors hp hi hb hc, ?_, ?_, ?_, ?_⟩
  · intro j hj hnn
    rw [hp, hp1] at hnn ⊢
    by_cases hji : j = i
    · subst hji
      rw [Function.update_same, Int.toNat_natCast]
      exact ⟨hnum ▸ hrange, by rw [hvalid, if_pos rfl]⟩
    · rw [Function.update_noteq hji] at hnn ⊢
      obtain ⟨hr1, hr2⟩ := hinv.listed j hj hnn
      refine ⟨hnum ▸ hr1, ?_⟩
      rw [hvalid]
      split_ifs with h1 h2
      · rfl
      · exfalso
        have : s.pagesInMem j = s.pagesInMem i := by rw [hiv, ← h2]; omega
        exact hji ((hinv.inj j i hj him hnn this))
      · rw [hval1]; exact hr2
  · intro x hx
    by_cases hxin : x = inPage
    · exact ⟨i, him, by rw [hp, hp1, Function.update_same, hxin]⟩
    · obtain ⟨hr, hxv⟩ := hres_of x hxin hx
      obtain ⟨j, hj, hje⟩ := hinv.complete x hr
      refine ⟨j, hj, ?_⟩
      have hji : j ≠ i := by
        rintro rfl
        exact hxv (by rw [← hje, hiv])
      rw [hp, hp1, Function.update_noteq hji, hje]
  · intro a b ha hb hnn hab
    rw [hp, hp1] at hnn hab
    by_cases hai : a = i
    · by_cases hbi : b = i
      · rw [hai, hbi]
      · exfalso
        subst hai
        rw [Function.update_same, Function.update_noteq hbi] at hab
        exact hnot b hb hab.symm
    · by_cases hbi : b = i
      · exfalso
        subst hbi
        rw [Function.update_same, Function.update_noteq hai] at hab
        exact hnot a ha hab
      · rw [Function.update_noteq hai] at hnn hab
        rw [Function.update_noteq hbi] at hab
        exact hinv.inj a b ha hb hnn hab
  · intro x hx
    by_cases hxin : x = inPage
    · rw [hxin]; exact hnew
    · obtain ⟨hr, -⟩ := hres_of x hxin hx
      rw [hframe x hxin, (hfind.entries x).2.2]
      exact hinv.frame x hr

/-- A victim that is a page is resident and is not the incoming page. -/
theorem FindOK.victim_resident {c : Config} {s s1 : AddrSpace} {inPage : Nat} {v : Int}
    (hinv : Inv c s) (hfind : FindOK c (inPage : Int) s v s1)
    (hnres : ¬ s.resident inPage) (hv : 0 ≤ v) :
    s.resident v.toNat ∧ v.toNat ≠ inPage := by
  obtain ⟨i, him, hiv, -⟩ := hfind.slot
  have hr := hinv.listed i him (by rw [hiv]; exact hv)
  rw [hiv] at hr
  exact ⟨hr, fun he => hnres (he ▸ hr)⟩

/-- A victim that is not a page is `-1`, the content of an unused slot. -/
theorem FindOK.victim_neg {c : Config} {s s1 : AddrSpace} {inPage v : Int} (hinv : Inv c s)
    (hfind : FindOK c inPage s v s1) (hv : v < 0) : v = -1 := by
  obtain ⟨i, him, hiv, -⟩ := hfind.slot
  obtain ⟨k, hk, hlo, hhi, -, -⟩ := hinv.shape.loaded
  rcases Nat.lt_or_ge i k with hlt | hge
  · have := hlo i hlt; omega
  · rw [← hiv]; exact hhi i hge him

@[simp] theorem writeBack_pageTable (c : Config) (v : Int) (s : AddrSpace) (k : Machine) :
    (writeBack c v s k).1.pageTable = s.pageTable := by
  unfold writeBack; split_ifs <;> rfl

@[simp] theorem writeBack_pagesInMem (c : Config) (v : Int) (s : AddrSpace) (k : Machine) :
    (writeBack c v s k).1.pagesInMem = s.pagesInMem := by
  unfold writeBack; split_ifs <;> rfl

@[simp] theorem writeBack_idx (c : Config) (v : Int) (s : AddrSpace) (k : Machine) :
    (writeBack c v s k).1.idx = s.idx := by
  unfold writeBack; split_ifs <;> rfl

@[simp] theorem writeBack_bottom (c : Config) (v : Int) (s : AddrSpace) (k : Machine) :
    (writeBack c v s k).1.bottom = s.bottom := by
  unfold writeBack; split_ifs <;> rfl

@[simp] theorem writeBack_count (c : Config) (v : Int) (s : AddrSpace) (k : Machine) :
    (writeBack c v s k).1.count = s.count := by
  unfold writeBack; split_ifs <;> rfl

@[simp] theorem writeBack_numPages (c : Config) (v : Int) (s : AddrSpace) (k : Machine) :
    (writeBack c v s k).1.numPages = s.numPages := by
  unfold writeBack; split_ifs <;> rfl

theorem Inv.after_replacePage {c : Config} {rnd badVAddr : Nat} {s s' : AddrSpace} {k k' : Machine}
    (hinv : Inv c s) (hrange : badVAddr / c.PageSize < s.numPages)
    (hnres : (s.pageTable (badVAddr / c.PageSize)).valid = false)
    (h : replacePage c rnd badVAddr s k = some (s', k')) : Inv c s' := by
  obtain ⟨v, s1, hf, hcase⟩ := replacePage_some h
  obtain ⟨v', s1', hf', hfind⟩ :=
    @findVictim_ok c s ((badVAddr / c.PageSize : Nat) : Int) rnd hinv.shape (Int.ofNat_nonneg _)
  rw [hf] at hf'
  cases hf'
  have hnr : ¬ s.resident (badVAddr / c.PageSize) := fun hr => by
    rw [hr.2] at hnres; cases hnres
  rcases hcase with ⟨hv, hfr, heq⟩ | ⟨hv, heq⟩
  · have hs' : s' = (pageIn c (badVAddr / c.PageSize)
        (takeFrame (badVAddr / c.PageSize) (k.freeMM_Map.Find).1 s1)
        { k with numPageFaults := k.numPageFaults + 1, freeMM_Map := (k.freeMM_Map.Find).2 }).1 :=
      congrArg Prod.fst heq
    refine hinv.swapIn hfind hrange hnres (by rw [hs']; rfl) (by rw [hs']; rfl)
      (by rw [hs']; rfl) (by rw [hs']; rfl) (by rw [hs']; rfl) ?_ ?_ ?_
    · intro x
      rw [hs']
      simp only [pageIn, takeFrame, Function.update_apply]
      split_ifs with h1 h2 <;> first | rfl | omega
    · intro x hx
      rw [hs']
      simp only [pageIn, takeFrame, Function.update_apply, if_neg hx]
    · rw [hs']
      simpa [pageIn, takeFrame] using hfr
  · obtain ⟨hvr, hvne⟩ := hfind.victim_resident hinv hnr hv
    have hs' : s' = (pageIn c (badVAddr / c.PageSize)
        (handOver (badVAddr / c.PageSize) v (writeBack c v s1 k).1)
        { (writeBack c v s1 k).2 with numPageFaults := k.numPageFaults + 1 }).1 :=
      congrArg Prod.fst heq
    refine hinv.swapIn hfind hrange hnres (by rw [hs']; simp [pageIn, handOver, takeFrame])
      (by rw [hs']; simp [pageIn, handOver, takeFrame])
      (by rw [hs']; simp [pageIn, handOver, takeFrame])
      (by rw [hs']; simp [pageIn, handOver, takeFrame])
      (by rw [hs']; simp [pageIn, handOver, takeFrame]) ?_ ?_ ?_
    · intro x
      rw [hs']
      simp only [pageIn, handOver, takeFrame, writeBack_pageTable, Function.update_apply]
      split_ifs with h1 h2 h3 h4 <;> first | rfl | omega
    · intro x hx
      rw [hs']
      simp only [pageIn, handOver, takeFrame, writeBack_pageTable, Function.update_apply,
        if_neg hx]
      split_ifs with h1
      · rw [h1]
      · rfl
    · rw [hs']
      simp only [pageIn, handOver, takeFrame, writeBack_pageTable, Function.update_same]
      rw [(hfind.entries _).2.2]
      exact hinv.frame _ hvr


/-! ## The LRU stack -/

theorem slot_inj {m b j1 j2 : Nat} (h1 : j1 < m) (h2 : j2 < m)
    (h : (b + j1) % m = (b + j2) % m) : j1 = j2 := by
  have h3 : j1 % m = j2 % m := Nat.ModEq.add_left_cancel' b h
  rwa [Nat.mod_eq_of_lt h1, Nat.mod_eq_of_lt h2] at h3

theorem slot_surj {m b x : Nat} (hb : b < m) (hx : x < m) : ∃ j, j < m ∧ (b + j) % m = x := by
  rcases Nat.lt_or_ge x b with hlt | hge
  · refine ⟨x + m - b, by omega, ?_⟩
    have : b + (x + m - b) = x + m := by omega
    rw [this, Nat.add_mod_right, Nat.mod_eq_of_lt hx]
  · refine ⟨x - b, by omega, ?_⟩
    have : b + (x - b) = x := by omega
    rw [this, Nat.mod_eq_of_lt hx]

theorem lruSearch_some {c : Config} {s : AddrSpace} {vpn : Int} :
    ∀ (n i0 i : Nat), lruSearch c s vpn n i0 = some i →
      i0 ≤ i ∧ i < i0 + n ∧ s.pagesInMem ((s.bottom + i) % c.maxFramesPerProc) = vpn := by
  intro n
  induction n with
  | zero => intro i0 i h; cases h
  | succ n ih =>
    intro i0 i h
    unfold lruSearch at h
    split_ifs at h with hh
    · cases h; exact ⟨le_rfl, by omega, hh⟩
    · obtain ⟨h1, h2, h3⟩ := ih (i0 + 1) i h
      exact ⟨by omega, by omega, h3⟩

theorem lruSlide_last (c : Config) (b : Nat) :
    ∀ (n j : Nat) (p : Nat → Int),
      lruSlide c b (n + 1) j p =
        Function.update (lruSlide c b n j p) ((b + (j + n)) % c.maxFramesPerProc)
          (lruSlide c b n j p ((b + (j + n) + 1) % c.maxFramesPerProc)) := by
  intro n
  induction n with
  | zero => intro j p; rfl
  | succ n ih =>
    intro j p
    have h1 : lruSlide c b (n + 1 + 1) j p =
        lruSlide c b (n + 1) (j + 1)
          (Function.update p ((b + j) % c.maxFramesPerProc)
            (p ((b + j + 1) % c.maxFramesPerProc))) := rfl
    have h2 : lruSlide c b (n + 1) j p =
        lruSlide c b n (j + 1)
          (Function.update p ((b + j) % c.maxFramesPerProc)
            (p ((b + j + 1) % c.maxFramesPerProc))) := rfl
    rw [h1, ih, h2]
    have h3 : j + 1 + n = j + (n + 1) := by omega
    rw [h3]

theorem lruSlide_spec (c : Config) (b : Nat) :
    ∀ (n j0 : Nat) (p : Nat → Int), j0 + n < c.maxFramesPerProc →
      (∀ j, j0 ≤ j → j < j0 + n →
        lruSlide c b n j0 p ((b + j) % c.maxFramesPerProc) =
          p ((b + (j + 1)) % c.maxFramesPerProc)) ∧
      (∀ x, (∀ j, j0 ≤ j → j < j0 + n → x ≠ (b + j) % c.maxFramesPerProc) →
        lruSlide c b n j0 p x = p x) := by
  intro n
  induction n with
  | zero =>
    intro j0 p _
    exact ⟨fun j h1 h2 => by omega, fun x _ => rfl⟩
  | succ n ih =>
    intro j0 p hlt
    have hdef : lruSlide c b (n + 1) j0 p =
        lruSlide c b n (j0 + 1)
          (Function.update p ((b + j0) % c.maxFramesPerProc)
            (p ((b + j0 + 1) % c.maxFramesPerProc))) := rfl
    obtain ⟨ih1, ih2⟩ := ih (j0 + 1)
      (Function.update p ((b + j0) % c.maxFramesPerProc) (p ((b + j0 + 1) % c.maxFramesPerProc)))
      (by omega)
    rw [hdef]
    constructor
    · intro j hj1 hj2
      rcases Nat.eq_or_lt_of_le hj1 with heq | hgt
      · subst heq
        rw [ih2, Function.update_same, Nat.add_assoc]
        intro j' hj1' hj2' hcontra
        have := slot_inj (by omega) (by omega) hcontra
        omega
      · rw [ih1 j (by omega) (by omega), Function.update_noteq]
        intro hcontra
        have := slot_inj (by omega) (by omega) hcontra
        omega
    · intro x hx
      rw [ih2 x (fun j h1 h2 => hx j (by omega) (by omega)),
        Function.update_noteq (hx j0 le_rfl (by omega))]

/-- After `updatePageLRU` the window holds the same pages, `vpn` moved to the
top: offset `j` of the new window holds what offset `τ j` held. -/
theorem lruSlide_window {c : Config} {b n i : Nat} {p : Nat → Int} {vpn : Int}
    (hn : n ≤ c.maxFramesPerProc) (hi : i < n)
    (hvpn : p ((b + i) % c.maxFramesPerProc) = vpn) :
    ∀ j, j < c.maxFramesPerProc →
      Function.update (lruSlide c b (n - i) i p) ((b + n - 1) % c.maxFramesPerProc) vpn
          ((b + j) % c.maxFramesPerProc) =
        p ((b + (if j < i then j else if j + 1 < n then j + 1 else if j + 1 = n then i else j))
          % c.maxFramesPerProc) := by
  intro j hj
  have hni : n - i = (n - i - 1) + 1 := by omega
  have htop : b + (i + (n - i - 1)) = b + n - 1 := by omega
  rw [hni, lruSlide_last, htop, Function.update_idem]
  obtain ⟨h1, h2⟩ := lruSlide_spec c b (n - i - 1) i p (by omega)
  have hb : b + n - 1 = b + (n - 1) := by omega
  rw [hb]
  by_cases hjn : j = n - 1
  · subst hjn
    rw [Function.update_same]
    rw [if_neg (by omega), if_neg (by omega), if_pos (by omega), hvpn]
  · rw [Function.update_noteq (fun hcontra => hjn (slot_inj hj (by omega) hcontra))]
    by_cases hji : j < i
    · rw [if_pos hji]
      exact h2 _ (fun j' hj1 hj2 hcontra => by
        have := slot_inj hj (by omega) hcontra
        omega)
    · rw [if_neg hji]
      by_cases hjn2 : j + 1 < n
      · rw [if_pos hjn2]
        exact h1 j (by omega) (by omega)
      · rw [if_neg hjn2, if_neg (by omega)]
        exact h2 _ (fun j' hj1 hj2 hcontra => by
          have := slot_inj hj (by omega) hcontra
          omega)

/-- The invariant is kept when the slots are rearranged by a permutation of
the window offsets that fixes the offsets outside the window. -/
theorem Inv.rearrange {c : Config} {s t : AddrSpace} (hinv : Inv c s)
    (hlru : c.pageRepAlg = PageRepAlg.PRA_LRU) (τ τi : Nat → Nat)
    (hτ : ∀ j, j < c.maxFramesPerProc → τ j < c.maxFramesPerProc)
    (hτi : ∀ j, j < c.maxFramesPerProc → τi j < c.maxFramesPerProc)
    (hl : ∀ j, j < c.maxFramesPerProc → τ (τi j) = j)
    (hr : ∀ j, j < c.maxFramesPerProc → τi (τ j) = j)
    (hout : ∀ j, s.count ≤ j → τ j = j) (hin : ∀ j, j < s.count → τ j < s.count)
    (hp : ∀ j, j < c.maxFramesPerProc →
      t.pagesInMem ((s.bottom + j) % c.maxFramesPerProc) =
        s.pagesInMem ((s.bottom + τ j) % c.maxFramesPerProc))
    (hi : t.idx = s.idx) (hb : t.bottom = s.bottom) (hc : t.count = s.count)
    (hn : t.numPages = s.numPages) (hpt : t.pageTable = s.pageTable) : Inv c t := by
  have hm := hinv.shape.mpos
  have hbl := hinv.shape.bottom_lt
  have hmod : ∀ j, (s.bottom + j) % c.maxFramesPerProc < c.maxFramesPerProc := fun j =>
    Nat.mod_lt _ hm
  have hres : ∀ v, t.resident v ↔ s.resident v := fun v => by
    unfold AddrSpace.resident; rw [hn, hpt]
  refine ⟨?_, ?_, ?_, ?_, ?_⟩
  · obtain ⟨k, hk, hlo, hhi, hcur, -⟩ := hinv.shape.loaded
    obtain ⟨hck, hb0⟩ := hcur hlru
    refine ⟨hm, hi ▸ hinv.shape.idx_lt, hb ▸ hbl, k, hk, ?_, ?_, ?_, fun hne => absurd hlru hne⟩
    · intro x hx
      rcases Nat.lt_or_ge k c.maxFramesPerProc with hlt | hge
      · have h0 := hb0 hlt
        have e1 := hp x (by omega)
        rw [h0, Nat.zero_add, Nat.zero_add, Nat.mod_eq_of_lt (by omega),
          Nat.mod_eq_of_lt (hτ x (by omega))] at e1
        rw [e1]
        exact hlo _ (hck ▸ hin x (hck ▸ hx))
      · obtain ⟨j, hj, hjx⟩ := slot_surj hbl (show x < c.maxFramesPerProc by omega)
        rw [← hjx, hp j hj]
        exact hlo _ (by have := hmod (τ j); omega)
    · intro x hx hxm
      have hlt : k < c.maxFramesPerProc := by omega
      have h0 := hb0 hlt
      have e1 := hp x hxm
      rw [hout x (hck ▸ hx), h0, Nat.zero_add, Nat.mod_eq_of_lt hxm] at e1
      rw [e1]
      exact hhi x hx hxm
    · intro _
      exact ⟨hc.trans hck, fun hlt => hb.trans (hb0 hlt)⟩
  · intro x hx hnn
    obtain ⟨j, hj, hjx⟩ := slot_surj hbl hx
    rw [← hjx, hp j hj] at hnn ⊢
    exact (hres _).2 (hinv.listed _ (hmod _) hnn)
  · intro v hv
    obtain ⟨y, hy, hyv⟩ := hinv.complete v ((hres v).1 hv)
    obtain ⟨j, hj, hjy⟩ := slot_surj hbl hy
    refine ⟨(s.bottom + τi j) % c.maxFramesPerProc, hmod _, ?_⟩
    rw [hp _ (hτi j hj), hl j hj, hjy, hyv]
  · intro x1 x2 hx1 hx2 hnn hxx
    obtain ⟨j1, hj1, hjx1⟩ := slot_surj hbl hx1
    obtain ⟨j2, hj2, hjx2⟩ := slot_surj hbl hx2
    rw [← hjx1, ← hjx2, hp j1 hj1, hp j2 hj2] at hxx
    rw [← hjx1, hp j1 hj1] at hnn
    have h1 := hinv.inj _ _ (hmod _) (hmod _) hnn hxx
    have h2 := slot_inj (hτ j1 hj1) (hτ j2 hj2) h1
    have h3 : j1 = j2 := by rw [← hr j1 hj1, ← hr j2 hj2, h2]
    rw [← hjx1, ← hjx2, h3]
  · intro v hv
    rw [hpt]
    exact hinv.frame v ((hres v).1 hv)

theorem Inv.after_updatePageLRU {c : Config} {s : AddrSpace} (vpn : Int) (hinv : Inv c s)
    (hlru : c.pageRepAlg = PageRepAlg.PRA_LRU) : Inv c (updatePageLRU c vpn s) := by
  unfold updatePageLRU
  cases hsearch : lruSearch c s vpn s.count 0 with
  | none => exact hinv
  | some i =>
    obtain ⟨-, hi, hvpn⟩ := lruSearch_some _ _ _ hsearch
    rw [Nat.zero_add] at hi
    obtain ⟨k, hk, -, -, hcur, -⟩ := hinv.shape.loaded
    have hcm : s.count ≤ c.maxFramesPerProc := (hcur hlru).1 ▸ hk
    dsimp only
    refine hinv.rearrange hlru
      (fun j => if j < i then j else if j + 1 < s.count then j + 1
        else if j + 1 = s.count then i else j)
      (fun j => if j < i then j else if j = i then s.count - 1
        else if j < s.count then j - 1 else j)
      ?_ ?_ ?_ ?_ ?_ ?_ (lruSlide_window hcm hi hvpn) rfl rfl rfl rfl rfl
    · intro j hj; dsimp only; split_ifs <;> omega
    · intro j hj; dsimp only; split_ifs <;> omega
    · intro j hj; dsimp only; split_ifs <;> omega
    · intro j hj; dsimp only; split_ifs <;> omega
    · intro j hj; dsimp only; split_ifs <;> omega
    · intro j hj; dsimp only; split_ifs <;> omega


/-! ## The invariant in every reachable state -/

theorem Inv.of_same_residents {c : Config} {s t : AddrSpace} (hinv : Inv c s)
    (hp : t.pagesInMem = s.pagesInMem) (hi : t.idx = s.idx) (hb : t.bottom = s.bottom)
    (hc : t.count = s.count) (hn : t.numPages = s.numPages)
    (hv : ∀ x, (t.pageTable x).valid = (s.pageTable x).valid)
    (hf : ∀ x, (t.pageTable x).physicalPage = (s.pageTable x).physicalPage) : Inv c t := by
  have hres : ∀ v, t.resident v ↔ s.resident v := fun v => by
    unfold AddrSpace.resident; rw [hn, hv]
  refine ⟨hinv.shape.of_same_cursors hp hi hb hc, ?_, ?_, ?_, ?_⟩
  · intro j hj hnn
    rw [hp] at hnn ⊢
    exact (hres _).2 (hinv.listed j hj hnn)
  · intro v hv'
    rw [hp]
    exact hinv.complete v ((hres v).1 hv')
  · rw [hp]; exact hinv.inj
  · intro v hv'
    rw [hf]
    exact hinv.frame v ((hres v).1 hv')

theorem Inv.of_fresh (c : Config) (spaceID numPages : Nat) (swap : OpenFile) (refStr : List Nat)
    (hm : 0 < c.maxFramesPerProc) : Inv c (AddrSpace.fresh spaceID numPages swap refStr) := by
  refine ⟨⟨hm, hm, hm, 0, Nat.zero_le _, fun j hj => by omega, fun _ _ _ => rfl,
    fun _ => ⟨rfl, fun _ => rfl⟩, fun _ _ => rfl⟩, ?_, ?_, ?_, ?_⟩
  · intro j _ hnn
    simp [AddrSpace.fresh] at hnn
  · intro v hv
    have := hv.2
    simp [AddrSpace.fresh] at this
  · intro i j _ _ hnn
    simp [AddrSpace.fresh] at hnn
  · intro v hv
    have := hv.2
    simp [AddrSpace.fresh] at this

theorem Inv.after_setBits {c : Config} {s : AddrSpace} (v : Nat) (use dirty : Bool) (hinv : Inv c s) :
    Inv c (setBits v use dirty s) := by
  refine hinv.of_same_residents rfl rfl rfl rfl rfl ?_ ?_ <;>
  · intro x
    simp only [setBits, Function.update_apply]
    split_ifs with h
    · rw [h]
    · rfl

theorem recordRef_keeps (c : Config) (vpn : Int) (s : AddrSpace) :
    (recordRef c vpn s).pagesInMem = s.pagesInMem ∧ (recordRef c vpn s).idx = s.idx ∧
      (recordRef c vpn s).bottom = s.bottom ∧ (recordRef c vpn s).count = s.count ∧
      (recordRef c vpn s).numPages = s.numPages ∧
      (recordRef c vpn s).pageTable = s.pageTable ∧
      (recordRef c vpn s).swapFile = s.swapFile := by
  unfold recordRef
  split_ifs <;> exact ⟨rfl, rfl, rfl, rfl, rfl, rfl, rfl⟩

theorem updatePageOpt_keeps {vpn : Int} {s t : AddrSpace} (h : updatePageOpt vpn s = some t) :
    t.pagesInMem = s.pagesInMem ∧ t.idx = s.idx ∧ t.bottom = s.bottom ∧ t.count = s.count ∧
      t.numPages = s.numPages ∧ t.pageTable = s.pageTable ∧ t.swapFile = s.swapFile := by
  unfold updatePageOpt at h
  split_ifs at h <;> cases h <;> exact ⟨rfl, rfl, rfl, rfl, rfl, rfl, rfl⟩

theorem Inv.after_updatePage {c : Config} {s t : AddrSpace} {vpn : Int} (hinv : Inv c s)
    (h : updatePage c vpn s = some t) : Inv c t := by
  unfold updatePage at h
  split_ifs at h with h1 h2
  · cases h
    obtain ⟨e1, e2, e3, e4, e5, e6, -⟩ := recordRef_keeps c vpn (updatePageLRU c vpn s)
    exact (hinv.after_updatePageLRU vpn h1).of_same_residents e1 e2 e3 e4 e5 (fun x => by rw [e6])
      (fun x => by rw [e6])
  · obtain ⟨e1, e2, e3, e4, e5, e6, -⟩ := updatePageOpt_keeps h
    exact hinv.of_same_residents e1 e2 e3 e4 e5 (fun x => by rw [e6]) (fun x => by rw [e6])
  · cases h
    obtain ⟨e1, e2, e3, e4, e5, e6, -⟩ := recordRef_keeps c vpn s
    exact hinv.of_same_residents e1 e2 e3 e4 e5 (fun x => by rw [e6]) (fun x => by rw [e6])

theorem Reachable.inv_holds {c : Config} {s : AddrSpace} (h : Reachable c s) : Inv c s := by
  induction h with
  | fresh spaceID numPages swap refStr hm _ _ => exact Inv.of_fresh c spaceID numPages swap refStr hm
  | fault s s1 k k1 rnd badVAddr _ hrange hnres hrep ih => exact ih.after_replacePage hrange hnres hrep
  | touch s s1 vpn _ _ hup ih => exact ih.after_updatePage hup
  | access s v use dirty _ _ ih => exact ih.after_setBits v use dirty

/-- The number of valid entries is the number of slots in use. -/
theorem Inv.numValid_eq {c : Config} {s : AddrSpace} (hinv : Inv c s) :
    ∃ k, k ≤ c.maxFramesPerProc ∧ s.numValid = k ∧
      (∀ j, j < k → 0 ≤ s.pagesInMem j) ∧
      (∀ j, k ≤ j → j < c.maxFramesPerProc → s.pagesInMem j = -1) := by
  obtain ⟨k, hk, hlo, hhi, -, -⟩ := hinv.shape.loaded
  refine ⟨k, hk, ?_, hlo, hhi⟩
  have hcard : s.numValid =
      ((Finset.range s.numPages).filter (fun v => (s.pageTable v).valid = true)).card := by
    unfold AddrSpace.numValid
    rw [← List.toFinset_card_of_nodup ((List.nodup_range _).filter _)]
    congr 1
    ext v
    simp
  rw [hcard, ← Finset.card_range k]
  symm
  apply Finset.card_bij (fun j _ => (s.pagesInMem j).toNat)
  · intro j hj
    rw [Finset.mem_range] at hj
    have := hinv.listed j (by omega) (hlo j hj)
    simp only [Finset.mem_filter, Finset.mem_range]
    exact this
  · intro a ha b hb hab
    rw [Finset.mem_range] at ha hb
    have h1 := hlo a ha
    have h2 := hlo b hb
    exact hinv.inj a b (by omega) (by omega) h1 (by omega)
  · intro v hv
    simp only [Finset.mem_filter, Finset.mem_range] at hv
    obtain ⟨j, hj, hjv⟩ := hinv.complete v hv
    refine ⟨j, ?_, by rw [hjv, Int.toNat_natCast]⟩
    rw [Finset.mem_range]
    by_contra hjk
    have := hhi j (by omega) hj
    omega


/-! ## Page faults: the claims about `replacePage` and the find routines -/

/-- The page table after `replacePage`, entry by entry, in terms of the victim
`v` and the state `s1` the find routine left. -/
theorem replacePage_entries {c : Config} {rnd badVAddr : Nat} {s s' : AddrSpace} {k k' : Machine}
    (h : replacePage c rnd badVAddr s k = some (s', k')) :
    ∃ v s1, findVictim c rnd ((badVAddr / c.PageSize : Nat) : Int) s = some (v, s1) ∧
      (s'.pageTable (badVAddr / c.PageSize)).valid = true ∧
      (s'.pageTable (badVAddr / c.PageSize)).use = true ∧
      (s'.pageTable (badVAddr / c.PageSize)).dirty = false ∧
      (v < 0 → 0 ≤ (k.freeMM_Map.Find).1 ∧
        (s'.pageTable (badVAddr / c.PageSize)).physicalPage = (k.freeMM_Map.Find).1 ∧
        k'.freeMM_Map = (k.freeMM_Map.Find).2 ∧
        ∀ x, x ≠ badVAddr / c.PageSize → s'.pageTable x = s1.pageTable x) ∧
      (0 ≤ v →
        (s'.pageTable (badVAddr / c.PageSize)).physicalPage =
          (s1.pageTable v.toNat).physicalPage ∧
        k'.freeMM_Map = k.freeMM_Map ∧
        (v.toNat ≠ badVAddr / c.PageSize → (s'.pageTable v.toNat).valid = false) ∧
        ∀ x, x ≠ badVAddr / c.PageSize → x ≠ v.toNat → s'.pageTable x = s1.pageTable x) := by
  obtain ⟨v, s1, hf, hcase⟩ := replacePage_some h
  refine ⟨v, s1, hf, ?_⟩
  rcases hcase with ⟨hv, hfr, heq⟩ | ⟨hv, heq⟩
  · have hs' := congrArg Prod.fst heq
    have hk' := congrArg Prod.snd heq
    dsimp only at hs' hk'
    subst hs' hk'
    refine ⟨by simp [pageIn], by simp [pageIn], by simp [pageIn], fun _ => ⟨hfr, ?_, ?_, ?_⟩,
      fun h0 => absurd hv (not_lt.mpr h0)⟩
    · simp [pageIn, takeFrame]
    · simp [pageIn]
    · intro x hx
      simp [pageIn, takeFrame, Function.update_noteq hx]
  · have hs' := congrArg Prod.fst heq
    have hk' := congrArg Prod.snd heq
    dsimp only at hs' hk'
    subst hs' hk'
    refine ⟨by simp [pageIn], by simp [pageIn], by simp [pageIn],
      fun h0 => absurd hv (not_le.mpr h0), fun _ => ⟨?_, ?_, ?_, ?_⟩⟩
    · simp [pageIn, handOver, takeFrame]
    · simp only [pageIn]
      unfold writeBack
      split_ifs <;> rfl
    · intro hne
      simp [pageIn, handOver, takeFrame, Function.update_noteq hne]
    · intro x hx hxv
      simp [pageIn, handOver, takeFrame, Function.update_noteq hx, Function.update_noteq hxv]

/-- C1: for each of the six policies, when `replacePage(badVAddr)` returns on
an in-range non-resident page of a reachable address space, the entry of
`inPage = badVAddr / PageSize` has `valid = true`, `use = true`,
`dirty = false`; when the policy returned a victim `>= 0` its `physicalPage`
is the frame the victim held before the call and the victim's entry is now
invalid; when the policy returned `-1` its `physicalPage` is the frame just
returned by `Find()`. -/
theorem replacePage_maps_faulting_page (c : Config) (rnd badVAddr : Nat) (s s' : AddrSpace)
    (k k' : Machine) (hreach : Reachable c s) (_hrange : badVAddr / c.PageSize < s.numPages)
    (hnres : (s.pageTable (badVAddr / c.PageSize)).valid = false)
    (h : replacePage c rnd badVAddr s k = some (s', k')) :
    (s'.pageTable (badVAddr / c.PageSize)).valid = true ∧
    (s'.pageTable (badVAddr / c.PageSize)).use = true ∧
    (s'.pageTable (badVAddr / c.PageSize)).dirty = false ∧
    ∃ victim s1, findVictim c rnd ((badVAddr / c.PageSize : Nat) : Int) s = some (victim, s1) ∧
      (0 ≤ victim →
        (s.pageTable victim.toNat).valid = true ∧
        (s'.pageTable (badVAddr / c.PageSize)).physicalPage =
          (s.pageTable victim.toNat).physicalPage ∧
        (s'.pageTable victim.toNat).valid = false) ∧
      (victim < 0 → victim = -1 ∧
        (s'.pageTable (badVAddr / c.PageSize)).physicalPage = (k.freeMM_Map.Find).1 ∧
        0 ≤ (k.freeMM_Map.Find).1) := by
  have hinv := hreach.inv_holds
  obtain ⟨v, s1, hf, hvalid, huse, hdirty, hneg, hpos⟩ := replacePage_entries h
  obtain ⟨v', s1', hf', hfind⟩ :=
    @findVictim_ok c s ((badVAddr / c.PageSize : Nat) : Int) rnd hinv.shape (Int.ofNat_nonneg _)
  rw [hf] at hf'
  cases hf'
  have hnr : ¬ s.resident (badVAddr / c.PageSize) := fun hr => by
    rw [hr.2] at hnres; cases hnres
  refine ⟨hvalid, huse, hdirty, v, s1, hf, fun hv => ?_, fun hv => ?_⟩
  · obtain ⟨hvr, hvne⟩ := hfind.victim_resident hinv hnr hv
    obtain ⟨h1, -, h3, -⟩ := hpos hv
    exact ⟨hvr.2, by rw [h1, (hfind.entries _).2.2], h3 hvne⟩
  · obtain ⟨h1, h2, -, -⟩ := hneg hv
    exact ⟨hfind.victim_neg hinv hv, h2, h1⟩

theorem scenario_reachable_one : Reachable scenarioConfig (scenarioAfter [0]).1 :=
  Reachable.fault scenarioSpace _ scenarioMachine (scenarioAfter [0]).2 0 0
    (Reachable.fresh 0 4 _ [] (by decide) (by decide) (by decide)) (by decide) (by decide) rfl

theorem scenario_reachable_two : Reachable scenarioConfig (scenarioAfter [0, 128]).1 :=
  Reachable.fault (scenarioAfter [0]).1 _ (scenarioAfter [0]).2 (scenarioAfter [0, 128]).2 0 128
    scenario_reachable_one (by decide) (by decide) rfl

theorem scenario_reachable_three : Reachable scenarioConfig (scenarioAfter [0, 128, 256]).1 :=
  Reachable.fault (scenarioAfter [0, 128]).1 _ (scenarioAfter [0, 128]).2
    (scenarioAfter [0, 128, 256]).2 0 256 scenario_reachable_two (by decide) (by decide) rfl

/-- Witness of C1: the third fault of scenario 1 (pages 0 and 1 resident, fault
on page 2 at address 256). -/
theorem replacePage_maps_faulting_page_witness :
    ((scenarioAfter [0, 128, 256]).1.pageTable (256 / scenarioConfig.PageSize)).valid = true ∧
    ((scenarioAfter [0, 128, 256]).1.pageTable (256 / scenarioConfig.PageSize)).use = true ∧
    ((scenarioAfter [0, 128, 256]).1.pageTable (256 / scenarioConfig.PageSize)).dirty = false ∧
    ∃ victim s1,
      findVictim scenarioConfig 0 ((256 / scenarioConfig.PageSize : Nat) : Int)
        (scenarioAfter [0, 128]).1 = some (victim, s1) ∧
      (0 ≤ victim →
        ((scenarioAfter [0, 128]).1.pageTable victim.toNat).valid = true ∧
        ((scenarioAfter [0, 128, 256]).1.pageTable (256 / scenarioConfig.PageSize)).physicalPage =
          ((scenarioAfter [0, 128]).1.pageTable victim.toNat).physicalPage ∧
        ((scenarioAfter [0, 128, 256]).1.pageTable victim.toNat).valid = false) ∧
      (victim < 0 → victim = -1 ∧
        ((scenarioAfter [0, 128, 256]).1.pageTable (256 / scenarioConfig.PageSize)).physicalPage =
          ((scenarioAfter [0, 128]).2.freeMM_Map.Find).1 ∧
        0 ≤ ((scenarioAfter [0, 128]).2.freeMM_Map.Find).1) :=
  replacePage_maps_faulting_page scenarioConfig 0 256 (scenarioAfter [0, 128]).1
    (scenarioAfter [0, 128, 256]).1 (scenarioAfter [0, 128]).2 (scenarioAfter [0, 128, 256]).2
    scenario_reachable_two (by decide) (by decide) rfl


/-- C2: for each of the six policies, in every state reachable from a freshly
constructed address space by page faults on in-range non-resident pages,
`updatePage` on resident pages and arbitrary setting of use and dirty bits of
resident pages, at most `maxFramesPerProc` page-table entries are valid. -/
theorem numValid_le_maxFramesPerProc (c : Config) (s : AddrSpace) (hreach : Reachable c s) :
    s.numValid ≤ c.maxFramesPerProc := by
  obtain ⟨k, hk, hnv, -, -⟩ := hreach.inv_holds.numValid_eq
  omega

/-- Witness of C2: after the first three faults of scenario 1 two entries are
valid. -/
theorem numValid_le_maxFramesPerProc_witness :
    (scenarioAfter [0, 128, 256]).1.numValid ≤ scenarioConfig.maxFramesPerProc :=
  numValid_le_maxFramesPerProc scenarioConfig _ scenario_reachable_three

/-- C5 (the code departs from the claim): after the faults on pages 0, 1, 2 of
scenario 1 the state is reachable by `replacePage` calls alone, page 0 has just
been evicted and has `valid = false`, yet its `physicalPage` is still `0`, not
`-1`: `replacePage` clears `valid` of the victim and leaves `physicalPage`. -/
theorem evicted_entry_keeps_physicalPage :
    Reachable scenarioConfig (scenarioAfter [0, 128, 256]).1 ∧
    findVictim scenarioConfig 0 2 (scenarioAfter [0, 128]).1 =
      some (0, (findPageFIFO scenarioConfig 2 (scenarioAfter [0, 128]).1).2) ∧
    ((scenarioAfter [0, 128, 256]).1.pageTable 0).valid = false ∧
    ((scenarioAfter [0, 128, 256]).1.pageTable 0).physicalPage = 0 ∧
    ¬ (((scenarioAfter [0, 128, 256]).1.pageTable 0).valid = true ↔
        0 ≤ ((scenarioAfter [0, 128, 256]).1.pageTable 0).physicalPage) :=
  ⟨scenario_reachable_three, rfl, by decide, by decide, by decide⟩

/-- C6: for each of the six policies (`rnd` is the value of `Random()`), in
every reachable state and for every non-resident `inPage` the find routine
returns; it returns `-1` exactly when `pagesInMem` still has an unused slot,
which is exactly when fewer than `maxFramesPerProc` pages are resident;
otherwise it returns a resident page different from `inPage`. -/
theorem findVictim_first_fill_or_resident (c : Config) (rnd : Nat) (s : AddrSpace) (inPage : Nat)
    (hreach : Reachable c s) (hnres : ¬ s.resident inPage) :
    ∃ victim s1, findVictim c rnd (inPage : Int) s = some (victim, s1) ∧
      (victim = -1 ↔ ∃ j, j < c.maxFramesPerProc ∧ s.pagesInMem j = -1) ∧
      (victim = -1 ↔ s.numValid < c.maxFramesPerProc) ∧
      (victim ≠ -1 →
        0 ≤ victim ∧ s.resident victim.toNat ∧ victim ≠ (inPage : Int)) := by
  have hinv := hreach.inv_holds
  obtain ⟨v, s1, hf, hfind⟩ :=
    @findVictim_ok c s (inPage : Int) rnd hinv.shape (Int.ofNat_nonneg _)
  obtain ⟨k, hk, hnv, hlo, hhi⟩ := hinv.numValid_eq
  obtain ⟨i, hi, hiv, -⟩ := hfind.slot
  have hiff : v = -1 ↔ ∃ j, j < c.maxFramesPerProc ∧ s.pagesInMem j = -1 := by
    constructor
    · intro hv
      exact ⟨i, hi, hiv.trans hv⟩
    · rintro ⟨j, hj, hj1⟩
      by_contra hne
      have hv0 : 0 ≤ v := by
        by_contra hneg
        exact hne (hfind.victim_neg hinv (by omega))
      have := hfind.full hv0 j hj
      omega
  refine ⟨v, s1, hf, hiff, ?_, fun hne => ?_⟩
  · rw [hiff, hnv]
    constructor
    · rintro ⟨j, hj, hj1⟩
      by_contra hkm
      have := hlo j (by omega)
      omega
    · intro hkm
      exact ⟨k, hkm, hhi k le_rfl hkm⟩
  · have hv0 : 0 ≤ v := by
      by_contra hneg
      exact hne (hfind.victim_neg hinv (by omega))
    obtain ⟨hvr, hvne⟩ := hfind.victim_resident hinv hnres hv0
    exact ⟨hv0, hvr, fun he => hvne (by omega)⟩

/-- Witness of C6: page 2 in the state with pages 0 and 1 resident. -/
theorem findVictim_first_fill_or_resident_witness :
    ∃ victim s1, findVictim scenarioConfig 0 ((2 : Nat) : Int) (scenarioAfter [0, 128]).1 =
        some (victim, s1) ∧
      (victim = -1 ↔ ∃ j, j < scenarioConfig.maxFramesPerProc ∧
        (scenarioAfter [0, 128]).1.pagesInMem j = -1) ∧
      (victim = -1 ↔ (scenarioAfter [0, 128]).1.numValid < scenarioConfig.maxFramesPerProc) ∧
      (victim ≠ -1 →
        0 ≤ victim ∧ (scenarioAfter [0, 128]).1.resident victim.toNat ∧
          victim ≠ ((2 : Nat) : Int)) :=
  findVictim_first_fill_or_resident scenarioConfig 0 _ 2 scenario_reachable_two (by decide)


/-! ## Swap traffic of a page fault -/

/-- What `replacePage` does to the swap file, the counters and main memory. -/
theorem replacePage_io {c : Config} {rnd badVAddr : Nat} {s s' : AddrSpace} {k k' : Machine}
    (h : replacePage c rnd badVAddr s k = some (s', k')) :
    ∃ v s1, findVictim c rnd ((badVAddr / c.PageSize : Nat) : Int) s = some (v, s1) ∧
      k'.numPageFaults = k.numPageFaults + 1 ∧
      s'.numPages = s1.numPages ∧
      k'.mainMemory = s'.swapFile.ReadAt k.mainMemory
        ((s'.pageTable (badVAddr / c.PageSize)).physicalPage.toNat * c.PageSize) c.PageSize
        (badVAddr / c.PageSize * c.PageSize) ∧
      ((0 ≤ v ∧ (s1.pageTable v.toNat).dirty = true) →
        s'.swapFile = s1.swapFile.WriteAt
          (fun i => k.mainMemory ((s1.pageTable v.toNat).physicalPage.toNat * c.PageSize + i))
          c.PageSize (v.toNat * c.PageSize) ∧
        k'.numPageWrites = k.numPageWrites + 1) ∧
      (¬ (0 ≤ v ∧ (s1.pageTable v.toNat).dirty = true) →
        s'.swapFile = s1.swapFile ∧ k'.numPageWrites = k.numPageWrites) := by
  obtain ⟨v, s1, hf, hcase⟩ := replacePage_some h
  refine ⟨v, s1, hf, ?_⟩
  rcases hcase with ⟨hv, hfr, heq⟩ | ⟨hv, heq⟩
  · have hs' := congrArg Prod.fst heq
    have hk' := congrArg Prod.snd heq
    dsimp only at hs' hk'
    subst hs' hk'
    refine ⟨rfl, rfl, ?_, fun h0 => absurd hv (not_lt.mpr h0.1), fun _ => ⟨rfl, rfl⟩⟩
    simp [pageIn, takeFrame]
  · have hs' := congrArg Prod.fst heq
    have hk' := congrArg Prod.snd heq
    dsimp only at hs' hk'
    subst hs' hk'
    refine ⟨rfl, by simp [pageIn, handOver, takeFrame], ?_, fun h0 => ?_, fun h0 => ?_⟩
    · simp only [pageIn, handOver, takeFrame, Function.update_same]
      unfold writeBack
      split_ifs <;> rfl
    · simp only [pageIn, handOver, takeFrame]
      unfold writeBack
      rw [if_pos h0.2]
      exact ⟨rfl, rfl⟩
    · have hd : ¬ (s1.pageTable v.toNat).dirty = true := fun hd => h0 ⟨hv, hd⟩
      simp only [pageIn, handOver, takeFrame]
      unfold writeBack
      rw [if_neg hd]
      exact ⟨rfl, rfl⟩

theorem FindOK.victim_listed {c : Config} {s s1 : AddrSpace} {inPage v : Int} (hinv : Inv c s)
    (hfind : FindOK c inPage s v s1) (hv : 0 ≤ v) : s.resident v.toNat := by
  obtain ⟨i, him, hiv, -⟩ := hfind.slot
  have hr := hinv.listed i him (by rw [hiv]; exact hv)
  rwa [hiv] at hr

theorem page_region_disjoint {PS v w i : Nat} (hi : i < PS) (hne : w ≠ v) :
    ¬ (w * PS ≤ v * PS + i ∧ v * PS + i < w * PS + PS) := by
  rintro ⟨h1, h2⟩
  rcases Nat.lt_or_gt_of_ne hne with hlt | hgt
  · have := Nat.mul_le_mul_right PS (Nat.succ_le_of_lt hlt)
    rw [Nat.succ_mul] at this
    omega
  · have := Nat.mul_le_mul_right PS (Nat.succ_le_of_lt hgt)
    rw [Nat.succ_mul] at this
    omega

theorem page_region_le {PS v n : Nat} (hv : v < n) : v * PS + PS ≤ n * PS := by
  have := Nat.mul_le_mul_right PS (Nat.succ_le_of_lt hv)
  rwa [Nat.succ_mul] at this

/-- The swap file of a reachable address space covers the whole page table. -/
theorem Reachable.swap_covers {c : Config} {s : AddrSpace} (h : Reachable c s) :
    0 < c.PageSize ∧ s.numPages * c.PageSize ≤ s.swapFile.length := by
  induction h with
  | fresh spaceID numPages swap refStr _ hps hlen => exact ⟨hps, hlen⟩
  | fault s s1 k k1 rnd badVAddr hreach hrange hnres hrep ih =>
    refine ⟨ih.1, ?_⟩
    have hinv := hreach.inv_holds
    obtain ⟨v, t, hf, -, hn, -, hd, hnd⟩ := replacePage_io hrep
    obtain ⟨v', t', hf', hfind⟩ :=
      @findVictim_ok c s ((badVAddr / c.PageSize : Nat) : Int) rnd hinv.shape
        (Int.ofNat_nonneg _)
    rw [hf] at hf'
    cases hf'
    rw [hn, hfind.numPages]
    by_cases hc : 0 ≤ v ∧ (t.pageTable v.toNat).dirty = true
    · rw [(hd hc).1]
      simp only [OpenFile.WriteAt, hfind.swap]
      exact le_trans ih.2 (le_max_left _ _)
    · rw [(hnd hc).1, hfind.swap]
      exact ih.2
  | touch s s1 vpn _ _ hup ih =>
    unfold updatePage at hup
    split_ifs at hup with h1 h2
    · cases hup
      obtain ⟨-, -, -, -, e5, -, e7⟩ := recordRef_keeps c vpn (updatePageLRU c vpn s)
      rw [e5, e7]
      have : (updatePageLRU c (vpn : Int) s).numPages = s.numPages ∧
          (updatePageLRU c (vpn : Int) s).swapFile = s.swapFile := by
        unfold updatePageLRU
        split <;> exact ⟨rfl, rfl⟩
      rw [this.1, this.2]
      exact ih
    · obtain ⟨-, -, -, -, e5, -, e7⟩ := updatePageOpt_keeps hup
      rw [e5, e7]; exact ih
    · cases hup
      obtain ⟨-, -, -, -, e5, -, e7⟩ := recordRef_keeps c vpn s
      rw [e5, e7]; exact ih
  | access s v use dirty _ _ ih => exact ih

/-- C7 (amended): with the swap file as an explicit byte array, a returning
`replacePage` on a reachable address space writes the swap file only when the
policy chose a victim `v` whose dirty bit is set: then the file keeps its
length, the bytes at `[v*PageSize, (v+1)*PageSize)` become the contents the
victim's frame had when `replacePage` was called (which may be the bytes the
file already held), and every other byte is unchanged; with no victim or a
clean victim the swap file after the call equals the swap file before it, so a
swap file that differs implies a dirty victim. -/
theorem replacePage_swap_effect (c : Config) (rnd badVAddr : Nat) (s s' : AddrSpace)
    (k k' : Machine) (hreach : Reachable c s) (_hrange : badVAddr / c.PageSize < s.numPages)
    (_hnres : (s.pageTable (badVAddr / c.PageSize)).valid = false)
    (h : replacePage c rnd badVAddr s k = some (s', k')) :
    ∃ victim s1, findVictim c rnd ((badVAddr / c.PageSize : Nat) : Int) s = some (victim, s1) ∧
      ((0 ≤ victim ∧ (s.pageTable victim.toNat).dirty = true) →
        s'.swapFile.length = s.swapFile.length ∧
        (∀ a, victim.toNat * c.PageSize ≤ a → a < (victim.toNat + 1) * c.PageSize →
          s'.swapFile.data a =
            k.mainMemory ((s.pageTable victim.toNat).physicalPage.toNat * c.PageSize +
              (a - victim.toNat * c.PageSize))) ∧
        (∀ a, ¬ (victim.toNat * c.PageSize ≤ a ∧ a < (victim.toNat + 1) * c.PageSize) →
          s'.swapFile.data a = s.swapFile.data a)) ∧
      (¬ (0 ≤ victim ∧ (s.pageTable victim.toNat).dirty = true) → s'.swapFile = s.swapFile) ∧
      (s'.swapFile ≠ s.swapFile → 0 ≤ victim ∧ (s.pageTable victim.toNat).dirty = true) := by
  have hinv := hreach.inv_holds
  obtain ⟨hps, hlen⟩ := hreach.swap_covers
  obtain ⟨v, s1, hf, -, -, -, hd, hnd⟩ := replacePage_io h
  obtain ⟨v', s1', hf', hfind⟩ :=
    @findVictim_ok c s ((badVAddr / c.PageSize : Nat) : Int) rnd hinv.shape (Int.ofNat_nonneg _)
  rw [hf] at hf'
  cases hf'
  have hdirty : (s1.pageTable v.toNat).dirty = (s.pageTable v.toNat).dirty :=
    (hfind.entries _).2.1
  have hphys : (s1.pageTable v.toNat).physicalPage = (s.pageTable v.toNat).physicalPage :=
    (hfind.entries _).2.2
  have hclean : ¬ (0 ≤ v ∧ (s.pageTable v.toNat).dirty = true) → s'.swapFile = s.swapFile := by
    intro hc
    rw [← hdirty] at hc
    rw [(hnd hc).1, hfind.swap]
  refine ⟨v, s1, hf, fun hc => ?_, hclean, fun hne => ?_⟩
  · have hvr := hfind.victim_listed hinv hc.1
    have hreg := @page_region_le c.PageSize _ _ hvr.1
    rw [← hdirty] at hc
    rw [(hd hc).1, hfind.swap, hphys]
    simp only [OpenFile.WriteAt, Nat.succ_mul]
    refine ⟨?_, fun a h1 h2 => ?_, fun a h1 => ?_⟩
    · exact max_eq_left (le_trans hreg hlen)
    · rw [if_pos ⟨h1, h2⟩]
    · rw [if_neg h1]
  · by_contra hc
    exact hne (hclean hc)

/-- C8: every returning `replacePage` on a reachable address space increases
`numPageFaults` by exactly one, and increases `numPageWrites` by exactly one
when the policy chose a victim whose dirty bit is set and by zero otherwise
(first fill or clean victim). -/
theorem replacePage_counters (c : Config) (rnd badVAddr : Nat) (s s' : AddrSpace)
    (k k' : Machine) (hreach : Reachable c s)
    (h : replacePage c rnd badVAddr s k = some (s', k')) :
    k'.numPageFaults = k.numPageFaults + 1 ∧
    ∃ victim s1, findVictim c rnd ((badVAddr / c.PageSize : Nat) : Int) s = some (victim, s1) ∧
      k'.numPageWrites = k.numPageWrites +
        (if 0 ≤ victim ∧ (s.pageTable victim.toNat).dirty = true then 1 else 0) := by
  have hinv := hreach.inv_holds
  obtain ⟨v, s1, hf, hpf, -, -, hd, hnd⟩ := replacePage_io h
  obtain ⟨v', s1', hf', hfind⟩ :=
    @findVictim_ok c s ((badVAddr / c.PageSize : Nat) : Int) rnd hinv.shape (Int.ofNat_nonneg _)
  rw [hf] at hf'
  cases hf'
  refine ⟨hpf, v, s1, hf, ?_⟩
  rw [← (hfind.entries v.toNat).2.1]
  split_ifs with hc
  · exact (hd hc).2
  · exact (hnd hc).2

theorem scenario_reachable_dirty : Reachable scenarioConfig scenarioDirty :=
  Reachable.access _ 0 true true scenario_reachable_two (by decide)

theorem scenario_evicted_eq :
    replacePage scenarioConfig 0 256 scenarioDirty scenarioDirtyMachine =
      some (scenarioEvicted.1, scenarioEvicted.2) := rfl

/-- Witness of C7: the fault on page 2 that evicts the dirty page 0. -/
theorem replacePage_swap_effect_witness :
    ∃ victim s1, findVictim scenarioConfig 0 ((256 / scenarioConfig.PageSize : Nat) : Int)
        scenarioDirty = some (victim, s1) ∧
      ((0 ≤ victim ∧ (scenarioDirty.pageTable victim.toNat).dirty = true) →
        scenarioEvicted.1.swapFile.length = scenarioDirty.swapFile.length ∧
        (∀ a, victim.toNat * scenarioConfig.PageSize ≤ a →
          a < (victim.toNat + 1) * scenarioConfig.PageSize →
          scenarioEvicted.1.swapFile.data a =
            scenarioDirtyMachine.mainMemory
              ((scenarioDirty.pageTable victim.toNat).physicalPage.toNat *
                  scenarioConfig.PageSize + (a - victim.toNat * scenarioConfig.PageSize))) ∧
        (∀ a, ¬ (victim.toNat * scenarioConfig.PageSize ≤ a ∧
            a < (victim.toNat + 1) * scenarioConfig.PageSize) →
          scenarioEvicted.1.swapFile.data a = scenarioDirty.swapFile.data a)) ∧
      (¬ (0 ≤ victim ∧ (scenarioDirty.pageTable victim.toNat).dirty = true) →
        scenarioEvicted.1.swapFile = scenarioDirty.swapFile) ∧
      (scenarioEvicted.1.swapFile ≠ scenarioDirty.swapFile →
        0 ≤ victim ∧ (scenarioDirty.pageTable victim.toNat).dirty = true) :=
  replacePage_swap_effect scenarioConfig 0 256 scenarioDirty scenarioEvicted.1
    scenarioDirtyMachine scenarioEvicted.2 scenario_reachable_dirty (by decide) (by decide)
    scenario_evicted_eq

/-- Witness of C8: the same fault has one page fault and one page write. -/
theorem replacePage_counters_witness :
    scenarioEvicted.2.numPageFaults = scenarioDirtyMachine.numPageFaults + 1 ∧
    ∃ victim s1, findVictim scenarioConfig 0 ((256 / scenarioConfig.PageSize : Nat) : Int)
        scenarioDirty = some (victim, s1) ∧
      scenarioEvicted.2.numPageWrites = scenarioDirtyMachine.numPageWrites +
        (if 0 ≤ victim ∧ (scenarioDirty.pageTable victim.toNat).dirty = true then 1 else 0) :=
  replacePage_counters scenarioConfig 0 256 scenarioDirty scenarioEvicted.1
    scenarioDirtyMachine scenarioEvicted.2 scenario_reachable_dirty scenario_evicted_eq


/-! ## A dirty victim with unchanged contents -/

theorem OpenFile.eq_of_bytes {f g : OpenFile} (hlen : f.length = g.length)
    (hdata : ∀ a, f.data a = g.data a) : f = g := by
  cases f
  cases g
  simp only at hlen hdata
  subst hlen
  congr 1
  funext a
  exact hdata a

/-- C7, counterexample: page 0 of `scenarioDirty` is dirty and its frame holds
the bytes the swap file has for it.  The fault on page 2 picks page 0 as
victim and writes it back (`numPageWrites` grows by one), and the swap file
after the call is equal to the swap file before it: a dirty victim does not
imply that the swap file changes. -/
theorem dirty_victim_leaves_swap_unchanged :
    (findVictim scenarioConfig 0 2 scenarioDirty).map (fun r => r.1) = some 0 ∧
      (scenarioDirty.pageTable 0).dirty = true ∧
      (replacePage scenarioConfig 0 256 scenarioDirty (scenarioAfter [0, 128]).2).isSome = true ∧
      scenarioRewritten.2.numPageWrites = (scenarioAfter [0, 128]).2.numPageWrites + 1 ∧
      scenarioRewritten.1.swapFile = scenarioDirty.swapFile := by
  refine ⟨by decide, by decide, by decide, by decide, ?_⟩
  have hframe : ∀ off, off < 128 →
      (scenarioAfter [0, 128]).2.mainMemory off = scenarioDirty.swapFile.data off := by
    decide
  have hwrite : scenarioRewritten.1.swapFile =
      scenarioDirty.swapFile.WriteAt
        (fun i => (scenarioAfter [0, 128]).2.mainMemory (0 * 128 + i)) 128 (0 * 128) := rfl
  rw [hwrite]
  apply OpenFile.eq_of_bytes
  · show max scenarioDirty.swapFile.length (0 * 128 + 128) = scenarioDirty.swapFile.length
    decide
  · intro a
    show (if 0 * 128 ≤ a ∧ a < 0 * 128 + 128 then
        (scenarioAfter [0, 128]).2.mainMemory (0 * 128 + (a - 0 * 128))
      else scenarioDirty.swapFile.data a) = scenarioDirty.swapFile.data a
    by_cases ha : a < 128
    · rw [if_pos ⟨by omega, by omega⟩]
      have h2 : 0 * 128 + (a - 0 * 128) = a := by omega
      rw [h2]
      exact hframe a ha
    · rw [if_neg (fun hc => ha (by omega))]

/-! ## Page contents survive eviction -/

/-- What the steps between the eviction of page `v` and its next fault keep:
the state is reachable, `v` is not resident, and the swap region of `v` holds
the bytes `B`. -/
theorem StepAway.keeps {c : Config} {v : Nat} {B : Nat → Nat} {s t : AddrSpace}
    (hstep : StepAway c v s t)
    (h : Reachable c s ∧ (s.pageTable v).valid = false ∧
      ∀ i, i < c.PageSize → s.swapFile.data (v * c.PageSize + i) = B i) :
    Reachable c t ∧ (t.pageTable v).valid = false ∧
      ∀ i, i < c.PageSize → t.swapFile.data (v * c.PageSize + i) = B i := by
  obtain ⟨hreach, hval, hB⟩ := h
  cases hstep with
  | fault _ k k1 rnd badVAddr hrange hnres hne hrep =>
    have hinv := hreach.inv_holds
    refine ⟨Reachable.fault s t k k1 rnd badVAddr hreach hrange hnres hrep, ?_, ?_⟩
    · obtain ⟨w, s1, hf, -, -, -, hneg, hpos⟩ := replacePage_entries hrep
      obtain ⟨w', s1', hf', hfind⟩ :=
        @findVictim_ok c s ((badVAddr / c.PageSize : Nat) : Int) rnd hinv.shape
          (Int.ofNat_nonneg _)
      rw [hf] at hf'
      cases hf'
      rcases lt_or_le w 0 with hw | hw
      · rw [(hneg hw).2.2.2 v (Ne.symm hne), (hfind.entries v).1, hval]
      · by_cases hvw : v = w.toNat
        · have hwr := hfind.victim_listed hinv hw
          rw [← hvw] at hwr
          rw [hwr.2] at hval
          cases hval
        · rw [(hpos hw).2.2.2 v (Ne.symm hne) hvw, (hfind.entries v).1, hval]
    · intro i hi
      obtain ⟨w, s1, hf, -, -, -, hd, hnd⟩ := replacePage_io hrep
      obtain ⟨w', s1', hf', hfind⟩ :=
        @findVictim_ok c s ((badVAddr / c.PageSize : Nat) : Int) rnd hinv.shape
          (Int.ofNat_nonneg _)
      rw [hf] at hf'
      cases hf'
      by_cases hc : 0 ≤ w ∧ (s1.pageTable w.toNat).dirty = true
      · have hwr := hfind.victim_listed hinv hc.1
        have hwv : w.toNat ≠ v := by
          intro he
          rw [he] at hwr
          have h2 := hwr.2
          rw [hval] at h2
          cases h2
        rw [(hd hc).1]
        simp only [OpenFile.WriteAt]
        rw [if_neg (page_region_disjoint hi hwv), hfind.swap]
        exact hB i hi
      · rw [(hnd hc).1, hfind.swap]
        exact hB i hi
  | touch _ vpn hres hup =>
    refine ⟨Reachable.touch s t vpn hreach hres hup, ?_, ?_⟩
    · unfold updatePage at hup
      split_ifs at hup with h1 h2
      · cases hup
        obtain ⟨-, -, -, -, -, e6, -⟩ := recordRef_keeps c vpn (updatePageLRU c vpn s)
        rw [e6]
        have : (updatePageLRU c (vpn : Int) s).pageTable = s.pageTable := by
          unfold updatePageLRU
          split <;> rfl
        rw [this]; exact hval
      · obtain ⟨-, -, -, -, -, e6, -⟩ := updatePageOpt_keeps hup
        rw [e6]; exact hval
      · cases hup
        obtain ⟨-, -, -, -, -, e6, -⟩ := recordRef_keeps c vpn s
        rw [e6]; exact hval
    · unfold updatePage at hup
      split_ifs at hup with h1 h2
      · cases hup
        obtain ⟨-, -, -, -, -, -, e7⟩ := recordRef_keeps c vpn (updatePageLRU c vpn s)
        rw [e7]
        have : (updatePageLRU c (vpn : Int) s).swapFile = s.swapFile := by
          unfold updatePageLRU
          split <;> rfl
        rw [this]; exact hB
      · obtain ⟨-, -, -, -, -, -, e7⟩ := updatePageOpt_keeps hup
        rw [e7]; exact hB
      · cases hup
        obtain ⟨-, -, -, -, -, -, e7⟩ := recordRef_keeps c vpn s
        rw [e7]; exact hB
  | access x use dirty hres =>
    refine ⟨Reachable.access s x use dirty hreach hres, ?_, hB⟩
    have hxv : v ≠ x := by
      intro he
      rw [← he] at hres
      have h2 := hres.2
      rw [hval] at h2
      cases h2
    simp only [setBits, Function.update_noteq hxv]
    exact hval

theorem StepAway.keeps_star {c : Config} {v : Nat} {B : Nat → Nat} {s t : AddrSpace}
    (hsteps : Relation.ReflTransGen (StepAway c v) s t)
    (h : Reachable c s ∧ (s.pageTable v).valid = false ∧
      ∀ i, i < c.PageSize → s.swapFile.data (v * c.PageSize + i) = B i) :
    Reachable c t ∧ (t.pageTable v).valid = false ∧
      ∀ i, i < c.PageSize → t.swapFile.data (v * c.PageSize + i) = B i := by
  induction hsteps with
  | refl => exact h
  | tail _ hstep ih => exact hstep.keeps ih

/-- C9: page contents survive eviction.  If a resident page `v` with
`dirty = true` is evicted by a `replacePage` call, then after any further
sequence of `replacePage` calls on other pages, `updatePage` calls and
accesses to resident pages (the machine memory arbitrary at every step), a
`replacePage` call on `v` leaves the frame now mapped to `v` holding exactly
the `PageSize` bytes the frame of `v` held when `v` was evicted. -/
theorem page_contents_survive_eviction (c : Config) (v : Nat) (s0 s1 s2 s3 : AddrSpace)
    (k0 k1 k2 k3 : Machine) (rnd0 a0 rnd3 a3 : Nat)
    (hreach : Reachable c s0) (hv : s0.resident v) (hdirty : (s0.pageTable v).dirty = true)
    (hrange0 : a0 / c.PageSize < s0.numPages)
    (hnres0 : (s0.pageTable (a0 / c.PageSize)).valid = false)
    (h0 : replacePage c rnd0 a0 s0 k0 = some (s1, k1))
    (hev : (s1.pageTable v).valid = false)
    (hsteps : Relation.ReflTransGen (StepAway c v) s1 s2)
    (ha3 : a3 / c.PageSize = v) (hrange3 : a3 / c.PageSize < s2.numPages)
    (h3 : replacePage c rnd3 a3 s2 k2 = some (s3, k3)) :
    ∀ i, i < c.PageSize →
      k3.mainMemory ((s3.pageTable v).physicalPage.toNat * c.PageSize + i) =
        k0.mainMemory ((s0.pageTable v).physicalPage.toNat * c.PageSize + i) := by
  have hinv0 := hreach.inv_holds
  -- the eviction wrote the frame of `v` to the swap region of `v`
  have hswap1 : ∀ i, i < c.PageSize → s1.swapFile.data (v * c.PageSize + i) =
      k0.mainMemory ((s0.pageTable v).physicalPage.toNat * c.PageSize + i) := by
    intro i hi
    obtain ⟨w, t, hf, hvalid, -, -, hneg, hpos⟩ := replacePage_entries h0
    obtain ⟨w', t', hf', hfind⟩ :=
      @findVictim_ok c s0 ((a0 / c.PageSize : Nat) : Int) rnd0 hinv0.shape (Int.ofNat_nonneg _)
    rw [hf] at hf'
    cases hf'
    have hvin : v ≠ a0 / c.PageSize := by
      intro he
      rw [he, hvalid] at hev
      cases hev
    have hw : 0 ≤ w := by
      by_contra hw
      rw [(hneg (by omega)).2.2.2 v hvin, (hfind.entries v).1, hv.2] at hev
      cases hev
    have hvw : v = w.toNat := by
      by_contra hvw
      rw [(hpos hw).2.2.2 v hvin hvw, (hfind.entries v).1, hv.2] at hev
      cases hev
    obtain ⟨w2, t2, hf2, -, -, -, hd, -⟩ := replacePage_io h0
    rw [hf] at hf2
    cases hf2
    have hc : 0 ≤ w ∧ (t.pageTable w.toNat).dirty = true := by
      refine ⟨hw, ?_⟩
      rw [(hfind.entries _).2.1, ← hvw]
      exact hdirty
    rw [(hd hc).1]
    simp only [OpenFile.WriteAt]
    rw [← hvw, if_pos ⟨by omega, by omega⟩, (hfind.entries v).2.2]
    congr 2
    omega
  obtain ⟨hreach2, hval2, hB2⟩ := StepAway.keeps_star hsteps
    ⟨Reachable.fault s0 s1 k0 k1 rnd0 a0 hreach hrange0 hnres0 h0, hev, hswap1⟩
  -- the final fault reads the swap region of `v` into the new frame of `v`
  have hinv2 := hreach2.inv_holds
  obtain ⟨hps, hlen⟩ := hreach2.swap_covers
  obtain ⟨w, t, hf, -, hn, hmem, hd, hnd⟩ := replacePage_io h3
  obtain ⟨w', t', hf', hfind⟩ :=
    @findVictim_ok c s2 ((a3 / c.PageSize : Nat) : Int) rnd3 hinv2.shape (Int.ofNat_nonneg _)
  rw [hf] at hf'
  cases hf'
  rw [ha3] at hmem
  have hvn : v < s2.numPages := ha3 ▸ hrange3
  have hreg := @page_region_le c.PageSize _ _ hvn
  -- the write-back of this fault, if any, is outside the region of `v`
  have hdata : ∀ i, i < c.PageSize → s3.swapFile.data (v * c.PageSize + i) =
      s2.swapFile.data (v * c.PageSize + i) := by
    intro i hi
    by_cases hc : 0 ≤ w ∧ (t.pageTable w.toNat).dirty = true
    · have hwr := hfind.victim_listed hinv2 hc.1
      have hwv : w.toNat ≠ v := by
        intro he
        rw [he] at hwr
        have h2 := hwr.2
        rw [hval2] at h2
        cases h2
      rw [(hd hc).1]
      simp only [OpenFile.WriteAt]
      rw [if_neg (page_region_disjoint hi hwv), hfind.swap]
    · rw [(hnd hc).1, hfind.swap]
  have hlen3 : s2.swapFile.length ≤ s3.swapFile.length := by
    by_cases hc : 0 ≤ w ∧ (t.pageTable w.toNat).dirty = true
    · rw [(hd hc).1]
      simp only [OpenFile.WriteAt, hfind.swap]
      exact le_max_left _ _
    · rw [(hnd hc).1, hfind.swap]
  have hread : s3.swapFile.readLen c.PageSize (v * c.PageSize) = c.PageSize := by
    unfold OpenFile.readLen
    rw [if_neg (by omega)]
    exact min_eq_left (by omega)
  intro i hi
  rw [hmem]
  simp only [OpenFile.ReadAt, hread]
  rw [if_pos ⟨by omega, by omega⟩, Nat.add_sub_cancel_left, hdata i hi]
  exact hB2 i hi

/-- Witness of C9: in scenario 1 the dirty page 0 (frame bytes all 7) is
evicted by the fault on page 2, page 3 faults next, and the following fault on
page 0 finds the bytes again. -/
theorem page_contents_survive_eviction_witness :
    scenarioBack.2.mainMemory
        ((scenarioBack.1.pageTable 0).physicalPage.toNat * scenarioConfig.PageSize + 5) = 7 ∧
    ∀ i, i < scenarioConfig.PageSize →
      scenarioBack.2.mainMemory
          ((scenarioBack.1.pageTable 0).physicalPage.toNat * scenarioConfig.PageSize + i) =
        scenarioDirtyMachine.mainMemory
          ((scenarioDirty.pageTable 0).physicalPage.toNat * scenarioConfig.PageSize + i) :=
  ⟨by decide,
    page_contents_survive_eviction scenarioConfig 0 scenarioDirty scenarioEvicted.1
      scenarioBetween.1 scenarioBack.1 scenarioDirtyMachine scenarioEvicted.2
      { scenarioBetween.2 with mainMemory := fun _ => 0 } scenarioBack.2 0 256 0 0
      scenario_reachable_dirty (by decide) (by decide) (by decide) (by decide)
      scenario_evicted_eq (by decide)
      (Relation.ReflTransGen.single
        (StepAway.fault scenarioEvicted.1 scenarioBetween.1 scenarioEvicted.2 scenarioBetween.2
          0 384 (by decide) (by decide) (by decide) rfl))
      (by decide) (by decide) rfl⟩


/-! ## FIFO evicts in load order -/

theorem mod_ne_of_near {m t n : Nat} (h1 : t < n) (h2 : n < t + m) : t % m ≠ n % m := by
  intro h
  have h3 : (n - t) % m = 0 := Nat.sub_mod_eq_zero_of_mod_eq h.symm
  have h4 := Nat.eq_zero_of_dvd_of_lt (Nat.dvd_of_mod_eq_zero h3) (by omega)
  omega

/-- The state of the FIFO queue after the faults on the pages of `pre`, from a
fresh address space: the cursor is the number of faults modulo the capacity,
and each of the last `maxFramesPerProc` pages sits in its slot. -/
theorem faultsFIFO_spec (c : Config) (hm : 0 < c.maxFramesPerProc) :
    ∀ (ps pre : List Int) (s : AddrSpace),
      s.idx = pre.length % c.maxFramesPerProc →
      (∀ t, t < pre.length → pre.length ≤ t + c.maxFramesPerProc →
        s.pagesInMem (t % c.maxFramesPerProc) = pre.getD t 0) →
      (∀ j, pre.length ≤ j → j < c.maxFramesPerProc → s.pagesInMem j = -1) →
      (faultsFIFO c ps s).1.length = ps.length ∧
      (∀ k, k < ps.length → (faultsFIFO c ps s).1.getD k 0 =
        if pre.length + k < c.maxFramesPerProc then -1
        else (pre ++ ps).getD (pre.length + k - c.maxFramesPerProc) 0) ∧
      (faultsFIFO c ps s).2.idx = (pre.length + ps.length) % c.maxFramesPerProc := by
  intro ps
  induction ps with
  | nil =>
    intro pre s hidx _ _
    exact ⟨rfl, fun k hk => absurd hk (Nat.not_lt_zero k), by simpa [faultsFIFO] using hidx⟩
  | cons p ps ih =>
    intro pre s hidx hlast hfree
    have hstep_idx : (findPageFIFO c p s).2.idx = (pre ++ [p]).length % c.maxFramesPerProc := by
      simp only [findPageFIFO, hidx, Nat.mod_add_mod, List.length_append, List.length_singleton]
    have hstep_last : ∀ t, t < (pre ++ [p]).length →
        (pre ++ [p]).length ≤ t + c.maxFramesPerProc →
        (findPageFIFO c p s).2.pagesInMem (t % c.maxFramesPerProc) = (pre ++ [p]).getD t 0 := by
      intro t ht1 ht2
      simp only [List.length_append, List.length_singleton] at ht1 ht2
      simp only [findPageFIFO, hidx]
      rcases Nat.eq_or_lt_of_le (Nat.le_of_lt_succ ht1) with heq | hlt
      · subst heq
        rw [Function.update_same, List.getD_append_right _ _ _ _ le_rfl]
        simp
      · rw [Function.update_noteq (mod_ne_of_near hlt (by omega)), List.getD_append _ _ _ _ hlt]
        exact hlast t hlt (by omega)
    have hstep_free : ∀ j, (pre ++ [p]).length ≤ j → j < c.maxFramesPerProc →
        (findPageFIFO c p s).2.pagesInMem j = -1 := by
      intro j hj1 hj2
      simp only [List.length_append, List.length_singleton] at hj1
      simp only [findPageFIFO, hidx]
      rw [Nat.mod_eq_of_lt (by omega), Function.update_noteq (by omega)]
      exact hfree j (by omega) hj2
    obtain ⟨ih1, ih2, ih3⟩ := ih (pre ++ [p]) (findPageFIFO c p s).2 hstep_idx hstep_last
      hstep_free
    have hvictim : (findPageFIFO c p s).1 =
        if pre.length < c.maxFramesPerProc then -1
        else (pre ++ p :: ps).getD (pre.length - c.maxFramesPerProc) 0 := by
      simp only [findPageFIFO, hidx]
      split_ifs with hlt
      · rw [Nat.mod_eq_of_lt hlt]
        exact hfree _ le_rfl hlt
      · have hsub : (pre.length - c.maxFramesPerProc) % c.maxFramesPerProc =
            pre.length % c.maxFramesPerProc := by
          conv_rhs => rw [show pre.length = pre.length - c.maxFramesPerProc + c.maxFramesPerProc
            by omega]
          rw [Nat.add_mod_right]
        rw [List.getD_append _ _ _ _ (by omega), ← hsub]
        exact hlast _ (by omega) (by omega)
    refine ⟨by simp [faultsFIFO, ih1], fun k hk => ?_, ?_⟩
    · cases k with
      | zero =>
        simp only [faultsFIFO, List.getD_cons_zero, Nat.add_zero]
        exact hvictim
      | succ k =>
        simp only [faultsFIFO, List.getD_cons_succ]
        rw [ih2 k (by simpa using hk)]
        simp only [List.length_append, List.length_singleton, List.append_assoc,
          List.singleton_append]
        have e : pre.length + 1 + k = pre.length + (k + 1) := by omega
        rw [e]
    · have e : (pre ++ [p]).length + ps.length = pre.length + (p :: ps).length := by
        simp only [List.length_append, List.length_cons, List.length_nil]
        omega
      simp only [faultsFIFO]
      rw [ih3, e]

/-- C10: under FIFO with capacity `m = maxFramesPerProc >= 1`, for every
sequence of faults on pages `ps` from a fresh address space, `findPageFIFO`
returns `-1` on the first `m` faults and on every later fault the page loaded
`m` faults earlier (pages are evicted in the order they were loaded), and the
cursor `idx` equals `k mod m` after `k` faults.  Scenario 1 of the spec
(`m = 2`, references 0,1,2,3,0,1 through `replacePage`): six faults, victims
-1,-1,0,1,2,3, frame 0 reused by page 2 and frame 1 by page 3, no page
write. -/
theorem fifo_evicts_in_load_order (c : Config) (hm : 1 ≤ c.maxFramesPerProc) (ps : List Int)
    (spaceID numPages : Nat) (swap : OpenFile) (refStr : List Nat) :
    (faultsFIFO c ps (AddrSpace.fresh spaceID numPages swap refStr)).1.length = ps.length ∧
    (∀ k, k < ps.length →
      (faultsFIFO c ps (AddrSpace.fresh spaceID numPages swap refStr)).1.getD k 0 =
        if k < c.maxFramesPerProc then -1 else ps.getD (k - c.maxFramesPerProc) 0) ∧
    (∀ k, k ≤ ps.length →
      (faultsFIFO c (ps.take k) (AddrSpace.fresh spaceID numPages swap refStr)).2.idx =
        k % c.maxFramesPerProc) ∧
    (victimsOf scenarioConfig 0 [0, 128, 256, 384, 0, 128] (scenarioSpace, scenarioMachine) =
        [-1, -1, 0, 1, 2, 3] ∧
      ((scenarioAfter [0]).1.pageTable 0).physicalPage = 0 ∧
      ((scenarioAfter [0, 128]).1.pageTable 1).physicalPage = 1 ∧
      ((scenarioAfter [0, 128, 256]).1.pageTable 2).physicalPage = 0 ∧
      ((scenarioAfter [0, 128, 256]).1.pageTable 2).valid = true ∧
      ((scenarioAfter [0, 128, 256, 384]).1.pageTable 3).physicalPage = 1 ∧
      ((scenarioAfter [0, 128, 256, 384]).1.pageTable 3).valid = true ∧
      (runFaults scenarioConfig 0 [0, 128, 256, 384, 0, 128]
        (scenarioSpace, scenarioMachine)).isSome = true ∧
      (scenarioAfter [0, 128, 256, 384, 0, 128]).2.numPageFaults = 6 ∧
      (scenarioAfter [0, 128, 256, 384, 0, 128]).2.numPageWrites = 0) := by
  have hfresh := fun (qs : List Int) =>
    faultsFIFO_spec c hm qs [] (AddrSpace.fresh spaceID numPages swap refStr) (by simp [AddrSpace.fresh])
      (fun t ht _ => absurd ht (Nat.not_lt_zero t)) (fun _ _ _ => rfl)
  obtain ⟨h1, h2, -⟩ := hfresh ps
  refine ⟨h1, fun k hk => ?_, fun k hk => ?_, by decide⟩
  · have := h2 k hk
    simpa using this
  · obtain ⟨-, -, h3⟩ := hfresh (ps.take k)
    rw [h3, List.length_take, min_eq_left hk]
    simp

/-- Witness of C10: capacity 2 and the reference string 0,1,2,3,0,1. -/
theorem fifo_evicts_in_load_order_witness :
    (faultsFIFO scenarioConfig [0, 1, 2, 3, 0, 1] scenarioSpace).1 = [-1, -1, 0, 1, 2, 3] ∧
    (faultsFIFO scenarioConfig [0, 1, 2, 3, 0, 1] scenarioSpace).1.length = 6 ∧
    (∀ k, k < 6 →
      (faultsFIFO scenarioConfig [0, 1, 2, 3, 0, 1] scenarioSpace).1.getD k 0 =
        if k < 2 then -1 else ([0, 1, 2, 3, 0, 1] : List Int).getD (k - 2) 0) ∧
    (∀ k, k ≤ 6 →
      (faultsFIFO scenarioConfig (([0, 1, 2, 3, 0, 1] : List Int).take k) scenarioSpace).2.idx =
        k % 2) :=
  ⟨by decide,
    (fifo_evicts_in_load_order scenarioConfig (by decide) [0, 1, 2, 3, 0, 1] 0 4
      { length := 512, data := fun a => a % 251 } []).1,
    (fifo_evicts_in_load_order scenarioConfig (by decide) [0, 1, 2, 3, 0, 1] 0 4
      { length := 512, data := fun a => a % 251 } []).2.1,
    (fifo_evicts_in_load_order scenarioConfig (by decide) [0, 1, 2, 3, 0, 1] 0 4
      { length := 512, data := fun a => a % 251 } []).2.2.1⟩


/-! ## Frames are owned exclusively -/

theorem BitMap.Find_nonneg {b : BitMap} (h : 0 ≤ (b.Find).1) :
    (b.Find).1.toNat < b.numBits ∧ b.map (b.Find).1.toNat = false ∧
      (b.Find).2.numBits = b.numBits ∧
      (b.Find).2.map = Function.update b.map (b.Find).1.toNat true := by
  unfold BitMap.Find at h ⊢
  cases hfind : (List.range b.numBits).find? (fun i => !b.map i) with
  | none => rw [hfind] at h; simp at h
  | some i =>
    have h1 := List.find?_some hfind
    have h2 := List.mem_of_find?_eq_some hfind
    dsimp only
    rw [Int.toNat_natCast]
    exact ⟨List.mem_range.mp h2, by simpa using h1, rfl, rfl⟩

theorem AddrSpace.releaseFrames_keep (s : AddrSpace) (b : BitMap) (y : Nat) :
    ∀ n, (∀ x, x < n → (s.pageTable x).valid = true → (s.pageTable x).physicalPage.toNat ≠ y) →
      (s.releaseFrames b n).map y = b.map y ∧ (s.releaseFrames b n).numBits = b.numBits := by
  intro n
  induction n with
  | zero => intro _; exact ⟨rfl, rfl⟩
  | succ n ih =>
    intro h
    obtain ⟨ih1, ih2⟩ := ih (fun x hx => h x (by omega))
    unfold AddrSpace.releaseFrames
    split_ifs with hv
    · simp only [BitMap.Clear]
      rw [Function.update_noteq (Ne.symm (h n (by omega) hv))]
      exact ⟨ih1, ih2⟩
    · exact ⟨ih1, ih2⟩

/-- The resident pages of a space after a page fault: the incoming page, and
the pages that were resident before other than the victim, with their frames. -/
theorem replacePage_residents {c : Config} {rnd badVAddr : Nat} {s s' : AddrSpace} {k k' : Machine}
    (hinv : Inv c s) (h : replacePage c rnd badVAddr s k = some (s', k')) :
    ∃ v : Int,
      (∀ x, x ≠ badVAddr / c.PageSize → s'.resident x →
        s.resident x ∧ (s'.pageTable x).physicalPage = (s.pageTable x).physicalPage ∧
          (0 ≤ v → x ≠ v.toNat)) ∧
      (v < 0 → 0 ≤ (k.freeMM_Map.Find).1 ∧
        (s'.pageTable (badVAddr / c.PageSize)).physicalPage = (k.freeMM_Map.Find).1 ∧
        k'.freeMM_Map = (k.freeMM_Map.Find).2) ∧
      (0 ≤ v → s.resident v.toNat ∧
        (s'.pageTable (badVAddr / c.PageSize)).physicalPage =
          (s.pageTable v.toNat).physicalPage ∧
        k'.freeMM_Map = k.freeMM_Map) := by
  obtain ⟨v, s1, hf, -, -, -, hneg, hpos⟩ := replacePage_entries h
  obtain ⟨-, -, -, -, hn, -, -, -⟩ := replacePage_io h
  obtain ⟨v', s1', hf', hfind⟩ :=
    @findVictim_ok c s ((badVAddr / c.PageSize : Nat) : Int) rnd hinv.shape (Int.ofNat_nonneg _)
  rw [hf] at hf'
  cases hf'
  obtain ⟨w2, t2, hf2, -, hn, -, -, -⟩ := replacePage_io h
  rw [hf] at hf2
  cases hf2
  have hnum : s'.numPages = s.numPages := hn.trans hfind.numPages
  refine ⟨v, fun x hx hres => ?_, fun hv => ?_, fun hv => ?_⟩
  · rcases lt_or_le v 0 with hv | hv
    · have he := (hneg hv).2.2.2 x hx
      refine ⟨⟨hnum ▸ hres.1, ?_⟩, ?_, fun h0 => absurd hv (not_lt.mpr h0)⟩
      · rw [← (hfind.entries x).1, ← he]; exact hres.2
      · rw [he, (hfind.entries x).2.2]
    · have hxv : x ≠ v.toNat := by
        intro hxv
        have hvr := hfind.victim_listed hinv hv
        have hvne : v.toNat ≠ badVAddr / c.PageSize := hxv ▸ hx
        have h3 := (hpos hv).2.2.1 hvne
        rw [← hxv] at h3
        rw [hres.2] at h3
        cases h3
      have he := (hpos hv).2.2.2 x hx hxv
      refine ⟨⟨hnum ▸ hres.1, ?_⟩, ?_, fun _ => hxv⟩
      · rw [← (hfind.entries x).1, ← he]; exact hres.2
      · rw [he, (hfind.entries x).2.2]
  · exact ⟨(hneg hv).1, (hneg hv).2.1, (hneg hv).2.2.1⟩
  · refine ⟨hfind.victim_listed hinv hv, ?_, (hpos hv).2.1⟩
    rw [(hpos hv).1, (hfind.entries _).2.2]

theorem Kernel.Inv.boot (c : Config) (mem : Nat → Nat) : Kernel.Inv c (Kernel.boot c mem) :=
  ⟨fun _ _ h => (by cases h), fun _ _ _ h => (by cases h), fun _ _ _ _ _ _ h => (by cases h)⟩

theorem Kernel.Inv.step {c : Config} {K K1 : Kernel} (hm : 0 < c.maxFramesPerProc)
    (hinv : Kernel.Inv c K) (hstep : Kernel.Step c K K1) : Kernel.Inv c K1 := by
  cases hstep with
  | construct numPages swap refStr id hcon =>
    unfold Kernel.construct at hcon
    cases hfind : (List.range c.NumPhysPages).find? (fun i => !K.ProgMap i) with
    | none => rw [hfind] at hcon; cases hcon
    | some i =>
      rw [hfind] at hcon
      dsimp only at hcon
      split_ifs at hcon with hassert
      cases hcon
      have hold : ∀ id' s' v', Function.update K.spaces id
          (some (AddrSpace.fresh id numPages swap refStr)) id' = some s' → s'.resident v' →
          K.spaces id' = some s' := by
        intro id' s' v' hsp hres
        by_cases hid : id' = id
        · subst hid
          rw [Function.update_same] at hsp
          cases hsp
          have := hres.2
          simp [AddrSpace.fresh] at this
        · rwa [Function.update_noteq hid] at hsp
      refine ⟨fun id' s' hsp => ?_, fun id' s' v' hsp hres => ?_,
        fun id1 id2 s1 s2 v1 v2 h1 h2 hr1 hr2 hfr => ?_⟩
      · dsimp only at hsp
        by_cases hid : id' = id
        · subst hid
          rw [Function.update_same] at hsp
          cases hsp
          exact Nachos.Inv.of_fresh c _ _ _ _ hm
        · rw [Function.update_noteq hid] at hsp
          exact hinv.spaces id' s' hsp
      · exact hinv.marked id' s' v' (hold id' s' v' hsp hres) hres
      · exact hinv.unique id1 id2 s1 s2 v1 v2 (hold _ _ _ h1 hr1) (hold _ _ _ h2 hr2) hr1 hr2 hfr
  | fault id rnd badVAddr s hs hrange hnres hpf =>
    unfold Kernel.pageFault at hpf
    rw [hs] at hpf
    dsimp only at hpf
    cases hrep : replacePage c rnd badVAddr s K.machine with
    | none => rw [hrep] at hpf; cases hpf
    | some r =>
      obtain ⟨s1, k1⟩ := r
      rw [hrep] at hpf
      cases hpf
      have hsinv := hinv.spaces id s hs
      have hs1inv := hsinv.after_replacePage hrange hnres hrep
      obtain ⟨v, hold, hneg, hpos⟩ := replacePage_residents hsinv hrep
      have hmap : ∀ y, K.machine.freeMM_Map.map y = true → k1.freeMM_Map.map y = true := by
        intro y hy
        rcases lt_or_le v 0 with hv | hv
        · obtain ⟨h0, -, hk⟩ := hneg hv
          rw [hk, (BitMap.Find_nonneg h0).2.2.2, Function.update_apply]
          split_ifs
          · rfl
          · exact hy
        · rw [(hpos hv).2.2]; exact hy
      have hbits : k1.freeMM_Map.numBits = K.machine.freeMM_Map.numBits := by
        rcases lt_or_le v 0 with hv | hv
        · obtain ⟨h0, -, hk⟩ := hneg hv
          rw [hk, (BitMap.Find_nonneg h0).2.2.1]
        · rw [(hpos hv).2.2]
      -- every resident entry afterwards is the incoming page or an old one
      have horigin : ∀ id' s' v', Function.update K.spaces id (some s1) id' = some s' →
          s'.resident v' →
          (id' = id ∧ s' = s1 ∧ v' = badVAddr / c.PageSize) ∨
          (∃ s0, K.spaces id' = some s0 ∧ s0.resident v' ∧
            (s'.pageTable v').physicalPage = (s0.pageTable v').physicalPage ∧
            (id' = id → 0 ≤ v → v' ≠ v.toNat)) := by
        intro id' s' v' hsp hres
        by_cases hid : id' = id
        · subst hid
          rw [Function.update_same] at hsp
          cases hsp
          by_cases hv' : v' = badVAddr / c.PageSize
          · exact Or.inl ⟨rfl, rfl, hv'⟩
          · obtain ⟨h1, h2, h3⟩ := hold v' hv' hres
            exact Or.inr ⟨s, hs, h1, h2, fun _ => h3⟩
        · rw [Function.update_noteq hid] at hsp
          exact Or.inr ⟨s', hsp, hres, rfl, fun h => absurd h hid⟩
      -- the frame of the incoming page is marked, and no old entry holds it
      have hnew : (s1.pageTable (badVAddr / c.PageSize)).physicalPage.toNat <
            k1.freeMM_Map.numBits ∧
          k1.freeMM_Map.map (s1.pageTable (badVAddr / c.PageSize)).physicalPage.toNat = true := by
        rcases lt_or_le v 0 with hv | hv
        · obtain ⟨h0, hfr, hk⟩ := hneg hv
          obtain ⟨f1, -, f3, f4⟩ := BitMap.Find_nonneg h0
          rw [hfr, hk, f3, f4, Function.update_same]
          exact ⟨f1, rfl⟩
        · obtain ⟨hvr, hfr, hk⟩ := hpos hv
          rw [hfr, hk]
          exact hinv.marked id s _ hs hvr
      have hfresh : ∀ id' s0 v', K.spaces id' = some s0 → s0.resident v' →
          (id' = id → 0 ≤ v → v' ≠ v.toNat) →
          (s0.pageTable v').physicalPage ≠
            (s1.pageTable (badVAddr / c.PageSize)).physicalPage := by
        intro id' s0 v' hsp hres hnv heq
        rcases lt_or_le v 0 with hv | hv
        · obtain ⟨h0, hfr, -⟩ := hneg hv
          obtain ⟨-, f2, -, -⟩ := BitMap.Find_nonneg h0
          have hmk := (hinv.marked id' s0 v' hsp hres).2
          rw [heq, hfr, f2] at hmk
          cases hmk
        · obtain ⟨hvr, hfr, -⟩ := hpos hv
          rw [hfr] at heq
          obtain ⟨e1, e2⟩ := hinv.unique id' id s0 s v' v.toNat hsp hs hres hvr heq
          exact hnv e1 hv e2
      refine ⟨fun id' s' hsp => ?_, fun id' s' v' hsp hres => ?_,
        fun id1 id2 s1' s2' v1 v2 h1 h2 hr1 hr2 hfr => ?_⟩
      · dsimp only at hsp
        by_cases hid : id' = id
        · subst hid
          rw [Function.update_same] at hsp
          cases hsp
          exact hs1inv
        · rw [Function.update_noteq hid] at hsp
          exact hinv.spaces id' s' hsp
      · rcases horigin id' s' v' hsp hres with ⟨-, rfl, rfl⟩ | ⟨s0, hsp0, hres0, hfr0, -⟩
        · exact hnew
        · obtain ⟨m1, m2⟩ := hinv.marked id' s0 v' hsp0 hres0
          rw [hfr0]
          exact ⟨hbits ▸ m1, hmap _ m2⟩
      · rcases horigin id1 s1' v1 h1 hr1 with ⟨rfl, rfl, rfl⟩ | ⟨a0, ha, hra, hfa, hna⟩
        · rcases horigin id2 s2' v2 h2 hr2 with ⟨rfl, -, rfl⟩ | ⟨b0, hb, hrb, hfb, hnb⟩
          · exact ⟨rfl, rfl⟩
          · exfalso
            exact hfresh id2 b0 v2 hb hrb hnb (by rw [← hfb, ← hfr])
        · rcases horigin id2 s2' v2 h2 hr2 with ⟨rfl, rfl, rfl⟩ | ⟨b0, hb, hrb, hfb, hnb⟩
          · exfalso
            exact hfresh id1 a0 v1 ha hra hna (by rw [← hfa, hfr])
          · exact hinv.unique id1 id2 a0 b0 v1 v2 ha hb hra hrb (by rw [← hfa, ← hfb, hfr])
  | destroy id hdes =>
    unfold Kernel.destroy at hdes
    cases hs : K.spaces id with
    | none => rw [hs] at hdes; cases hdes
    | some s =>
      rw [hs] at hdes
      cases hdes
      have hold : ∀ id' s', Function.update K.spaces id none id' = some s' →
          id' ≠ id ∧ K.spaces id' = some s' := by
        intro id' s' hsp
        by_cases hid : id' = id
        · subst hid
          rw [Function.update_same] at hsp
          cases hsp
        · rw [Function.update_noteq hid] at hsp
          exact ⟨hid, hsp⟩
      refine ⟨fun id' s' hsp => hinv.spaces id' s' (hold id' s' hsp).2,
        fun id' s' v' hsp hres => ?_,
        fun id1 id2 s1 s2 v1 v2 h1 h2 hr1 hr2 hfr =>
          hinv.unique id1 id2 s1 s2 v1 v2 (hold _ _ h1).2 (hold _ _ h2).2 hr1 hr2 hfr⟩
      obtain ⟨hid, hsp0⟩ := hold id' s' hsp
      obtain ⟨m1, m2⟩ := hinv.marked id' s' v' hsp0 hres
      have hkeep := s.releaseFrames_keep K.machine.freeMM_Map
        (s'.pageTable v').physicalPage.toNat s.numPages (by
          intro x hx hvx heq
          have hrx : s.resident x := ⟨hx, hvx⟩
          have f1 := (hinv.spaces id s hs).frame x hrx
          have f2 := (hinv.spaces id' s' hsp0).frame v' hres
          have : (s.pageTable x).physicalPage = (s'.pageTable v').physicalPage := by omega
          exact hid (hinv.unique id id' s s' x v' hs hsp0 hrx hres this).1.symm)
      dsimp only
      rw [hkeep.1, hkeep.2]
      exact ⟨m1, m2⟩

theorem Kernel.Reachable.kernel_inv {c : Config} {K : Kernel} (h : Kernel.Reachable c K) :
    Kernel.Inv c K := by
  obtain ⟨hm, -, mem, hsteps⟩ := h
  induction hsteps with
  | refl => exact Kernel.Inv.boot c mem
  | tail _ hstep ih => exact ih.step hm hstep

/-- C3: in every state of the kernel reachable from boot by constructing
address spaces, page faults on non-resident pages of any live space and
destroying spaces, all on one free-frame bitmap, no two valid page-table
entries (of the same or of different address spaces) have the same
`physicalPage`, and the frame of every valid entry is a bit of the bitmap that
is marked allocated. -/
theorem frames_owned_exclusively (c : Config) (K : Kernel) (hreach : Kernel.Reachable c K) :
    (∀ id1 id2 s1 s2 v1 v2, K.spaces id1 = some s1 → K.spaces id2 = some s2 →
      s1.resident v1 → s2.resident v2 →
      (s1.pageTable v1).physicalPage = (s2.pageTable v2).physicalPage → id1 = id2 ∧ v1 = v2) ∧
    (∀ id s v, K.spaces id = some s → s.resident v →
      0 ≤ (s.pageTable v).physicalPage ∧
      (s.pageTable v).physicalPage.toNat < K.machine.freeMM_Map.numBits ∧
      K.machine.freeMM_Map.map (s.pageTable v).physicalPage.toNat = true) := by
  have hinv := hreach.kernel_inv
  refine ⟨hinv.unique, fun id s v hs hres => ?_⟩
  obtain ⟨m1, m2⟩ := hinv.marked id s v hs hres
  exact ⟨(hinv.spaces id s hs).frame v hres, m1, m2⟩

theorem scenario_kernel_reachable : Kernel.Reachable scenarioConfig scenarioTwoFaults :=
  ⟨by decide, by decide, fun _ => 0,
    Relation.ReflTransGen.tail
      (Relation.ReflTransGen.tail
        (Relation.ReflTransGen.tail
          (Relation.ReflTransGen.single
            (Kernel.Step.construct scenarioBoot
              ((scenarioBoot.construct scenarioConfig 4
                { length := 512, data := fun a => a % 251 } []).getD (0, scenarioBoot)).2
              4 { length := 512, data := fun a => a % 251 } [] 0 rfl))
          (Kernel.Step.construct _ scenarioTwoSpaces 4 { length := 512, data := fun _ => 9 } [] 1
            rfl))
        (Kernel.Step.fault scenarioTwoSpaces
          ((scenarioTwoSpaces.pageFault scenarioConfig 0 0 0).getD scenarioTwoSpaces) 0 0 0
          (AddrSpace.fresh 0 4 { length := 512, data := fun a => a % 251 } []) rfl
          (by decide) (by decide) rfl))
      (Kernel.Step.fault _ scenarioTwoFaults 1 0 0
        (AddrSpace.fresh 1 4 { length := 512, data := fun _ => 9 } []) rfl
        (by decide) (by decide) rfl)⟩

/-- Witness of C3: two address spaces, each with its page 0 resident. -/
theorem frames_owned_exclusively_witness :
    (∀ id1 id2 s1 s2 v1 v2, scenarioTwoFaults.spaces id1 = some s1 →
      scenarioTwoFaults.spaces id2 = some s2 → s1.resident v1 → s2.resident v2 →
      (s1.pageTable v1).physicalPage = (s2.pageTable v2).physicalPage → id1 = id2 ∧ v1 = v2) ∧
    (∀ id s v, scenarioTwoFaults.spaces id = some s → s.resident v →
      0 ≤ (s.pageTable v).physicalPage ∧
      (s.pageTable v).physicalPage.toNat < scenarioTwoFaults.machine.freeMM_Map.numBits ∧
      scenarioTwoFaults.machine.freeMM_Map.map (s.pageTable v).physicalPage.toNat = true) :=
  frames_owned_exclusively scenarioConfig scenarioTwoFaults scenario_kernel_reachable


/-! ## The OPT cursor and the replay of a reference string -/

/-- C19: for a reference string `s` of length `n`, a cursor `refIdx < n` and
any `vpn`, `updatePageOpt(vpn)` leaves the state unchanged when
`s[refIdx] = vpn`; increases `refIdx` by exactly one and changes nothing else
when `s[refIdx] != vpn`, `refIdx + 1 < n` and `s[refIdx+1] = vpn`; and in every
other case (string exhausted, or next entry different from `vpn`) takes the
fatal path (`none`). -/
theorem updatePageOpt_cases (vpn : Int) (s : AddrSpace) (_h : s.refIdx < s.optRefStr.length) :
    (((s.optRefStr.getD s.refIdx 0 : Nat) : Int) = vpn → updatePageOpt vpn s = some s) ∧
    (((s.optRefStr.getD s.refIdx 0 : Nat) : Int) ≠ vpn → s.refIdx + 1 < s.optRefStr.length →
      ((s.optRefStr.getD (s.refIdx + 1) 0 : Nat) : Int) = vpn →
      updatePageOpt vpn s = some { s with refIdx := s.refIdx + 1 }) ∧
    (((s.optRefStr.getD s.refIdx 0 : Nat) : Int) ≠ vpn →
      (s.optRefStr.length ≤ s.refIdx + 1 ∨
        ((s.optRefStr.getD (s.refIdx + 1) 0 : Nat) : Int) ≠ vpn) →
      updatePageOpt vpn s = none) := by
  refine ⟨fun h1 => ?_, fun h1 h2 h3 => ?_, fun h1 h2 => ?_⟩
  · unfold updatePageOpt
    rw [if_pos h1]
  · unfold updatePageOpt
    rw [if_neg h1, if_neg (by omega), if_neg (not_not.mpr h3)]
  · unfold updatePageOpt
    rw [if_neg h1]
    rcases h2 with h2 | h2
    · rw [if_pos h2]
    · split_ifs <;> rfl

/-- Witness of C19: the string `5, 7` with the cursor on its first entry and
`vpn = 7`. -/
theorem updatePageOpt_cases_witness :
    (((optSkipSpace.optRefStr.getD optSkipSpace.refIdx 0 : Nat) : Int) = 7 →
      updatePageOpt 7 optSkipSpace = some optSkipSpace) ∧
    (((optSkipSpace.optRefStr.getD optSkipSpace.refIdx 0 : Nat) : Int) ≠ 7 →
      optSkipSpace.refIdx + 1 < optSkipSpace.optRefStr.length →
      ((optSkipSpace.optRefStr.getD (optSkipSpace.refIdx + 1) 0 : Nat) : Int) = 7 →
      updatePageOpt 7 optSkipSpace =
        some { optSkipSpace with refIdx := optSkipSpace.refIdx + 1 }) ∧
    (((optSkipSpace.optRefStr.getD optSkipSpace.refIdx 0 : Nat) : Int) ≠ 7 →
      (optSkipSpace.optRefStr.length ≤ optSkipSpace.refIdx + 1 ∨
        ((optSkipSpace.optRefStr.getD (optSkipSpace.refIdx + 1) 0 : Nat) : Int) ≠ 7) →
      updatePageOpt 7 optSkipSpace = none) :=
  updatePageOpt_cases 7 optSkipSpace (by decide)

/-- C17: under OPT with `maxFramesPerProc = 3` and the loaded reference string
7,0,1,2,0,3,0,4,2,3,0,3,2, driving the same references through the address
space (miss: `replacePage` then `updatePage`; hit: `updatePage`) returns from
every call, makes exactly 7 calls of `replacePage` (`numPageFaults = 7`), and
ends with the cursor on the last entry of the string. -/
theorem belady_example_seven_faults :
    (drive optConfig 0 [7, 0, 1, 2, 0, 3, 0, 4, 2, 3, 0, 3, 2]
        (beladySpace, scenarioMachine)).map
      (fun r => (r.1, r.2.2.numPageFaults, r.2.1.refIdx)) = some (7, 7, 12) := by
  decide

/-- C18 (the code departs from the claim): replaying the string 0,1,2,0 under
OPT with two frames makes 4 page faults, while evicting page 1 at the third
reference serves the string with 3; and replaying 0,1,0,2,1 makes 4 page faults
under OPT and 3 under FIFO.  `findPageOpt` searches the next use from `refIdx`,
which at the time of the fault is the index of the previous reference, so the
page referenced last has distance 0 and is kept even when it is never used
again. -/
theorem opt_replay_not_minimal :
    (drive optTwoConfig 0 [0, 1, 2, 0] (optShortSpace, scenarioMachine)).map (fun r => r.1) =
      some 4 ∧
    faultsWith 2 [0, 1, 2, 0] [] [1] = some 3 ∧
    (drive optTwoConfig 0 [0, 1, 0, 2, 1] (optLateSpace, scenarioMachine)).map (fun r => r.1) =
      some 4 ∧
    (drive scenarioConfig 0 [0, 1, 0, 2, 1] (scenarioSpace, scenarioMachine)).map (fun r => r.1) =
      some 3 := by
  decide

/-- C20 (the code departs from the claim): with the reference string `5, 7`
loaded and `refIdx = 0`, the single call `updatePage(7)` returns without a
fatal path and leaves `refIdx = 1`; the vpns passed, collapsed, are `[7]`, the
part of the string consumed so far is `[5, 7]`.  A first vpn that differs from
`s[0]` and equals `s[1]` is accepted, so entry 0 is skipped unnoticed. -/
theorem updatePage_skips_first_entry :
    (updatePages optConfig [7] optSkipSpace).map
      (fun s => (s.refIdx, s.optRefStr.take (s.refIdx + 1))) = some (1, [5, 7]) ∧
    collapse [7] = [7] ∧
    collapse [7] ≠ [5, 7] := by
  decide


/-! ## Driving references through an address space -/

theorem updatePage_numPages {c : Config} {vpn : Int} {s t : AddrSpace}
    (h : updatePage c vpn s = some t) : t.numPages = s.numPages := by
  unfold updatePage at h
  split_ifs at h with h1 h2
  · cases h
    rw [(recordRef_keeps c vpn (updatePageLRU c vpn s)).2.2.2.2.1]
    unfold updatePageLRU
    split <;> rfl
  · exact (updatePageOpt_keeps h).2.2.2.2.1
  · cases h
    exact (recordRef_keeps c vpn s).2.2.2.2.1

theorem replacePage_numPages {c : Config} {rnd badVAddr : Nat} {s s' : AddrSpace} {k k' : Machine}
    (hinv : Inv c s) (h : replacePage c rnd badVAddr s k = some (s', k')) :
    s'.numPages = s.numPages := by
  obtain ⟨v, s1, hf, -, hn, -, -, -⟩ := replacePage_io h
  obtain ⟨v', s1', hf', hfind⟩ :=
    @findVictim_ok c s ((badVAddr / c.PageSize : Nat) : Int) rnd hinv.shape (Int.ofNat_nonneg _)
  rw [hf] at hf'
  cases hf'
  rw [hn, hfind.numPages]

/-- One reference of `drive`: a hit, or a miss with its page fault. -/
theorem drive_cons {c : Config} {rnd v : Nat} {rest : List Nat} {st : AddrSpace × Machine}
    {r : Nat × AddrSpace × Machine} (h : drive c rnd (v :: rest) st = some r) :
    ((st.1.pageTable v).valid = true ∧
      ∃ s1, updatePage c (v : Int) st.1 = some s1 ∧ drive c rnd rest (s1, st.2) = some r) ∨
    ((st.1.pageTable v).valid = false ∧
      ∃ s1 k1 s2 r1, replacePage c rnd (v * c.PageSize) st.1 st.2 = some (s1, k1) ∧
        updatePage c (v : Int) s1 = some s2 ∧ drive c rnd rest (s2, k1) = some r1 ∧
        r = (r1.1 + 1, r1.2)) := by
  unfold drive at h
  by_cases hv : (st.1.pageTable v).valid = true
  · rw [if_pos hv] at h
    left
    refine ⟨hv, ?_⟩
    cases hu : updatePage c (v : Int) st.1 with
    | none => rw [hu] at h; cases h
    | some s1 => rw [hu] at h; exact ⟨s1, rfl, h⟩
  · rw [if_neg hv] at h
    right
    refine ⟨by simpa using hv, ?_⟩
    cases hr : replacePage c rnd (v * c.PageSize) st.1 st.2 with
    | none => rw [hr] at h; cases h
    | some st1 =>
      rw [hr] at h
      dsimp only at h
      cases hu : updatePage c (v : Int) st1.1 with
      | none => rw [hu] at h; cases h
      | some s2 =>
        rw [hu] at h
        dsimp only at h
        cases hd : drive c rnd rest (s2, st1.2) with
        | none => rw [hd] at h; cases h
        | some r1 =>
          rw [hd] at h
          exact ⟨st1.1, st1.2, s2, r1, rfl, hu, hd, (Option.some.inj h).symm⟩

/-- The states `drive` passes through are reachable. -/
theorem drive_reachable {c : Config} {rnd : Nat} (hps : 0 < c.PageSize) :
    ∀ (refs : List Nat) (st : AddrSpace × Machine) (r : Nat × AddrSpace × Machine),
      Reachable c st.1 → (∀ v, v ∈ refs → v < st.1.numPages) →
      drive c rnd refs st = some r → Reachable c r.2.1 ∧ r.2.1.numPages = st.1.numPages := by
  intro refs
  induction refs with
  | nil =>
    intro st r hreach _ h
    cases h
    exact ⟨hreach, rfl⟩
  | cons v rest ih =>
    intro st r hreach hrange h
    have hv := hrange v (List.mem_cons_self _ _)
    rcases drive_cons h with ⟨hvalid, s1, hu, hd⟩ | ⟨hvalid, s1, k1, s2, r1, hr, hu, hd, hreq⟩
    · have hn := updatePage_numPages hu
      have h1 := Reachable.touch st.1 s1 v hreach ⟨hv, hvalid⟩ hu
      obtain ⟨g1, g2⟩ := ih (s1, st.2) r h1
        (fun w hw => hn ▸ hrange w (List.mem_cons_of_mem _ hw)) hd
      exact ⟨g1, g2.trans hn⟩
    · have hdiv : v * c.PageSize / c.PageSize = v := Nat.mul_div_cancel v hps
      have hn1 := replacePage_numPages hreach.inv_holds hr
      have h1 := Reachable.fault st.1 s1 st.2 k1 rnd (v * c.PageSize) hreach
        (by rw [hdiv]; exact hv) (by rw [hdiv]; exact hvalid) hr
      obtain ⟨w, t, -, hval, -, -, -, -⟩ := replacePage_entries hr
      rw [hdiv] at hval
      have hn2 := updatePage_numPages hu
      have h2 := Reachable.touch s1 s2 v h1 ⟨hn1 ▸ hv, hval⟩ hu
      obtain ⟨g1, g2⟩ := ih (s2, k1) r1 h2
        (fun w hw => by rw [hn2, hn1]; exact hrange w (List.mem_cons_of_mem _ hw)) hd
      rw [hreq]
      exact ⟨g1, g2.trans (hn2.trans hn1)⟩

/-! ## Second-Chance: which slot is evicted -/

theorem findPage2ndChanceLoop_mono_le {c : Config} {inPage : Int} {s : AddrSpace}
    {r : Int × AddrSpace} :
    ∀ (extra fuel : Nat), findPage2ndChanceLoop c inPage fuel s = some r →
      findPage2ndChanceLoop c inPage (fuel + extra) s = some r := by
  intro extra
  induction extra with
  | zero => intro fuel h; exact h
  | succ n ih => intro fuel h; exact findPage2ndChanceLoop_mono _ s r (ih fuel h)

/-- The loop of `findPage2ndChance` when the first clear use bit is at offset
`k < maxFramesPerProc` from the cursor. -/
theorem findPage2ndChanceLoop_scan {c : Config} {inPage : Int} (hm : 0 < c.maxFramesPerProc) :
    ∀ (k : Nat) (s : AddrSpace), s.idx < c.maxFramesPerProc → k < c.maxFramesPerProc →
      (∀ j, j < c.maxFramesPerProc → 0 ≤ s.pagesInMem j) →
      (∀ i j, i < c.maxFramesPerProc → j < c.maxFramesPerProc →
        s.pagesInMem i = s.pagesInMem j → i = j) →
      (∀ j, j < k →
        (s.pageTable (s.pagesInMem ((s.idx + j) % c.maxFramesPerProc)).toNat).use = true) →
      (s.pageTable (s.pagesInMem ((s.idx + k) % c.maxFramesPerProc)).toNat).use = false →
      ∃ t, findPage2ndChanceLoop c inPage (k + 1) s =
          some (s.pagesInMem ((s.idx + k) % c.maxFramesPerProc), t) ∧
        t.pagesInMem =
          Function.update s.pagesInMem ((s.idx + k) % c.maxFramesPerProc) inPage ∧
        t.idx = (s.idx + k + 1) % c.maxFramesPerProc ∧
        (∀ j, j < k →
          t.pageTable (s.pagesInMem ((s.idx + j) % c.maxFramesPerProc)).toNat =
            { s.pageTable (s.pagesInMem ((s.idx + j) % c.maxFramesPerProc)).toNat with
              use := false }) ∧
        (∀ x, (∀ j, j < k → x ≠ (s.pagesInMem ((s.idx + j) % c.maxFramesPerProc)).toNat) →
          t.pageTable x = s.pageTable x) := by
  intro k
  induction k with
  | zero =>
    intro s hidx _ hfull _ _ hat
    rw [Nat.add_zero, Nat.mod_eq_of_lt hidx] at hat
    have h0 : ¬ s.pagesInMem s.idx < 0 := by have := hfull _ hidx; omega
    refine ⟨{ s with
        pagesInMem := Function.update s.pagesInMem s.idx inPage
        idx := (s.idx + 1) % c.maxFramesPerProc }, ?_, ?_, ?_,
      fun j hj => absurd hj (Nat.not_lt_zero j), fun x _ => ?_⟩
    · unfold findPage2ndChanceLoop
      rw [if_neg h0, if_neg (by rw [hat]; simp)]
      simp only [Nat.add_zero, Nat.mod_eq_of_lt hidx]
    · simp only [Nat.add_zero, Nat.mod_eq_of_lt hidx]
    · rfl
    · rfl
  | succ k ih =>
    intro s hidx hk hfull hinj hbefore hat
    have h0 : ¬ s.pagesInMem s.idx < 0 := by have := hfull _ hidx; omega
    have huse0 : (s.pageTable (s.pagesInMem s.idx).toNat).use = true := by
      have := hbefore 0 (Nat.succ_pos k)
      rwa [Nat.add_zero, Nat.mod_eq_of_lt hidx] at this
    have hshift : ∀ j, ((s.idx + 1) % c.maxFramesPerProc + j) % c.maxFramesPerProc =
        (s.idx + (j + 1)) % c.maxFramesPerProc := by
      intro j
      rw [Nat.mod_add_mod]
      congr 1
      omega
    -- the page under the cursor differs from the pages at the later offsets
    have hne : ∀ j, j < k + 1 →
        (s.pagesInMem ((s.idx + (j + 1)) % c.maxFramesPerProc)).toNat ≠
          (s.pagesInMem s.idx).toNat := by
      intro j hj heq
      have h1 := hfull ((s.idx + (j + 1)) % c.maxFramesPerProc) (Nat.mod_lt _ hm)
      have h2 := hfull s.idx hidx
      have h3 := hinj ((s.idx + (j + 1)) % c.maxFramesPerProc) s.idx (Nat.mod_lt _ hm) hidx
        (by omega)
      have h4 : (s.idx + (j + 1)) % c.maxFramesPerProc = (s.idx + 0) % c.maxFramesPerProc := by
        rw [h3]; exact (Nat.mod_eq_of_lt hidx).symm
      have := slot_inj (by omega) hm h4
      omega
    obtain ⟨t, hrun, hpages, hidx', hcleared, hother⟩ := ih
      ({ s with
          pageTable := Function.update s.pageTable (s.pagesInMem s.idx).toNat
              { s.pageTable (s.pagesInMem s.idx).toNat with use := false }
          idx := (s.idx + 1) % c.maxFramesPerProc })
      (Nat.mod_lt _ hm) (by omega) hfull hinj
      (by
        intro j hj
        dsimp only
        rw [hshift, Function.update_noteq (hne j (by omega))]
        exact hbefore (j + 1) (by omega))
      (by
        dsimp only
        rw [hshift, Function.update_noteq (hne k (by omega))]
        exact hat)
    dsimp only at hrun hpages hidx' hcleared hother
    rw [hshift] at hrun hpages
    refine ⟨t, ?_, hpages, ?_, ?_, ?_⟩
    · unfold findPage2ndChanceLoop
      rw [if_neg h0, if_pos huse0]
      exact hrun
    · rw [hidx', Nat.add_assoc, Nat.mod_add_mod]
      congr 1
      omega
    · intro j hj
      cases j with
      | zero =>
        rw [Nat.add_zero, Nat.mod_eq_of_lt hidx]
        rw [hother _ (fun j' hj' => by rw [hshift]; exact (hne j' (by omega)).symm),
          Function.update_same]
      | succ j =>
        have := hcleared j (by omega)
        rw [hshift, Function.update_noteq (hne j (by omega))] at this
        exact this
    · intro x hx
      have hx0 : x ≠ (s.pagesInMem s.idx).toNat := by
        have := hx 0 (Nat.succ_pos k)
        rwa [Nat.add_zero, Nat.mod_eq_of_lt hidx] at this
      rw [hother x (fun j hj => by rw [hshift]; exact hx (j + 1) (by omega)),
        Function.update_noteq hx0]


theorem driven_reachable {c : Config} {refs : List Nat} {s : AddrSpace} (hps : 0 < c.PageSize)
    (hreach : Reachable c s) (hrange : ∀ v, v ∈ refs → v < s.numPages)
    (hsome : (drive c 0 refs (s, scenarioMachine)).isSome = true) :
    Reachable c (driven c refs s) := by
  obtain ⟨r, hr⟩ := Option.isSome_iff_exists.mp hsome
  have h := (drive_reachable hps refs (s, scenarioMachine) r hreach hrange hr).1
  unfold driven
  rw [hr]
  exact h

/-- The loop of `findPage2ndChance` when every resident page has its use bit
set: all bits are cleared and the page under the cursor is evicted on the
visit after the full round. -/
theorem findPage2ndChanceLoop_wrap {c : Config} {inPage : Int} (hm : 0 < c.maxFramesPerProc)
    (s : AddrSpace) (hidx : s.idx < c.maxFramesPerProc)
    (hfull : ∀ j, j < c.maxFramesPerProc → 0 ≤ s.pagesInMem j)
    (hinj : ∀ i j, i < c.maxFramesPerProc → j < c.maxFramesPerProc →
      s.pagesInMem i = s.pagesInMem j → i = j)
    (hbefore : ∀ j, j < c.maxFramesPerProc →
      (s.pageTable (s.pagesInMem ((s.idx + j) % c.maxFramesPerProc)).toNat).use = true) :
    ∃ t, findPage2ndChanceLoop c inPage (c.maxFramesPerProc + 1) s =
        some (s.pagesInMem s.idx, t) ∧
      t.pagesInMem = Function.update s.pagesInMem s.idx inPage ∧
      t.idx = (s.idx + 1) % c.maxFramesPerProc ∧
      (∀ j, j < c.maxFramesPerProc →
        t.pageTable (s.pagesInMem ((s.idx + j) % c.maxFramesPerProc)).toNat =
          { s.pageTable (s.pagesInMem ((s.idx + j) % c.maxFramesPerProc)).toNat with
            use := false }) ∧
      (∀ x, (∀ j, j < c.maxFramesPerProc →
          x ≠ (s.pagesInMem ((s.idx + j) % c.maxFramesPerProc)).toNat) →
        t.pageTable x = s.pageTable x) := by
  have h0 : ¬ s.pagesInMem s.idx < 0 := by have := hfull _ hidx; omega
  have huse0 : (s.pageTable (s.pagesInMem s.idx).toNat).use = true := by
    have := hbefore 0 hm
    rwa [Nat.add_zero, Nat.mod_eq_of_lt hidx] at this
  have hshift : ∀ j, ((s.idx + 1) % c.maxFramesPerProc + j) % c.maxFramesPerProc =
      (s.idx + (j + 1)) % c.maxFramesPerProc := by
    intro j
    rw [Nat.mod_add_mod]
    congr 1
    omega
  have hne : ∀ j, j + 1 < c.maxFramesPerProc →
      (s.pagesInMem ((s.idx + (j + 1)) % c.maxFramesPerProc)).toNat ≠
        (s.pagesInMem s.idx).toNat := by
    intro j hj heq
    have h1 := hfull ((s.idx + (j + 1)) % c.maxFramesPerProc) (Nat.mod_lt _ hm)
    have h2 := hfull s.idx hidx
    have h3 := hinj ((s.idx + (j + 1)) % c.maxFramesPerProc) s.idx (Nat.mod_lt _ hm) hidx
      (by omega)
    have h4 : (s.idx + (j + 1)) % c.maxFramesPerProc = (s.idx + 0) % c.maxFramesPerProc := by
      rw [h3]; exact (Nat.mod_eq_of_lt hidx).symm
    have := slot_inj hj hm h4
    omega
  have hlast : (s.idx + (c.maxFramesPerProc - 1 + 1)) % c.maxFramesPerProc = s.idx := by
    have e : s.idx + (c.maxFramesPerProc - 1 + 1) = s.idx + c.maxFramesPerProc := by omega
    rw [e, Nat.add_mod_right, Nat.mod_eq_of_lt hidx]
  obtain ⟨t, hrun, hpages, hidx', hcleared, hother⟩ :=
    @findPage2ndChanceLoop_scan c inPage hm (c.maxFramesPerProc - 1)
      ({ s with
          pageTable := Function.update s.pageTable (s.pagesInMem s.idx).toNat
              { s.pageTable (s.pagesInMem s.idx).toNat with use := false }
          idx := (s.idx + 1) % c.maxFramesPerProc })
      (Nat.mod_lt _ hm) (by omega) hfull hinj
      (by
        intro j hj
        dsimp only
        rw [hshift, Function.update_noteq (hne j (by omega))]
        exact hbefore (j + 1) (by omega))
      (by
        dsimp only
        rw [hshift, hlast, Function.update_same])
  dsimp only at hrun hpages hidx' hcleared hother
  rw [hshift, hlast] at hrun hpages
  have hfuel : c.maxFramesPerProc - 1 + 1 = c.maxFramesPerProc := by omega
  rw [hfuel] at hrun
  refine ⟨t, ?_, hpages, ?_, ?_, ?_⟩
  · unfold findPage2ndChanceLoop
    rw [if_neg h0, if_pos huse0]
    exact hrun
  · rw [hidx', Nat.add_assoc, Nat.mod_add_mod]
    have e : s.idx + 1 + (c.maxFramesPerProc - 1 + 1) = s.idx + 1 + c.maxFramesPerProc := by
      omega
    rw [e, Nat.add_mod_right]
  · intro j hj
    cases j with
    | zero =>
      rw [Nat.add_zero, Nat.mod_eq_of_lt hidx]
      rw [hother _ (fun j' hj' => by rw [hshift]; exact (hne j' (by omega)).symm),
        Function.update_same]
    | succ j =>
      have := hcleared j (by omega)
      rw [hshift, Function.update_noteq (hne j (by omega))] at this
      exact this
  · intro x hx
    have hx0 : x ≠ (s.pagesInMem s.idx).toNat := by
      have := hx 0 hm
      rwa [Nat.add_zero, Nat.mod_eq_of_lt hidx] at this
    rw [hother x (fun j hj => by rw [hshift]; exact hx (j + 1) (by omega)),
      Function.update_noteq hx0]

theorem clockSpace_reachable : Reachable clockConfig clockSpace := by
  refine Reachable.access _ 1 false false
    (driven_reachable (by decide)
      (Reachable.fresh 0 4 _ [] (by decide) (by decide) (by decide))
      (by decide) (by decide)) (by decide)

/-- C12: under Second-Chance with all `m = maxFramesPerProc` slots resident,
let `k` be the least offset from the cursor whose page has `use = false`
(`k = m` when every resident page has `use = true`).  The loop of
`findPage2ndChance` returns within `k + 1 ≤ m + 1` slot visits, so the routine
terminates; it returns the page in slot `(idx + k) mod m`, stores `inPage` in
that slot, leaves `idx = (idx + k + 1) mod m`, clears the use bit of exactly
the pages in the `k` slots visited before and changes no other entry of the
page table. -/
theorem findPage2ndChance_evicts_first_unused {c : Config} {inPage : Int} {s : AddrSpace}
    (k : Nat) (hinv : Inv c s)
    (hfull : ∀ j, j < c.maxFramesPerProc → 0 ≤ s.pagesInMem j)
    (hk : k ≤ c.maxFramesPerProc)
    (hbefore : ∀ j, j < k →
      (s.pageTable (s.pagesInMem ((s.idx + j) % c.maxFramesPerProc)).toNat).use = true)
    (hat : k < c.maxFramesPerProc →
      (s.pageTable (s.pagesInMem ((s.idx + k) % c.maxFramesPerProc)).toNat).use = false) :
    ∃ t, findPage2ndChanceLoop c inPage (k + 1) s =
        some (s.pagesInMem ((s.idx + k) % c.maxFramesPerProc), t) ∧
      findPage2ndChance c inPage s =
        some (s.pagesInMem ((s.idx + k) % c.maxFramesPerProc), t) ∧
      t.pagesInMem =
        Function.update s.pagesInMem ((s.idx + k) % c.maxFramesPerProc) inPage ∧
      t.idx = (s.idx + k + 1) % c.maxFramesPerProc ∧
      (∀ j, j < k →
        t.pageTable (s.pagesInMem ((s.idx + j) % c.maxFramesPerProc)).toNat =
          { s.pageTable (s.pagesInMem ((s.idx + j) % c.maxFramesPerProc)).toNat with
            use := false }) ∧
      (∀ x, (∀ j, j < k → x ≠ (s.pagesInMem ((s.idx + j) % c.maxFramesPerProc)).toNat) →
        t.pageTable x = s.pageTable x) := by
  have hm := hinv.shape.mpos
  have hidx := hinv.shape.idx_lt
  have hinj : ∀ i j, i < c.maxFramesPerProc → j < c.maxFramesPerProc →
      s.pagesInMem i = s.pagesInMem j → i = j :=
    fun i j hi hj h => hinv.inj i j hi hj (hfull i hi) h
  have hfuel : k + 1 + (c.maxFramesPerProc - k) = c.maxFramesPerProc + 1 := by omega
  rcases Nat.lt_or_ge k c.maxFramesPerProc with hlt | hge
  · obtain ⟨t, hrun, hpages, hidx', hcleared, hother⟩ :=
      @findPage2ndChanceLoop_scan c inPage hm k s hidx hlt hfull hinj hbefore (hat hlt)
    refine ⟨t, hrun, ?_, hpages, hidx', hcleared, hother⟩
    unfold findPage2ndChance
    rw [← hfuel]
    exact findPage2ndChanceLoop_mono_le _ _ hrun
  · have hkm : k = c.maxFramesPerProc := Nat.le_antisymm hk hge
    subst hkm
    obtain ⟨t, hrun, hpages, hidx', hcleared, hother⟩ :=
      @findPage2ndChanceLoop_wrap c inPage hm s hidx hfull hinj hbefore
    have hslot : (s.idx + c.maxFramesPerProc) % c.maxFramesPerProc = s.idx := by
      rw [Nat.add_mod_right, Nat.mod_eq_of_lt hidx]
    rw [hslot]
    refine ⟨t, hrun, hrun, hpages, ?_, hcleared, hother⟩
    rw [hidx', Nat.add_right_comm, Nat.add_mod_right]

/-- Witness of C12 (scenario 5 of the spec): pages 0, 1, 2 in slots 0, 1, 2
with use bits `[1, 0, 1]` and the cursor at 0; the first clear bit is at
offset 1. -/
theorem findPage2ndChance_evicts_first_unused_witness :
    (clockSpace.idx = 0 ∧ (List.range 3).map clockSpace.pagesInMem = [0, 1, 2] ∧
      (List.range 3).map (fun v => (clockSpace.pageTable v).use) = [true, false, true]) ∧
    ∃ t, findPage2ndChanceLoop clockConfig 3 (1 + 1) clockSpace =
        some (clockSpace.pagesInMem ((clockSpace.idx + 1) % clockConfig.maxFramesPerProc), t) ∧
      findPage2ndChance clockConfig 3 clockSpace =
        some (clockSpace.pagesInMem ((clockSpace.idx + 1) % clockConfig.maxFramesPerProc), t) ∧
      t.pagesInMem =
        Function.update clockSpace.pagesInMem
          ((clockSpace.idx + 1) % clockConfig.maxFramesPerProc) 3 ∧
      t.idx = (clockSpace.idx + 1 + 1) % clockConfig.maxFramesPerProc ∧
      (∀ j, j < 1 →
        t.pageTable
            (clockSpace.pagesInMem ((clockSpace.idx + j) % clockConfig.maxFramesPerProc)).toNat =
          { clockSpace.pageTable
              (clockSpace.pagesInMem
                ((clockSpace.idx + j) % clockConfig.maxFramesPerProc)).toNat with
            use := false }) ∧
      (∀ x, (∀ j, j < 1 →
          x ≠ (clockSpace.pagesInMem
            ((clockSpace.idx + j) % clockConfig.maxFramesPerProc)).toNat) →
        t.pageTable x = clockSpace.pageTable x) :=
  ⟨by decide,
    findPage2ndChance_evicts_first_unused 1 clockSpace_reachable.inv_holds (by decide)
      (by decide) (by decide) (by decide)⟩


/-! ## Enhanced Second-Chance: the victim and the use bits -/

theorem slot_shift (a j m : Nat) : ((a + 1) % m + j) % m = (a + (j + 1)) % m := by
  rw [Nat.mod_add_mod]
  congr 1
  omega

/-- With all slots in use, different offsets from the cursor hold different
pages. -/
theorem pageAt_inj {c : Config} {s : AddrSpace}
    (hfull : ∀ j, j < c.maxFramesPerProc → 0 ≤ s.pagesInMem j)
    (hinj : ∀ i j, i < c.maxFramesPerProc → j < c.maxFramesPerProc →
      s.pagesInMem i = s.pagesInMem j → i = j)
    {i j : Nat} (hi : i < c.maxFramesPerProc) (hj : j < c.maxFramesPerProc)
    (h : s.pageAt c i = s.pageAt c j) : i = j := by
  have hm : 0 < c.maxFramesPerProc := by omega
  unfold AddrSpace.pageAt at h
  have h1 := hfull ((s.idx + i) % c.maxFramesPerProc) (Nat.mod_lt _ hm)
  have h2 := hfull ((s.idx + j) % c.maxFramesPerProc) (Nat.mod_lt _ hm)
  have h3 := hinj ((s.idx + i) % c.maxFramesPerProc) ((s.idx + j) % c.maxFramesPerProc)
    (Nat.mod_lt _ hm) (Nat.mod_lt _ hm) (by omega)
  exact slot_inj hi hj h3

theorem pageAt_zero {c : Config} {s : AddrSpace} (hidx : s.idx < c.maxFramesPerProc) :
    s.pageAt c 0 = (s.pagesInMem s.idx).toNat := by
  unfold AddrSpace.pageAt
  rw [Nat.add_zero, Nat.mod_eq_of_lt hidx]

theorem e2ndTouch_eq_self {loop : Nat} {e : TranslationEntry} (h : loop = 2 → e.use = false) :
    e2ndTouch loop e = e := by
  unfold e2ndTouch
  split_ifs with h2
  · have := h h2
    cases e
    simp_all
  · rfl

/-- One iteration of a pass at a slot in use: the entry under the cursor is
picked, or passed over. -/
theorem e2ndStep_eq {c : Config} {inPage : Int} {loop : Nat} {s : AddrSpace}
    (hcur : 0 ≤ s.pagesInMem s.idx) :
    e2ndStep c inPage loop s =
      if e2ndWants loop (s.pageTable (s.pagesInMem s.idx).toNat) = true then
        Scan.ret (s.pagesInMem s.idx)
          { s with
            pagesInMem := Function.update s.pagesInMem s.idx inPage
            idx := (s.idx + 1) % c.maxFramesPerProc }
      else
        Scan.go
          { s with
            pageTable := Function.update s.pageTable (s.pagesInMem s.idx).toNat
                (e2ndTouch loop (s.pageTable (s.pagesInMem s.idx).toNat))
            idx := (s.idx + 1) % c.maxFramesPerProc } := by
  have hneg : ¬ s.pagesInMem s.idx < 0 := by omega
  simp only [e2ndStep, e2ndWants]
  by_cases h13 : loop = 1 ∨ loop = 3
  · have h2 : loop ≠ 2 := by omega
    have h1 : ¬ (loop = 1 ∧ s.pagesInMem s.idx < 0) := fun h => hneg h.2
    simp only [h13, h1, if_true, if_false]
    split_ifs with hw
    · rfl
    · rw [e2ndTouch_eq_self (fun h => absurd h h2), Function.update_eq_self]
  · simp only [h13, if_false]
    split_ifs with hw hu
    · rfl
    · unfold e2ndTouch
      rw [if_pos hu.1]
    · have : loop = 2 → (s.pageTable (s.pagesInMem s.idx).toNat).use = false := by
        intro h2
        cases hb : (s.pageTable (s.pagesInMem s.idx).toNat).use
        · rfl
        · exact absurd ⟨h2, hb⟩ hu
      rw [e2ndTouch_eq_self this, Function.update_eq_self]

/-- The state after an iteration that passes over the entry under the cursor. -/
theorem e2ndStep_over {c : Config} {loop : Nat} {s : AddrSpace}
    (hm : 0 < c.maxFramesPerProc) (hidx : s.idx < c.maxFramesPerProc)
    (hfull : ∀ j, j < c.maxFramesPerProc → 0 ≤ s.pagesInMem j)
    (hinj : ∀ i j, i < c.maxFramesPerProc → j < c.maxFramesPerProc →
      s.pagesInMem i = s.pagesInMem j → i = j)
    (t : AddrSpace)
    (ht : t = { s with
      pageTable := Function.update s.pageTable (s.pagesInMem s.idx).toNat
          (e2ndTouch loop (s.pageTable (s.pagesInMem s.idx).toNat))
      idx := (s.idx + 1) % c.maxFramesPerProc }) :
    t.idx < c.maxFramesPerProc ∧ t.pagesInMem = s.pagesInMem ∧
      (∀ j, t.pageAt c j = s.pageAt c (j + 1)) ∧
      (∀ j, j + 1 < c.maxFramesPerProc →
        t.pageTable (s.pageAt c (j + 1)) = s.pageTable (s.pageAt c (j + 1))) ∧
      t.pageTable (s.pageAt c 0) = e2ndTouch loop (s.pageTable (s.pageAt c 0)) ∧
      (∀ x, x ≠ s.pageAt c 0 → t.pageTable x = s.pageTable x) ∧
      (loop ≠ 2 → t.pageTable = s.pageTable) := by
  subst ht
  have h0 := @pageAt_zero c s hidx
  refine ⟨Nat.mod_lt _ hm, rfl, fun j => ?_, fun j hj => ?_, ?_, fun x hx => ?_, fun h2 => ?_⟩
  · unfold AddrSpace.pageAt
    dsimp only
    rw [slot_shift]
  · dsimp only
    rw [← h0]
    have hne : s.pageAt c (j + 1) ≠ s.pageAt c 0 := fun h => by
      have := pageAt_inj hfull hinj hj hm h
      omega
    rw [Function.update_noteq hne]
  · dsimp only
    rw [← h0, Function.update_same]
  · dsimp only
    rw [← h0, Function.update_noteq hx]
  · dsimp only
    rw [e2ndTouch_eq_self (fun h => absurd h h2), Function.update_eq_self]

/-- A pass over `n ≤ maxFramesPerProc` slots none of which holds an entry
the pass picks. -/
theorem e2ndPass_miss {c : Config} {inPage : Int} (hm : 0 < c.maxFramesPerProc) (loop : Nat) :
    ∀ (n : Nat) (s : AddrSpace), s.idx < c.maxFramesPerProc → n ≤ c.maxFramesPerProc →
      (∀ j, j < c.maxFramesPerProc → 0 ≤ s.pagesInMem j) →
      (∀ i j, i < c.maxFramesPerProc → j < c.maxFramesPerProc →
        s.pagesInMem i = s.pagesInMem j → i = j) →
      (∀ j, j < n → e2ndWants loop (s.pageTable (s.pageAt c j)) = false) →
      ∃ t, e2ndPass c inPage loop n s = Scan.go t ∧ t.pagesInMem = s.pagesInMem ∧
        t.idx = (s.idx + n) % c.maxFramesPerProc ∧
        (∀ j, j < n → t.pageTable (s.pageAt c j) = e2ndTouch loop (s.pageTable (s.pageAt c j))) ∧
        (∀ x, (∀ j, j < n → x ≠ s.pageAt c j) → t.pageTable x = s.pageTable x) ∧
        (loop ≠ 2 → t.pageTable = s.pageTable) := by
  intro n
  induction n with
  | zero =>
    intro s hidx _ _ _ _
    exact ⟨s, rfl, rfl, by rw [Nat.add_zero, Nat.mod_eq_of_lt hidx],
      fun j hj => absurd hj (Nat.not_lt_zero j), fun _ _ => rfl, fun _ => rfl⟩
  | succ n ih =>
    intro s hidx hn hfull hinj hmiss
    have h0 := @pageAt_zero c s hidx
    have hw0 := hmiss 0 (Nat.succ_pos n)
    rw [h0] at hw0
    obtain ⟨hidx1, hpages1, hat1, hlater1, hzero1, hother1, hsame1⟩ :=
      @e2ndStep_over c loop s hm hidx hfull hinj _ rfl
    obtain ⟨t, hrun, hpages, hidx', hcleared, hother, hsame⟩ := ih _ hidx1 (by omega)
      (by rw [hpages1]; exact hfull) (by rw [hpages1]; exact hinj)
      (by
        intro j hj
        rw [hat1, hlater1 j (by omega)]
        exact hmiss (j + 1) (by omega))
    refine ⟨t, ?_, hpages.trans hpages1, ?_, ?_, ?_, fun h2 => (hsame h2).trans (hsame1 h2)⟩
    · rw [e2ndPass_pos c inPage loop (Nat.succ_pos n), e2ndStep_eq (hfull _ hidx),
        if_neg (by rw [hw0]; simp)]
      exact hrun
    · rw [hidx']
      exact slot_shift _ _ _
    · intro j hj
      cases j with
      | zero =>
        rw [hother _ (fun j' hj' => by
          rw [hat1]
          intro h
          have := pageAt_inj hfull hinj hm (by omega : j' + 1 < c.maxFramesPerProc) h
          omega)]
        exact hzero1
      | succ j =>
        have := hcleared j (by omega)
        rw [hat1, hlater1 j (by omega)] at this
        exact this
    · intro x hx
      rw [hother x (fun j hj => by rw [hat1]; exact hx (j + 1) (by omega))]
      exact hother1 x (hx 0 (Nat.succ_pos n))

/-- A pass whose first pick is at offset `k` from the cursor. -/
theorem e2ndPass_hit {c : Config} {inPage : Int} (hm : 0 < c.maxFramesPerProc) (loop : Nat) :
    ∀ (k n : Nat) (s : AddrSpace), s.idx < c.maxFramesPerProc → k < c.maxFramesPerProc →
      k < n →
      (∀ j, j < c.maxFramesPerProc → 0 ≤ s.pagesInMem j) →
      (∀ i j, i < c.maxFramesPerProc → j < c.maxFramesPerProc →
        s.pagesInMem i = s.pagesInMem j → i = j) →
      (∀ j, j < k → e2ndWants loop (s.pageTable (s.pageAt c j)) = false) →
      e2ndWants loop (s.pageTable (s.pageAt c k)) = true →
      ∃ t, e2ndPass c inPage loop n s =
          Scan.ret (s.pagesInMem ((s.idx + k) % c.maxFramesPerProc)) t ∧
        t.pagesInMem =
          Function.update s.pagesInMem ((s.idx + k) % c.maxFramesPerProc) inPage ∧
        t.idx = (s.idx + k + 1) % c.maxFramesPerProc ∧
        (∀ j, j < k → t.pageTable (s.pageAt c j) = e2ndTouch loop (s.pageTable (s.pageAt c j))) ∧
        (∀ x, (∀ j, j < k → x ≠ s.pageAt c j) → t.pageTable x = s.pageTable x) ∧
        (loop ≠ 2 → t.pageTable = s.pageTable) := by
  intro k
  induction k with
  | zero =>
    intro n s hidx _ hn hfull _ _ hat
    have h0 := @pageAt_zero c s hidx
    rw [h0] at hat
    refine ⟨{ s with
        pagesInMem := Function.update s.pagesInMem s.idx inPage
        idx := (s.idx + 1) % c.maxFramesPerProc }, ?_, ?_, rfl,
      fun j hj => absurd hj (Nat.not_lt_zero j), fun x _ => rfl, fun _ => rfl⟩
    · rw [e2ndPass_pos c inPage loop hn, e2ndStep_eq (hfull _ hidx), if_pos hat]
      simp only [Nat.add_zero, Nat.mod_eq_of_lt hidx]
    · simp only [Nat.add_zero, Nat.mod_eq_of_lt hidx]
  | succ k ih =>
    intro n s hidx hk hn hfull hinj hmiss hat
    have h0 := @pageAt_zero c s hidx
    have hw0 := hmiss 0 (Nat.succ_pos k)
    rw [h0] at hw0
    obtain ⟨hidx1, hpages1, hat1, hlater1, hzero1, hother1, hsame1⟩ :=
      @e2ndStep_over c loop s hm hidx hfull hinj _ rfl
    obtain ⟨t, hrun, hpages, hidx', hcleared, hother, hsame⟩ := ih (n - 1) _ hidx1 (by omega)
      (by omega) (by rw [hpages1]; exact hfull) (by rw [hpages1]; exact hinj)
      (by
        intro j hj
        rw [hat1, hlater1 j (by omega)]
        exact hmiss (j + 1) (by omega))
      (by
        rw [hat1, hlater1 k (by omega)]
        exact hat)
    dsimp only at hrun hpages hidx'
    rw [slot_shift] at hrun hpages
    refine ⟨t, ?_, hpages, ?_, ?_, ?_, fun h2 => (hsame h2).trans (hsame1 h2)⟩
    · rw [e2ndPass_pos c inPage loop (by omega), e2ndStep_eq (hfull _ hidx),
        if_neg (by rw [hw0]; simp)]
      exact hrun
    · rw [hidx', Nat.add_assoc, Nat.mod_add_mod]
      congr 1
      omega
    · intro j hj
      cases j with
      | zero =>
        rw [hother _ (fun j' hj' => by
          rw [hat1]
          intro h
          have := pageAt_inj hfull hinj hm (by omega : j' + 1 < c.maxFramesPerProc) h
          omega)]
        exact hzero1
      | succ j =>
        have := hcleared j (by omega)
        rw [hat1, hlater1 j (by omega)] at this
        exact this
    · intro x hx
      rw [hother x (fun j hj => by rw [hat1]; exact hx (j + 1) (by omega))]
      exact hother1 x (hx 0 (Nat.succ_pos k))

theorem first_true (p : Nat → Bool) :
    ∀ m : Nat, (∀ j, j < m → p j = false) ∨
      ∃ k, k < m ∧ p k = true ∧ ∀ j, j < k → p j = false := by
  intro m
  induction m with
  | zero => exact Or.inl (fun j hj => absurd hj (Nat.not_lt_zero j))
  | succ m ih =>
    rcases ih with hall | ⟨k, hk, hp, hfirst⟩
    · cases hpm : p m with
      | false =>
        left
        intro j hj
        rcases Nat.lt_succ_iff_lt_or_eq.mp hj with h | h
        · exact hall j h
        · rw [h]; exact hpm
      | true => exact Or.inr ⟨m, Nat.lt_succ_self m, hpm, hall⟩
    · exact Or.inr ⟨k, Nat.lt_succ_of_lt hk, hp, hfirst⟩

theorem rank_of_pass1 (e : TranslationEntry) (h : e2ndWants 1 e = true) : classRank e = 0 := by
  revert h
  cases e with
  | mk vp pp v u d r => cases u <;> cases d <;> simp [e2ndWants, classRank]

theorem rank_not_pass1 (e : TranslationEntry) (h : e2ndWants 1 e = false) : classRank e ≠ 0 := by
  revert h
  cases e with
  | mk vp pp v u d r => cases u <;> cases d <;> simp [e2ndWants, classRank]

theorem rank_of_pass2 (e : TranslationEntry) (h : e2ndWants 2 e = true) : classRank e = 1 := by
  revert h
  cases e with
  | mk vp pp v u d r => cases u <;> cases d <;> simp [e2ndWants, classRank]

theorem rank_not_pass2 (e : TranslationEntry) (h : e2ndWants 2 e = false) : classRank e ≠ 1 := by
  revert h
  cases e with
  | mk vp pp v u d r => cases u <;> cases d <;> simp [e2ndWants, classRank]

theorem rank_of_pass3 (e : TranslationEntry) (h0 : classRank e ≠ 0)
    (h : e2ndWants 3 { e with use := false } = true) : classRank e = 2 := by
  revert h h0
  cases e with
  | mk vp pp v u d r => cases u <;> cases d <;> simp [e2ndWants, classRank]

theorem rank_not_pass3 (e : TranslationEntry)
    (h : e2ndWants 3 { e with use := false } = false) : classRank e ≠ 2 ∧ e.dirty = true := by
  revert h
  cases e with
  | mk vp pp v u d r => cases u <;> cases d <;> simp [e2ndWants, classRank]

theorem rank_of_pass4 (e : TranslationEntry) (h1 : classRank e ≠ 1) (h : e.dirty = true) :
    classRank e = 3 ∧ e2ndWants 4 { e with use := false } = true := by
  revert h h1
  cases e with
  | mk vp pp v u d r => cases u <;> cases d <;> simp [e2ndWants, classRank]

theorem e2ndRun_ret {c : Config} {inPage v : Int} {loop : Nat} {s t : AddrSpace}
    (h : e2ndPass c inPage loop c.maxFramesPerProc s = Scan.ret v t) (passes : Nat) :
    e2ndRun c inPage (passes + 1) loop s = some (loop, v, t) := by
  simp only [e2ndRun, h]

theorem e2ndRun_go {c : Config} {inPage : Int} {loop : Nat} {s t : AddrSpace}
    (h : e2ndPass c inPage loop c.maxFramesPerProc s = Scan.go t) (passes : Nat) :
    e2ndRun c inPage (passes + 1) loop s = e2ndRun c inPage passes (loop + 1) t := by
  simp only [e2ndRun, h]

/-- The instrumented loops return what `e2ndLoops` returns. -/
theorem e2ndRun_result {c : Config} {inPage : Int} :
    ∀ (passes loop : Nat) (s : AddrSpace) (p : Nat) (r : Int × AddrSpace),
      e2ndRun c inPage passes loop s = some (p, r) → e2ndLoops c inPage passes loop s = r := by
  intro passes
  induction passes with
  | zero => intro loop s p r h; cases h
  | succ n ih =>
    intro loop s p r h
    cases hp : e2ndPass c inPage loop c.maxFramesPerProc s with
    | ret v t =>
      rw [e2ndRun_ret hp] at h
      cases h
      simp only [e2ndLoops, hp]
    | go t =>
      rw [e2ndRun_go hp] at h
      simp only [e2ndLoops, hp]
      exact ih _ _ _ _ h

theorem findPageE2ndChance_of_run {c : Config} {inPage : Int} {s : AddrSpace} {p : Nat}
    {r : Int × AddrSpace} (h : e2ndRun c inPage 4 1 s = some (p, r)) :
    findPageE2ndChance c inPage s = r :=
  e2ndRun_result 4 1 s p r h

theorem pageAt_congr {c : Config} {s t : AddrSpace} (hp : t.pagesInMem = s.pagesInMem)
    (hi : t.idx = s.idx) (j : Nat) : t.pageAt c j = s.pageAt c j := by
  unfold AddrSpace.pageAt
  rw [hp, hi]

/-- Enhanced Second-Chance with all slots in use: the pass in which the
routine returns, the slot it takes, and what it writes to the page table. -/
theorem e2ndRun_full {c : Config} {inPage : Int} {s : AddrSpace}
    (hm : 0 < c.maxFramesPerProc) (hidx : s.idx < c.maxFramesPerProc)
    (hfull : ∀ j, j < c.maxFramesPerProc → 0 ≤ s.pagesInMem j)
    (hinj : ∀ i j, i < c.maxFramesPerProc → j < c.maxFramesPerProc →
      s.pagesInMem i = s.pagesInMem j → i = j) :
    ∃ p k t, k < c.maxFramesPerProc ∧
      e2ndRun c inPage 4 1 s = some (p, s.pagesInMem ((s.idx + k) % c.maxFramesPerProc), t) ∧
      p = classRank (s.pageTable (s.pageAt c k)) + 1 ∧
      t.pagesInMem = Function.update s.pagesInMem ((s.idx + k) % c.maxFramesPerProc) inPage ∧
      t.idx = (s.idx + k + 1) % c.maxFramesPerProc ∧
      (∀ j, j < c.maxFramesPerProc →
        classRank (s.pageTable (s.pageAt c k)) ≤ classRank (s.pageTable (s.pageAt c j))) ∧
      (∀ j, j < k →
        classRank (s.pageTable (s.pageAt c j)) ≠ classRank (s.pageTable (s.pageAt c k))) ∧
      (p = 1 → t.pageTable = s.pageTable) ∧
      (p = 2 →
        (∀ j, j < k →
          t.pageTable (s.pageAt c j) = { s.pageTable (s.pageAt c j) with use := false }) ∧
        ∀ x, (∀ j, j < k → x ≠ s.pageAt c j) → t.pageTable x = s.pageTable x) ∧
      (2 < p →
        (∀ j, j < c.maxFramesPerProc →
          t.pageTable (s.pageAt c j) = { s.pageTable (s.pageAt c j) with use := false }) ∧
        ∀ x, (∀ j, j < c.maxFramesPerProc → x ≠ s.pageAt c j) →
          t.pageTable x = s.pageTable x) := by
  have hround : (s.idx + c.maxFramesPerProc) % c.maxFramesPerProc = s.idx := by
    rw [Nat.add_mod_right, Nat.mod_eq_of_lt hidx]
  rcases first_true (fun j => e2ndWants 1 (s.pageTable (s.pageAt c j))) c.maxFramesPerProc with
    hmiss1 | ⟨k, hk, hhit, hbefore⟩
  · -- pass 1 ends without a pick
    obtain ⟨t1, hrun1, hpages1, hidx1, -, -, hsame1⟩ :=
      @e2ndPass_miss c inPage hm 1 c.maxFramesPerProc s hidx le_rfl hfull hinj hmiss1
    rw [hround] at hidx1
    have hpt1 := hsame1 (by decide)
    have hat1 := @pageAt_congr c s t1 hpages1 hidx1
    have hno0 : ∀ j, j < c.maxFramesPerProc → classRank (s.pageTable (s.pageAt c j)) ≠ 0 :=
      fun j hj => rank_not_pass1 _ (hmiss1 j hj)
    rcases first_true (fun j => e2ndWants 2 (s.pageTable (s.pageAt c j))) c.maxFramesPerProc with
      hmiss2 | ⟨k, hk, hhit, hbefore⟩
    · -- pass 2 ends without a pick: every use bit is cleared
      obtain ⟨t2, hrun2, hpages2, hidx2, hcleared2, hother2, -⟩ :=
        @e2ndPass_miss c inPage hm 2 c.maxFramesPerProc t1 (hidx1 ▸ hidx) le_rfl
          (by rw [hpages1]; exact hfull) (by rw [hpages1]; exact hinj)
          (by intro j hj; rw [hat1, hpt1]; exact hmiss2 j hj)
      rw [hidx1, hround] at hidx2
      rw [hpages1] at hpages2
      have hat2 := @pageAt_congr c s t2 hpages2 hidx2
      have hno1 : ∀ j, j < c.maxFramesPerProc → classRank (s.pageTable (s.pageAt c j)) ≠ 1 :=
        fun j hj => rank_not_pass2 _ (hmiss2 j hj)
      have hcl2 : ∀ j, j < c.maxFramesPerProc →
          t2.pageTable (s.pageAt c j) = { s.pageTable (s.pageAt c j) with use := false } := by
        intro j hj
        have := hcleared2 j hj
        rw [hat1, hpt1] at this
        exact this
      have hot2 : ∀ x, (∀ j, j < c.maxFramesPerProc → x ≠ s.pageAt c j) →
          t2.pageTable x = s.pageTable x := by
        intro x hx
        rw [hother2 x (fun j hj => by rw [hat1]; exact hx j hj), hpt1]
      rcases first_true (fun j => e2ndWants 3 (t2.pageTable (s.pageAt c j)))
          c.maxFramesPerProc with hmiss3 | ⟨k, hk, hhit, hbefore⟩
      · -- pass 3 ends without a pick: every page is dirty, pass 4 takes the first
        obtain ⟨t3, hrun3, hpages3, hidx3, -, -, hsame3⟩ :=
          @e2ndPass_miss c inPage hm 3 c.maxFramesPerProc t2 (hidx2 ▸ hidx) le_rfl
            (by rw [hpages2]; exact hfull) (by rw [hpages2]; exact hinj)
            (by intro j hj; rw [hat2]; exact hmiss3 j hj)
        rw [hidx2, hround] at hidx3
        rw [hpages2] at hpages3
        have hpt3 := hsame3 (by decide)
        have hat3 := @pageAt_congr c s t3 hpages3 hidx3
        have hdirty : ∀ j, j < c.maxFramesPerProc →
            (s.pageTable (s.pageAt c j)).dirty = true := by
          intro j hj
          have := hmiss3 j hj
          rw [hcl2 j hj] at this
          exact (rank_not_pass3 _ this).2
        have hall3 : ∀ j, j < c.maxFramesPerProc →
            classRank (s.pageTable (s.pageAt c j)) = 3 :=
          fun j hj => (rank_of_pass4 _ (hno1 j hj) (hdirty j hj)).1
        obtain ⟨t, hrun4, hpages4, hidx4, -, -, hsame4⟩ :=
          @e2ndPass_hit c inPage hm 4 0 c.maxFramesPerProc t3 (hidx3 ▸ hidx) hm hm
            (by rw [hpages3]; exact hfull) (by rw [hpages3]; exact hinj)
            (fun j hj => absurd hj (Nat.not_lt_zero j))
            (by
              rw [hat3, hpt3, hcl2 0 hm]
              exact (rank_of_pass4 _ (hno1 0 hm) (hdirty 0 hm)).2)
        rw [hidx3, hpages3] at hrun4 hpages4
        rw [hidx3] at hidx4
        have hpt4 := hsame4 (by decide)
        refine ⟨4, 0, t, hm, ?_, ?_, hpages4, hidx4, ?_, ?_, ?_, ?_, ?_⟩
        · rw [e2ndRun_go hrun1, e2ndRun_go hrun2, e2ndRun_go hrun3, e2ndRun_ret hrun4]
        · rw [hall3 0 hm]
        · intro j hj
          rw [hall3 0 hm, hall3 j hj]
        · intro j hj
          exact absurd hj (Nat.not_lt_zero j)
        · intro h; omega
        · intro h; omega
        · intro _
          rw [hpt4, hpt3]
          exact ⟨hcl2, hot2⟩
      · -- pass 3 picks the first page that is not dirty
        obtain ⟨t, hrun3, hpages3, hidx3, -, -, hsame3⟩ :=
          @e2ndPass_hit c inPage hm 3 k c.maxFramesPerProc t2 (hidx2 ▸ hidx) hk hk
            (by rw [hpages2]; exact hfull) (by rw [hpages2]; exact hinj)
            (by intro j hj; rw [hat2]; exact hbefore j hj)
            (by rw [hat2]; exact hhit)
        rw [hidx2, hpages2] at hrun3 hpages3
        rw [hidx2] at hidx3
        have hpt3 := hsame3 (by decide)
        have hrank : classRank (s.pageTable (s.pageAt c k)) = 2 := by
          rw [hcl2 k hk] at hhit
          exact rank_of_pass3 _ (hno0 k hk) hhit
        refine ⟨3, k, t, hk, ?_, ?_, hpages3, hidx3, ?_, ?_, ?_, ?_, ?_⟩
        · rw [e2ndRun_go hrun1, e2ndRun_go hrun2, e2ndRun_ret hrun3]
        · rw [hrank]
        · intro j hj
          have h0 := hno0 j hj
          have h1 := hno1 j hj
          rw [hrank]
          omega
        · intro j hj
          have := hbefore j hj
          rw [hcl2 j (by omega)] at this
          rw [hrank]
          exact (rank_not_pass3 _ this).1
        · intro h; omega
        · intro h; omega
        · intro _
          rw [hpt3]
          exact ⟨hcl2, hot2⟩
    · -- pass 2 picks the first page with use = 0, dirty = 1
      obtain ⟨t, hrun2, hpages2, hidx2, hcleared2, hother2, -⟩ :=
        @e2ndPass_hit c inPage hm 2 k c.maxFramesPerProc t1 (hidx1 ▸ hidx) hk hk
          (by rw [hpages1]; exact hfull) (by rw [hpages1]; exact hinj)
          (by intro j hj; rw [hat1, hpt1]; exact hbefore j hj)
          (by rw [hat1, hpt1]; exact hhit)
      rw [hidx1, hpages1] at hrun2 hpages2
      rw [hidx1] at hidx2
      have hrank : classRank (s.pageTable (s.pageAt c k)) = 1 := rank_of_pass2 _ hhit
      refine ⟨2, k, t, hk, ?_, ?_, hpages2, hidx2, ?_, ?_, ?_, ?_, ?_⟩
      · rw [e2ndRun_go hrun1, e2ndRun_ret hrun2]
      · rw [hrank]
      · intro j hj
        have h0 := hno0 j hj
        rw [hrank]
        omega
      · intro j hj
        rw [hrank]
        exact rank_not_pass2 _ (hbefore j hj)
      · intro h; omega
      · intro _
        refine ⟨fun j hj => ?_, fun x hx => ?_⟩
        · have := hcleared2 j hj
          rw [hat1, hpt1] at this
          exact this
        · rw [hother2 x (fun j hj => by rw [hat1]; exact hx j hj), hpt1]
      · intro h; omega
  · -- pass 1 picks the first page with use = 0, dirty = 0
    obtain ⟨t, hrun1, hpages1, hidx1, -, -, hsame1⟩ :=
      @e2ndPass_hit c inPage hm 1 k c.maxFramesPerProc s hidx hk hk hfull hinj hbefore hhit
    have hrank : classRank (s.pageTable (s.pageAt c k)) = 0 := rank_of_pass1 _ hhit
    refine ⟨1, k, t, hk, e2ndRun_ret hrun1 3, ?_, hpages1, hidx1, ?_, ?_, ?_, ?_, ?_⟩
    · rw [hrank]
    · intro j _
      rw [hrank]
      exact Nat.zero_le _
    · intro j hj
      rw [hrank]
      exact rank_not_pass1 _ (hbefore j hj)
    · intro _
      exact hsame1 (by decide)
    · intro h; omega
    · intro h; omega

theorem e2ndLoaded_reachable : Reachable e2ndConfig e2ndLoaded :=
  driven_reachable (by decide) (Reachable.fresh 0 4 _ [] (by decide) (by decide) (by decide))
    (by decide) (by decide)

theorem e2ndDirtySpace_reachable : Reachable e2ndConfig e2ndDirtySpace :=
  Reachable.access _ 2 false true
    (Reachable.access _ 1 false true
      (Reachable.access _ 0 false true e2ndLoaded_reachable (by decide)) (by decide))
    (by decide)

theorem e2ndClearSpace_reachable : Reachable e2ndConfig e2ndClearSpace :=
  Reachable.access _ 2 true false
    (Reachable.access _ 1 false true
      (Reachable.access _ 0 true true e2ndLoaded_reachable (by decide)) (by decide))
    (by decide)

/-- With all slots in use every resident page sits at some offset from the
cursor. -/
theorem pageAt_surj {c : Config} {s : AddrSpace} (hinv : Inv c s) {v : Nat}
    (hv : s.resident v) : ∃ j, j < c.maxFramesPerProc ∧ s.pageAt c j = v := by
  obtain ⟨i, hi, hp⟩ := hinv.complete v hv
  obtain ⟨j, hj, hji⟩ := slot_surj hinv.shape.idx_lt hi
  refine ⟨j, hj, ?_⟩
  unfold AddrSpace.pageAt
  rw [hji, hp]
  rfl

/-- C13: under Enhanced Second-Chance with all slots resident,
`findPageE2ndChance` returns the page `k` places after the cursor `idx`, for
a `k < maxFramesPerProc` such that, by the `(use, dirty)` bits at call time,
no resident page has a class before the class of that page in the order
`(0,0)`, `(0,1)`, `(1,0)`, `(1,1)`, and no page nearer to the cursor in cyclic
slot order has the same class.  The routine returns in the pass whose number
is the rank of that class plus one, stores `inPage` in the slot and leaves the
cursor behind it. -/
theorem findPageE2ndChance_first_of_lowest_class {c : Config} {s : AddrSpace} (inPage : Int)
    (hinv : Inv c s) (hfull : ∀ j, j < c.maxFramesPerProc → 0 ≤ s.pagesInMem j) :
    ∃ k, k < c.maxFramesPerProc ∧
      (findPageE2ndChance c inPage s).1 = s.pagesInMem ((s.idx + k) % c.maxFramesPerProc) ∧
      e2ndRun c inPage 4 1 s =
        some (classRank (s.pageTable (s.pageAt c k)) + 1, findPageE2ndChance c inPage s) ∧
      (∀ v, s.resident v →
        classRank (s.pageTable (s.pageAt c k)) ≤ classRank (s.pageTable v)) ∧
      (∀ j, j < k →
        classRank (s.pageTable (s.pageAt c j)) ≠ classRank (s.pageTable (s.pageAt c k))) ∧
      (findPageE2ndChance c inPage s).2.pagesInMem =
        Function.update s.pagesInMem ((s.idx + k) % c.maxFramesPerProc) inPage ∧
      (findPageE2ndChance c inPage s).2.idx = (s.idx + k + 1) % c.maxFramesPerProc := by
  obtain ⟨p, k, t, hk, hrun, hp, hpages, hidx, hmin, hfirst, -, -, -⟩ :=
    @e2ndRun_full c inPage s hinv.shape.mpos hinv.shape.idx_lt hfull
      (fun i j hi hj h => hinv.inj i j hi hj (hfull i hi) h)
  have hres := findPageE2ndChance_of_run hrun
  rw [hres]
  refine ⟨k, hk, rfl, ?_, ?_, hfirst, hpages, hidx⟩
  · rw [hrun, hp]
  · intro v hv
    obtain ⟨j, hj, hjv⟩ := pageAt_surj hinv hv
    rw [← hjv]
    exact hmin j hj

/-- Witness of C13 (scenario 6 of the spec): pages 0, 1, 2 all with `use = 0`,
`dirty = 1` and the cursor at slot 0.  The page at the cursor is chosen in
pass 2; the fault on page 3 writes it back to the swap file and leaves the
incoming entry with `dirty = false`. -/
theorem findPageE2ndChance_first_of_lowest_class_witness :
    ((List.range 3).map (fun v => classRank (e2ndDirtySpace.pageTable v)) = [1, 1, 1] ∧
      e2ndDirtySpace.idx = 0 ∧
      (e2ndRun e2ndConfig 3 4 1 e2ndDirtySpace).map (fun r => (r.1, r.2.1)) = some (2, 0) ∧
      (replacePage e2ndConfig 0 384 e2ndDirtySpace e2ndDirtyMachine).isSome = true ∧
      e2ndDirtyFault.2.numPageWrites = e2ndDirtyMachine.numPageWrites + 1 ∧
      (∀ i, i < 128 → e2ndDirtySpace.swapFile.data i = i % 251 ∧
        e2ndDirtyFault.1.swapFile.data i = 7) ∧
      (e2ndDirtyFault.1.pageTable 0).valid = false ∧
      (e2ndDirtyFault.1.pageTable 3).valid = true ∧
      (e2ndDirtyFault.1.pageTable 3).dirty = false) ∧
    ∃ k, k < e2ndConfig.maxFramesPerProc ∧
      (findPageE2ndChance e2ndConfig 3 e2ndDirtySpace).1 =
        e2ndDirtySpace.pagesInMem ((e2ndDirtySpace.idx + k) % e2ndConfig.maxFramesPerProc) ∧
      e2ndRun e2ndConfig 3 4 1 e2ndDirtySpace =
        some (classRank (e2ndDirtySpace.pageTable (e2ndDirtySpace.pageAt e2ndConfig k)) + 1,
          findPageE2ndChance e2ndConfig 3 e2ndDirtySpace) ∧
      (∀ v, e2ndDirtySpace.resident v →
        classRank (e2ndDirtySpace.pageTable (e2ndDirtySpace.pageAt e2ndConfig k)) ≤
          classRank (e2ndDirtySpace.pageTable v)) ∧
      (∀ j, j < k →
        classRank (e2ndDirtySpace.pageTable (e2ndDirtySpace.pageAt e2ndConfig j)) ≠
          classRank (e2ndDirtySpace.pageTable (e2ndDirtySpace.pageAt e2ndConfig k))) ∧
      (findPageE2ndChance e2ndConfig 3 e2ndDirtySpace).2.pagesInMem =
        Function.update e2ndDirtySpace.pagesInMem
          ((e2ndDirtySpace.idx + k) % e2ndConfig.maxFramesPerProc) 3 ∧
      (findPageE2ndChance e2ndConfig 3 e2ndDirtySpace).2.idx =
        (e2ndDirtySpace.idx + k + 1) % e2ndConfig.maxFramesPerProc :=
  ⟨by decide,
    findPageE2ndChance_first_of_lowest_class 3 e2ndDirtySpace_reachable.inv_holds (by decide)⟩

/-- First fill: the slot under the cursor is unused and pass 1 returns at its
first visit. -/
theorem e2ndRun_fill {c : Config} {inPage : Int} {s : AddrSpace} (hm : 0 < c.maxFramesPerProc)
    (hneg : s.pagesInMem s.idx < 0) :
    e2ndPass c inPage 1 c.maxFramesPerProc s =
        Scan.ret (-1)
          { s with
            pagesInMem := Function.update s.pagesInMem s.idx inPage
            idx := (s.idx + 1) % c.maxFramesPerProc } ∧
      e2ndLoopsLog c inPage 4 1 s = [(1, none)] := by
  have hstep : e2ndStep c inPage 1 s = Scan.ret (-1)
      { s with
        pagesInMem := Function.update s.pagesInMem s.idx inPage
        idx := (s.idx + 1) % c.maxFramesPerProc } := by
    simp [e2ndStep, hneg]
  have hpass : e2ndPass c inPage 1 c.maxFramesPerProc s =
      Scan.ret (-1)
        { s with
          pagesInMem := Function.update s.pagesInMem s.idx inPage
          idx := (s.idx + 1) % c.maxFramesPerProc } := by
    rw [e2ndPass_pos c inPage 1 hm, hstep]
  refine ⟨hpass, ?_⟩
  obtain ⟨n, hn⟩ : ∃ n, c.maxFramesPerProc = n + 1 := ⟨c.maxFramesPerProc - 1, by omega⟩
  have hlog : e2ndPassLog c inPage 1 c.maxFramesPerProc s = [(1, none)] := by
    rw [hn]
    simp [e2ndPassLog, hstep, e2ndIndex, hneg]
  simp only [e2ndLoopsLog, hpass, hlog, List.append_nil]

/-- The visits of one pass over slots that are all in use. -/
theorem e2ndPassLog_full {c : Config} {inPage : Int} (hm : 0 < c.maxFramesPerProc) (loop : Nat) :
    ∀ (n : Nat) (s : AddrSpace), s.idx < c.maxFramesPerProc →
      (∀ j, j < c.maxFramesPerProc → 0 ≤ s.pagesInMem j) →
      (e2ndPassLog c inPage loop n s).length ≤ n ∧
      ∀ e, e ∈ e2ndPassLog c inPage loop n s →
        e.1 = loop ∧ ∃ i, i < c.maxFramesPerProc ∧ e.2 = some (s.pagesInMem i) := by
  intro n
  induction n with
  | zero =>
    intro s _ _
    exact ⟨Nat.le_refl 0, fun e he => by cases he⟩
  | succ n ih =>
    intro s hidx hfull
    have hneg : ¬ (loop = 1 ∧ s.pagesInMem s.idx < 0) := by
      have := hfull _ hidx
      omega
    have hind : e2ndIndex loop s = some (s.pagesInMem s.idx) := by
      unfold e2ndIndex
      rw [if_neg hneg]
    cases hstep : e2ndStep c inPage loop s with
    | ret v t =>
      have hlog : e2ndPassLog c inPage loop (n + 1) s = [(loop, some (s.pagesInMem s.idx))] := by
        simp only [e2ndPassLog, hstep, hind]
      rw [hlog]
      refine ⟨by simp, fun e he => ?_⟩
      rw [List.mem_singleton] at he
      rw [he]
      exact ⟨rfl, s.idx, hidx, rfl⟩
    | go t =>
      have hlog : e2ndPassLog c inPage loop (n + 1) s =
          (loop, some (s.pagesInMem s.idx)) :: e2ndPassLog c inPage loop n t := by
        simp only [e2ndPassLog, hstep, hind]
      obtain ⟨hk, hi, -, -, -⟩ := e2ndStep_go hstep
      obtain ⟨hlen, hmem⟩ := ih t (by rw [hi]; exact Nat.mod_lt _ hm)
        (by rw [hk.pages]; exact hfull)
      rw [hlog]
      refine ⟨by rw [List.length_cons]; omega, fun e he => ?_⟩
      rcases List.mem_cons.mp he with h | h
      · rw [h]
        exact ⟨rfl, s.idx, hidx, rfl⟩
      · obtain ⟨h1, i, hi, h2⟩ := hmem e h
        exact ⟨h1, i, hi, by rw [h2, hk.pages]⟩

/-- The visits of the passes over slots that are all in use. -/
theorem e2ndLoopsLog_full {c : Config} {inPage : Int} (hm : 0 < c.maxFramesPerProc) :
    ∀ (passes loop : Nat) (s : AddrSpace), s.idx < c.maxFramesPerProc →
      (∀ j, j < c.maxFramesPerProc → 0 ≤ s.pagesInMem j) →
      (e2ndLoopsLog c inPage passes loop s).length ≤ passes * c.maxFramesPerProc ∧
      ∀ e, e ∈ e2ndLoopsLog c inPage passes loop s →
        loop ≤ e.1 ∧ ∃ i, i < c.maxFramesPerProc ∧ e.2 = some (s.pagesInMem i) := by
  intro passes
  induction passes with
  | zero =>
    intro loop s _ _
    exact ⟨Nat.zero_le _, fun e he => by cases he⟩
  | succ n ih =>
    intro loop s hidx hfull
    obtain ⟨hlen1, hmem1⟩ := @e2ndPassLog_full c inPage hm loop c.maxFramesPerProc s hidx hfull
    cases hp : e2ndPass c inPage loop c.maxFramesPerProc s with
    | ret v t =>
      have hlog : e2ndLoopsLog c inPage (n + 1) loop s =
          e2ndPassLog c inPage loop c.maxFramesPerProc s := by
        simp only [e2ndLoopsLog, hp, List.append_nil]
      rw [hlog]
      refine ⟨?_, fun e he => ?_⟩
      · have : c.maxFramesPerProc ≤ (n + 1) * c.maxFramesPerProc :=
          Nat.le_mul_of_pos_left _ (Nat.succ_pos n)
        omega
      · obtain ⟨h1, h2⟩ := hmem1 e he
        exact ⟨by omega, h2⟩
    | go t =>
      have hlog : e2ndLoopsLog c inPage (n + 1) loop s =
          e2ndPassLog c inPage loop c.maxFramesPerProc s ++
            e2ndLoopsLog c inPage n (loop + 1) t := by
        simp only [e2ndLoopsLog, hp]
      obtain ⟨hk, hi, -, -, -⟩ :=
        (@e2ndPass_spec c inPage hm loop c.maxFramesPerProc s hidx hfull).2 t hp
      obtain ⟨hlen2, hmem2⟩ := ih (loop + 1) t (by rw [hi]; exact Nat.mod_lt _ hm)
        (by rw [hk.pages]; exact hfull)
      rw [hlog]
      refine ⟨?_, fun e he => ?_⟩
      · rw [List.length_append, Nat.succ_mul]
        omega
      · rcases List.mem_append.mp he with h | h
        · obtain ⟨h1, h2⟩ := hmem1 e h
          exact ⟨by omega, h2⟩
        · obtain ⟨h1, i, hi, h2⟩ := hmem2 e h
          exact ⟨by omega, i, hi, by rw [h2, hk.pages]⟩

/-- Counterexample to C14 as stated: pages 0, 1, 2 with `(use, dirty)` bits
`(1,0)`, `(0,0)`, `(1,1)` and the cursor at slot 0.  Pass 1 visits page 0,
whose use bit is set, and then returns page 1; on return page 0 still has
`use = true`. -/
theorem e2nd_pass_one_keeps_use_bit :
    (e2ndMixedSpace.pageTable 0).use = true ∧
      e2ndLoopsLog e2ndConfig 3 4 1 e2ndMixedSpace = [(1, some 0), (1, some 1)] ∧
      (e2ndRun e2ndConfig 3 4 1 e2ndMixedSpace).map (fun r => (r.1, r.2.1)) = some (1, 1) ∧
      (findPageE2ndChance e2ndConfig 3 e2ndMixedSpace).1 = 1 ∧
      ((findPageE2ndChance e2ndConfig 3 e2ndMixedSpace).2.pageTable 0).use = true := by
  decide

/-- C14 (amended): `findPageE2ndChance` clears use bits during pass 2 only.
In every state that satisfies the address-space invariant the routine returns
in some pass `p`.  When `p = 1` the page table is unchanged.  When `p = 2` the
victim is the page `k` places after the cursor, the pages at the `k` places
before it have `use = false` on return with their other fields unchanged, and
no other entry changes.  When `p > 2` every resident page has `use = false`
on return and nothing else changes. -/
theorem findPageE2ndChance_clears_use_in_pass_two_only {c : Config} {s : AddrSpace}
    (inPage : Int) (hinv : Inv c s) (halg : c.pageRepAlg = PageRepAlg.PRA_E2ND) :
    ∃ p k, k < c.maxFramesPerProc ∧
      e2ndRun c inPage 4 1 s = some (p, findPageE2ndChance c inPage s) ∧
      (p = 1 → (findPageE2ndChance c inPage s).2.pageTable = s.pageTable) ∧
      (p = 2 →
        (findPageE2ndChance c inPage s).1 = s.pagesInMem ((s.idx + k) % c.maxFramesPerProc) ∧
        (∀ j, j < k →
          (findPageE2ndChance c inPage s).2.pageTable (s.pageAt c j) =
            { s.pageTable (s.pageAt c j) with use := false }) ∧
        ∀ x, (∀ j, j < k → x ≠ s.pageAt c j) →
          (findPageE2ndChance c inPage s).2.pageTable x = s.pageTable x) ∧
      (2 < p →
        (∀ v, s.resident v →
          (findPageE2ndChance c inPage s).2.pageTable v = { s.pageTable v with use := false }) ∧
        ∀ x, ¬ s.resident x → (findPageE2ndChance c inPage s).2.pageTable x = s.pageTable x) := by
  have hm := hinv.shape.mpos
  have hnl : c.pageRepAlg ≠ PageRepAlg.PRA_LRU := by rw [halg]; decide
  rcases hinv.shape.split hnl with ⟨h1, -, -⟩ | hfull
  · have hpass := (@e2ndRun_fill c inPage s hm (by omega)).1
    have hrun := @e2ndRun_ret c inPage _ 1 s _ hpass 3
    have hres := findPageE2ndChance_of_run hrun
    rw [hres]
    exact ⟨1, 0, hm, hrun, fun _ => rfl, fun h => by omega, fun h => by omega⟩
  · obtain ⟨p, k, t, hk, hrun, -, -, -, -, -, hone, htwo, hmore⟩ :=
      @e2ndRun_full c inPage s hm hinv.shape.idx_lt hfull
        (fun i j hi hj h => hinv.inj i j hi hj (hfull i hi) h)
    have hres := findPageE2ndChance_of_run hrun
    rw [hres]
    refine ⟨p, k, hk, hrun, hone, fun hp => ⟨rfl, htwo hp⟩, fun hp => ?_⟩
    obtain ⟨hcl, hot⟩ := hmore hp
    refine ⟨fun v hv => ?_, fun x hx => hot x (fun j hj hxj => hx ?_)⟩
    · obtain ⟨j, hj, hjv⟩ := pageAt_surj hinv hv
      rw [← hjv]
      exact hcl j hj
    · rw [hxj]
      have := hinv.listed ((s.idx + j) % c.maxFramesPerProc) (Nat.mod_lt _ hm)
        (hfull _ (Nat.mod_lt _ hm))
      exact this

/-- Witness of the amended C14: pages 0, 1, 2 with `(use, dirty)` bits `(1,1)`,
`(0,1)`, `(1,0)` and the cursor at slot 0.  Pass 1 finds nothing, pass 2
clears the use bit of page 0 and returns page 1; page 2 keeps its use bit. -/
theorem findPageE2ndChance_clears_use_in_pass_two_only_witness :
    ((List.range 3).map (fun v => classRank (e2ndClearSpace.pageTable v)) = [3, 1, 2] ∧
      (e2ndRun e2ndConfig 3 4 1 e2ndClearSpace).map (fun r => (r.1, r.2.1)) = some (2, 1) ∧
      (List.range 3).map
          (fun v => ((findPageE2ndChance e2ndConfig 3 e2ndClearSpace).2.pageTable v).use) =
        [false, false, true]) ∧
    ∃ p k, k < e2ndConfig.maxFramesPerProc ∧
      e2ndRun e2ndConfig 3 4 1 e2ndClearSpace =
        some (p, findPageE2ndChance e2ndConfig 3 e2ndClearSpace) ∧
      (p = 1 → (findPageE2ndChance e2ndConfig 3 e2ndClearSpace).2.pageTable =
        e2ndClearSpace.pageTable) ∧
      (p = 2 →
        (findPageE2ndChance e2ndConfig 3 e2ndClearSpace).1 =
          e2ndClearSpace.pagesInMem
            ((e2ndClearSpace.idx + k) % e2ndConfig.maxFramesPerProc) ∧
        (∀ j, j < k →
          (findPageE2ndChance e2ndConfig 3 e2ndClearSpace).2.pageTable
              (e2ndClearSpace.pageAt e2ndConfig j) =
            { e2ndClearSpace.pageTable (e2ndClearSpace.pageAt e2ndConfig j) with
              use := false }) ∧
        ∀ x, (∀ j, j < k → x ≠ e2ndClearSpace.pageAt e2ndConfig j) →
          (findPageE2ndChance e2ndConfig 3 e2ndClearSpace).2.pageTable x =
            e2ndClearSpace.pageTable x) ∧
      (2 < p →
        (∀ v, e2ndClearSpace.resident v →
          (findPageE2ndChance e2ndConfig 3 e2ndClearSpace).2.pageTable v =
            { e2ndClearSpace.pageTable v with use := false }) ∧
        ∀ x, ¬ e2ndClearSpace.resident x →
          (findPageE2ndChance e2ndConfig 3 e2ndClearSpace).2.pageTable x =
            e2ndClearSpace.pageTable x) :=
  ⟨by decide,
    findPageE2ndChance_clears_use_in_pass_two_only 3 e2ndClearSpace_reachable.inv_holds rfl⟩

/-- C15: in every reachable state under Enhanced Second-Chance either all
slots hold page numbers inside the page table or the cursor `idx` is at the
first unused slot, and `findPageE2ndChance` returns from inside its loops (the
instrumented run names the pass, so the "failed to find victim frame" branch
is not reached) after at most `4 * maxFramesPerProc` slot visits; every index
with which a visit reads the page table is a page number inside the table,
never `-1`; and a negative result is returned only in pass 1. -/
theorem findPageE2ndChance_returns_in_loops {c : Config} {s : AddrSpace} (inPage : Int)
    (hreach : Reachable c s) (halg : c.pageRepAlg = PageRepAlg.PRA_E2ND) :
    ((∀ j, j < c.maxFramesPerProc →
        0 ≤ s.pagesInMem j ∧ (s.pagesInMem j).toNat < s.numPages) ∨
      (s.pagesInMem s.idx = -1 ∧ (∀ j, j < s.idx → 0 ≤ s.pagesInMem j) ∧
        ∀ j, s.idx ≤ j → j < c.maxFramesPerProc → s.pagesInMem j = -1)) ∧
    (∃ p, e2ndRun c inPage 4 1 s = some (p, findPageE2ndChance c inPage s) ∧
      ((findPageE2ndChance c inPage s).1 < 0 → p = 1)) ∧
    (e2ndLoopsLog c inPage 4 1 s).length ≤ 4 * c.maxFramesPerProc ∧
    (∀ e, e ∈ e2ndLoopsLog c inPage 4 1 s → ∀ v, e.2 = some v →
      0 ≤ v ∧ v.toNat < s.numPages) := by
  have hinv := hreach.inv_holds
  have hm := hinv.shape.mpos
  have hnl : c.pageRepAlg ≠ PageRepAlg.PRA_LRU := by rw [halg]; decide
  rcases hinv.shape.split hnl with ⟨h1, hlo, hhi⟩ | hfull
  · obtain ⟨hpass, hlog⟩ := @e2ndRun_fill c inPage s hm (by omega)
    have hrun := @e2ndRun_ret c inPage _ 1 s _ hpass 3
    have hres := findPageE2ndChance_of_run hrun
    rw [hres, hlog]
    refine ⟨Or.inr ⟨h1, hlo, hhi⟩, ⟨1, hrun, fun _ => rfl⟩, ?_, fun e he v hv => ?_⟩
    · rw [List.length_singleton]
      omega
    · rw [List.mem_singleton] at he
      rw [he] at hv
      cases hv
  · have hin : ∀ j, j < c.maxFramesPerProc →
        0 ≤ s.pagesInMem j ∧ (s.pagesInMem j).toNat < s.numPages :=
      fun j hj => ⟨hfull j hj, (hinv.listed j hj (hfull j hj)).1⟩
    obtain ⟨p, k, t, hk, hrun, -, -, -, -, -, -, -, -⟩ :=
      @e2ndRun_full c inPage s hm hinv.shape.idx_lt hfull
        (fun i j hi hj h => hinv.inj i j hi hj (hfull i hi) h)
    have hres := findPageE2ndChance_of_run hrun
    obtain ⟨hlen, hmem⟩ := @e2ndLoopsLog_full c inPage hm 4 1 s hinv.shape.idx_lt hfull
    rw [hres]
    refine ⟨Or.inl hin, ⟨p, hrun, fun hneg => ?_⟩, hlen, fun e he v hv => ?_⟩
    · have := hfull _ (Nat.mod_lt (s.idx + k) hm)
      dsimp only at hneg
      omega
    · obtain ⟨-, i, hi, h2⟩ := hmem e he
      rw [h2] at hv
      cases hv
      exact hin i hi

/-- Witness of C15: scenario 6, where the routine returns at the first visit
of pass 2, after four visits. -/
theorem findPageE2ndChance_returns_in_loops_witness :
    e2ndLoopsLog e2ndConfig 3 4 1 e2ndDirtySpace =
        [(1, some 0), (1, some 1), (1, some 2), (2, some 0)] ∧
    ((∀ j, j < e2ndConfig.maxFramesPerProc →
        0 ≤ e2ndDirtySpace.pagesInMem j ∧
          (e2ndDirtySpace.pagesInMem j).toNat < e2ndDirtySpace.numPages) ∨
      (e2ndDirtySpace.pagesInMem e2ndDirtySpace.idx = -1 ∧
        (∀ j, j < e2ndDirtySpace.idx → 0 ≤ e2ndDirtySpace.pagesInMem j) ∧
        ∀ j, e2ndDirtySpace.idx ≤ j → j < e2ndConfig.maxFramesPerProc →
          e2ndDirtySpace.pagesInMem j = -1)) ∧
    (∃ p, e2ndRun e2ndConfig 3 4 1 e2ndDirtySpace =
        some (p, findPageE2ndChance e2ndConfig 3 e2ndDirtySpace) ∧
      ((findPageE2ndChance e2ndConfig 3 e2ndDirtySpace).1 < 0 → p = 1)) ∧
    (e2ndLoopsLog e2ndConfig 3 4 1 e2ndDirtySpace).length ≤ 4 * e2ndConfig.maxFramesPerProc ∧
    (∀ e, e ∈ e2ndLoopsLog e2ndConfig 3 4 1 e2ndDirtySpace → ∀ v, e.2 = some v →
      0 ≤ v ∧ v.toNat < e2ndDirtySpace.numPages) :=
  ⟨by decide, findPageE2ndChance_returns_in_loops 3 e2ndDirtySpace_reachable rfl⟩

/-! ## OPT: the victim -/

theorem optNextUse_spec (refStr : List Nat) (p : Int) :
    ∀ (n j0 : Nat),
      (∀ j, optNextUse refStr p n j0 = some j →
        j0 ≤ j ∧ j < j0 + n ∧ p = ((refStr.getD j 0 : Nat) : Int) ∧
        ∀ i, i < j → j0 ≤ i → p ≠ ((refStr.getD i 0 : Nat) : Int)) ∧
      (optNextUse refStr p n j0 = none →
        ∀ i, i < j0 + n → j0 ≤ i → p ≠ ((refStr.getD i 0 : Nat) : Int)) := by
  intro n
  induction n with
  | zero =>
    intro j0
    refine ⟨fun j h => (by cases h), fun _ i hi h0 => by omega⟩
  | succ n ih =>
    intro j0
    unfold optNextUse
    by_cases hp : p = ((refStr.getD j0 0 : Nat) : Int)
    · rw [if_pos hp]
      refine ⟨fun j h => ?_, fun h => (by cases h)⟩
      cases h
      exact ⟨le_rfl, by omega, hp, fun i hi h0 => by omega⟩
    · rw [if_neg hp]
      obtain ⟨h1, h2⟩ := ih (j0 + 1)
      refine ⟨fun j h => ?_, fun h i hi h0 => ?_⟩
      · obtain ⟨a, b, e, f⟩ := h1 j h
        refine ⟨by omega, by omega, e, fun i hi h0 => ?_⟩
        rcases Nat.eq_or_lt_of_le h0 with heq | hlt
        · rw [← heq]; exact hp
        · exact f i hi hlt
      · rcases Nat.eq_or_lt_of_le h0 with heq | hlt
        · rw [← heq]; exact hp
        · exact h2 h i (by omega) hlt

/-- The inner loop of `findPageOpt` finds the first use of a page, or none
when the page is not used from the cursor on. -/
theorem optNextUse_firstUse (s : AddrSpace) (p : Int) :
    (∀ j, optNextUse s.optRefStr p (s.optRefStr.length - s.refIdx) s.refIdx = some j →
      s.firstUse p j) ∧
    (optNextUse s.optRefStr p (s.optRefStr.length - s.refIdx) s.refIdx = none →
      s.unusedFrom p) := by
  obtain ⟨h1, h2⟩ := optNextUse_spec s.optRefStr p (s.optRefStr.length - s.refIdx) s.refIdx
  refine ⟨fun j h => ?_, fun h i hi h0 => h2 h i (by omega) h0⟩
  obtain ⟨a, b, e, f⟩ := h1 j h
  exact ⟨a, by omega, e, f⟩

theorem AddrSpace.firstUse.unique {s : AddrSpace} {p : Int} {a b : Nat}
    (ha : s.firstUse p a) (hb : s.firstUse p b) : a = b := by
  rcases Nat.lt_trichotomy a b with h | h | h
  · exact absurd ha.2.2.1 (hb.2.2.2 a h ha.1)
  · exact h
  · exact absurd hb.2.2.1 (ha.2.2.2 b h hb.1)

theorem AddrSpace.firstUse.used {s : AddrSpace} {p : Int} {j : Nat}
    (h : s.firstUse p j) : ¬ s.unusedFrom p :=
  fun hu => hu j h.2.1 h.1 h.2.2.1

/-- The outer loop of `findPageOpt`: `dist` and `index` hold the farthest
first use among the slots scanned so far. -/
theorem findPageOptScan_spec (inPage : Int) (s : AddrSpace) (m : Nat) :
    ∀ (n i : Nat) (dist : Int) (index : Nat), i + n = m → 0 < m →
      (i = 0 → dist = -1 ∧ index = 0) →
      (0 < i → index < i ∧ ∃ j, s.firstUse (s.pagesInMem index) j ∧
        dist = (j : Int) - (s.refIdx : Int)) →
      (∀ k, k < i → ∃ j, s.firstUse (s.pagesInMem k) j ∧
        (j : Int) - (s.refIdx : Int) ≤ dist) →
      ∃ x, x < m ∧ findPageOptScan inPage s n i dist index =
          (s.pagesInMem x, { s with pagesInMem := Function.update s.pagesInMem x inPage }) ∧
        ((s.unusedFrom (s.pagesInMem x) ∧ ∀ k, k < x → ¬ s.unusedFrom (s.pagesInMem k)) ∨
          ((∀ k, k < m → ¬ s.unusedFrom (s.pagesInMem k)) ∧
            ∃ j, s.firstUse (s.pagesInMem x) j ∧
              ∀ k j2, k < m → s.firstUse (s.pagesInMem k) j2 → j2 ≤ j)) := by
  intro n
  induction n with
  | zero =>
    intro i dist index him hm _ hpos hall
    have hi : i = m := by omega
    subst hi
    obtain ⟨hidx, j, hj, hd⟩ := hpos hm
    refine ⟨index, hidx, rfl, Or.inr ⟨fun k hk => ?_, j, hj, fun k j2 hk hk2 => ?_⟩⟩
    · obtain ⟨j2, h2, -⟩ := hall k hk
      exact h2.used
    · obtain ⟨j3, h3, hle⟩ := hall k hk
      have := hk2.unique h3
      omega
  | succ n ih =>
    intro i dist index him hm hzero hpos hall
    obtain ⟨hsome, hnone⟩ := optNextUse_firstUse s (s.pagesInMem i)
    unfold findPageOptScan
    cases hnext : optNextUse s.optRefStr (s.pagesInMem i) (s.optRefStr.length - s.refIdx)
        s.refIdx with
    | none =>
      refine ⟨i, by omega, rfl, Or.inl ⟨hnone hnext, fun k hk => ?_⟩⟩
      obtain ⟨j2, h2, -⟩ := hall k hk
      exact h2.used
    | some j =>
      have hfirst := hsome j hnext
      have hge := hfirst.1
      simp only
      split
      · rename_i hgt
        apply ih (i + 1) _ i (by omega) hm (fun h => by omega)
          (fun _ => ⟨Nat.lt_succ_self i, j, hfirst, rfl⟩)
        intro k hk
        rcases Nat.lt_succ_iff_lt_or_eq.mp hk with h | h
        · obtain ⟨j2, h2, hle⟩ := hall k h
          exact ⟨j2, h2, by omega⟩
        · rw [h]
          exact ⟨j, hfirst, le_rfl⟩
      · rename_i hle
        have hipos : 0 < i := by
          rcases Nat.eq_zero_or_pos i with h0 | h0
          · have := (hzero h0).1
            omega
          · exact h0
        obtain ⟨hidx, j1, hj1, hd⟩ := hpos hipos
        apply ih (i + 1) _ index (by omega) hm (fun h => by omega)
          (fun _ => ⟨by omega, j1, hj1, hd⟩)
        intro k hk
        rcases Nat.lt_succ_iff_lt_or_eq.mp hk with h | h
        · exact hall k h
        · rw [h]
          exact ⟨j, hfirst, by omega⟩

theorem optFullSpace_reachable : Reachable optConfig optFullSpace :=
  driven_reachable (by decide) (Reachable.fresh 0 8 _ _ (by decide) (by decide) (by decide))
    (by decide) (by decide)

/-- C16: under OPT with all slots resident `findPageOpt(inPage)` takes one
slot `x`: it returns the page of that slot and stores `inPage` there, and
nothing else of the state changes (no other slot, not `idx`, not `refIdx`).
Either the page of slot `x` does not occur in the reference string from
`refIdx` on and `x` is the lowest-numbered slot with such a page; or every
resident page occurs again and the first occurrence of the page of slot `x` at
an index `≥ refIdx` is later than that of every other slot. -/
theorem findPageOpt_farthest_next_use {c : Config} {s : AddrSpace} (inPage : Int)
    (hinv : Inv c s) (hfull : ∀ j, j < c.maxFramesPerProc → 0 ≤ s.pagesInMem j) :
    ∃ x, x < c.maxFramesPerProc ∧
      findPageOpt c inPage s =
        (s.pagesInMem x, { s with pagesInMem := Function.update s.pagesInMem x inPage }) ∧
      ((s.unusedFrom (s.pagesInMem x) ∧ ∀ k, k < x → ¬ s.unusedFrom (s.pagesInMem k)) ∨
        ((∀ k, k < c.maxFramesPerProc → ¬ s.unusedFrom (s.pagesInMem k)) ∧
          ∃ j, s.firstUse (s.pagesInMem x) j ∧
            ∀ k j2, k < c.maxFramesPerProc → k ≠ x → s.firstUse (s.pagesInMem k) j2 →
              j2 < j)) := by
  have hm := hinv.shape.mpos
  have hneg : ¬ s.pagesInMem s.idx < 0 := by
    have := hfull _ hinv.shape.idx_lt
    omega
  obtain ⟨x, hx, hrun, hcase⟩ :=
    findPageOptScan_spec inPage s c.maxFramesPerProc c.maxFramesPerProc 0 (-1) 0 (by omega) hm
      (fun _ => ⟨rfl, rfl⟩) (fun h => absurd h (lt_irrefl 0))
      (fun k hk => absurd hk (Nat.not_lt_zero k))
  refine ⟨x, hx, ?_, ?_⟩
  · unfold findPageOpt
    rw [if_neg hneg]
    exact hrun
  · rcases hcase with h | ⟨hall, j, hj, hmax⟩
    · exact Or.inl h
    · refine Or.inr ⟨hall, j, hj, fun k j2 hk hne hk2 => ?_⟩
      have hle := hmax k j2 hk hk2
      rcases Nat.eq_or_lt_of_le hle with heq | hlt
      · exfalso
        apply hne
        apply hinv.inj k x hk hx (hfull k hk)
        rw [hk2.2.2.1, hj.2.2.1, heq]
      · exact hlt

/-- Witness of C16: scenario 3 after the references `7, 0, 1, 2, 0, 3, 0`, with
pages 2, 0, 3 in slots 0, 1, 2 and the cursor of the reference string at index
6.  Their first uses from there are at the indices 8, 6 and 9, so the fault on
page 4 evicts page 3 from slot 2. -/
theorem findPageOpt_farthest_next_use_witness :
    ((List.range 3).map optFullSpace.pagesInMem = [2, 0, 3] ∧ optFullSpace.refIdx = 6 ∧
      optFullSpace.firstUse 2 8 ∧ optFullSpace.firstUse 0 6 ∧ optFullSpace.firstUse 3 9 ∧
      (findPageOpt optConfig 4 optFullSpace).1 = 3 ∧
      (List.range 3).map (findPageOpt optConfig 4 optFullSpace).2.pagesInMem = [2, 0, 4]) ∧
    ∃ x, x < optConfig.maxFramesPerProc ∧
      findPageOpt optConfig 4 optFullSpace =
        (optFullSpace.pagesInMem x,
          { optFullSpace with pagesInMem := Function.update optFullSpace.pagesInMem x 4 }) ∧
      ((optFullSpace.unusedFrom (optFullSpace.pagesInMem x) ∧
          ∀ k, k < x → ¬ optFullSpace.unusedFrom (optFullSpace.pagesInMem k)) ∨
        ((∀ k, k < optConfig.maxFramesPerProc →
            ¬ optFullSpace.unusedFrom (optFullSpace.pagesInMem k)) ∧
          ∃ j, optFullSpace.firstUse (optFullSpace.pagesInMem x) j ∧
            ∀ k j2, k < optConfig.maxFramesPerProc → k ≠ x →
              optFullSpace.firstUse (optFullSpace.pagesInMem k) j2 → j2 < j)) :=
  ⟨by decide,
    findPageOpt_farthest_next_use 4 optFullSpace_reachable.inv_holds (by decide)⟩

/-! ## LRU: the stack window refines the recency list -/

theorem lruWindow_length (c : Config) (s : AddrSpace) : (lruWindow c s).length = s.count := by
  unfold lruWindow
  rw [List.length_map, List.length_range]

theorem lruWindow_getElem? (c : Config) (s : AddrSpace) (j : Nat) :
    (lruWindow c s)[j]? =
      if j < s.count then some (s.pagesInMem ((s.bottom + j) % c.maxFramesPerProc)) else none := by
  unfold lruWindow
  rw [List.getElem?_map]
  split_ifs with h
  · rw [List.getElem?_range h]
    rfl
  · rw [List.getElem?_eq_none (by rw [List.length_range]; omega)]
    rfl

theorem lruWindow_mem {c : Config} {s : AddrSpace} {x : Int} :
    x ∈ lruWindow c s ↔
      ∃ j, j < s.count ∧ s.pagesInMem ((s.bottom + j) % c.maxFramesPerProc) = x := by
  unfold lruWindow
  rw [List.mem_map]
  constructor
  · rintro ⟨j, hj, h⟩
    exact ⟨j, List.mem_range.mp hj, h⟩
  · rintro ⟨j, hj, h⟩
    exact ⟨j, List.mem_range.mpr hj, h⟩

/-- Under LRU the slots in use are the slots of the window. -/
theorem Shape.window_slots {c : Config} {s : AddrSpace} (h : Shape c s)
    (hlru : c.pageRepAlg = PageRepAlg.PRA_LRU) :
    s.count ≤ c.maxFramesPerProc ∧
      (∀ j, j < s.count → 0 ≤ s.pagesInMem ((s.bottom + j) % c.maxFramesPerProc)) ∧
      (∀ i, i < c.maxFramesPerProc → 0 ≤ s.pagesInMem i →
        ∃ j, j < s.count ∧ (s.bottom + j) % c.maxFramesPerProc = i) := by
  obtain ⟨k, hk, hlo, hhi, hcur, -⟩ := h.loaded
  obtain ⟨hck, hb0⟩ := hcur hlru
  rw [hck]
  refine ⟨hk, fun j hj => ?_, fun i hi hpos => ?_⟩
  · rcases Nat.lt_or_ge k c.maxFramesPerProc with hlt | hge
    · rw [hb0 hlt, Nat.zero_add, Nat.mod_eq_of_lt (by omega)]
      exact hlo j hj
    · exact hlo _ (lt_of_lt_of_le (Nat.mod_lt _ h.mpos) hge)
  · rcases Nat.lt_or_ge k c.maxFramesPerProc with hlt | hge
    · have hik : i < k := by
        by_contra hcon
        have := hhi i (by omega) hi
        omega
      exact ⟨i, hik, by rw [hb0 hlt, Nat.zero_add, Nat.mod_eq_of_lt hi]⟩
    · obtain ⟨j, hj, hji⟩ := slot_surj h.bottom_lt hi
      exact ⟨j, by omega, hji⟩

/-- The window lists exactly the resident pages. -/
theorem Inv.resident_iff_window {c : Config} {s : AddrSpace} (hinv : Inv c s)
    (hlru : c.pageRepAlg = PageRepAlg.PRA_LRU) (v : Nat) :
    s.resident v ↔ (v : Int) ∈ lruWindow c s := by
  obtain ⟨hcm, hused, hslots⟩ := hinv.shape.window_slots hlru
  rw [lruWindow_mem]
  constructor
  · intro hv
    obtain ⟨i, hi, hp⟩ := hinv.complete v hv
    obtain ⟨j, hj, hji⟩ := hslots i hi (by rw [hp]; exact Int.ofNat_nonneg v)
    exact ⟨j, hj, by rw [hji, hp]⟩
  · rintro ⟨j, hj, hp⟩
    have := hinv.listed _ (Nat.mod_lt _ hinv.shape.mpos) (hused j hj)
    rw [hp] at this
    exact this

/-- The window lists each page once. -/
theorem Inv.window_nodup {c : Config} {s : AddrSpace} (hinv : Inv c s)
    (hlru : c.pageRepAlg = PageRepAlg.PRA_LRU) : (lruWindow c s).Nodup := by
  obtain ⟨hcm, hused, -⟩ := hinv.shape.window_slots hlru
  rw [List.nodup_iff_getElem?_ne_getElem?]
  intro i j hij hj
  rw [lruWindow_length] at hj
  rw [lruWindow_getElem?, lruWindow_getElem?, if_pos (by omega), if_pos hj]
  intro heq
  have heq := Option.some.inj heq
  have hm := hinv.shape.mpos
  have := hinv.inj _ _ (Nat.mod_lt _ hm) (Nat.mod_lt _ hm) (hused i (by omega)) heq
  have := slot_inj (by omega) (by omega) this
  omega

theorem lruSearch_none {c : Config} {s : AddrSpace} {vpn : Int} :
    ∀ (n i0 : Nat), lruSearch c s vpn n i0 = none →
      ∀ j, i0 ≤ j → j < i0 + n → s.pagesInMem ((s.bottom + j) % c.maxFramesPerProc) ≠ vpn := by
  intro n
  induction n with
  | zero => intro i0 _ j h1 h2; omega
  | succ n ih =>
    intro i0 h j h1 h2
    unfold lruSearch at h
    split_ifs at h with hh
    rcases Nat.eq_or_lt_of_le h1 with heq | hlt
    · rw [← heq]; exact hh
    · exact ih (i0 + 1) h j hlt (by omega)

/-- The routine `updatePageLRU` on a page of the window: the page moves to the
top, the others keep their order, `bottom` and `count` stay. -/
theorem Inv.window_after_updatePageLRU {c : Config} {s : AddrSpace} (hinv : Inv c s)
    (hlru : c.pageRepAlg = PageRepAlg.PRA_LRU) {vpn : Int} (hmem : vpn ∈ lruWindow c s) :
    lruWindow c (updatePageLRU c vpn s) = (lruWindow c s).erase vpn ++ [vpn] ∧
      (updatePageLRU c vpn s).bottom = s.bottom ∧ (updatePageLRU c vpn s).count = s.count := by
  obtain ⟨hcm, -, -⟩ := hinv.shape.window_slots hlru
  have hnd := hinv.window_nodup hlru
  obtain ⟨j0, hj0, hp0⟩ := lruWindow_mem.mp hmem
  unfold updatePageLRU
  cases hsearch : lruSearch c s vpn s.count 0 with
  | none =>
    exact absurd hp0 (lruSearch_none _ _ hsearch j0 (Nat.zero_le _) (by omega))
  | some i =>
    obtain ⟨-, hi, hvpn⟩ := lruSearch_some _ _ _ hsearch
    rw [Nat.zero_add] at hi
    refine ⟨?_, rfl, rfl⟩
    have hwi : (lruWindow c s)[i]? = some vpn := by
      rw [lruWindow_getElem?, if_pos hi, hvpn]
    have hilen : i < (lruWindow c s).length := by rw [lruWindow_length]; exact hi
    have hget : (lruWindow c s)[i] = vpn := by
      have := List.getElem?_eq_getElem hilen
      rw [hwi] at this
      exact (Option.some.inj this).symm
    have herase : (lruWindow c s).erase vpn = (lruWindow c s).eraseIdx i := by
      rw [← hget]
      exact hnd.erase_getElem i hilen
    rw [herase]
    apply List.ext_getElem?
    intro j
    rw [lruWindow_getElem?]
    dsimp only
    have hlen : ((lruWindow c s).eraseIdx i).length = s.count - 1 := by
      rw [List.length_eraseIdx, if_pos hilen, lruWindow_length]
    rw [List.getElem?_append, hlen, List.getElem?_eraseIdx, lruWindow_getElem?,
      lruWindow_getElem?]
    by_cases hjc : j < s.count
    · rw [if_pos hjc, lruSlide_window hcm hi hvpn j (by omega)]
      by_cases hji : j < i
      · rw [if_pos hji, if_pos (by omega), if_pos hji, if_pos hjc]
      · rw [if_neg hji]
        by_cases hj1 : j + 1 < s.count
        · rw [if_pos hj1, if_pos (by omega), if_neg hji, if_pos hj1]
        · have hjl : j + 1 = s.count := by omega
          rw [if_neg hj1, if_pos hjl, if_neg (by omega), hvpn]
          have : j - (s.count - 1) = 0 := by omega
          rw [this]
          rfl
    · rw [if_neg hjc, if_neg (by omega)]
      have : j - (s.count - 1) = (j - s.count) + 1 := by omega
      rw [this]
      rfl

/-- The routine `findPageLRU`: a page is pushed on a stack that is not full;
from a full stack the bottom page is evicted. -/
theorem Shape.window_after_findPageLRU {c : Config} {s : AddrSpace} (h : Shape c s)
    (hlru : c.pageRepAlg = PageRepAlg.PRA_LRU) (inPage : Int) :
    (s.count < c.maxFramesPerProc →
      (findPageLRU c inPage s).1 = -1 ∧
      lruWindow c (findPageLRU c inPage s).2 = lruWindow c s ++ [inPage]) ∧
    (¬ s.count < c.maxFramesPerProc →
      (lruWindow c s).head? = some (findPageLRU c inPage s).1 ∧
      lruWindow c (findPageLRU c inPage s).2 = (lruWindow c s).tail ++ [inPage]) := by
  obtain ⟨hcm, -, -⟩ := h.window_slots hlru
  have hm := h.mpos
  have hb := h.bottom_lt
  constructor
  · intro hlt
    unfold findPageLRU
    rw [if_pos hlt]
    refine ⟨rfl, ?_⟩
    apply List.ext_getElem?
    intro j
    rw [lruWindow_getElem?, List.getElem?_append, lruWindow_length, lruWindow_getElem?]
    dsimp only
    by_cases hjc : j < s.count
    · rw [if_pos (by omega), if_pos hjc, if_pos hjc,
        Function.update_noteq (fun hcon => by
          have := slot_inj (by omega) (by omega) hcon
          omega)]
    · rw [if_neg hjc]
      by_cases hje : j = s.count
      · rw [if_pos (by omega), hje, Function.update_same, Nat.sub_self]
        rfl
      · rw [if_neg (by omega)]
        have : j - s.count = (j - s.count - 1) + 1 := by omega
        rw [this]
        rfl
  · intro hge
    have hc : s.count = c.maxFramesPerProc := by omega
    unfold findPageLRU
    rw [if_neg hge]
    dsimp only
    constructor
    · have := lruWindow_getElem? c s 0
      rw [if_pos (by omega), Nat.add_zero, Nat.mod_eq_of_lt hb] at this
      rw [← this]
      exact (List.head?_eq_getElem? _).symm ▸ rfl
    · apply List.ext_getElem?
      intro j
      rw [lruWindow_getElem?, List.getElem?_append, List.length_tail, lruWindow_length,
        List.getElem?_tail, lruWindow_getElem?]
      dsimp only
      rw [slot_shift]
      by_cases hj1 : j + 1 < s.count
      · rw [if_pos (by omega), if_pos (by omega), if_pos hj1,
          Function.update_noteq (fun hcon => by
            have h0 : (s.bottom + (j + 1)) % c.maxFramesPerProc =
                (s.bottom + 0) % c.maxFramesPerProc := by
              rw [hcon, Nat.add_zero, Nat.mod_eq_of_lt hb]
            have := slot_inj (by omega) hm h0
            omega)]
      · by_cases hje : j + 1 = s.count
        · have hround : (s.bottom + (j + 1)) % c.maxFramesPerProc = s.bottom := by
            rw [hje, hc, Nat.add_mod_right, Nat.mod_eq_of_lt hb]
          rw [if_pos (by omega), if_neg (by omega), hround, Function.update_same]
          have : j - (s.count - 1) = 0 := by omega
          rw [this]
          rfl
        · rw [if_neg (by omega), if_neg (by omega)]
          have : j - (s.count - 1) = (j - s.count) + 1 := by omega
          rw [this]
          rfl

/-- A page fault changes the slots and the LRU cursors only through the find
routine. -/
theorem replacePage_cursors {c : Config} {rnd badVAddr : Nat} {s s' : AddrSpace} {k k' : Machine}
    (h : replacePage c rnd badVAddr s k = some (s', k')) :
    ∃ v s1, findVictim c rnd ((badVAddr / c.PageSize : Nat) : Int) s = some (v, s1) ∧
      s'.pagesInMem = s1.pagesInMem ∧ s'.bottom = s1.bottom ∧ s'.count = s1.count ∧
      s'.idx = s1.idx := by
  obtain ⟨v, s1, hf, hcase⟩ := replacePage_some h
  refine ⟨v, s1, hf, ?_⟩
  rcases hcase with ⟨-, -, heq⟩ | ⟨-, heq⟩
  · have hs' := congrArg Prod.fst heq
    dsimp only at hs'
    subst hs'
    exact ⟨rfl, rfl, rfl, rfl⟩
  · have hs' := congrArg Prod.fst heq
    dsimp only at hs'
    subst hs'
    unfold writeBack
    split_ifs <;> exact ⟨rfl, rfl, rfl, rfl⟩

theorem updatePage_lru {c : Config} {vpn : Int} {s t : AddrSpace}
    (hlru : c.pageRepAlg = PageRepAlg.PRA_LRU) (h : updatePage c vpn s = some t) :
    lruWindow c t = lruWindow c (updatePageLRU c vpn s) := by
  unfold updatePage at h
  rw [if_pos hlru] at h
  cases h
  obtain ⟨e1, -, e3, e4, -, -, -⟩ := recordRef_keeps c vpn (updatePageLRU c vpn s)
  unfold lruWindow
  rw [e1, e3, e4]

theorem lruWindow_congr {c : Config} {s t : AddrSpace} (hp : t.pagesInMem = s.pagesInMem)
    (hb : t.bottom = s.bottom) (hc : t.count = s.count) : lruWindow c t = lruWindow c s := by
  unfold lruWindow
  rw [hp, hb, hc]

theorem some_getD_of_isSome {α : Type} (o : Option α) (d : α) (h : o.isSome = true) :
    o = some (o.getD d) := by
  cases o with
  | none => cases h
  | some a => rfl

theorem cast_injective : Function.Injective (fun v : Nat => (v : Int)) :=
  fun _ _ h => Int.ofNat.inj h

/-- One reference of `drive` under LRU is one reference in the recency list. -/
theorem drive_lru_step {c : Config} {rnd v : Nat} {s : AddrSpace} {k : Machine} {l : List Nat}
    (hlru : c.pageRepAlg = PageRepAlg.PRA_LRU) (hps : 0 < c.PageSize)
    (hreach : Reachable c s) (hv : v < s.numPages)
    (habs : lruWindow c s = l.map (fun v : Nat => (v : Int))) :
    ((s.pageTable v).valid = true → ∀ s1, updatePage c (v : Int) s = some s1 →
      lruWindow c s1 = (recencyRef c.maxFramesPerProc l v).map (fun v : Nat => (v : Int))) ∧
    ((s.pageTable v).valid = false → ∀ s1 k1 s2,
      replacePage c rnd (v * c.PageSize) s k = some (s1, k1) →
      updatePage c (v : Int) s1 = some s2 →
      lruWindow c s2 = (recencyRef c.maxFramesPerProc l v).map (fun v : Nat => (v : Int))) := by
  have hinv := hreach.inv_holds
  have hmemiff : v ∈ l ↔ s.resident v := by
    rw [hinv.resident_iff_window hlru, habs]
    exact (List.mem_map_of_injective cast_injective).symm
  constructor
  · intro hvalid s1 hu
    have hvl : v ∈ l := hmemiff.mpr ⟨hv, hvalid⟩
    have hmem : (v : Int) ∈ lruWindow c s := (hinv.resident_iff_window hlru v).mp ⟨hv, hvalid⟩
    rw [updatePage_lru hlru hu, (hinv.window_after_updatePageLRU hlru hmem).1, habs]
    unfold recencyRef
    rw [if_pos hvl, List.map_append, List.map_erase cast_injective]
    rfl
  · intro hvalid s1 k1 s2 hr hu
    have hvl : v ∉ l := fun hcon => by
      have := (hmemiff.mp hcon).2
      rw [hvalid] at this
      cases this
    have hdiv : v * c.PageSize / c.PageSize = v := Nat.mul_div_cancel v hps
    have hreach1 : Reachable c s1 :=
      Reachable.fault s s1 k k1 rnd (v * c.PageSize) hreach (by rw [hdiv]; exact hv)
        (by rw [hdiv]; exact hvalid) hr
    have hinv1 := hreach1.inv_holds
    obtain ⟨w, t, hf, hp, hb, hc, -⟩ := replacePage_cursors hr
    rw [hdiv] at hf
    have ht : (w, t) = findPageLRU c (v : Int) s := by
      unfold findVictim at hf
      rw [hlru] at hf
      exact (Option.some.inj hf).symm
    have hw1 : lruWindow c s1 = lruWindow c (findPageLRU c (v : Int) s).2 := by
      rw [← ht]
      exact lruWindow_congr hp hb hc
    obtain ⟨hpush, hevict⟩ := hinv.shape.window_after_findPageLRU hlru (v : Int)
    have hlen : l.length = s.count := by
      have := congrArg List.length habs
      rw [lruWindow_length, List.length_map] at this
      exact this.symm
    -- the window after the fault is `x ++ [v]` for a part `x` of the old list
    have hshape : ∃ x : List Nat, (∀ a, a ∈ x → a ∈ l) ∧
        lruWindow c s1 = (x ++ [v]).map (fun v : Nat => (v : Int)) ∧
        recencyRef c.maxFramesPerProc l v = x ++ [v] := by
      by_cases hfull : s.count < c.maxFramesPerProc
      · refine ⟨l, fun a ha => ha, ?_, ?_⟩
        · rw [hw1, (hpush hfull).2, habs, List.map_append]
          rfl
        · unfold recencyRef
          rw [if_neg hvl, if_pos (by omega)]
      · refine ⟨l.tail, fun a ha => List.mem_of_mem_tail ha, ?_, ?_⟩
        · rw [hw1, (hevict hfull).2, habs, List.map_append, List.map_tail]
          rfl
        · unfold recencyRef
          rw [if_neg hvl, if_neg (by omega)]
    obtain ⟨x, hsub, hwin, hrec⟩ := hshape
    have hvx : (v : Int) ∉ x.map (fun v : Nat => (v : Int)) := fun hcon =>
      hvl (hsub v ((List.mem_map_of_injective cast_injective).mp hcon))
    have hmem1 : (v : Int) ∈ lruWindow c s1 := by
      rw [hwin, List.map_append]
      exact List.mem_append_right _ (List.mem_singleton.mpr rfl)
    rw [updatePage_lru hlru hu, (hinv1.window_after_updatePageLRU hlru hmem1).1, hwin, hrec,
      List.map_append, List.erase_append_right _ hvx]
    simp

/-- The window after a run of references is the recency list of the run. -/
theorem drive_lru_window {c : Config} {rnd : Nat} (hlru : c.pageRepAlg = PageRepAlg.PRA_LRU)
    (hps : 0 < c.PageSize) :
    ∀ (refs : List Nat) (st : AddrSpace × Machine) (l : List Nat)
      (r : Nat × AddrSpace × Machine),
      Reachable c st.1 → (∀ v, v ∈ refs → v < st.1.numPages) →
      lruWindow c st.1 = l.map (fun v : Nat => (v : Int)) →
      drive c rnd refs st = some r →
      lruWindow c r.2.1 =
        (refs.foldl (recencyRef c.maxFramesPerProc) l).map (fun v : Nat => (v : Int)) := by
  intro refs
  induction refs with
  | nil =>
    intro st l r _ _ habs h
    cases h
    exact habs
  | cons v rest ih =>
    intro st l r hreach hrange habs h
    have hv := hrange v (List.mem_cons_self _ _)
    obtain ⟨hhit, hmiss⟩ := @drive_lru_step c rnd v st.1 st.2 l hlru hps hreach hv habs
    rw [List.foldl_cons]
    rcases drive_cons h with ⟨hvalid, s1, hu, hd⟩ | ⟨hvalid, s1, k1, s2, r1, hr, hu, hd, hreq⟩
    · have hn := updatePage_numPages hu
      have h1 := Reachable.touch st.1 s1 v hreach ⟨hv, hvalid⟩ hu
      exact ih (s1, st.2) _ r h1 (fun w hw => hn ▸ hrange w (List.mem_cons_of_mem _ hw))
        (hhit hvalid s1 hu) hd
    · have hdiv : v * c.PageSize / c.PageSize = v := Nat.mul_div_cancel v hps
      have hn1 := replacePage_numPages hreach.inv_holds hr
      have h1 := Reachable.fault st.1 s1 st.2 k1 rnd (v * c.PageSize) hreach
        (by rw [hdiv]; exact hv) (by rw [hdiv]; exact hvalid) hr
      obtain ⟨w, t, -, hval, -, -, -, -⟩ := replacePage_entries hr
      rw [hdiv] at hval
      have hn2 := updatePage_numPages hu
      have h2 := Reachable.touch s1 s2 v h1 ⟨hn1 ▸ hv, hval⟩ hu
      rw [hreq]
      exact ih (s2, k1) _ r1 h2
        (fun w hw => by rw [hn2, hn1]; exact hrange w (List.mem_cons_of_mem _ hw))
        (hmiss hvalid s1 k1 s2 hr hu) hd

/-- C11: under LRU the circular buffer refines the abstract recency list.  Let
the references `refs` (page numbers inside the address space) be driven
through an address space fresh from the constructor, a hit calling
`updatePage(vpn)` and a miss `replacePage` then `updatePage(vpn)`.  In the
state reached, `pagesInMem` read circularly from `bottom` for `count` entries
is the recency list of `refs` (least recently referenced page first); the list
has no repeats and holds exactly the resident pages; `updatePageLRU` on a
listed page moves it to the top, keeps the order of the others and leaves
`bottom` and `count` unchanged; and with a full stack `findPageLRU` returns
the first page of the list, the least recently referenced one, and lists the
incoming page last. -/
theorem lru_window_refines_recency_list {c : Config} (rnd : Nat) (refs : List Nat)
    (spaceID numPages : Nat) (swap : OpenFile) (refStr : List Nat) (k : Machine)
    (r : Nat × AddrSpace × Machine)
    (hlru : c.pageRepAlg = PageRepAlg.PRA_LRU) (hm : 0 < c.maxFramesPerProc)
    (hps : 0 < c.PageSize) (hswap : numPages * c.PageSize ≤ swap.length)
    (hrange : ∀ v, v ∈ refs → v < numPages)
    (hrun : drive c rnd refs (AddrSpace.fresh spaceID numPages swap refStr, k) = some r) :
    lruWindow c r.2.1 =
        (recencyList c.maxFramesPerProc refs).map (fun v : Nat => (v : Int)) ∧
      (recencyList c.maxFramesPerProc refs).Nodup ∧
      (∀ v, r.2.1.resident v ↔ v ∈ recencyList c.maxFramesPerProc refs) ∧
      (∀ vpn, vpn ∈ recencyList c.maxFramesPerProc refs →
        lruWindow c (updatePageLRU c (vpn : Int) r.2.1) =
            ((recencyList c.maxFramesPerProc refs).erase vpn ++ [vpn]).map
              (fun v : Nat => (v : Int)) ∧
          (updatePageLRU c (vpn : Int) r.2.1).bottom = r.2.1.bottom ∧
          (updatePageLRU c (vpn : Int) r.2.1).count = r.2.1.count) ∧
      (r.2.1.count = c.maxFramesPerProc → ∀ inPage : Nat,
        ((recencyList c.maxFramesPerProc refs).head?).map (fun v : Nat => (v : Int)) =
            some (findPageLRU c (inPage : Int) r.2.1).1 ∧
          lruWindow c (findPageLRU c (inPage : Int) r.2.1).2 =
            ((recencyList c.maxFramesPerProc refs).tail ++ [inPage]).map
              (fun v : Nat => (v : Int))) := by
  have hfresh : Reachable c (AddrSpace.fresh spaceID numPages swap refStr) :=
    Reachable.fresh spaceID numPages swap refStr hm hps hswap
  have hreach := (drive_reachable hps refs (AddrSpace.fresh spaceID numPages swap refStr, k) r
    hfresh hrange hrun).1
  have hinv := hreach.inv_holds
  have hwin : lruWindow c r.2.1 =
      (recencyList c.maxFramesPerProc refs).map (fun v : Nat => (v : Int)) :=
    drive_lru_window hlru hps refs (AddrSpace.fresh spaceID numPages swap refStr, k) [] r
      hfresh hrange rfl hrun
  have hmemiff : ∀ v, r.2.1.resident v ↔ v ∈ recencyList c.maxFramesPerProc refs := by
    intro v
    rw [hinv.resident_iff_window hlru, hwin]
    exact List.mem_map_of_injective cast_injective
  refine ⟨hwin, ?_, hmemiff, fun vpn hvpn => ?_, fun hfull inPage => ?_⟩
  · have := hinv.window_nodup hlru
    rw [hwin] at this
    exact this.of_map _
  · have hmem : (vpn : Int) ∈ lruWindow c r.2.1 :=
      (hinv.resident_iff_window hlru vpn).mp ((hmemiff vpn).mpr hvpn)
    obtain ⟨h1, h2, h3⟩ := hinv.window_after_updatePageLRU hlru hmem
    refine ⟨?_, h2, h3⟩
    rw [h1, hwin, List.map_append, List.map_erase cast_injective]
    rfl
  · obtain ⟨h1, h2⟩ :=
      (hinv.shape.window_after_findPageLRU hlru (inPage : Int)).2 (by omega)
    constructor
    · rw [← h1, hwin, List.head?_map]
    · rw [h2, hwin, List.map_append, List.map_tail]
      rfl

/-- Witness of C11 (scenario 2 of the spec): capacity 2, references
`0, 1, 0, 2, 1, 2`.  The run makes four page faults and ends with the pages 1
and 2 resident and the window `[1, 2]` from bottom to top. -/
theorem lru_window_refines_recency_list_witness :
    (recencyList 2 [0, 1, 0, 2, 1, 2] = [1, 2] ∧ lruRun.1 = 4 ∧
      lruWindow lruConfig lruRun.2.1 = [1, 2] ∧
      (List.range 4).map (fun v => (lruRun.2.1.pageTable v).valid) =
        [false, true, true, false]) ∧
    (lruWindow lruConfig lruRun.2.1 =
        (recencyList lruConfig.maxFramesPerProc [0, 1, 0, 2, 1, 2]).map
          (fun v : Nat => (v : Int)) ∧
      (recencyList lruConfig.maxFramesPerProc [0, 1, 0, 2, 1, 2]).Nodup ∧
      (∀ v, lruRun.2.1.resident v ↔
        v ∈ recencyList lruConfig.maxFramesPerProc [0, 1, 0, 2, 1, 2]) ∧
      (∀ vpn, vpn ∈ recencyList lruConfig.maxFramesPerProc [0, 1, 0, 2, 1, 2] →
        lruWindow lruConfig (updatePageLRU lruConfig (vpn : Int) lruRun.2.1) =
            ((recencyList lruConfig.maxFramesPerProc [0, 1, 0, 2, 1, 2]).erase vpn ++
              [vpn]).map (fun v : Nat => (v : Int)) ∧
          (updatePageLRU lruConfig (vpn : Int) lruRun.2.1).bottom = lruRun.2.1.bottom ∧
          (updatePageLRU lruConfig (vpn : Int) lruRun.2.1).count = lruRun.2.1.count) ∧
      (lruRun.2.1.count = lruConfig.maxFramesPerProc → ∀ inPage : Nat,
        ((recencyList lruConfig.maxFramesPerProc [0, 1, 0, 2, 1, 2]).head?).map
            (fun v : Nat => (v : Int)) =
            some (findPageLRU lruConfig (inPage : Int) lruRun.2.1).1 ∧
          lruWindow lruConfig (findPageLRU lruConfig (inPage : Int) lruRun.2.1).2 =
            ((recencyList lruConfig.maxFramesPerProc [0, 1, 0, 2, 1, 2]).tail ++
              [inPage]).map (fun v : Nat => (v : Int)))) :=
  ⟨by decide!,
    @lru_window_refines_recency_list lruConfig 0 [0, 1, 0, 2, 1, 2] 0 4
      { length := 512, data := fun a => a % 251 } [] scenarioMachine lruRun
      rfl (by decide) (by decide) (by decide) (by decide)
      (some_getD_of_isSome _ _ (by decide!))⟩


/-! ## The constructor: NOFF header -/

/-- C25: with `WordToHost` the reversal of the four bytes of a word, the
header loading of the constructor accepts a header exactly when its magic word
is `NOFFMAGIC` or the reversal of its magic word is `NOFFMAGIC`.  In the first
case the ten words are used as read; in the second case each of the ten words
(the magic word and the three fields of each of the three segments) is
reversed before use; in every other case the magic assertion fails and nothing
is produced. -/
theorem loadHeader_accepts_magic_or_swapped (raw : NoffHeader) :
    ((loadHeader raw).isSome = true ↔
      (raw.noffMagic = NOFFMAGIC ∨ WordToHost raw.noffMagic = NOFFMAGIC)) ∧
    (raw.noffMagic = NOFFMAGIC → loadHeader raw = some raw) ∧
    (WordToHost raw.noffMagic = NOFFMAGIC →
      raw.noffMagic ≠ NOFFMAGIC ∧
      loadHeader raw = some
        { noffMagic := WordToHost raw.noffMagic
          code :=
            { size := WordToHost raw.code.size
              virtualAddr := WordToHost raw.code.virtualAddr
              inFileAddr := WordToHost raw.code.inFileAddr }
          initData :=
            { size := WordToHost raw.initData.size
              virtualAddr := WordToHost raw.initData.virtualAddr
              inFileAddr := WordToHost raw.initData.inFileAddr }
          uninitData :=
            { size := WordToHost raw.uninitData.size
              virtualAddr := WordToHost raw.uninitData.virtualAddr
              inFileAddr := WordToHost raw.uninitData.inFileAddr } }) ∧
    (raw.noffMagic ≠ NOFFMAGIC → WordToHost raw.noffMagic ≠ NOFFMAGIC →
      loadHeader raw = none) := by
  have hrev : WordToHost NOFFMAGIC ≠ NOFFMAGIC := by decide
  have h1 : raw.noffMagic = NOFFMAGIC → loadHeader raw = some raw := by
    intro h
    have hfix : fixHeader raw = raw := by
      unfold fixHeader
      rw [if_neg (fun hc => hc.1 h)]
    unfold loadHeader
    rw [hfix, if_pos h]
  have h2 : WordToHost raw.noffMagic = NOFFMAGIC →
      raw.noffMagic ≠ NOFFMAGIC ∧ loadHeader raw = some (SwapHeader raw) := by
    intro h
    have hne : raw.noffMagic ≠ NOFFMAGIC := fun hc => hrev (by rw [hc] at h; exact h)
    have hfix : fixHeader raw = SwapHeader raw := by
      unfold fixHeader
      rw [if_pos ⟨hne, h⟩]
    refine ⟨hne, ?_⟩
    unfold loadHeader
    rw [hfix, if_pos (by exact h)]
  have h3 : raw.noffMagic ≠ NOFFMAGIC → WordToHost raw.noffMagic ≠ NOFFMAGIC →
      loadHeader raw = none := by
    intro ha hb
    have hfix : fixHeader raw = raw := by
      unfold fixHeader
      rw [if_neg (fun hc => hb hc.2)]
    unfold loadHeader
    rw [hfix, if_neg ha]
  refine ⟨⟨fun hsome => ?_, fun hor => ?_⟩, h1, h2, h3⟩
  · by_contra hcon
    rw [not_or] at hcon
    rw [h3 hcon.1 hcon.2] at hsome
    cases hsome
  · rcases hor with h | h
    · rw [h1 h]; rfl
    · rw [(h2 h).2]; rfl

/-! ## The constructor: number of pages and swap file -/

theorem divRoundUp_spec (n s : Nat) (hs : 0 < s) :
    n ≤ divRoundUp n s * s ∧ divRoundUp n s * s < n + s ∧
      (n % s = 0 → divRoundUp n s = n / s) ∧ (n % s ≠ 0 → divRoundUp n s = n / s + 1) := by
  have hdm := Nat.div_add_mod n s
  have hlt := Nat.mod_lt n hs
  have hmul : s * (n / s) = n / s * s := Nat.mul_comm _ _
  unfold divRoundUp
  by_cases h0 : n % s = 0
  · rw [if_neg (by omega), Nat.add_zero]
    exact ⟨by omega, by omega, fun _ => rfl, fun h => absurd h0 h⟩
  · rw [if_pos (by omega), Nat.add_mul, Nat.one_mul]
    exact ⟨by omega, by omega, fun h => absurd h h0, fun _ => rfl⟩

/-- C26: for a header whose sum `code.size + initData.size + uninitData.size +
UserStackSize` stays below `2^32`, `memSize` is that sum and the constructor's
`numPages` is the ceiling of `memSize / PageSize`: `numPages * PageSize ≥
memSize > (numPages - 1) * PageSize`, with `numPages ≥ 1`; a `memSize` that is
not a multiple of `PageSize` gets a whole final page (`numPages = memSize /
PageSize + 1`), a multiple gets `memSize / PageSize` pages. -/
theorem numPages_is_ceiling (c : Config) (h : NoffHeader) (hps : 0 < c.PageSize)
    (hsum : h.code.size + h.initData.size + h.uninitData.size + UserStackSize < 4294967296) :
    memSizeOf h = h.code.size + h.initData.size + h.uninitData.size + UserStackSize ∧
      1 ≤ numPagesOf c h ∧
      memSizeOf h ≤ numPagesOf c h * c.PageSize ∧
      (numPagesOf c h - 1) * c.PageSize < memSizeOf h ∧
      (memSizeOf h % c.PageSize ≠ 0 → numPagesOf c h = memSizeOf h / c.PageSize + 1) ∧
      (memSizeOf h % c.PageSize = 0 → numPagesOf c h = memSizeOf h / c.PageSize) := by
  have hmem : memSizeOf h =
      h.code.size + h.initData.size + h.uninitData.size + UserStackSize := by
    unfold memSizeOf
    exact Nat.mod_eq_of_lt hsum
  have hpos : 0 < memSizeOf h := by
    rw [hmem]
    unfold UserStackSize
    omega
  obtain ⟨h1, h2, h3, h4⟩ := divRoundUp_spec (memSizeOf h) c.PageSize hps
  have hone : 1 ≤ numPagesOf c h := by
    unfold numPagesOf
    rcases Nat.eq_zero_or_pos (divRoundUp (memSizeOf h) c.PageSize) with h0 | h0
    · rw [h0, Nat.zero_mul] at h1
      omega
    · exact h0
  refine ⟨hmem, hone, h1, ?_, h4, h3⟩
  unfold numPagesOf at hone ⊢
  have hsplit : divRoundUp (memSizeOf h) c.PageSize * c.PageSize =
      (divRoundUp (memSizeOf h) c.PageSize - 1) * c.PageSize + c.PageSize := by
    rw [Nat.sub_mul, Nat.one_mul]
    have : c.PageSize ≤ divRoundUp (memSizeOf h) c.PageSize * c.PageSize :=
      Nat.le_mul_of_pos_left _ hone
    omega
  omega

/-- Witness of C26: the header of the demonstration executable with
`PageSize = 128`: `memSize = 300 + 100 + 50 + 1024 = 1474`, twelve pages. -/
theorem numPages_is_ceiling_witness :
    (memSizeOf demoHeader = 1474 ∧ numPagesOf scenarioConfig demoHeader = 12) ∧
    (memSizeOf demoHeader =
        demoHeader.code.size + demoHeader.initData.size + demoHeader.uninitData.size +
          UserStackSize ∧
      1 ≤ numPagesOf scenarioConfig demoHeader ∧
      memSizeOf demoHeader ≤ numPagesOf scenarioConfig demoHeader * scenarioConfig.PageSize ∧
      (numPagesOf scenarioConfig demoHeader - 1) * scenarioConfig.PageSize <
        memSizeOf demoHeader ∧
      (memSizeOf demoHeader % scenarioConfig.PageSize ≠ 0 →
        numPagesOf scenarioConfig demoHeader =
          memSizeOf demoHeader / scenarioConfig.PageSize + 1) ∧
      (memSizeOf demoHeader % scenarioConfig.PageSize = 0 →
        numPagesOf scenarioConfig demoHeader = memSizeOf demoHeader / scenarioConfig.PageSize)) :=
  ⟨by decide, numPages_is_ceiling scenarioConfig demoHeader (by decide) (by decide)⟩

theorem zeroFill_spec (c : Config) (stale : Nat → Nat) :
    ∀ n, (zeroFill c { length := 0, data := stale } n).length = n * c.PageSize ∧
      ∀ a, (zeroFill c { length := 0, data := stale } n).data a =
        if a < n * c.PageSize then 0 else stale a := by
  intro n
  induction n with
  | zero =>
    refine ⟨by rw [Nat.zero_mul]; rfl, fun a => ?_⟩
    rw [Nat.zero_mul, if_neg (Nat.not_lt_zero a)]
    rfl
  | succ n ih =>
    obtain ⟨hlen, hdata⟩ := ih
    have hs : (n + 1) * c.PageSize = n * c.PageSize + c.PageSize := by
      rw [Nat.add_mul, Nat.one_mul]
    constructor
    · show max (zeroFill c { length := 0, data := stale } n).length
          (n * c.PageSize + c.PageSize) = _
      rw [hlen, hs]
      exact max_eq_right (Nat.le_add_right _ _)
    · intro a
      show (if n * c.PageSize ≤ a ∧ a < n * c.PageSize + c.PageSize then 0
            else (zeroFill c { length := 0, data := stale } n).data a) = _
      rw [hdata a, hs]
      by_cases h1 : a < n * c.PageSize
      · rw [if_neg (by omega), if_pos h1, if_pos (by omega)]
      · by_cases h2 : a < n * c.PageSize + c.PageSize
        · rw [if_pos ⟨by omega, h2⟩, if_pos h2]
        · rw [if_neg (fun hc => h2 hc.2), if_neg h1, if_neg h2]

/-- The test of lines 141 and 151 on a 32-bit word: the word is a positive C
`int` exactly when it is not zero and below `2^31`. -/
theorem segPositive_iff (w : Nat) (hw : w < 4294967296) :
    toInt32 (w : Int) > 0 ↔ (0 < w ∧ w < 2147483648) := by
  unfold toInt32
  by_cases hlow : w < 2147483648
  · have h1 : ((w : Int) + 2147483648) % 4294967296 = (w : Int) + 2147483648 :=
      Int.emod_eq_of_lt (by omega) (by omega)
    rw [h1]
    omega
  · have h1 : ((w : Int) + 2147483648) % 4294967296 = (w : Int) - 2147483648 := by
      have h2 : (w : Int) + 2147483648 = ((w : Int) - 2147483648) + 4294967296 := by omega
      rw [h2, Int.add_emod_self]
      exact Int.emod_eq_of_lt (by omega) (by omega)
    rw [h1]
    omega

theorem copySegment_pos (exe : OpenFile) (junk : Nat → Nat) (seg : Segment) (swap : OpenFile)
    (h : 0 < seg.size ∧ seg.size < 2147483648) :
    copySegment exe junk seg swap =
      swap.WriteAt (exe.ReadAt junk 0 seg.size seg.inFileAddr) seg.size seg.virtualAddr := by
  unfold copySegment
  rw [if_pos h]

theorem copySegment_neg (exe : OpenFile) (junk : Nat → Nat) (seg : Segment) (swap : OpenFile)
    (h : ¬ (0 < seg.size ∧ seg.size < 2147483648)) : copySegment exe junk seg swap = swap := by
  unfold copySegment
  rw [if_neg h]

/-- A segment that lies inside the swap file and inside the executable, with a
size below `2^31`: the copy keeps the length of the swap file and overlays the
bytes of the segment. -/
theorem copySegment_spec (exe : OpenFile) (junk : Nat → Nat) (seg : Segment) (swap : OpenFile)
    (hin : seg.virtualAddr + seg.size ≤ swap.length)
    (hexe : seg.inFileAddr + seg.size ≤ exe.length) (hint : seg.size < 2147483648) :
    (copySegment exe junk seg swap).length = swap.length ∧
      ∀ a, (copySegment exe junk seg swap).data a =
        if 0 < seg.size ∧ seg.virtualAddr ≤ a ∧ a < seg.virtualAddr + seg.size then
          exe.data (seg.inFileAddr + (a - seg.virtualAddr))
        else swap.data a := by
  by_cases hsz : seg.size > 0
  · rw [copySegment_pos exe junk seg swap ⟨hsz, hint⟩]
    clear hint
    constructor
    · show max swap.length (seg.virtualAddr + seg.size) = swap.length
      exact max_eq_left hin
    · intro a
      show (if seg.virtualAddr ≤ a ∧ a < seg.virtualAddr + seg.size then
              exe.ReadAt junk 0 seg.size seg.inFileAddr (a - seg.virtualAddr)
            else swap.data a) = _
      by_cases hr : seg.virtualAddr ≤ a ∧ a < seg.virtualAddr + seg.size
      · rw [if_pos hr, if_pos ⟨hsz, hr⟩]
        have hlen : exe.readLen seg.size seg.inFileAddr = seg.size := by
          unfold OpenFile.readLen
          rw [if_neg (by omega)]
          exact min_eq_left (by omega)
        unfold OpenFile.ReadAt
        rw [hlen, if_pos ⟨Nat.zero_le _, by omega⟩, Nat.sub_zero]
      · rw [if_neg hr, if_neg (fun hc => hr hc.2)]
  · rw [copySegment_neg exe junk seg swap (fun hc => hsz hc.1)]
    refine ⟨rfl, fun a => ?_⟩
    rw [if_neg (fun hc => hsz hc.1)]

/-- C24: with files as byte arrays whose lengths are C `int`s (the swap file
of `numPages * PageSize` bytes and the executable are shorter than `2^31`) and
a header whose code and initialised-data segments lie inside
`[0, numPages * PageSize)` and inside the executable, the swap file after
construction has `numPages * PageSize` bytes; its byte at
offset `a` is the byte of the executable at `initData.inFileAddr + (a -
initData.virtualAddr)` when `initData.size > 0` and `a` lies in the range of
the initialised data; otherwise the byte at `code.inFileAddr + (a -
code.virtualAddr)` when `code.size > 0` and `a` lies in the range of the code;
and `0` everywhere else in the file. -/
theorem buildSwap_contents (c : Config) (h : NoffHeader) (exe : OpenFile)
    (stale junk : Nat → Nat)
    (hcode : h.code.virtualAddr + h.code.size ≤ numPagesOf c h * c.PageSize)
    (hinit : h.initData.virtualAddr + h.initData.size ≤ numPagesOf c h * c.PageSize)
    (hcodeExe : h.code.inFileAddr + h.code.size ≤ exe.length)
    (hinitExe : h.initData.inFileAddr + h.initData.size ≤ exe.length)
    (hsize : numPagesOf c h * c.PageSize < 2147483648) (_hexe : exe.length < 2147483648) :
    (buildSwap c h exe stale junk).length = numPagesOf c h * c.PageSize ∧
      ∀ a, a < numPagesOf c h * c.PageSize →
        (buildSwap c h exe stale junk).data a =
          if 0 < h.initData.size ∧ h.initData.virtualAddr ≤ a ∧
              a < h.initData.virtualAddr + h.initData.size then
            exe.data (h.initData.inFileAddr + (a - h.initData.virtualAddr))
          else if 0 < h.code.size ∧ h.code.virtualAddr ≤ a ∧
              a < h.code.virtualAddr + h.code.size then
            exe.data (h.code.inFileAddr + (a - h.code.virtualAddr))
          else 0 := by
  obtain ⟨hzlen, hzdata⟩ := zeroFill_spec c stale (numPagesOf c h)
  obtain ⟨hclen, hcdata⟩ := copySegment_spec exe junk h.code
    (zeroFill c { length := 0, data := stale } (numPagesOf c h)) (by rw [hzlen]; exact hcode)
    hcodeExe (lt_of_le_of_lt (le_trans (Nat.le_add_left _ _) hcode) hsize)
  obtain ⟨hilen, hidata⟩ := copySegment_spec exe junk h.initData
    (copySegment exe junk h.code (zeroFill c { length := 0, data := stale } (numPagesOf c h)))
    (by rw [hclen, hzlen]; exact hinit) hinitExe
    (lt_of_le_of_lt (le_trans (Nat.le_add_left _ _) hinit) hsize)
  unfold buildSwap
  refine ⟨by rw [hilen, hclen, hzlen], fun a ha => ?_⟩
  rw [hidata a, hcdata a, hzdata a, if_pos ha]

/-- Witness of C24: the demonstration executable with `PageSize = 128`.  The
swap file has `12 * 128` bytes; offset 10 holds code, offset 260 initialised
data (which overlays the code there), offset 400 and the stack pages hold 0,
although the medium held the byte 9 everywhere. -/
theorem buildSwap_contents_witness :
    ((buildSwap scenarioConfig demoHeader demoExecutable (fun _ => 9) (fun _ => 5)).length = 1536 ∧
      (buildSwap scenarioConfig demoHeader demoExecutable (fun _ => 9) (fun _ => 5)).data 10 =
        demoExecutable.data 50 ∧
      (buildSwap scenarioConfig demoHeader demoExecutable (fun _ => 9) (fun _ => 5)).data 260 =
        demoExecutable.data 344 ∧
      (buildSwap scenarioConfig demoHeader demoExecutable (fun _ => 9) (fun _ => 5)).data 400 = 0 ∧
      (buildSwap scenarioConfig demoHeader demoExecutable (fun _ => 9) (fun _ => 5)).data 1535 =
        0) ∧
    ((buildSwap scenarioConfig demoHeader demoExecutable (fun _ => 9) (fun _ => 5)).length =
        numPagesOf scenarioConfig demoHeader * scenarioConfig.PageSize ∧
      ∀ a, a < numPagesOf scenarioConfig demoHeader * scenarioConfig.PageSize →
        (buildSwap scenarioConfig demoHeader demoExecutable (fun _ => 9) (fun _ => 5)).data a =
          if 0 < demoHeader.initData.size ∧ demoHeader.initData.virtualAddr ≤ a ∧
              a < demoHeader.initData.virtualAddr + demoHeader.initData.size then
            demoExecutable.data
              (demoHeader.initData.inFileAddr + (a - demoHeader.initData.virtualAddr))
          else if 0 < demoHeader.code.size ∧ demoHeader.code.virtualAddr ≤ a ∧
              a < demoHeader.code.virtualAddr + demoHeader.code.size then
            demoExecutable.data (demoHeader.code.inFileAddr + (a - demoHeader.code.virtualAddr))
          else 0) :=
  ⟨by decide,
    buildSwap_contents scenarioConfig demoHeader demoExecutable (fun _ => 9) (fun _ => 5)
      (by decide) (by decide) (by decide) (by decide) (by decide) (by decide)⟩

/-! ## `InitRegisters` -/

theorem zeroRegisters_spec (regs : Nat → Int) :
    ∀ n i, zeroRegisters n regs i = if i < n then 0 else regs i := by
  intro n
  induction n with
  | zero => intro i; rfl
  | succ n ih =>
    intro i
    show Function.update (zeroRegisters n regs) n 0 i = _
    by_cases h : i = n
    · rw [h, Function.update_same, if_pos (Nat.lt_succ_self n)]
    · rw [Function.update_noteq h, ih i]
      by_cases h2 : i < n
      · rw [if_pos h2, if_pos (by omega)]
      · rw [if_neg h2, if_neg (by omega)]

theorem toInt32_of_small {x : Int} (h1 : -2147483648 ≤ x) (h2 : x < 2147483648) :
    toInt32 x = x := by
  unfold toInt32
  omega

/-- C27: after `InitRegisters` on an address space of `numPages` pages (with
`numPages * PageSize` inside the range of `int`, and `PCReg`, `NextPCReg`,
`StackReg` three different registers), the program counter holds 0, the
next-PC register holds 4, the stack register holds `numPages * PageSize - 16`,
and every other one of the `NumTotalRegs` registers holds 0. -/
theorem InitRegisters_values (l : RegLayout) (c : Config) (s : AddrSpace) (regs : Nat → Int)
    (hpn : l.PCReg ≠ l.NextPCReg) (hps : l.PCReg ≠ l.StackReg)
    (hns : l.NextPCReg ≠ l.StackReg)
    (hsize : s.numPages * c.PageSize < 2147483648) :
    InitRegisters l c s regs l.PCReg = 0 ∧
      InitRegisters l c s regs l.NextPCReg = 4 ∧
      InitRegisters l c s regs l.StackReg = (s.numPages : Int) * (c.PageSize : Int) - 16 ∧
      ∀ i, i < l.NumTotalRegs → i ≠ l.PCReg → i ≠ l.NextPCReg → i ≠ l.StackReg →
        InitRegisters l c s regs i = 0 := by
  have hval : toInt32 ((s.numPages : Int) * (c.PageSize : Int) - 16) =
      (s.numPages : Int) * (c.PageSize : Int) - 16 := by
    have h0 : (0 : Int) ≤ (s.numPages : Int) * (c.PageSize : Int) :=
      mul_nonneg (Int.ofNat_nonneg _) (Int.ofNat_nonneg _)
    have h1 : ((s.numPages * c.PageSize : Nat) : Int) < 2147483648 := by exact_mod_cast hsize
    rw [Nat.cast_mul] at h1
    exact toInt32_of_small (by omega) (by omega)
  unfold InitRegisters
  refine ⟨?_, ?_, ?_, fun i hi h1 h2 h3 => ?_⟩
  · rw [Function.update_noteq hps, Function.update_noteq hpn, Function.update_same]
  · rw [Function.update_noteq hns, Function.update_same]
  · rw [Function.update_same, hval]
  · rw [Function.update_noteq h3, Function.update_noteq h2, Function.update_noteq h1,
      zeroRegisters_spec, if_pos hi]

/-- Witness of C27: the four-page space of scenario 1 with the register
numbers of the MIPS simulator; the stack register holds `4 * 128 - 16 = 496`. -/
theorem InitRegisters_values_witness :
    InitRegisters mipsLayout scenarioConfig scenarioSpace (fun _ => 77) mipsLayout.StackReg =
        496 ∧
    (InitRegisters mipsLayout scenarioConfig scenarioSpace (fun _ => 77) mipsLayout.PCReg = 0 ∧
      InitRegisters mipsLayout scenarioConfig scenarioSpace (fun _ => 77) mipsLayout.NextPCReg =
        4 ∧
      InitRegisters mipsLayout scenarioConfig scenarioSpace (fun _ => 77) mipsLayout.StackReg =
        (scenarioSpace.numPages : Int) * (scenarioConfig.PageSize : Int) - 16 ∧
      ∀ i, i < mipsLayout.NumTotalRegs → i ≠ mipsLayout.PCReg → i ≠ mipsLayout.NextPCReg →
        i ≠ mipsLayout.StackReg →
        InitRegisters mipsLayout scenarioConfig scenarioSpace (fun _ => 77) i = 0) :=
  ⟨by decide,
    InitRegisters_values mipsLayout scenarioConfig scenarioSpace (fun _ => 77) (by decide)
      (by decide) (by decide) (by decide)⟩

/-! ## Reference string: capture -/

theorem recordedFrom_cons (last v : Int) (rest : List Int) :
    recordedFrom last (v :: rest) =
      if v ≠ last then v :: recordedFrom v rest else recordedFrom v rest := rfl

theorem collapse_cons (a : Int) : ∀ vs, collapse (a :: vs) = a :: recordedFrom a vs := by
  intro vs
  induction vs generalizing a with
  | nil => rfl
  | cons b rest ih =>
    show (if a = b then collapse (b :: rest) else a :: collapse (b :: rest)) = _
    rw [recordedFrom_cons]
    by_cases h : a = b
    · rw [if_pos h, if_neg (by rw [h]; exact fun hc => hc rfl), ih b, h]
    · rw [if_neg h, if_pos (fun hc => h hc.symm), ih b]

theorem updatePageLRU_capture (c : Config) (vpn : Int) (s : AddrSpace) :
    (updatePageLRU c vpn s).lastVirtPage = s.lastVirtPage ∧
      (updatePageLRU c vpn s).fdRefStr = s.fdRefStr ∧
      (updatePageLRU c vpn s).fpRefStr = s.fpRefStr := by
  unfold updatePageLRU
  split <;> exact ⟨rfl, rfl, rfl⟩

/-- One call of `updatePage` with recording on under a policy other than OPT:
the call returns, and the captures grow by `vpn` when it differs from
`lastVirtPage`. -/
theorem updatePage_capture {c : Config} (vpn : Int) (s : AddrSpace)
    (hrec : c.bRecRefStr = true) (hopt : c.pageRepAlg ≠ PageRepAlg.PRA_OPT) :
    ∃ t, updatePage c vpn s = some t ∧ t.lastVirtPage = vpn ∧
      t.fpRefStr = s.fpRefStr ++ (if vpn ≠ s.lastVirtPage then [vpn] else []) ∧
      t.fdRefStr = s.fdRefStr ++
        (if vpn ≠ s.lastVirtPage ∧ ¬ vpn > SHRT_MAX then [(vpn % 65536).toNat] else []) := by
  have hrecord : ∀ u : AddrSpace, (recordRef c vpn u).lastVirtPage = vpn ∧
      (recordRef c vpn u).fpRefStr =
        u.fpRefStr ++ (if vpn ≠ u.lastVirtPage then [vpn] else []) ∧
      (recordRef c vpn u).fdRefStr = u.fdRefStr ++
        (if vpn ≠ u.lastVirtPage ∧ ¬ vpn > SHRT_MAX then [(vpn % 65536).toNat] else []) := by
    intro u
    unfold recordRef
    by_cases hne : vpn ≠ u.lastVirtPage
    · rw [if_pos ⟨hrec, hne⟩, if_pos hne]
      refine ⟨rfl, rfl, ?_⟩
      dsimp only
      by_cases hbig : vpn > SHRT_MAX
      · rw [if_pos hbig, if_neg (fun hc => hc.2 hbig), List.append_nil]
      · rw [if_neg hbig, if_pos ⟨hne, hbig⟩]
    · rw [if_neg (fun hc => hne hc.2), if_neg hne, if_neg (fun hc => hne hc.1),
        List.append_nil, List.append_nil]
      exact ⟨(not_not.mp hne).symm, rfl, rfl⟩
  unfold updatePage
  by_cases hlru : c.pageRepAlg = PageRepAlg.PRA_LRU
  · rw [if_pos hlru]
    obtain ⟨e1, e2, e3⟩ := updatePageLRU_capture c vpn s
    obtain ⟨r1, r2, r3⟩ := hrecord (updatePageLRU c vpn s)
    rw [e1, e2, e3] at *
    exact ⟨_, rfl, r1, r2, r3⟩
  · rw [if_neg hlru, if_neg hopt]
    obtain ⟨r1, r2, r3⟩ := hrecord s
    exact ⟨_, rfl, r1, r2, r3⟩

/-- A run of calls of `updatePage` with recording on: the text capture grows by
the page numbers that differ from their predecessor, the binary capture by
those of them that are at most `SHRT_MAX`. -/
theorem updatePages_capture {c : Config} (hrec : c.bRecRefStr = true)
    (hopt : c.pageRepAlg ≠ PageRepAlg.PRA_OPT) :
    ∀ (vs : List Int) (s : AddrSpace),
      ∃ t, updatePages c vs s = some t ∧
        t.fpRefStr = s.fpRefStr ++ recordedFrom s.lastVirtPage vs ∧
        t.fdRefStr = s.fdRefStr ++
          ((recordedFrom s.lastVirtPage vs).filter (fun v => decide (¬ v > SHRT_MAX))).map
            (fun v => (v % 65536).toNat) := by
  intro vs
  induction vs with
  | nil =>
    intro s
    exact ⟨s, rfl, by simp [recordedFrom], by simp [recordedFrom]⟩
  | cons v rest ih =>
    intro s
    obtain ⟨s1, hu, hlast, hfp, hfd⟩ := updatePage_capture v s hrec hopt
    obtain ⟨t, hrun, htfp, htfd⟩ := ih s1
    refine ⟨t, ?_, ?_, ?_⟩
    · simp only [updatePages, hu]
      exact hrun
    · rw [htfp, hfp, hlast, List.append_assoc]
      congr 1
      rw [recordedFrom_cons]
      by_cases hne : v ≠ s.lastVirtPage
      · rw [if_pos hne, if_pos hne]; rfl
      · rw [if_neg hne, if_neg hne]; rfl
    · rw [htfd, hfd, hlast, List.append_assoc]
      congr 1
      rw [recordedFrom_cons]
      by_cases hne : v ≠ s.lastVirtPage
      · rw [if_pos hne]
        by_cases hbig : v > SHRT_MAX
        · rw [if_neg (fun hc => hc.2 hbig), List.filter_cons_of_neg (by simpa using hbig)]
          rfl
        · rw [if_pos ⟨hne, hbig⟩, List.filter_cons_of_pos (by simpa using hbig)]
          rfl
      · rw [if_neg hne, if_neg (fun hc => hne hc.1)]
        rfl

/-- C22: with recording on under a policy other than OPT and `lastVirtPage =
-1` (both captures empty), every sequence of `updatePage` calls with
non-negative page numbers returns from every call; the text capture then holds
the sequence with adjacent repeats collapsed, and the binary capture holds the
same entries in the same order except those above `SHRT_MAX`, which only the
text capture has. -/
theorem capture_records_collapsed_sequence {c : Config} (vs : List Int) (s : AddrSpace)
    (hrec : c.bRecRefStr = true) (hopt : c.pageRepAlg ≠ PageRepAlg.PRA_OPT)
    (hlast : s.lastVirtPage = -1) (hfp : s.fpRefStr = []) (hfd : s.fdRefStr = [])
    (hpos : ∀ v, v ∈ vs → 0 ≤ v) :
    ∃ t, updatePages c vs s = some t ∧
      t.fpRefStr = collapse vs ∧
      t.fdRefStr.map (fun x : Nat => (x : Int)) =
        (collapse vs).filter (fun v => decide (v ≤ SHRT_MAX)) := by
  obtain ⟨t, hrun, htfp, htfd⟩ := updatePages_capture hrec hopt vs s
  rw [hfp, List.nil_append, hlast] at htfp
  rw [hfd, List.nil_append, hlast] at htfd
  have hcol : recordedFrom (-1) vs = collapse vs := by
    cases vs with
    | nil => rfl
    | cons v rest =>
      rw [collapse_cons, recordedFrom_cons]
      have := hpos v (List.mem_cons_self _ _)
      rw [if_pos (by omega)]
  rw [hcol] at htfp htfd
  have hmem : ∀ v, v ∈ collapse vs → 0 ≤ v := by
    intro v hv
    rw [← hcol] at hv
    clear hcol htfp htfd hrun
    have hgen : ∀ (l : List Int) (a : Int), v ∈ recordedFrom a l → v ∈ l := by
      intro l
      induction l with
      | nil => intro a h; exact h
      | cons b rest ih =>
        intro a h
        rw [recordedFrom_cons] at h
        split_ifs at h
        · rcases List.mem_cons.mp h with h1 | h1
          · rw [h1]; exact List.mem_cons_self _ _
          · exact List.mem_cons_of_mem _ (ih b h1)
        · exact List.mem_cons_of_mem _ (ih b h)
    exact hpos v (hgen vs (-1) hv)
  refine ⟨t, hrun, htfp, ?_⟩
  rw [htfd, List.map_map]
  have hfilter : (collapse vs).filter (fun v => decide (¬ v > SHRT_MAX)) =
      (collapse vs).filter (fun v => decide (v ≤ SHRT_MAX)) := by
    apply List.filter_congr
    intro v _
    simp
  rw [hfilter]
  conv_rhs => rw [← List.map_id ((collapse vs).filter (fun v => decide (v ≤ SHRT_MAX)))]
  apply List.map_congr_left
  intro v hv
  obtain ⟨hin, hle⟩ := List.mem_filter.mp hv
  have h0 := hmem v hin
  have hle : v ≤ SHRT_MAX := by simpa using hle
  unfold SHRT_MAX at hle
  show (((v % 65536).toNat : Nat) : Int) = id v
  have : v % 65536 = v := Int.emod_eq_of_lt h0 (by omega)
  rw [this, Int.toNat_of_nonneg h0]
  rfl

/-- Witness of C22: the calls `0, 0, 1, 40000, 40000, 1, 1, 2` on a fresh
address space; page 40000 is above `SHRT_MAX` and reaches the text capture
only. -/
theorem capture_records_collapsed_sequence_witness :
    ((updatePages recordConfig [0, 0, 1, 40000, 40000, 1, 1, 2] scenarioSpace).map
        (fun t => (t.fpRefStr, t.fdRefStr)) =
      some ([0, 1, 40000, 1, 2], [0, 1, 1, 2])) ∧
    ∃ t, updatePages recordConfig [0, 0, 1, 40000, 40000, 1, 1, 2] scenarioSpace = some t ∧
      t.fpRefStr = collapse [0, 0, 1, 40000, 40000, 1, 1, 2] ∧
      t.fdRefStr.map (fun x : Nat => (x : Int)) =
        (collapse [0, 0, 1, 40000, 40000, 1, 1, 2]).filter (fun v => decide (v ≤ SHRT_MAX)) :=
  ⟨by decide,
    capture_records_collapsed_sequence [0, 0, 1, 40000, 40000, 1, 1, 2] scenarioSpace rfl
      (by decide) rfl rfl rfl (by decide)⟩

/-! ## Reference string: record, load, replay -/

theorem loadRefStr_refStrBytes (items : List Nat) (hsmall : ∀ x, x ∈ items → x < 65536) :
    loadRefStr (refStrBytes items) = some items := by
  have hlen : ∀ l : List Nat, (refStrBytes l).length = 2 * l.length := by
    intro l
    induction l with
    | nil => rfl
    | cons x rest ih =>
      show ([x % 256, x / 256 % 256] ++ refStrBytes rest).length = _
      rw [List.length_append, ih, List.length_cons, List.length_cons, List.length_cons,
        List.length_nil]
      omega
  have hpairs : ∀ l : List Nat, (∀ x, x ∈ l → x < 65536) →
      shortsOfBytes (refStrBytes l) = l := by
    intro l
    induction l with
    | nil => intro _; rfl
    | cons x rest ih =>
      intro hl
      show shortsOfBytes (x % 256 :: x / 256 % 256 :: refStrBytes rest) = _
      show (x % 256 + 256 * (x / 256 % 256)) :: shortsOfBytes (refStrBytes rest) = _
      rw [ih (fun y hy => hl y (List.mem_cons_of_mem _ hy))]
      have := hl x (List.mem_cons_self _ _)
      congr 1
      omega
  unfold loadRefStr
  rw [hlen, if_neg (by omega), hpairs items hsmall]

/-- The replay of the calls `vs` through `updatePageOpt` when the entry under
the cursor is the page passed last and the rest of the string is what a
capture records for `vs`: no call takes a fatal path and the cursor ends on
the last entry. -/
theorem updatePages_replay {c : Config} (hopt : c.pageRepAlg = PageRepAlg.PRA_OPT) :
    ∀ (vs : List Int) (s : AddrSpace) (last : Int), s.refIdx < s.optRefStr.length →
      ((s.optRefStr.getD s.refIdx 0 : Nat) : Int) = last →
      (s.optRefStr.drop (s.refIdx + 1)).map (fun x : Nat => (x : Int)) = recordedFrom last vs →
      ∃ t, updatePages c vs s = some t ∧ t.optRefStr = s.optRefStr ∧
        t.refIdx + 1 = s.optRefStr.length := by
  intro vs
  induction vs with
  | nil =>
    intro s last hlt _ hrest
    refine ⟨s, rfl, rfl, ?_⟩
    have hlen := congrArg List.length hrest
    rw [List.length_map, List.length_drop] at hlen
    have : (recordedFrom last []).length = 0 := rfl
    omega
  | cons v rest ih =>
    intro s last hlt hcur hrest
    rw [recordedFrom_cons] at hrest
    have hstep : updatePage c v s = updatePageOpt v s := by
      unfold updatePage
      rw [if_neg (by rw [hopt]; decide), if_pos hopt]
    by_cases hne : v ≠ last
    · rw [if_pos hne] at hrest
      have hlen := congrArg List.length hrest
      rw [List.length_map, List.length_drop, List.length_cons] at hlen
      have hlt1 : s.refIdx + 1 < s.optRefStr.length := by omega
      have hdrop : s.optRefStr.drop (s.refIdx + 1) =
          s.optRefStr.getD (s.refIdx + 1) 0 :: s.optRefStr.drop (s.refIdx + 1 + 1) := by
        rw [List.getD_eq_getElem _ _ hlt1]
        exact List.drop_eq_getElem_cons hlt1
      rw [hdrop, List.map_cons] at hrest
      have hhead := (List.cons.inj hrest).1
      have htail := (List.cons.inj hrest).2
      have hu : updatePageOpt v s = some { s with refIdx := s.refIdx + 1 } := by
        unfold updatePageOpt
        rw [if_neg (by rw [hcur]; exact fun hc => hne hc.symm), if_neg (by omega),
          if_neg (not_not.mpr hhead)]
      obtain ⟨t, hrun, hstr, hidx⟩ := ih { s with refIdx := s.refIdx + 1 } v hlt1 hhead htail
      refine ⟨t, ?_, hstr, hidx⟩
      simp only [updatePages, hstep, hu]
      exact hrun
    · rw [if_neg hne] at hrest
      have hv : v = last := not_not.mp hne
      have hu : updatePageOpt v s = some s := by
        unfold updatePageOpt
        rw [if_pos (by rw [hcur, hv])]
      obtain ⟨t, hrun, hstr, hidx⟩ := ih s v hlt (by rw [hcur, hv]) hrest
      refine ⟨t, ?_, hstr, hidx⟩
      simp only [updatePages, hstep, hu]
      exact hrun

/-- C21: record, then replay.  Let `vs` be a non-empty sequence of page
numbers in `[0, SHRT_MAX]`.  Recorded with recording on under a policy other
than OPT from `lastVirtPage = -1` and an empty capture, every `updatePage`
returns; the bytes of the binary capture load as a reference string (even
length) equal to the captured items; and with that string loaded and
`refIdx = 0`, the same sequence `vs` goes through `updatePage` under OPT
without the exhausted or the mismatch fatal path and ends with `refIdx` on the
last entry of the string. -/
theorem record_then_replay {c cr : Config} (vs : List Int) (s r : AddrSpace)
    (hrec : c.bRecRefStr = true) (hnopt : c.pageRepAlg ≠ PageRepAlg.PRA_OPT)
    (hopt : cr.pageRepAlg = PageRepAlg.PRA_OPT)
    (hne : vs ≠ []) (hrange : ∀ v, v ∈ vs → 0 ≤ v ∧ v ≤ SHRT_MAX)
    (hlast : s.lastVirtPage = -1) (hfp : s.fpRefStr = []) (hfd : s.fdRefStr = [])
    (hidx : r.refIdx = 0) :
    ∃ t, updatePages c vs s = some t ∧
      loadRefStr (refStrBytes t.fdRefStr) = some t.fdRefStr ∧
      ∃ u, updatePages cr vs { r with optRefStr := t.fdRefStr } = some u ∧
        u.optRefStr = t.fdRefStr ∧ u.refIdx + 1 = t.fdRefStr.length := by
  obtain ⟨t, hrun, -, hbin⟩ := capture_records_collapsed_sequence vs s hrec hnopt hlast hfp hfd
    (fun v hv => (hrange v hv).1)
  obtain ⟨v, rest, hvs⟩ : ∃ v rest, vs = v :: rest := by
    cases vs with
    | nil => exact absurd rfl hne
    | cons v rest => exact ⟨v, rest, rfl⟩
  have hall : ∀ x, x ∈ collapse vs → x ≤ SHRT_MAX := by
    intro x hx
    have hgen : ∀ (l : List Int) (a : Int), x ∈ recordedFrom a l → x ∈ l := by
      intro l
      induction l with
      | nil => intro a h; exact h
      | cons b rest ih =>
        intro a h
        rw [recordedFrom_cons] at h
        split_ifs at h
        · rcases List.mem_cons.mp h with h1 | h1
          · rw [h1]; exact List.mem_cons_self _ _
          · exact List.mem_cons_of_mem _ (ih b h1)
        · exact List.mem_cons_of_mem _ (ih b h)
    rw [hvs, collapse_cons] at hx
    rcases List.mem_cons.mp hx with h1 | h1
    · rw [h1]; exact (hrange v (by rw [hvs]; exact List.mem_cons_self _ _)).2
    · exact (hrange x (by rw [hvs]; exact List.mem_cons_of_mem _ (hgen rest v h1))).2
  have hkeep : (collapse vs).filter (fun v => decide (v ≤ SHRT_MAX)) = collapse vs :=
    List.filter_eq_self.mpr (fun x hx => by simpa using hall x hx)
  rw [hkeep, hvs, collapse_cons] at hbin
  have hsmall : ∀ x, x ∈ t.fdRefStr → x < 65536 := by
    intro x hx
    have hmem : (x : Int) ∈ t.fdRefStr.map (fun x : Nat => (x : Int)) :=
      List.mem_map_of_mem _ hx
    rw [hbin, ← collapse_cons, ← hvs] at hmem
    have := hall _ hmem
    unfold SHRT_MAX at this
    omega
  refine ⟨t, hrun, loadRefStr_refStrBytes _ hsmall, ?_⟩
  -- the captured string starts with the first page passed
  obtain ⟨x, xs, hitems⟩ : ∃ x xs, t.fdRefStr = x :: xs := by
    cases hfd : t.fdRefStr with
    | nil => rw [hfd] at hbin; cases hbin
    | cons x xs => exact ⟨x, xs, rfl⟩
  rw [hitems, List.map_cons] at hbin
  have hhead := (List.cons.inj hbin).1
  have htail := (List.cons.inj hbin).2
  have hrest : recordedFrom v vs = recordedFrom v rest := by
    rw [hvs, recordedFrom_cons, if_neg (fun hc => hc rfl)]
  obtain ⟨u, hu, hstr, hend⟩ := updatePages_replay hopt vs { r with optRefStr := t.fdRefStr } v
    (by
      show r.refIdx < t.fdRefStr.length
      rw [hidx, hitems]
      exact Nat.succ_pos _)
    (by
      show ((t.fdRefStr.getD r.refIdx 0 : Nat) : Int) = v
      rw [hidx, hitems]
      exact hhead)
    (by
      show (t.fdRefStr.drop (r.refIdx + 1)).map (fun x : Nat => (x : Int)) = _
      rw [hidx, hitems, hrest]
      exact htail)
  exact ⟨u, hu, hstr, hend⟩

/-- Witness of C21: the calls `0, 0, 1, 2, 2, 0` recorded under FIFO and
replayed under OPT; the captured string is `0, 1, 2, 0` and the replay ends
with `refIdx = 3`. -/
theorem record_then_replay_witness :
    ((updatePages recordConfig [0, 0, 1, 2, 2, 0] scenarioSpace).map (fun t => t.fdRefStr) =
        some [0, 1, 2, 0] ∧
      refStrBytes [0, 1, 2, 0] = [0, 0, 1, 0, 2, 0, 0, 0] ∧
      (updatePages optConfig [0, 0, 1, 2, 2, 0]
          { scenarioSpace with optRefStr := [0, 1, 2, 0] }).map (fun u => u.refIdx) =
        some 3) ∧
    ∃ t, updatePages recordConfig [0, 0, 1, 2, 2, 0] scenarioSpace = some t ∧
      loadRefStr (refStrBytes t.fdRefStr) = some t.fdRefStr ∧
      ∃ u, updatePages optConfig [0, 0, 1, 2, 2, 0]
          { scenarioSpace with optRefStr := t.fdRefStr } = some u ∧
        u.optRefStr = t.fdRefStr ∧ u.refIdx + 1 = t.fdRefStr.length :=
  ⟨by decide,
    record_then_replay [0, 0, 1, 2, 2, 0] scenarioSpace scenarioSpace rfl (by decide) rfl
      (by decide) (by decide) rfl rfl rfl rfl⟩

/-! ## LRU: a page that is not on the stack -/

/-- C23 (amended): under LRU, `updatePage(vpn)` for a `vpn` that is not among
the `count` entries of the stack window returns normally to the caller:
`updatePageLRU` prints its "Fatal error" message and returns with the stack
unchanged, `updatePage` goes on to the recording part, and no path of the call
finishes the thread.  The case is outside the states the program reaches:
in a reachable state every resident page is in the window, so after a
successful translation `updatePage` finds its page on the stack. -/
theorem updatePage_lru_missing_page_returns {c : Config} (vpn : Int) (s : AddrSpace)
    (hlru : c.pageRepAlg = PageRepAlg.PRA_LRU) :
    (vpn ∉ lruWindow c s →
      updatePageLRU c vpn s = s ∧ updatePage c vpn s = some (recordRef c vpn s)) ∧
    (Reachable c s → ∀ v, s.resident v → (v : Int) ∈ lruWindow c s) := by
  refine ⟨fun hmiss => ?_, fun hreach v hv => (hreach.inv_holds.resident_iff_window hlru v).mp hv⟩
  have hnone : lruSearch c s vpn s.count 0 = none := by
    cases hsearch : lruSearch c s vpn s.count 0 with
    | none => rfl
    | some i =>
      obtain ⟨-, hi, hvpn⟩ := lruSearch_some _ _ _ hsearch
      exact absurd (lruWindow_mem.mpr ⟨i, by omega, hvpn⟩) hmiss
  have hsame : updatePageLRU c vpn s = s := by
    unfold updatePageLRU
    rw [hnone]
  refine ⟨hsame, ?_⟩
  unfold updatePage
  rw [if_pos hlru, hsame]

/-- Witness of C23: a fresh address space under LRU (empty stack, no resident
page) and `updatePage(3)`. -/
theorem updatePage_lru_missing_page_returns_witness :
    (lruConfig.pageRepAlg = PageRepAlg.PRA_LRU ∧ lruWindow lruConfig scenarioSpace = []) ∧
    ((3 ∉ lruWindow lruConfig scenarioSpace →
        updatePageLRU lruConfig 3 scenarioSpace = scenarioSpace ∧
          updatePage lruConfig 3 scenarioSpace = some (recordRef lruConfig 3 scenarioSpace)) ∧
      (Reachable lruConfig scenarioSpace →
        ∀ v, scenarioSpace.resident v → (v : Int) ∈ lruWindow lruConfig scenarioSpace)) :=
  ⟨by decide, updatePage_lru_missing_page_returns 3 scenarioSpace rfl⟩

/-- C23, counterexample: under LRU with the pages 0 and 1 on the stack,
`updatePage(3)` for page 3, which is not among the `count = 2` entries of the
window, does not finish the thread: the call returns, and the state it returns
has the LRU stack and the cursors of the state it was given. -/
theorem updatePage_lru_missing_page_not_fatal :
    lruWindow lruConfig (driven lruConfig [0, 1] scenarioSpace) = [0, 1] ∧
      (driven lruConfig [0, 1] scenarioSpace).count = 2 ∧
      (3 : Int) ∉ lruWindow lruConfig (driven lruConfig [0, 1] scenarioSpace) ∧
      (updatePage lruConfig 3 (driven lruConfig [0, 1] scenarioSpace)).isSome = true ∧
      (updatePage lruConfig 3 (driven lruConfig [0, 1] scenarioSpace)).map
          (fun t => (lruWindow lruConfig t, t.bottom, t.count)) =
        some ([0, 1], 0, 2) := by
  decide!

/-! ## `spaceID`s and `ProgMap` -/

theorem findPage2ndChanceLoop_spaceID {c : Config} {inPage : Int} :
    ∀ (fuel : Nat) (s : AddrSpace) (r : Int × AddrSpace),
      findPage2ndChanceLoop c inPage fuel s = some r → r.2.spaceID = s.spaceID := by
  intro fuel
  induction fuel with
  | zero => intro s r h; cases h
  | succ n ih =>
    intro s r h
    unfold findPage2ndChanceLoop at h
    split_ifs at h
    · cases h; rfl
    · have := ih _ _ h
      exact this
    · cases h; rfl

theorem e2ndStep_spaceID {c : Config} {inPage : Int} {loop : Nat} {s : AddrSpace} :
    (∀ v t, e2ndStep c inPage loop s = Scan.ret v t → t.spaceID = s.spaceID) ∧
      (∀ t, e2ndStep c inPage loop s = Scan.go t → t.spaceID = s.spaceID) := by
  simp only [e2ndStep]
  constructor
  · intro v t h
    split_ifs at h <;> cases h <;> rfl
  · intro t h
    split_ifs at h <;> cases h <;> rfl

theorem e2ndPass_spaceID {c : Config} {inPage : Int} {loop : Nat} :
    ∀ (n : Nat) (s : AddrSpace),
      (∀ v t, e2ndPass c inPage loop n s = Scan.ret v t → t.spaceID = s.spaceID) ∧
        (∀ t, e2ndPass c inPage loop n s = Scan.go t → t.spaceID = s.spaceID) := by
  intro n
  induction n with
  | zero =>
    intro s
    exact ⟨fun v t h => (by cases h), fun t h => (by cases h; rfl)⟩
  | succ n ih =>
    intro s
    rw [e2ndPass_pos c inPage loop (Nat.succ_pos n)]
    obtain ⟨hr, hg⟩ := @e2ndStep_spaceID c inPage loop s
    cases hstep : e2ndStep c inPage loop s with
    | ret v1 t1 =>
      refine ⟨fun v t h => ?_, fun t h => (by cases h)⟩
      cases h
      exact hr _ _ hstep
    | go t1 =>
      simp only [Nat.add_sub_cancel]
      obtain ⟨hr2, hg2⟩ := ih t1
      exact ⟨fun v t h => (hr2 v t h).trans (hg _ hstep),
        fun t h => (hg2 t h).trans (hg _ hstep)⟩

theorem e2ndLoops_spaceID {c : Config} {inPage : Int} :
    ∀ (passes loop : Nat) (s : AddrSpace),
      (e2ndLoops c inPage passes loop s).2.spaceID = s.spaceID := by
  intro passes
  induction passes with
  | zero => intro loop s; rfl
  | succ n ih =>
    intro loop s
    obtain ⟨hr, hg⟩ := @e2ndPass_spaceID c inPage loop c.maxFramesPerProc s
    cases hp : e2ndPass c inPage loop c.maxFramesPerProc s with
    | ret v t =>
      simp only [e2ndLoops, hp]
      exact hr _ _ hp
    | go t =>
      simp only [e2ndLoops, hp]
      exact (ih _ _).trans (hg _ hp)

theorem findPageOptScan_spaceID (inPage : Int) (s : AddrSpace) :
    ∀ (n i : Nat) (dist : Int) (index : Nat),
      (findPageOptScan inPage s n i dist index).2.spaceID = s.spaceID := by
  intro n
  induction n with
  | zero => intro i dist index; rfl
  | succ n ih =>
    intro i dist index
    unfold findPageOptScan
    split
    · split
      · exact ih _ _ _
      · exact ih _ _ _
    · rfl

theorem findVictim_spaceID {c : Config} {rnd : Nat} {inPage v : Int} {s s1 : AddrSpace}
    (h : findVictim c rnd inPage s = some (v, s1)) : s1.spaceID = s.spaceID := by
  unfold findVictim at h
  cases hp : c.pageRepAlg <;> rw [hp] at h <;> dsimp only at h
  · have hr : (findPageOpt c inPage s).2 = s1 := congrArg Prod.snd (Option.some.inj h)
    rw [← hr]
    unfold findPageOpt
    split_ifs
    · rfl
    · exact findPageOptScan_spaceID _ _ _ _ _ _
  · have hr : (findPageFIFO c inPage s).2 = s1 := congrArg Prod.snd (Option.some.inj h)
    rw [← hr]
    rfl
  · exact findPage2ndChanceLoop_spaceID _ _ _ h
  · have hr : (findPageE2ndChance c inPage s).2 = s1 := congrArg Prod.snd (Option.some.inj h)
    rw [← hr]
    exact e2ndLoops_spaceID _ _ _
  · have hr : (findPageLRU c inPage s).2 = s1 := congrArg Prod.snd (Option.some.inj h)
    rw [← hr]
    unfold findPageLRU
    split_ifs <;> rfl
  · have hr : (findPageRand c rnd inPage s).2 = s1 := congrArg Prod.snd (Option.some.inj h)
    rw [← hr]
    unfold findPageRand
    split_ifs <;> rfl

theorem replacePage_spaceID {c : Config} {rnd badVAddr : Nat} {s s' : AddrSpace} {k k' : Machine}
    (h : replacePage c rnd badVAddr s k = some (s', k')) : s'.spaceID = s.spaceID := by
  obtain ⟨v, s1, hf, hcase⟩ := replacePage_some h
  have h1 := findVictim_spaceID hf
  rcases hcase with ⟨-, -, heq⟩ | ⟨-, heq⟩
  · have hs' := congrArg Prod.fst heq
    dsimp only at hs'
    subst hs'
    exact h1
  · have hs' := congrArg Prod.fst heq
    dsimp only at hs'
    subst hs'
    rw [← h1]
    unfold writeBack
    split_ifs <;> rfl

/-- The search of lines 65-73: the lowest free entry of `ProgMap`, none when
every entry is taken. -/
theorem progMap_find (c : Config) (K : Kernel) :
    (∀ id, (List.range c.NumPhysPages).find? (fun i => !K.ProgMap i) = some id →
      id < c.NumPhysPages ∧ K.ProgMap id = false ∧ ∀ j, j < id → K.ProgMap j = true) ∧
    ((List.range c.NumPhysPages).find? (fun i => !K.ProgMap i) = none ↔
      ∀ i, i < c.NumPhysPages → K.ProgMap i = true) := by
  constructor
  · intro id h
    have h1 := List.find?_some h
    have h2 := List.mem_range.mp (List.mem_of_find?_eq_some h)
    refine ⟨h2, by simpa using h1, fun j hj => ?_⟩
    have hlt : j < (List.range c.NumPhysPages).length := by
      rw [List.length_range]; omega
    rw [List.find?_eq_some_iff_getElem] at h
    obtain ⟨-, i, hi, hget, hbefore⟩ := h
    rw [List.getElem_range] at hget
    subst hget
    have := hbefore j hj
    rw [List.getElem_range] at this
    simpa using this
  · rw [List.find?_eq_none]
    constructor
    · intro h i hi
      simpa using h i (List.mem_range.mpr hi)
    · intro h i hi
      simpa using h i (List.mem_range.mp hi)

theorem Kernel.IdInv.of_boot (c : Config) (mem : Nat → Nat) : Kernel.IdInv c (Kernel.boot c mem) :=
  ⟨fun _ _ h => (by cases h),
    fun _ => ⟨fun h => (by cases h), fun h => (by obtain ⟨_, h⟩ := h; cases h)⟩⟩

/-- What a constructor call that returns does to the bookkeeping. -/
theorem Kernel.construct_some {c : Config} {K K1 : Kernel} {numPages id : Nat} {swap : OpenFile}
    {refStr : List Nat} (h : K.construct c numPages swap refStr = some (id, K1)) :
    K.freeId c = some id ∧
      (c.maxFramesPerProc ≤ c.NumPhysPages ∧
        c.maxFramesPerProc ≤ K.machine.freeMM_Map.NumClear) ∧
      K1.ProgMap = Function.update K.ProgMap id true ∧
      K1.spaces = Function.update K.spaces id
        (some (AddrSpace.fresh id numPages swap refStr)) ∧
      K1.machine = K.machine := by
  unfold Kernel.construct at h
  unfold Kernel.freeId
  cases hfind : (List.range c.NumPhysPages).find? (fun i => !K.ProgMap i) with
  | none => rw [hfind] at h; cases h
  | some i =>
    rw [hfind] at h
    dsimp only at h
    split_ifs at h with hassert
    cases h
    exact ⟨rfl, hassert, rfl, rfl, rfl⟩

theorem Kernel.IdInv.after_step {c : Config} {K K1 : Kernel} (hinv : Kernel.IdInv c K)
    (hstep : Kernel.Step c K K1) : Kernel.IdInv c K1 := by
  cases hstep with
  | construct numPages swap refStr id hcon =>
    obtain ⟨hfree, -, hpm, hsp, -⟩ := Kernel.construct_some hcon
    obtain ⟨hlt, -, -⟩ := (progMap_find c K).1 id hfree
    refine ⟨fun id' s' h => ?_, fun i => ?_⟩
    · rw [hsp] at h
      by_cases hid : id' = id
      · subst hid
        rw [Function.update_same] at h
        cases h
        exact ⟨rfl, hlt⟩
      · rw [Function.update_noteq hid] at h
        exact hinv.keyed id' s' h
    · rw [hpm, hsp]
      by_cases hid : i = id
      · subst hid
        rw [Function.update_same, Function.update_same]
        exact ⟨fun _ => ⟨_, rfl⟩, fun _ => rfl⟩
      · rw [Function.update_noteq hid, Function.update_noteq hid]
        exact hinv.marks i
  | fault id rnd badVAddr s hs hrange hnres hpf =>
    unfold Kernel.pageFault at hpf
    rw [hs] at hpf
    dsimp only at hpf
    cases hr : replacePage c rnd badVAddr s K.machine with
    | none => rw [hr] at hpf; cases hpf
    | some r =>
      rw [hr] at hpf
      cases hpf
      have hid := replacePage_spaceID (show replacePage c rnd badVAddr s K.machine =
        some (r.1, r.2) from hr)
      refine ⟨fun id' s' h => ?_, fun i => ?_⟩
      · dsimp only at h
        by_cases hid' : id' = id
        · subst hid'
          rw [Function.update_same] at h
          cases h
          rw [hid]
          exact hinv.keyed id' s hs
        · rw [Function.update_noteq hid'] at h
          exact hinv.keyed id' s' h
      · dsimp only
        rw [hinv.marks i]
        by_cases hid' : i = id
        · subst hid'
          rw [Function.update_same]
          exact ⟨fun _ => ⟨_, rfl⟩, fun _ => ⟨s, hs⟩⟩
        · rw [Function.update_noteq hid']
  | destroy id hd =>
    unfold Kernel.destroy at hd
    cases hs : K.spaces id with
    | none => rw [hs] at hd; cases hd
    | some s =>
      rw [hs] at hd
      cases hd
      have hkey := (hinv.keyed id s hs).1
      refine ⟨fun id' s' h => ?_, fun i => ?_⟩
      · dsimp only at h
        by_cases hid' : id' = id
        · subst hid'
          rw [Function.update_same] at h
          cases h
        · rw [Function.update_noteq hid'] at h
          exact hinv.keyed id' s' h
      · dsimp only
        rw [hkey]
        by_cases hid' : i = id
        · subst hid'
          rw [Function.update_same, Function.update_same]
          exact ⟨fun h => (by cases h), fun h => (by obtain ⟨_, h⟩ := h; cases h)⟩
        · rw [Function.update_noteq hid', Function.update_noteq hid']
          exact hinv.marks i

theorem Kernel.Reachable.id_inv {c : Config} {K : Kernel} (h : Kernel.Reachable c K) :
    Kernel.IdInv c K := by
  obtain ⟨-, -, mem, hsteps⟩ := h
  induction hsteps with
  | refl => exact Kernel.IdInv.of_boot c mem
  | tail _ hstep ih => exact ih.after_step hstep

/-- A run of the constructor that returns is a construction of the kernel:
the new space has the `spaceID` found, `numPagesOf` pages, the swap file of
`buildSwap` and the reference string loaded. -/
theorem Kernel.build_ok {c : Config} {fl : Files} {K K1 : Kernel} {id : Nat}
    (h : K.build c fl = Built.ok id K1) :
    ∃ exe hdr stale refStr, fl.executable = some exe ∧ loadHeader fl.header = some hdr ∧
      fl.swapStale = some stale ∧ loadCapture c fl = some refStr ∧
      K.construct c (numPagesOf c hdr) (buildSwap c hdr exe stale fl.junk) refStr =
        some (id, K1) := by
  unfold Kernel.build at h
  cases hfind : (List.range c.NumPhysPages).find? (fun i => !K.ProgMap i) with
  | none => rw [hfind] at h; cases h
  | some i =>
    rw [hfind] at h
    dsimp only at h
    cases hexe : fl.executable with
    | none => rw [hexe] at h; cases h
    | some exe =>
      rw [hexe] at h
      dsimp only at h
      cases hhdr : loadHeader fl.header with
      | none => rw [hhdr] at h; cases h
      | some hdr =>
        rw [hhdr] at h
        dsimp only at h
        by_cases hassert : c.maxFramesPerProc ≤ c.NumPhysPages ∧
            c.maxFramesPerProc ≤ K.machine.freeMM_Map.NumClear
        · rw [if_pos hassert] at h
          cases hsw : fl.swapStale with
          | none => rw [hsw] at h; cases h
          | some stale =>
            cases hcap : loadCapture c fl with
            | none => rw [hsw, hcap] at h; cases h
            | some refStr =>
              rw [hsw, hcap] at h
              cases h
              refine ⟨exe, hdr, stale, refStr, rfl, rfl, rfl, rfl, ?_⟩
              unfold Kernel.construct
              rw [hfind]
              dsimp only
              rw [if_pos hassert]
        · rw [if_neg hassert] at h
          cases h

/-- A run of the constructor that finishes its thread (the executable or a
file cannot be opened) has taken a `spaceID` before: the entry of `ProgMap`
stays marked although no address space comes to life. -/
theorem Kernel.build_finish {c : Config} {fl : Files} {K K1 : Kernel}
    (h : K.build c fl = Built.finish K1) :
    ∃ id, K.freeId c = some id ∧ K1.ProgMap = Function.update K.ProgMap id true ∧
      K1.spaces = K.spaces ∧ K1.machine = K.machine := by
  unfold Kernel.build at h
  unfold Kernel.freeId
  cases hfind : (List.range c.NumPhysPages).find? (fun i => !K.ProgMap i) with
  | none => rw [hfind] at h; cases h
  | some i =>
    rw [hfind] at h
    dsimp only at h
    cases hexe : fl.executable with
    | none =>
      rw [hexe] at h
      cases h
      exact ⟨i, rfl, rfl, rfl, rfl⟩
    | some exe =>
      rw [hexe] at h
      dsimp only at h
      cases hhdr : loadHeader fl.header with
      | none => rw [hhdr] at h; cases h
      | some hdr =>
        rw [hhdr] at h
        dsimp only at h
        split_ifs at h with hassert
        · cases hsw : fl.swapStale with
          | none =>
            rw [hsw] at h
            cases h
            exact ⟨i, rfl, rfl, rfl, rfl⟩
          | some stale =>
            cases hcap : loadCapture c fl with
            | none =>
              rw [hsw, hcap] at h
              cases h
              exact ⟨i, rfl, rfl, rfl, rfl⟩
            | some refStr => rw [hsw, hcap] at h; cases h

/-- Without a constructor call that ends in `Finish()` the bookkeeping is
exact: in every state of the kernel reachable from boot by constructor calls
that return, page faults and destructor calls, a live space is held under its
own `spaceID`, two live spaces have different `spaceID`s, and `ProgMap` marks
exactly the `spaceID`s of the live spaces. -/
theorem spaceID_is_lowest_free_and_unique {c : Config} {K : Kernel}
    (hreach : Kernel.Reachable c K) :
    ((K.freeId c = none ↔ ∀ i, i < c.NumPhysPages → K.ProgMap i = true) ∧
      (∀ fl, K.freeId c = none → K.build c fl = Built.abort) ∧
      ∀ fl id K1, K.build c fl = Built.ok id K1 →
        id < c.NumPhysPages ∧ K.ProgMap id = false ∧ (∀ j, j < id → K.ProgMap j = true) ∧
          K.spaces id = none ∧ K1.ProgMap = Function.update K.ProgMap id true ∧
          ∃ s, K1.spaces id = some s ∧ s.spaceID = id ∧
            ∀ id2, id2 ≠ id → K1.spaces id2 = K.spaces id2) ∧
    (∀ id s, K.spaces id = some s →
      ∃ K1, K.destroy id = some K1 ∧ K1.ProgMap = Function.update K.ProgMap s.spaceID false ∧
        K1.spaces = Function.update K.spaces id none) ∧
    (∀ id s, K.spaces id = some s → s.spaceID = id ∧ id < c.NumPhysPages) ∧
    (∀ id1 id2 s1 s2, K.spaces id1 = some s1 → K.spaces id2 = some s2 → id1 ≠ id2 →
      s1.spaceID ≠ s2.spaceID) ∧
    (∀ i, K.ProgMap i = true ↔ ∃ id s, K.spaces id = some s ∧ s.spaceID = i) := by
  have hinv := hreach.id_inv
  obtain ⟨hfind1, hfind2⟩ := progMap_find c K
  refine ⟨⟨hfind2, fun fl hnone => ?_, fun fl id K1 hb => ?_⟩, fun id s hs => ?_, hinv.keyed,
    fun id1 id2 s1 s2 h1 h2 hne => ?_, fun i => ?_⟩
  · unfold Kernel.freeId at hnone
    unfold Kernel.build
    rw [hnone]
  · obtain ⟨exe, hdr, stale, refStr, -, -, -, -, hcon⟩ := Kernel.build_ok hb
    obtain ⟨hfree, -, hpm, hsp, -⟩ := Kernel.construct_some hcon
    obtain ⟨hlt, hfalse, hbefore⟩ := hfind1 id hfree
    refine ⟨hlt, hfalse, hbefore, ?_, hpm, _, by rw [hsp, Function.update_same], rfl,
      fun id2 hne => by rw [hsp, Function.update_noteq hne]⟩
    cases hs : K.spaces id with
    | none => rfl
    | some s =>
      have := (hinv.marks id).mpr ⟨s, hs⟩
      rw [hfalse] at this
      cases this
  · unfold Kernel.destroy
    rw [hs]
    exact ⟨_, rfl, rfl, rfl⟩
  · rw [(hinv.keyed id1 s1 h1).1, (hinv.keyed id2 s2 h2).1]
    exact hne
  · rw [hinv.marks i]
    constructor
    · rintro ⟨s, hs⟩
      exact ⟨i, s, hs, (hinv.keyed i s hs).1⟩
    · rintro ⟨id, s, hs, hid⟩
      rw [← hid, (hinv.keyed id s hs).1]
      exact ⟨s, hs⟩

theorem scenarioOneLeft_reachable : Kernel.Reachable scenarioConfig scenarioOneLeft := by
  obtain ⟨hm, hps, mem, hsteps⟩ := scenario_kernel_reachable
  exact ⟨hm, hps, mem,
    Relation.ReflTransGen.tail hsteps
      (Kernel.Step.destroy scenarioTwoFaults scenarioOneLeft 0 rfl)⟩

/-- Scenario 1 with two spaces after the first (`spaceID = 0`) has been
destroyed: `ProgMap` marks 1 only, and the next run of the constructor takes
the freed `spaceID` 0. -/
theorem spaceID_is_lowest_free_and_unique_example :
    ((List.range 3).map scenarioOneLeft.ProgMap = [false, true, false] ∧
      (List.range 3).map (fun i => (scenarioOneLeft.spaces i).map (fun s => s.spaceID)) =
        [none, some 1, none] ∧
      scenarioOneLeft.freeId scenarioConfig = some 0 ∧
      (scenarioOneLeft.build scenarioConfig demoFiles).spaceId = some 0) ∧
    (((scenarioOneLeft.freeId scenarioConfig = none ↔
          ∀ i, i < scenarioConfig.NumPhysPages → scenarioOneLeft.ProgMap i = true) ∧
        (∀ fl, scenarioOneLeft.freeId scenarioConfig = none →
          scenarioOneLeft.build scenarioConfig fl = Built.abort) ∧
        ∀ fl id K1, scenarioOneLeft.build scenarioConfig fl = Built.ok id K1 →
          id < scenarioConfig.NumPhysPages ∧ scenarioOneLeft.ProgMap id = false ∧
            (∀ j, j < id → scenarioOneLeft.ProgMap j = true) ∧
            scenarioOneLeft.spaces id = none ∧
            K1.ProgMap = Function.update scenarioOneLeft.ProgMap id true ∧
            ∃ s, K1.spaces id = some s ∧ s.spaceID = id ∧
              ∀ id2, id2 ≠ id → K1.spaces id2 = scenarioOneLeft.spaces id2) ∧
      (∀ id s, scenarioOneLeft.spaces id = some s →
        ∃ K1, scenarioOneLeft.destroy id = some K1 ∧
          K1.ProgMap = Function.update scenarioOneLeft.ProgMap s.spaceID false ∧
          K1.spaces = Function.update scenarioOneLeft.spaces id none) ∧
      (∀ id s, scenarioOneLeft.spaces id = some s →
        s.spaceID = id ∧ id < scenarioConfig.NumPhysPages) ∧
      (∀ id1 id2 s1 s2, scenarioOneLeft.spaces id1 = some s1 →
        scenarioOneLeft.spaces id2 = some s2 → id1 ≠ id2 → s1.spaceID ≠ s2.spaceID) ∧
      (∀ i, scenarioOneLeft.ProgMap i = true ↔
        ∃ id s, scenarioOneLeft.spaces id = some s ∧ s.spaceID = i)) :=
  ⟨by decide, spaceID_is_lowest_free_and_unique scenarioOneLeft_reachable⟩

/-- C28, counterexample: after boot the constructor is called on an executable
that cannot be opened.  The call has marked `ProgMap[0]` (line 67) when it
finishes its thread (line 80), and nothing frees the entry: in the state it
leaves no address space is live, `ProgMap` marks 0, so `ProgMap` does not mark
exactly the `spaceID`s of the live spaces, and the next run of the constructor
takes `spaceID` 1. -/
theorem failed_construction_keeps_spaceID_marked :
    (scenarioBoot.build scenarioConfig missingFiles).finished = true ∧
      scenarioLeak.ProgMap 0 = true ∧
      (∀ id, scenarioLeak.spaces id = none) ∧
      ¬ (∀ i, scenarioLeak.ProgMap i = true ↔
        ∃ id s, scenarioLeak.spaces id = some s ∧ s.spaceID = i) ∧
      (scenarioLeak.build scenarioConfig demoFiles).spaceId = some 1 := by
  have hnone : ∀ id, scenarioLeak.spaces id = none := fun _ => rfl
  refine ⟨by decide, by decide, hnone, fun hall => ?_, by decide⟩
  obtain ⟨id, s, hs, -⟩ := (hall 0).mp (by decide)
  rw [hnone id] at hs
  cases hs

/-! ## Runs of the kernel: what every event keeps -/

theorem updatePage_spaceID {c : Config} {vpn : Int} {s t : AddrSpace}
    (h : updatePage c vpn s = some t) : t.spaceID = s.spaceID := by
  have hrec : ∀ u : AddrSpace, (recordRef c vpn u).spaceID = u.spaceID := by
    intro u
    unfold recordRef
    split_ifs <;> rfl
  unfold updatePage at h
  split_ifs at h with h1 h2
  · cases h
    rw [hrec]
    unfold updatePageLRU
    split <;> rfl
  · unfold updatePageOpt at h
    split_ifs at h <;> cases h <;> rfl
  · cases h
    exact hrec s

/-- A state reachable by the operations of `Kernel.Step` is reached by a run. -/
theorem Kernel.Reachable.reached {c : Config} {K : Kernel} (h : Kernel.Reachable c K) :
    Kernel.Reached c K := by
  obtain ⟨hm, hps, mem, hsteps⟩ := h
  exact ⟨hm, hps, mem, Relation.ReflTransGen.mono (fun _ _ hs => Kernel.Event.step _ _ hs) hsteps⟩

theorem Kernel.IdHeld.at_boot (c : Config) (mem : Nat → Nat) :
    Kernel.IdHeld c (Kernel.boot c mem) :=
  ⟨fun _ _ h => (by cases h), fun _ _ h => (by cases h)⟩

/-- The bookkeeping after a change of one live space that keeps its
`spaceID`. -/
theorem Kernel.IdHeld.same_id_space {c : Config} {K : Kernel} {id : Nat} {s s1 : AddrSpace}
    (hinv : Kernel.IdHeld c K) (hs : K.spaces id = some s) (hid : s1.spaceID = s.spaceID) :
    Kernel.IdHeld c { K with spaces := Function.update K.spaces id (some s1) } := by
  refine ⟨fun id' s' h => ?_, fun id' s' h => ?_⟩
  · dsimp only at h
    by_cases hid' : id' = id
    · subst hid'
      rw [Function.update_same] at h
      cases h
      rw [hid]
      exact hinv.keyed id' s hs
    · rw [Function.update_noteq hid'] at h
      exact hinv.keyed id' s' h
  · dsimp only at h ⊢
    by_cases hid' : id' = id
    · subst hid'
      exact hinv.marked id' s hs
    · rw [Function.update_noteq hid'] at h
      exact hinv.marked id' s' h

/-- Every event of a run keeps the bookkeeping of `spaceID`s. -/
theorem Kernel.IdHeld.event_keeps {c : Config} {K K1 : Kernel} (hinv : Kernel.IdHeld c K)
    (hev : Kernel.Event c K K1) : Kernel.IdHeld c K1 := by
  cases hev with
  | step hstep =>
    cases hstep with
    | construct numPages swap refStr id hcon =>
      obtain ⟨hfree, -, hpm, hsp, -⟩ := Kernel.construct_some hcon
      obtain ⟨hlt, -, -⟩ := (progMap_find c K).1 id hfree
      refine ⟨fun id' s' h => ?_, fun id' s' h => ?_⟩
      · rw [hsp] at h
        by_cases hid : id' = id
        · subst hid
          rw [Function.update_same] at h
          cases h
          exact ⟨rfl, hlt⟩
        · rw [Function.update_noteq hid] at h
          exact hinv.keyed id' s' h
      · rw [hpm]
        rw [hsp] at h
        by_cases hid : id' = id
        · subst hid
          rw [Function.update_same]
        · rw [Function.update_noteq hid] at h ⊢
          exact hinv.marked id' s' h
    | fault id rnd badVAddr s hs hrange hnres hpf =>
      unfold Kernel.pageFault at hpf
      rw [hs] at hpf
      dsimp only at hpf
      cases hr : replacePage c rnd badVAddr s K.machine with
      | none => rw [hr] at hpf; cases hpf
      | some r =>
        rw [hr] at hpf
        cases hpf
        have hid := replacePage_spaceID (show replacePage c rnd badVAddr s K.machine =
          some (r.1, r.2) from hr)
        exact ⟨(hinv.same_id_space hs hid).keyed, (hinv.same_id_space hs hid).marked⟩
    | destroy id hd =>
      unfold Kernel.destroy at hd
      cases hs : K.spaces id with
      | none => rw [hs] at hd; cases hd
      | some s =>
        rw [hs] at hd
        cases hd
        have hkey := (hinv.keyed id s hs).1
        refine ⟨fun id' s' h => ?_, fun id' s' h => ?_⟩
        · dsimp only at h
          by_cases hid' : id' = id
          · subst hid'
            rw [Function.update_same] at h
            cases h
          · rw [Function.update_noteq hid'] at h
            exact hinv.keyed id' s' h
        · dsimp only at h ⊢
          rw [hkey]
          by_cases hid' : id' = id
          · subst hid'
            rw [Function.update_same] at h
            cases h
          · rw [Function.update_noteq hid'] at h ⊢
            exact hinv.marked id' s' h
  | abandon fl hb =>
    obtain ⟨i, -, hpm, hsp, -⟩ := Kernel.build_finish hb
    refine ⟨fun id s h => hinv.keyed id s (hsp ▸ h), fun id s h => ?_⟩
    rw [hpm]
    by_cases hid : id = i
    · rw [hid, Function.update_same]
    · rw [Function.update_noteq hid]
      exact hinv.marked id s (hsp ▸ h)
  | touch id vpn s s1 hs hres hup hK1 =>
    subst hK1
    exact hinv.same_id_space hs (updatePage_spaceID hup)
  | access id v use dirty s hs hres hK1 =>
    subst hK1
    exact hinv.same_id_space hs rfl
  | store addr val hK1 =>
    subst hK1
    exact ⟨hinv.keyed, hinv.marked⟩

theorem Kernel.Reached.id_held {c : Config} {K : Kernel} (h : Kernel.Reached c K) :
    Kernel.IdHeld c K := by
  obtain ⟨-, -, mem, hsteps⟩ := h
  induction hsteps with
  | refl => exact Kernel.IdHeld.at_boot c mem
  | tail _ hev ih => exact ih.event_keeps hev

theorem scenarioBusy_reached : Kernel.Reached scenarioConfig scenarioBusy := by
  obtain ⟨hm, hps, mem, hsteps⟩ := scenario_kernel_reachable.reached
  refine ⟨hm, hps, mem, ?_⟩
  refine Relation.ReflTransGen.tail (Relation.ReflTransGen.tail (Relation.ReflTransGen.tail
    (Relation.ReflTransGen.tail hsteps
      (Kernel.Event.abandon scenarioTwoFaults scenarioFailedThird missingFiles rfl))
    (Kernel.Event.access scenarioFailedThird (scenarioFailedThird.accessed 0 0 true true) 0 0
      true true ((scenarioFailedThird.spaces 0).getD scenarioSpace) rfl (by decide) rfl))
    (Kernel.Event.store _ ((scenarioFailedThird.accessed 0 0 true true).stored 5 7) 5 7 rfl))
    (Kernel.Event.touch ((scenarioFailedThird.accessed 0 0 true true).stored 5 7) scenarioBusy 0 0
      ((((scenarioFailedThird.accessed 0 0 true true).stored 5 7).spaces 0).getD scenarioSpace)
      ((scenarioBusy.spaces 0).getD scenarioSpace) rfl (by decide) rfl rfl)

/-- C28 (amended): the constructor takes as `spaceID` the lowest index below
`NumPhysPages` whose `ProgMap` entry is free and marks it, also when it goes on
to finish its thread; its `ASSERT(flag)` fails exactly when no entry is free;
the destructor frees the entry of the space again.  Hence in every state of
the kernel reached from boot by constructor calls (those that return and those
that end in `Finish()`), page faults, `updatePage` calls, accesses and stores
of the machine and destructor calls, a live space is held under its own
`spaceID`, two live spaces have different `spaceID`s, and `ProgMap` marks the
`spaceID` of every live space. -/
theorem spaceID_lowest_free_and_distinct {c : Config} {K : Kernel}
    (hreach : Kernel.Reached c K) :
    ((K.freeId c = none ↔ ∀ i, i < c.NumPhysPages → K.ProgMap i = true) ∧
      (∀ fl, K.freeId c = none → K.build c fl = Built.abort) ∧
      (∀ fl id K1, K.build c fl = Built.ok id K1 →
        id < c.NumPhysPages ∧ K.ProgMap id = false ∧ (∀ j, j < id → K.ProgMap j = true) ∧
          K.spaces id = none ∧ K1.ProgMap = Function.update K.ProgMap id true ∧
          ∃ s, K1.spaces id = some s ∧ s.spaceID = id ∧
            ∀ id2, id2 ≠ id → K1.spaces id2 = K.spaces id2) ∧
      ∀ fl K1, K.build c fl = Built.finish K1 →
        ∃ id, id < c.NumPhysPages ∧ K.ProgMap id = false ∧ (∀ j, j < id → K.ProgMap j = true) ∧
          K1.ProgMap = Function.update K.ProgMap id true ∧ K1.spaces = K.spaces) ∧
    (∀ id s, K.spaces id = some s →
      ∃ K1, K.destroy id = some K1 ∧ K1.ProgMap = Function.update K.ProgMap s.spaceID false ∧
        K1.spaces = Function.update K.spaces id none) ∧
    (∀ id s, K.spaces id = some s → s.spaceID = id ∧ id < c.NumPhysPages) ∧
    (∀ id1 id2 s1 s2, K.spaces id1 = some s1 → K.spaces id2 = some s2 → id1 ≠ id2 →
      s1.spaceID ≠ s2.spaceID) ∧
    (∀ id s, K.spaces id = some s → K.ProgMap s.spaceID = true) := by
  have hinv := hreach.id_held
  obtain ⟨hfind1, hfind2⟩ := progMap_find c K
  refine ⟨⟨hfind2, fun fl hnone => ?_, fun fl id K1 hb => ?_, fun fl K1 hb => ?_⟩,
    fun id s hs => ?_, hinv.keyed, fun id1 id2 s1 s2 h1 h2 hne => ?_, fun id s hs => ?_⟩
  · unfold Kernel.freeId at hnone
    unfold Kernel.build
    rw [hnone]
  · obtain ⟨exe, hdr, stale, refStr, -, -, -, -, hcon⟩ := Kernel.build_ok hb
    obtain ⟨hfree, -, hpm, hsp, -⟩ := Kernel.construct_some hcon
    obtain ⟨hlt, hfalse, hbefore⟩ := hfind1 id hfree
    refine ⟨hlt, hfalse, hbefore, ?_, hpm, _, by rw [hsp, Function.update_same], rfl,
      fun id2 hne => by rw [hsp, Function.update_noteq hne]⟩
    cases hs : K.spaces id with
    | none => rfl
    | some s =>
      have := hinv.marked id s hs
      rw [hfalse] at this
      cases this
  · obtain ⟨id, hfree, hpm, hsp, -⟩ := Kernel.build_finish hb
    obtain ⟨hlt, hfalse, hbefore⟩ := hfind1 id hfree
    exact ⟨id, hlt, hfalse, hbefore, hpm, hsp⟩
  · unfold Kernel.destroy
    rw [hs]
    exact ⟨_, rfl, rfl, rfl⟩
  · rw [(hinv.keyed id1 s1 h1).1, (hinv.keyed id2 s2 h2).1]
    exact hne
  · rw [(hinv.keyed id s hs).1]
    exact hinv.marked id s hs

/-- Witness of C28: scenario 1 with two live spaces (`spaceID` 0 and 1) after
a run of the constructor that finished its thread with `spaceID` 2 taken, a
store and an `updatePage`.  `ProgMap` marks 0, 1 and 2, and the next run of the
constructor takes `spaceID` 3. -/
theorem spaceID_lowest_free_and_distinct_witness :
    ((List.range 4).map scenarioBusy.ProgMap = [true, true, true, false] ∧
      (List.range 4).map (fun i => (scenarioBusy.spaces i).map (fun s => s.spaceID)) =
        [some 0, some 1, none, none] ∧
      scenarioBusy.freeId scenarioConfig = some 3 ∧
      (scenarioBusy.build scenarioConfig demoFiles).spaceId = some 3) ∧
    (((scenarioBusy.freeId scenarioConfig = none ↔
          ∀ i, i < scenarioConfig.NumPhysPages → scenarioBusy.ProgMap i = true) ∧
        (∀ fl, scenarioBusy.freeId scenarioConfig = none →
          scenarioBusy.build scenarioConfig fl = Built.abort) ∧
        (∀ fl id K1, scenarioBusy.build scenarioConfig fl = Built.ok id K1 →
          id < scenarioConfig.NumPhysPages ∧ scenarioBusy.ProgMap id = false ∧
            (∀ j, j < id → scenarioBusy.ProgMap j = true) ∧
            scenarioBusy.spaces id = none ∧
            K1.ProgMap = Function.update scenarioBusy.ProgMap id true ∧
            ∃ s, K1.spaces id = some s ∧ s.spaceID = id ∧
              ∀ id2, id2 ≠ id → K1.spaces id2 = scenarioBusy.spaces id2) ∧
        ∀ fl K1, scenarioBusy.build scenarioConfig fl = Built.finish K1 →
          ∃ id, id < scenarioConfig.NumPhysPages ∧ scenarioBusy.ProgMap id = false ∧
            (∀ j, j < id → scenarioBusy.ProgMap j = true) ∧
            K1.ProgMap = Function.update scenarioBusy.ProgMap id true ∧
            K1.spaces = scenarioBusy.spaces) ∧
      (∀ id s, scenarioBusy.spaces id = some s →
        ∃ K1, scenarioBusy.destroy id = some K1 ∧
          K1.ProgMap = Function.update scenarioBusy.ProgMap s.spaceID false ∧
          K1.spaces = Function.update scenarioBusy.spaces id none) ∧
      (∀ id s, scenarioBusy.spaces id = some s →
        s.spaceID = id ∧ id < scenarioConfig.NumPhysPages) ∧
      (∀ id1 id2 s1 s2, scenarioBusy.spaces id1 = some s1 → scenarioBusy.spaces id2 = some s2 →
        id1 ≠ id2 → s1.spaceID ≠ s2.spaceID) ∧
      (∀ id s, scenarioBusy.spaces id = some s → scenarioBusy.ProgMap s.spaceID = true)) :=
  ⟨by decide, spaceID_lowest_free_and_distinct scenarioBusy_reached⟩

/-! ## The destructor and the free-frame bitmap -/

/-- Two predicates that differ at one element of a list without repeats: the
one that holds there selects one element more. -/
theorem filter_length_succ (p q : Nat → Bool) (i : Nat) :
    ∀ l : List Nat, l.Nodup → i ∈ l → p i = false → q i = true →
      (∀ j, j ≠ i → q j = p j) → (l.filter q).length = (l.filter p).length + 1 := by
  intro l
  induction l with
  | nil => intro _ hi; cases hi
  | cons a rest ih =>
    intro hnd hi hp hq hsame
    have hnd' := List.nodup_cons.mp hnd
    by_cases hai : a = i
    · subst hai
      have hrest : rest.filter q = rest.filter p := by
        apply List.filter_congr
        intro j hj
        exact hsame j (fun hc => hnd'.1 (hc ▸ hj))
      rw [List.filter_cons_of_pos hq, List.filter_cons_of_neg (by rw [hp]; simp), hrest,
        List.length_cons]
    · have hi' : i ∈ rest := by
        rcases List.mem_cons.mp hi with h | h
        · exact absurd h.symm hai
        · exact h
      have := ih hnd'.2 hi' hp hq hsame
      by_cases hpa : p a = true
      · rw [List.filter_cons_of_pos hpa, List.filter_cons_of_pos (by rw [hsame a hai]; exact hpa),
          List.length_cons, List.length_cons, this]
      · rw [List.filter_cons_of_neg hpa, List.filter_cons_of_neg (by rw [hsame a hai]; exact hpa),
          this]

/-- With no free bit `Find()` returns -1 and leaves the map as it is. -/
theorem BitMap.Find_of_full (b : BitMap) (h : b.NumClear = 0) : b.Find = (-1, b) := by
  unfold BitMap.NumClear at h
  have hnil := List.length_eq_zero.mp h
  have hnone : (List.range b.numBits).find? (fun i => !b.map i) = none := by
    rw [List.find?_eq_none]
    intro x hx hp
    have : x ∈ (List.range b.numBits).filter (fun i => !b.map i) :=
      List.mem_filter.mpr ⟨hx, hp⟩
    rw [hnil] at this
    cases this
  unfold BitMap.Find
  rw [hnone]

/-- With a free bit `Find()` returns a sector number (not -1) and one free bit
less remains. -/
theorem BitMap.Find_of_clear (b : BitMap) (h : 0 < b.NumClear) :
    0 ≤ b.Find.1 ∧ b.Find.2.NumClear + 1 = b.NumClear := by
  unfold BitMap.NumClear at h
  cases hfind : (List.range b.numBits).find? (fun i => !b.map i) with
  | none =>
    rw [List.find?_eq_none] at hfind
    obtain ⟨x, hx⟩ := List.exists_mem_of_length_pos h
    obtain ⟨hx1, hx2⟩ := List.mem_filter.mp hx
    exact absurd hx2 (hfind x hx1)
  | some i =>
    have h1 := List.find?_some hfind
    have h2 := List.mem_of_find?_eq_some hfind
    have hF : b.Find = ((i : Int), { b with map := Function.update b.map i true }) := by
      unfold BitMap.Find
      rw [hfind]
    rw [hF]
    refine ⟨Int.natCast_nonneg i, ?_⟩
    unfold BitMap.NumClear
    dsimp only
    symm
    apply filter_length_succ (fun j => !Function.update b.map i true j) (fun j => !b.map j) i
      _ (List.nodup_range _) h2
    · simp
    · exact h1
    · intro j hj
      rw [Function.update_noteq hj]

/-- The loop of `Find()` calls while the free map has room: every entry written
is a sector number, and each round takes one free sector. -/
theorem findInto_room (start : Nat) (arr : Nat → Int) (b : BitMap) :
    ∀ k, k ≤ b.NumClear →
      (findInto start arr b k).2.NumClear + k = b.NumClear ∧
        ∀ j, start ≤ j → j < start + k → 0 ≤ (findInto start arr b k).1 j := by
  intro k
  induction k with
  | zero => intro _; exact ⟨rfl, fun j h1 h2 => by omega⟩
  | succ k ih =>
    intro hk
    obtain ⟨hcount, hnn⟩ := ih (by omega)
    obtain ⟨hf1, hf2⟩ := BitMap.Find_of_clear (findInto start arr b k).2 (by omega)
    refine ⟨?_, fun j h1 h2 => ?_⟩
    · show (findInto start arr b k).2.Find.2.NumClear + (k + 1) = b.NumClear
      omega
    · show 0 ≤ Function.update (findInto start arr b k).1 (start + k)
        (findInto start arr b k).2.Find.1 j
      by_cases hj : j = start + k
      · rw [hj, Function.update_same]
        exact hf1
      · rw [Function.update_noteq hj]
        exact hnn j h1 (by omega)

theorem divRoundUpInt_mul (n s : Nat) (hs : 0 < s) :
    divRoundUpInt ((n * s : Nat) : Int) (s : Int) = (n : Int) := by
  unfold divRoundUpInt
  have h1 : Int.tdiv ((n * s : Nat) : Int) (s : Int) = (n : Int) := by
    rw [← Int.ofNat_tdiv, Nat.mul_div_cancel _ hs]
  have h2 : Int.tmod ((n * s : Nat) : Int) (s : Int) = 0 := by
    rw [← Int.ofNat_tmod, Nat.mul_mod_left]
    rfl
  rw [h1, h2]
  simp

/-- C30 (the code departs from the claim): let the file need `n` data sectors
with `NumIndex1 < n <= MaxFileSectors`, so that it also needs the sector of the
index block, `n + 1` sectors in all, and let the free map hold exactly `n` free
sectors.  The test of line 130 compares the free sectors with `n` only, so
`Allocate` returns true; the direct entries and the index sector are sector
numbers, the free map is left with no free sector, and the last entry of the
index block written to the disk is the -1 of a `Find()` that found nothing. -/
theorem Allocate_true_without_room (c : FsConfig) (junk : Nat → Int) (h : FileHeader)
    (freeMap : BitMap) (disk : SynchDisk) (n : Nat) (hss : 0 < c.SectorSize)
    (hidx : c.NumIndex1 < n) (hmax : n ≤ c.MaxFileSectors) (hfree : freeMap.NumClear = n) :
    (h.Allocate c junk freeMap disk ((n * c.SectorSize : Nat) : Int)).ret = true ∧
      (h.Allocate c junk freeMap disk ((n * c.SectorSize : Nat) : Int)).hdr.numSectors = n ∧
      (∀ j, j ≤ c.NumIndex1 →
        0 ≤ (h.Allocate c junk freeMap disk ((n * c.SectorSize : Nat) : Int)).hdr.dataSectors j) ∧
      (h.Allocate c junk freeMap disk ((n * c.SectorSize : Nat) : Int)).freeMap.NumClear = 0 ∧
      (h.Allocate c junk freeMap disk ((n * c.SectorSize : Nat) : Int)).disk.ReadSector
        ((h.Allocate c junk freeMap disk ((n * c.SectorSize : Nat) : Int)).hdr.dataSectors
          c.NumIndex1) (n - c.NumIndex1 - 1) = -1 := by
  have hdiv := divRoundUpInt_mul n c.SectorSize hss
  have hbranch1 : ¬ ((n : Int) > (c.MaxFileSectors : Int) ∨ (freeMap.NumClear : Int) < (n : Int)) := by
    rw [hfree]
    omega
  have hbranch2 : ¬ ((n : Int) ≤ (c.NumIndex1 : Int)) := by omega
  have hcount : ((n : Int) - (c.NumIndex1 : Int)).toNat = (n - c.NumIndex1 - 1) + 1 := by omega
  obtain ⟨hc1, hnn1⟩ := findInto_room 0
    ({ h with numBytes := ((n * c.SectorSize : Nat) : Int), numSectors := (n : Int) } :
      FileHeader).dataSectors freeMap (c.NumIndex1 + 1) (by omega)
  obtain ⟨hc2, -⟩ := findInto_room 0 junk
    (findInto 0 ({ h with numBytes := ((n * c.SectorSize : Nat) : Int), numSectors := (n : Int) } :
      FileHeader).dataSectors freeMap (c.NumIndex1 + 1)).2 (n - c.NumIndex1 - 1) (by omega)
  have hzero : (findInto 0 junk
    (findInto 0 ({ h with numBytes := ((n * c.SectorSize : Nat) : Int), numSectors := (n : Int) } :
      FileHeader).dataSectors freeMap (c.NumIndex1 + 1)).2 (n - c.NumIndex1 - 1)).2.NumClear = 0 := by
    omega
  have hfull := BitMap.Find_of_full _ hzero
  unfold FileHeader.Allocate
  rw [hdiv]
  dsimp only
  rw [if_neg hbranch1, if_neg hbranch2, hcount]
  dsimp only
  refine ⟨rfl, rfl, fun j hj => hnn1 j (Nat.zero_le j) (by omega), ?_, ?_⟩
  · show (findInto 0 junk _ (n - c.NumIndex1 - 1)).2.Find.2.NumClear = 0
    rw [hfull]
    exact hzero
  · unfold SynchDisk.ReadSector SynchDisk.WriteSector
    dsimp only
    rw [Function.update_same]
    show Function.update _ (0 + (n - c.NumIndex1 - 1)) _ (n - c.NumIndex1 - 1) = -1
    rw [Nat.zero_add, Function.update_same, hfull]

/-- Witness of C30: 4 direct entries, sectors of 128 bytes, a free map with the
5 free sectors 11 .. 15 and a file of 640 bytes (5 data sectors, 6 sectors with
the index block).  `Allocate` returns true with the direct entries 11, 12, 13,
14, the index sector 15 and the index-block entry -1. -/
theorem Allocate_true_without_room_witness :
    (demoFreeMap.NumClear = 5 ∧
      divRoundUpInt 640 demoFs.SectorSize = 5 ∧
      (demoFileHeader.Allocate demoFs (fun _ => 0) demoFreeMap demoDisk 640).ret = true ∧
      (List.range 5).map
        (demoFileHeader.Allocate demoFs (fun _ => 0) demoFreeMap demoDisk 640).hdr.dataSectors =
          [11, 12, 13, 14, 15] ∧
      (demoFileHeader.Allocate demoFs (fun _ => 0) demoFreeMap demoDisk 640).disk.ReadSector 15
        0 = -1) ∧
    ((demoFileHeader.Allocate demoFs (fun _ => 0) demoFreeMap demoDisk
        ((5 * demoFs.SectorSize : Nat) : Int)).ret = true ∧
      (demoFileHeader.Allocate demoFs (fun _ => 0) demoFreeMap demoDisk
        ((5 * demoFs.SectorSize : Nat) : Int)).hdr.numSectors = (5 : Nat) ∧
      (∀ j, j ≤ demoFs.NumIndex1 →
        0 ≤ (demoFileHeader.Allocate demoFs (fun _ => 0) demoFreeMap demoDisk
          ((5 * demoFs.SectorSize : Nat) : Int)).hdr.dataSectors j) ∧
      (demoFileHeader.Allocate demoFs (fun _ => 0) demoFreeMap demoDisk
        ((5 * demoFs.SectorSize : Nat) : Int)).freeMap.NumClear = 0 ∧
      (demoFileHeader.Allocate demoFs (fun _ => 0) demoFreeMap demoDisk
        ((5 * demoFs.SectorSize : Nat) : Int)).disk.ReadSector
        ((demoFileHeader.Allocate demoFs (fun _ => 0) demoFreeMap demoDisk
          ((5 * demoFs.SectorSize : Nat) : Int)).hdr.dataSectors demoFs.NumIndex1)
        (5 - demoFs.NumIndex1 - 1) = -1) :=
  ⟨by decide,
    Allocate_true_without_room demoFs (fun _ => 0) demoFileHeader demoFreeMap demoDisk 5
      (by decide) (by decide) (by decide) (by decide)⟩

/-! ## The loops of `Find()` and `Clear()` calls of lab5 -/

/-- A call of `Find()` on a map with a free bit: the bit returned was free and
is the one bit the call marks. -/
theorem BitMap.Find_marks (b : BitMap) (h : 0 < b.NumClear) :
    0 ≤ b.Find.1 ∧ b.Find.1.toNat < b.numBits ∧ b.map b.Find.1.toNat = false ∧
      b.Find.2.numBits = b.numBits ∧
      b.Find.2.map = Function.update b.map b.Find.1.toNat true ∧
      b.Find.2.NumClear + 1 = b.NumClear := by
  obtain ⟨h1, h2⟩ := BitMap.Find_of_clear b h
  obtain ⟨h3, h4, h5, h6⟩ := BitMap.Find_nonneg h1
  exact ⟨h1, h3, h4, h5, h6, h2⟩

/-- The loop of `Find()` calls while the free map has room: the `k` entries
written are `k` different sectors that were free before, they are the bits the
loop marks, and the rest of the array is as before. -/
theorem findInto_spec (start : Nat) (arr : Nat → Int) (b : BitMap) :
    ∀ k, k ≤ b.NumClear →
      (findInto start arr b k).2.numBits = b.numBits ∧
      (findInto start arr b k).2.NumClear + k = b.NumClear ∧
      (∀ i, i < k → 0 ≤ (findInto start arr b k).1 (start + i) ∧
        ((findInto start arr b k).1 (start + i)).toNat < b.numBits ∧
        b.map ((findInto start arr b k).1 (start + i)).toNat = false) ∧
      (∀ i j, i < k → j < k →
        (findInto start arr b k).1 (start + i) = (findInto start arr b k).1 (start + j) →
        i = j) ∧
      (∀ x, (findInto start arr b k).2.map x = true ↔
        (b.map x = true ∨ ∃ i, i < k ∧ (findInto start arr b k).1 (start + i) = (x : Int))) ∧
      (∀ j, (j < start ∨ start + k ≤ j) → (findInto start arr b k).1 j = arr j) := by
  intro k
  induction k with
  | zero =>
    intro _
    refine ⟨rfl, rfl, fun i hi => absurd hi (Nat.not_lt_zero i),
      fun i j hi => absurd hi (Nat.not_lt_zero i), fun x => ?_, fun j _ => rfl⟩
    constructor
    · intro hx; exact Or.inl hx
    · rintro (hx | ⟨i, hi, -⟩)
      · exact hx
      · exact absurd hi (Nat.not_lt_zero i)
  | succ k ih =>
    intro hk
    obtain ⟨hbits, hcount, hent, hinj, hmap, hrest⟩ := ih (by omega)
    obtain ⟨hf0, hflt, hffree, hfbits, hfmap, hfcount⟩ :=
      BitMap.Find_marks (findInto start arr b k).2 (by omega)
    have hstep : findInto start arr b (k + 1) =
        (Function.update (findInto start arr b k).1 (start + k)
          (findInto start arr b k).2.Find.1, (findInto start arr b k).2.Find.2) := rfl
    have hold : ∀ i, i < k →
        Function.update (findInto start arr b k).1 (start + k)
          (findInto start arr b k).2.Find.1 (start + i) =
          (findInto start arr b k).1 (start + i) := by
      intro i hi
      rw [Function.update_noteq (by omega)]
    have hnew : Function.update (findInto start arr b k).1 (start + k)
        (findInto start arr b k).2.Find.1 (start + k) =
          (findInto start arr b k).2.Find.1 := Function.update_same _ _ _
    have hcast : (((findInto start arr b k).2.Find.1.toNat : Nat) : Int) =
        (findInto start arr b k).2.Find.1 := Int.toNat_of_nonneg hf0
    -- the sector found now is none of the sectors found before
    have hfresh : ∀ i, i < k →
        (findInto start arr b k).1 (start + i) ≠ (findInto start arr b k).2.Find.1 := by
      intro i hi heq
      have hmarked : (findInto start arr b k).2.map
          (findInto start arr b k).2.Find.1.toNat = true :=
        (hmap _).mpr (Or.inr ⟨i, hi, by rw [heq, hcast]⟩)
      rw [hffree] at hmarked
      cases hmarked
    rw [hstep]
    dsimp only
    refine ⟨by rw [hfbits, hbits], by omega, fun i hi => ?_, fun i j hi hj heq => ?_,
      fun x => ?_, fun j hj => ?_⟩
    · rcases Nat.lt_succ_iff_lt_or_eq.mp hi with h | h
      · rw [hold i h]
        exact hent i h
      · rw [h, hnew]
        refine ⟨hf0, by rw [← hbits]; exact hflt, ?_⟩
        cases hb : b.map (findInto start arr b k).2.Find.1.toNat with
        | false => rfl
        | true =>
          have := (hmap _).mpr (Or.inl hb)
          rw [hffree] at this
          cases this
    · rcases Nat.lt_succ_iff_lt_or_eq.mp hi with h1 | h1
      · rcases Nat.lt_succ_iff_lt_or_eq.mp hj with h2 | h2
        · rw [hold i h1, hold j h2] at heq
          exact hinj i j h1 h2 heq
        · rw [h2, hnew, hold i h1] at heq
          exact absurd heq (hfresh i h1)
      · rcases Nat.lt_succ_iff_lt_or_eq.mp hj with h2 | h2
        · rw [h1, hnew, hold j h2] at heq
          exact absurd heq.symm (hfresh j h2)
        · omega
    · rw [hfmap]
      by_cases hx : x = (findInto start arr b k).2.Find.1.toNat
      · rw [hx, Function.update_same]
        refine ⟨fun _ => Or.inr ⟨k, Nat.lt_succ_self k, ?_⟩, fun _ => rfl⟩
        rw [hnew, hcast]
      · rw [Function.update_noteq hx, hmap x]
        constructor
        · rintro (h | ⟨i, hi, he⟩)
          · exact Or.inl h
          · exact Or.inr ⟨i, Nat.lt_succ_of_lt hi, by rw [hold i hi]; exact he⟩
        · rintro (h | ⟨i, hi, he⟩)
          · exact Or.inl h
          · rcases Nat.lt_succ_iff_lt_or_eq.mp hi with h | h
            · rw [hold i h] at he
              exact Or.inr ⟨i, h, he⟩
            · rw [h, hnew] at he
              exfalso
              apply hx
              rw [he, Int.toNat_natCast]
    · rw [Function.update_noteq (by omega)]
      exact hrest j (by omega)

/-- The loop of `Deallocate` over `n` entries that are `n` different marked
sectors: every assertion passes and exactly these bits are cleared. -/
theorem clearFrom_spec (arr : Nat → Int) (b : BitMap) :
    ∀ n, (∀ i, i < n → 0 ≤ arr i ∧ (arr i).toNat < b.numBits ∧ b.map (arr i).toNat = true) →
      (∀ i j, i < n → j < n → arr i = arr j → i = j) →
      ∃ b1, clearFrom arr b n = some b1 ∧ b1.numBits = b.numBits ∧
        ∀ x, b1.map x = true ↔ (b.map x = true ∧ ¬ ∃ i, i < n ∧ arr i = (x : Int)) := by
  intro n
  induction n with
  | zero =>
    intro _ _
    refine ⟨b, rfl, rfl, fun x => ⟨fun h => ⟨h, ?_⟩, fun h => h.1⟩⟩
    rintro ⟨i, hi, -⟩
    exact absurd hi (Nat.not_lt_zero i)
  | succ n ih =>
    intro hent hinj
    obtain ⟨b1, hb1, hbits, hmap⟩ := ih (fun i hi => hent i (Nat.lt_succ_of_lt hi))
      (fun i j hi hj => hinj i j (Nat.lt_succ_of_lt hi) (Nat.lt_succ_of_lt hj))
    obtain ⟨hn0, hnlt, hnset⟩ := hent n (Nat.lt_succ_self n)
    have hcast : (((arr n).toNat : Nat) : Int) = arr n := Int.toNat_of_nonneg hn0
    have hstill : b1.map (arr n).toNat = true := by
      rw [hmap]
      refine ⟨hnset, ?_⟩
      rintro ⟨i, hi, he⟩
      rw [hcast] at he
      have := hinj i n (Nat.lt_succ_of_lt hi) (Nat.lt_succ_self n) he
      omega
    have htest : b1.Test (arr n) = true := by
      unfold BitMap.Test
      rw [hstill, hbits]
      simp [hn0, hnlt]
    refine ⟨b1.Clear (arr n), ?_, hbits, fun x => ?_⟩
    · show (match clearFrom arr b n with
        | none => none
        | some b1 => if b1.Test (arr n) then some (b1.Clear (arr n)) else none) = _
      rw [hb1]
      dsimp only
      rw [if_pos htest]
    · unfold BitMap.Clear
      dsimp only
      by_cases hx : x = (arr n).toNat
      · rw [hx, Function.update_same]
        constructor
        · intro h; cases h
        · rintro ⟨-, hno⟩
          exact absurd ⟨n, Nat.lt_succ_self n, hcast.symm⟩ hno
      · rw [Function.update_noteq hx, hmap x]
        constructor
        · rintro ⟨h1, h2⟩
          refine ⟨h1, ?_⟩
          rintro ⟨i, hi, he⟩
          rcases Nat.lt_succ_iff_lt_or_eq.mp hi with h | h
          · exact h2 ⟨i, h, he⟩
          · rw [h] at he
            apply hx
            rw [he, Int.toNat_natCast]
        · rintro ⟨h1, h2⟩
          exact ⟨h1, fun ⟨i, hi, he⟩ => h2 ⟨i, Nat.lt_succ_of_lt hi, he⟩⟩

/-! ## `ChangeFileSize` of lab5 -/

theorem BitMap.Find_numBits (b : BitMap) : b.Find.2.numBits = b.numBits := by
  unfold BitMap.Find
  split <;> rfl

theorem findInto_numBits (start : Nat) (arr : Nat → Int) (b : BitMap) :
    ∀ k, (findInto start arr b k).2.numBits = b.numBits := by
  intro k
  induction k with
  | zero => rfl
  | succ k ih =>
    show (findInto start arr b k).2.Find.2.numBits = b.numBits
    rw [BitMap.Find_numBits, ih]

/-- The free map written back by `WriteBack` is the one `FetchFrom` reads. -/
theorem FileSys.fetch_written (c : FsConfig) (sd : SynchDisk) (b : BitMap)
    (hb : b.numBits = c.NumSectors) :
    FileSys.fetchFreeMap c { synchDisk := sd, freeMapFile := b.map } = b := by
  cases b
  simp only at hb
  subst hb
  rfl

/-- A call of `ChangeFileSize` that returns false leaves the header and the
disk, with the free map on it, as they were. -/
theorem ChangeFileSize_false_unchanged (c : FsConfig) (h : FileHeader) (fs : FileSys)
    (newFileSize : Int) (hret : (h.ChangeFileSize c fs newFileSize).ret = false) :
    (h.ChangeFileSize c fs newFileSize).hdr = h ∧ (h.ChangeFileSize c fs newFileSize).fs = fs := by
  unfold FileHeader.ChangeFileSize at hret ⊢
  dsimp only at hret ⊢
  split_ifs at hret ⊢
  exact ⟨rfl, rfl⟩

/-- A file that would exceed `MaxFileSectors`, or whose new data sectors alone
outnumber the free sectors, is refused: `ChangeFileSize` returns false. -/
theorem ChangeFileSize_false_of_data (c : FsConfig) (h : FileHeader) (fs : FileSys)
    (newFileSize : Int) (hgrow : h.numBytes < newFileSize)
    (hmore : divRoundUpInt newFileSize c.SectorSize ≠ h.numSectors)
    (hno : divRoundUpInt newFileSize c.SectorSize > c.MaxFileSectors ∨
      ((fs.fetchFreeMap c).NumClear : Int) <
        divRoundUpInt newFileSize c.SectorSize - h.numSectors) :
    (h.ChangeFileSize c fs newFileSize).ret = false := by
  unfold FileHeader.ChangeFileSize
  dsimp only
  rw [if_neg (by omega), if_neg hmore, if_pos hno]

/-- C31 (the code departs from the claim): let the header hold at most
`NumIndex1` sectors (no index block yet) and let the file grow to `n` sectors
with `NumIndex1 < n <= MaxFileSectors`, so that the growth needs the
`n - numSectors` new data sectors and the sector of the index block, and let the
free map on the disk hold exactly `n - numSectors` free sectors.  The test of
line 67 compares the free sectors with `n - numSectors` only, so
`ChangeFileSize` returns true; the new direct entries and the index sector are
sector numbers, the free map written back has no free sector, and the last
entry of the index block written to the disk is the -1 of a `Find()` that
found nothing. -/
theorem ChangeFileSize_true_without_room (c : FsConfig) (h : FileHeader) (fs : FileSys) (n : Nat)
    (hss : 0 < c.SectorSize) (hns : 0 ≤ h.numSectors) (hold : h.numSectors ≤ c.NumIndex1)
    (hidx : c.NumIndex1 < n) (hmax : n ≤ c.MaxFileSectors)
    (hgrow : h.numBytes < ((n * c.SectorSize : Nat) : Int))
    (hfree : ((fs.fetchFreeMap c).NumClear : Int) = n - h.numSectors) :
    (h.ChangeFileSize c fs ((n * c.SectorSize : Nat) : Int)).ret = true ∧
      (h.ChangeFileSize c fs ((n * c.SectorSize : Nat) : Int)).hdr.numSectors = (n : Nat) ∧
      (∀ j, h.numSectors.toNat ≤ j → j ≤ c.NumIndex1 →
        0 ≤ (h.ChangeFileSize c fs ((n * c.SectorSize : Nat) : Int)).hdr.dataSectors j) ∧
      ((h.ChangeFileSize c fs ((n * c.SectorSize : Nat) : Int)).fs.fetchFreeMap c).NumClear = 0 ∧
      (h.ChangeFileSize c fs ((n * c.SectorSize : Nat) : Int)).fs.synchDisk.ReadSector
        ((h.ChangeFileSize c fs ((n * c.SectorSize : Nat) : Int)).hdr.dataSectors c.NumIndex1)
        (n - c.NumIndex1 - 1) = -1 := by
  have hdiv := divRoundUpInt_mul n c.SectorSize hss
  have hb1 : ¬ ((n * c.SectorSize : Nat) : Int) ≤ h.numBytes := by omega
  have hb2 : ¬ (n : Int) = h.numSectors := by omega
  have hb3 : ¬ ((n : Int) > (c.MaxFileSectors : Int) ∨
      ((fs.fetchFreeMap c).NumClear : Int) < (n : Int) - h.numSectors) := by omega
  have hb4 : ¬ ((n : Int) ≤ (c.NumIndex1 : Int)) := by omega
  have hcount : ((n : Int) - (c.NumIndex1 : Int)).toNat = (n - c.NumIndex1 - 1) + 1 := by omega
  have hstart : ((c.NumIndex1 : Int) - (c.NumIndex1 : Int)).toNat = 0 := by omega
  obtain ⟨hc1, hnn1⟩ := findInto_room h.numSectors.toNat h.dataSectors (fs.fetchFreeMap c)
    ((c.NumIndex1 : Int) + 1 - h.numSectors).toNat (by omega)
  generalize hr1 : findInto h.numSectors.toNat h.dataSectors (fs.fetchFreeMap c)
    ((c.NumIndex1 : Int) + 1 - h.numSectors).toNat = r1 at hc1 hnn1
  obtain ⟨hc2, -⟩ := findInto_room 0 (fs.synchDisk.ReadSector (r1.1 c.NumIndex1)) r1.2
    (n - c.NumIndex1 - 1) (by omega)
  have hzero : (findInto 0 (fs.synchDisk.ReadSector (r1.1 c.NumIndex1)) r1.2
      (n - c.NumIndex1 - 1)).2.NumClear = 0 := by omega
  have hfull := BitMap.Find_of_full _ hzero
  unfold FileHeader.ChangeFileSize
  rw [hdiv]
  dsimp only
  rw [if_neg hb1, if_neg hb2, if_neg hb3, if_neg hb4]
  simp only [if_pos hold, hr1, hstart, hcount]
  refine ⟨trivial, trivial, fun j hj1 hj2 => hnn1 j hj1 (by omega), ?_, ?_⟩
  · have hbits : (findInto 0 (fs.synchDisk.ReadSector (r1.1 c.NumIndex1)) r1.2
        (n - c.NumIndex1 - 1 + 1)).2.numBits = c.NumSectors := by
      rw [findInto_numBits, ← hr1, findInto_numBits]
      rfl
    have hlast : (findInto 0 (fs.synchDisk.ReadSector (r1.1 c.NumIndex1)) r1.2
        (n - c.NumIndex1 - 1 + 1)).2.NumClear = 0 := by
      show (findInto 0 _ r1.2 (n - c.NumIndex1 - 1)).2.Find.2.NumClear = 0
      rw [hfull]
      exact hzero
    exact (congrArg BitMap.NumClear (FileSys.fetch_written c _ _ hbits)).trans hlast
  · have hlast : (findInto 0 (fs.synchDisk.ReadSector (r1.1 c.NumIndex1)) r1.2
        (n - c.NumIndex1 - 1 + 1)).1 (n - c.NumIndex1 - 1) = -1 := by
      show Function.update _ (0 + (n - c.NumIndex1 - 1)) _ (n - c.NumIndex1 - 1) = -1
      rw [Nat.zero_add, Function.update_same, hfull]
    have hread : ∀ (d : SynchDisk) (k : Int) (blk : Nat → Int),
        (d.WriteSector k blk).ReadSector k = blk := by
      intro d k blk
      unfold SynchDisk.ReadSector SynchDisk.WriteSector
      dsimp only
      rw [Function.update_same]
    rw [hread]
    exact hlast

/-- Witness of C31: the file of 200 bytes in the sectors 3 and 4 grows to 640
bytes (5 sectors, with 4 direct entries) on a disk with the 3 free sectors 13,
14, 15.  The growth needs 3 data sectors and the index sector; the call
returns true with the direct entries 13, 14, the index sector 15 and the
index-block entry -1. -/
theorem ChangeFileSize_true_without_room_witness :
    ((tightFileSys.fetchFreeMap demoFs).NumClear = 3 ∧
      (twoSectorHeader.ChangeFileSize demoFs tightFileSys 640).ret = true ∧
      (List.range 5).map
        (twoSectorHeader.ChangeFileSize demoFs tightFileSys 640).hdr.dataSectors =
          [3, 4, 13, 14, 15] ∧
      (twoSectorHeader.ChangeFileSize demoFs tightFileSys 640).fs.synchDisk.ReadSector 15
        0 = -1) ∧
    ((twoSectorHeader.ChangeFileSize demoFs tightFileSys ((5 * demoFs.SectorSize : Nat) : Int)).ret = true ∧
      (twoSectorHeader.ChangeFileSize demoFs tightFileSys ((5 * demoFs.SectorSize : Nat) : Int)).hdr.numSectors = (5 : Nat) ∧
      (∀ j, twoSectorHeader.numSectors.toNat ≤ j → j ≤ demoFs.NumIndex1 →
        0 ≤ (twoSectorHeader.ChangeFileSize demoFs tightFileSys ((5 * demoFs.SectorSize : Nat) : Int)).hdr.dataSectors j) ∧
      ((twoSectorHeader.ChangeFileSize demoFs tightFileSys ((5 * demoFs.SectorSize : Nat) : Int)).fs.fetchFreeMap demoFs).NumClear = 0 ∧
      (twoSectorHeader.ChangeFileSize demoFs tightFileSys ((5 * demoFs.SectorSize : Nat) : Int)).fs.synchDisk.ReadSector
        ((twoSectorHeader.ChangeFileSize demoFs tightFileSys ((5 * demoFs.SectorSize : Nat) : Int)).hdr.dataSectors demoFs.NumIndex1)
        (5 - demoFs.NumIndex1 - 1) = -1) :=
  ⟨by decide,
    ChangeFileSize_true_without_room demoFs twoSectorHeader tightFileSys 5
      (by decide) (by decide) (by decide) (by decide) (by decide) (by decide) (by decide)⟩

/-! ## Second-Chance with every use bit set -/

/-- The loop of `findPage2ndChance` writes `pageTable`, `pagesInMem` and `idx`
only. -/
theorem findPage2ndChanceLoop_rest {c : Config} {inPage : Int} :
    ∀ (fuel : Nat) (s t : AddrSpace) (v : Int),
      findPage2ndChanceLoop c inPage fuel s = some (v, t) →
      t.numPages = s.numPages ∧ t.spaceID = s.spaceID ∧ t.swapFile = s.swapFile ∧
        t.bottom = s.bottom ∧ t.count = s.count ∧ t.lastVirtPage = s.lastVirtPage ∧
        t.fdRefStr = s.fdRefStr ∧ t.fpRefStr = s.fpRefStr ∧ t.optRefStr = s.optRefStr ∧
        t.refIdx = s.refIdx := by
  intro fuel
  induction fuel with
  | zero => intro s t v h; cases h
  | succ fuel ih =>
    intro s t v h
    unfold findPage2ndChanceLoop at h
    split_ifs at h with h1 h2
    · cases h
      exact ⟨rfl, rfl, rfl, rfl, rfl, rfl, rfl, rfl, rfl, rfl⟩
    · have := ih _ t v h
      exact this
    · cases h
      exact ⟨rfl, rfl, rfl, rfl, rfl, rfl, rfl, rfl, rfl, rfl⟩

/-- C32: in a state of the address space in which every slot of `pagesInMem`
holds a resident page and every resident page has its use bit set,
`findPage2ndChance` returns, with the victim of `findPageFIFO`, and leaves the
state `findPageFIFO` leaves (`inPage` in the same slot, the same `idx`) except
that the use bit of every resident page is cleared; no other entry of the
page table and no other field differs. -/
theorem findPage2ndChance_all_used_is_FIFO {c : Config} {s : AddrSpace} (inPage : Int)
    (hinv : Inv c s) (hfull : ∀ j, j < c.maxFramesPerProc → 0 ≤ s.pagesInMem j)
    (huse : ∀ v, s.resident v → (s.pageTable v).use = true) :
    findPage2ndChance c inPage s =
      some ((findPageFIFO c inPage s).1,
        { (findPageFIFO c inPage s).2 with
          pageTable := fun v =>
            if s.resident v then { s.pageTable v with use := false } else s.pageTable v }) := by
  have hm := hinv.shape.mpos
  have hidx := hinv.shape.idx_lt
  obtain ⟨t, hloop, hpages, hcur, hcleared, hkept⟩ :=
    @findPage2ndChanceLoop_wrap c inPage hm s hidx hfull
      (fun i j hi hj h => hinv.inj i j hi hj (hfull i hi) h)
      (fun j _ => huse _ (hinv.listed _ (Nat.mod_lt _ hm) (hfull _ (Nat.mod_lt _ hm))))
  obtain ⟨h1, h2, h3, h4, h5, h6, h7, h8, h9, h10⟩ :=
    findPage2ndChanceLoop_rest _ s t _ hloop
  have htable : t.pageTable = fun v =>
      if s.resident v then { s.pageTable v with use := false } else s.pageTable v := by
    funext v
    by_cases hres : s.resident v
    · rw [if_pos hres]
      obtain ⟨j, hj, hslot⟩ := hinv.complete v hres
      obtain ⟨k, hk, hkj⟩ := slot_surj hidx hj
      have := hcleared k hk
      rw [hkj, hslot, Int.toNat_natCast] at this
      exact this
    · rw [if_neg hres]
      apply hkept
      intro j _ hx
      apply hres
      rw [hx]
      exact hinv.listed _ (Nat.mod_lt _ hm) (hfull _ (Nat.mod_lt _ hm))
  unfold findPage2ndChance
  rw [hloop]
  unfold findPageFIFO
  dsimp only
  congr 2
  cases t
  simp only at h1 h2 h3 h4 h5 h6 h7 h8 h9 h10 hpages hcur htable
  subst h1 h2 h3 h4 h5 h6 h7 h8 h9 h10 hpages hcur htable
  rfl

theorem clockUsedSpace_reachable : Reachable clockConfig clockUsedSpace :=
  Reachable.access _ 1 true false clockSpace_reachable (by decide)

/-- Witness of C32: pages 0, 1, 2 in slots 0, 1, 2, the cursor at 0 and every
use bit set.  Second-Chance evicts page 0 from slot 0 like FIFO, leaves the
cursor at 1 and all three use bits clear. -/
theorem findPage2ndChance_all_used_is_FIFO_witness :
    (clockUsedSpace.idx = 0 ∧ (List.range 3).map clockUsedSpace.pagesInMem = [0, 1, 2] ∧
      (List.range 4).map (fun v => (clockUsedSpace.pageTable v).use) =
        [true, true, true, false] ∧
      (findPage2ndChance clockConfig 3 clockUsedSpace).map
          (fun r => (r.1, (List.range 3).map r.2.pagesInMem, r.2.idx,
            (List.range 4).map (fun v => (r.2.pageTable v).use))) =
        some (0, [3, 1, 2], 1, [false, false, false, false]) ∧
      ((findPageFIFO clockConfig 3 clockUsedSpace).1,
          (List.range 3).map (findPageFIFO clockConfig 3 clockUsedSpace).2.pagesInMem,
          (findPageFIFO clockConfig 3 clockUsedSpace).2.idx) = (0, [3, 1, 2], 1)) ∧
    findPage2ndChance clockConfig 3 clockUsedSpace =
      some ((findPageFIFO clockConfig 3 clockUsedSpace).1,
        { (findPageFIFO clockConfig 3 clockUsedSpace).2 with
          pageTable := fun v =>
            if clockUsedSpace.resident v then
              { clockUsedSpace.pageTable v with use := false }
            else clockUsedSpace.pageTable v }) :=
  ⟨by decide,
    findPage2ndChance_all_used_is_FIFO 3 clockUsedSpace_reachable.inv_holds (by decide)
      (fun v hv =>
        (show ∀ x, x < 4 → (clockUsedSpace.pageTable x).valid = true →
          (clockUsedSpace.pageTable x).use = true by decide) v hv.1 hv.2)⟩

/-! ## `Allocate` followed by `Deallocate` -/

theorem BitMap.eq_of_marks {b1 b0 : BitMap} (hbits : b1.numBits = b0.numBits)
    (hmap : ∀ x, b1.map x = true ↔ b0.map x = true) : b1 = b0 := by
  cases b1
  cases b0
  simp only at hbits hmap
  subst hbits
  congr 1
  funext x
  exact Bool.eq_iff_iff.mpr (hmap x)

/-- The loop of `Deallocate` over a list of different marked sectors. -/
theorem clearFrom_list (arr : Nat → Int) (b : BitMap) (n : Nat)
    (hnd : ((List.range n).map arr).Nodup)
    (hent : ∀ s, s ∈ (List.range n).map arr →
      0 ≤ s ∧ s.toNat < b.numBits ∧ b.map s.toNat = true) :
    ∃ b1, clearFrom arr b n = some b1 ∧ b1.numBits = b.numBits ∧
      ∀ x, b1.map x = true ↔ (b.map x = true ∧ (x : Int) ∉ (List.range n).map arr) := by
  obtain ⟨b1, h1, h2, h3⟩ := clearFrom_spec arr b n
    (fun i hi => hent _ (List.mem_map.mpr ⟨i, List.mem_range.mpr hi, rfl⟩))
    (fun i j hi hj he => (List.nodup_map_iff_inj_on (List.nodup_range n)).mp hnd i
      (List.mem_range.mpr hi) j (List.mem_range.mpr hj) he)
  refine ⟨b1, h1, h2, fun x => ?_⟩
  rw [h3]
  simp only [List.mem_map, List.mem_range]

/-- The loop of `Find()` calls from entry 0 while the free map has room, with
the sectors found as a list. -/
theorem findInto_list (arr : Nat → Int) (b : BitMap) (k : Nat) (hk : k ≤ b.NumClear) :
    ((List.range k).map (findInto 0 arr b k).1).Nodup ∧
      (∀ s, s ∈ (List.range k).map (findInto 0 arr b k).1 →
        0 ≤ s ∧ s.toNat < b.numBits ∧ b.map s.toNat = false) ∧
      (findInto 0 arr b k).2.numBits = b.numBits ∧
      (findInto 0 arr b k).2.NumClear + k = b.NumClear ∧
      (∀ x, (findInto 0 arr b k).2.map x = true ↔
        (b.map x = true ∨ (x : Int) ∈ (List.range k).map (findInto 0 arr b k).1)) := by
  obtain ⟨hbits, hcount, hent, hinj, hmap, -⟩ := findInto_spec 0 arr b k hk
  simp only [Nat.zero_add] at hent hinj hmap
  refine ⟨?_, fun s hs => ?_, hbits, hcount, fun x => ?_⟩
  · rw [List.nodup_map_iff_inj_on (List.nodup_range k)]
    intro i hi j hj he
    exact hinj i j (List.mem_range.mp hi) (List.mem_range.mp hj) he
  · obtain ⟨i, hi, rfl⟩ := List.mem_map.mp hs
    exact hent i (List.mem_range.mp hi)
  · rw [hmap x]
    simp only [List.mem_map, List.mem_range]

theorem divRoundUpInt_nonneg (n : Int) (s : Nat) (hn : 0 ≤ n) : 0 ≤ divRoundUpInt n s := by
  unfold divRoundUpInt
  have h1 : 0 ≤ Int.tdiv n (s : Int) := Int.tdiv_nonneg hn (Int.natCast_nonneg s)
  split_ifs <;> omega

/-- C33: let `Allocate(freeMap, fileSize)` with `fileSize ≥ 0` return true on a
free map that had room for every sector the call takes (the data sectors, and
the sector of the index block when more than `NumIndex1` sectors are needed).
Then the sectors the header records (direct entries, index sector, entries of
the index block on the disk) are different sectors of the map, they are
exactly the bits that were free before and are marked after `Allocate`, their
number is the number of sectors needed, and a following `Deallocate`, which
tests and clears these entries, passes every assertion and returns the free
map as it was before `Allocate`. -/
theorem Allocate_then_Deallocate_restores (c : FsConfig) (junk : Nat → Int) (h : FileHeader)
    (freeMap : BitMap) (disk : SynchDisk) (fileSize : Int) (hsize : 0 ≤ fileSize)
    (hret : (h.Allocate c junk freeMap disk fileSize).ret = true)
    (hroom : divRoundUpInt fileSize c.SectorSize +
        (if divRoundUpInt fileSize c.SectorSize > c.NumIndex1 then 1 else 0) ≤ freeMap.NumClear) :
    (h.Allocate c junk freeMap disk fileSize).hdr.Deallocate c
        (h.Allocate c junk freeMap disk fileSize).freeMap
        (h.Allocate c junk freeMap disk fileSize).disk = some freeMap ∧
      ((h.Allocate c junk freeMap disk fileSize).hdr.sectors c (h.Allocate c junk freeMap disk fileSize).disk).Nodup ∧
      (((h.Allocate c junk freeMap disk fileSize).hdr.sectors c (h.Allocate c junk freeMap disk fileSize).disk).length : Int) =
        divRoundUpInt fileSize c.SectorSize +
          (if divRoundUpInt fileSize c.SectorSize > c.NumIndex1 then 1 else 0) ∧
      (∀ s, s ∈ ((h.Allocate c junk freeMap disk fileSize).hdr.sectors c (h.Allocate c junk freeMap disk fileSize).disk) →
        0 ≤ s ∧ s.toNat < freeMap.numBits) ∧
      (∀ x : Nat, (x : Int) ∈ ((h.Allocate c junk freeMap disk fileSize).hdr.sectors c (h.Allocate c junk freeMap disk fileSize).disk) ↔
        (freeMap.map x = false ∧
          (h.Allocate c junk freeMap disk fileSize).freeMap.map x = true)) := by
  have hn0 := divRoundUpInt_nonneg fileSize c.SectorSize hsize
  generalize hn : divRoundUpInt fileSize c.SectorSize = n at hroom hn0
  by_cases hfail : n > (c.MaxFileSectors : Int) ∨ (freeMap.NumClear : Int) < n
  · exfalso
    unfold FileHeader.Allocate at hret
    rw [hn] at hret
    dsimp only at hret
    rw [if_pos hfail] at hret
    cases hret
  by_cases hdirect : n ≤ (c.NumIndex1 : Int)
  · -- first-level index only
    have hA : (h.Allocate c junk freeMap disk fileSize) =
        { ret := true
          hdr :=
            { numBytes := fileSize, numSectors := n
              dataSectors := Function.update
                (findInto 0 h.dataSectors freeMap n.toNat).1 c.NumIndex1 (-1)
              bHdrChange := h.bHdrChange }
          freeMap := (findInto 0 h.dataSectors freeMap n.toNat).2
          disk := disk } := by
      unfold FileHeader.Allocate
      rw [hn]
      dsimp only
      rw [if_neg hfail, if_pos hdirect]
    rw [hA]
    dsimp only
    obtain ⟨hnd, hent, hbits, -, hmap⟩ :=
      findInto_list h.dataSectors freeMap n.toNat (by omega)
    have hsame : (List.range n.toNat).map
        (Function.update (findInto 0 h.dataSectors freeMap n.toNat).1 c.NumIndex1 (-1)) =
        (List.range n.toNat).map (findInto 0 h.dataSectors freeMap n.toNat).1 := by
      apply List.map_congr_left
      intro i hi
      have := List.mem_range.mp hi
      rw [Function.update_noteq (by omega)]
    have hsec : FileHeader.sectors c
        { numBytes := fileSize, numSectors := n
          dataSectors := Function.update
            (findInto 0 h.dataSectors freeMap n.toNat).1 c.NumIndex1 (-1)
          bHdrChange := h.bHdrChange } disk =
        (List.range n.toNat).map (findInto 0 h.dataSectors freeMap n.toNat).1 := by
      unfold FileHeader.sectors
      dsimp only
      rw [if_pos hdirect, hsame]
    rw [hsec]
    have hmarked : ∀ s, s ∈ (List.range n.toNat).map
        (findInto 0 h.dataSectors freeMap n.toNat).1 →
        0 ≤ s ∧ s.toNat < (findInto 0 h.dataSectors freeMap n.toNat).2.numBits ∧
          (findInto 0 h.dataSectors freeMap n.toNat).2.map s.toNat = true := by
      intro s hs
      obtain ⟨h0, hlt, -⟩ := hent s hs
      refine ⟨h0, by rw [hbits]; exact hlt, (hmap _).mpr (Or.inr ?_)⟩
      rw [Int.toNat_of_nonneg h0]
      exact hs
    obtain ⟨b1, hb1, hb1bits, hb1map⟩ := clearFrom_list
      (Function.update (findInto 0 h.dataSectors freeMap n.toNat).1 c.NumIndex1 (-1))
      (findInto 0 h.dataSectors freeMap n.toNat).2 n.toNat (by rw [hsame]; exact hnd)
      (by rw [hsame]; exact hmarked)
    rw [hsame] at hb1map
    have hfree : ∀ x : Nat, (x : Int) ∈ (List.range n.toNat).map
        (findInto 0 h.dataSectors freeMap n.toNat).1 → freeMap.map x = false := by
      intro x hx
      have := (hent _ hx).2.2
      rwa [Int.toNat_natCast] at this
    refine ⟨?_, hnd, ?_, fun s hs => ⟨(hent s hs).1, (hent s hs).2.1⟩, fun x => ?_⟩
    · unfold FileHeader.Deallocate
      dsimp only
      rw [if_pos hdirect, hb1]
      congr 1
      apply BitMap.eq_of_marks (by rw [hb1bits, hbits])
      intro x
      rw [hb1map, hmap]
      constructor
      · rintro ⟨h1 | h1, h2⟩
        · exact h1
        · exact absurd h1 h2
      · intro h1
        refine ⟨Or.inl h1, fun h2 => ?_⟩
        rw [hfree x h2] at h1
        cases h1
    · rw [List.length_map, List.length_range, if_neg (by omega)]
      omega
    · rw [hmap]
      constructor
      · intro hx
        exact ⟨hfree x hx, Or.inr hx⟩
      · rintro ⟨h1, h2 | h2⟩
        · rw [h1] at h2
          cases h2
        · exact h2
  · -- second-level index
    rw [if_pos (by omega)] at hroom
    have hm : (n - (c.NumIndex1 : Int)).toNat + (c.NumIndex1 + 1) ≤ freeMap.NumClear := by omega
    have hA : (h.Allocate c junk freeMap disk fileSize) =
        { ret := true
          hdr :=
            { numBytes := fileSize, numSectors := n
              dataSectors := (findInto 0 h.dataSectors freeMap (c.NumIndex1 + 1)).1
              bHdrChange := h.bHdrChange }
          freeMap := (findInto 0 junk (findInto 0 h.dataSectors freeMap (c.NumIndex1 + 1)).2
            (n - (c.NumIndex1 : Int)).toNat).2
          disk := disk.WriteSector
            ((findInto 0 h.dataSectors freeMap (c.NumIndex1 + 1)).1 c.NumIndex1)
            (findInto 0 junk (findInto 0 h.dataSectors freeMap (c.NumIndex1 + 1)).2
              (n - (c.NumIndex1 : Int)).toNat).1 } := by
      unfold FileHeader.Allocate
      rw [hn]
      dsimp only
      rw [if_neg hfail, if_neg hdirect]
    rw [hA]
    dsimp only
    obtain ⟨hnd1, hent1, hbits1, hcount1, hmap1⟩ :=
      findInto_list h.dataSectors freeMap (c.NumIndex1 + 1) (by omega)
    obtain ⟨hnd2, hent2, hbits2, -, hmap2⟩ :=
      findInto_list junk (findInto 0 h.dataSectors freeMap (c.NumIndex1 + 1)).2
        (n - (c.NumIndex1 : Int)).toNat (by omega)
    generalize hr1 : findInto 0 h.dataSectors freeMap (c.NumIndex1 + 1) = r1 at *
    generalize hr2 : findInto 0 junk r1.2 (n - (c.NumIndex1 : Int)).toNat = r2 at *
    have hread : (disk.WriteSector (r1.1 c.NumIndex1) r2.1).ReadSector (r1.1 c.NumIndex1) =
        r2.1 := by
      unfold SynchDisk.ReadSector SynchDisk.WriteSector
      dsimp only
      rw [Function.update_same]
    have hsec : FileHeader.sectors c
        { numBytes := fileSize, numSectors := n, dataSectors := r1.1
          bHdrChange := h.bHdrChange }
        (disk.WriteSector (r1.1 c.NumIndex1) r2.1) =
        (List.range (c.NumIndex1 + 1)).map r1.1 ++
          (List.range (n - (c.NumIndex1 : Int)).toNat).map r2.1 := by
      unfold FileHeader.sectors
      dsimp only
      rw [if_neg hdirect, hread]
    rw [hsec]
    -- a sector of the index block is none of the direct entries or the index sector
    have hdisj : ∀ s, s ∈ (List.range (n - (c.NumIndex1 : Int)).toNat).map r2.1 →
        s ∉ (List.range (c.NumIndex1 + 1)).map r1.1 := by
      intro s hs2 hs1
      obtain ⟨h0, -, hf⟩ := hent2 s hs2
      have : r1.2.map s.toNat = true := (hmap1 _).mpr (Or.inr (by
        rw [Int.toNat_of_nonneg h0]; exact hs1))
      rw [hf] at this
      cases this
    have hfree1 : ∀ x : Nat, (x : Int) ∈ (List.range (c.NumIndex1 + 1)).map r1.1 →
        freeMap.map x = false := by
      intro x hx
      have := (hent1 _ hx).2.2
      rwa [Int.toNat_natCast] at this
    have hfree2 : ∀ x : Nat, (x : Int) ∈ (List.range (n - (c.NumIndex1 : Int)).toNat).map r2.1 →
        freeMap.map x = false := by
      intro x hx
      have h2 := (hent2 _ hx).2.2
      rw [Int.toNat_natCast] at h2
      cases hb : freeMap.map x with
      | false => rfl
      | true =>
        have := (hmap1 x).mpr (Or.inl hb)
        rw [h2] at this
        cases this
    obtain ⟨b1, hb1, hb1bits, hb1map⟩ := clearFrom_list r1.1 r2.2 (c.NumIndex1 + 1) hnd1
      (fun s hs => by
        obtain ⟨h0, hlt, -⟩ := hent1 s hs
        refine ⟨h0, by rw [hbits2, hbits1]; exact hlt, (hmap2 _).mpr (Or.inl ?_)⟩
        refine (hmap1 _).mpr (Or.inr ?_)
        rw [Int.toNat_of_nonneg h0]
        exact hs)
    obtain ⟨b2, hb2, hb2bits, hb2map⟩ := clearFrom_list r2.1 b1
      (n - (c.NumIndex1 : Int)).toNat hnd2
      (fun s hs => by
        obtain ⟨h0, hlt, -⟩ := hent2 s hs
        refine ⟨h0, by rw [hb1bits, hbits2]; exact hlt, (hb1map _).mpr ⟨?_, ?_⟩⟩
        · refine (hmap2 _).mpr (Or.inr ?_)
          rw [Int.toNat_of_nonneg h0]
          exact hs
        · rw [Int.toNat_of_nonneg h0]
          exact hdisj s hs)
    refine ⟨?_, ?_, ?_, fun s hs => ?_, fun x => ?_⟩
    · unfold FileHeader.Deallocate
      dsimp only
      rw [if_neg hdirect, hb1]
      dsimp only
      rw [hread, hb2]
      congr 1
      apply BitMap.eq_of_marks (by rw [hb2bits, hb1bits, hbits2, hbits1])
      intro x
      rw [hb2map, hb1map, hmap2, hmap1]
      constructor
      · rintro ⟨⟨(h1 | h1) | h1, h2⟩, h3⟩
        · exact h1
        · exact absurd h1 h2
        · exact absurd h1 h3
      · intro h1
        refine ⟨⟨Or.inl (Or.inl h1), fun h2 => ?_⟩, fun h3 => ?_⟩
        · rw [hfree1 x h2] at h1
          cases h1
        · rw [hfree2 x h3] at h1
          cases h1
    · rw [List.nodup_append]
      exact ⟨hnd1, hnd2, fun s hs1 hs2 => hdisj s hs2 hs1⟩
    · rw [List.length_append, List.length_map, List.length_map, List.length_range,
        List.length_range, if_pos (by omega)]
      omega
    · rcases List.mem_append.mp hs with hs | hs
      · exact ⟨(hent1 s hs).1, (hent1 s hs).2.1⟩
      · exact ⟨(hent2 s hs).1, by rw [← hbits1]; exact (hent2 s hs).2.1⟩
    · rw [hmap2, hmap1, List.mem_append]
      constructor
      · rintro (hx | hx)
        · exact ⟨hfree1 x hx, Or.inl (Or.inr hx)⟩
        · exact ⟨hfree2 x hx, Or.inr hx⟩
      · rintro ⟨h1, (h2 | h2) | h2⟩
        · rw [h1] at h2
          cases h2
        · exact Or.inl h2
        · exact Or.inr h2

/-- Witness of C33: a file of 700 bytes (6 data sectors, 4 of them direct,
and the index sector) on the free map with the 7 free sectors 9 .. 15.
`Allocate` records 9, 10, 11, 12, the index sector 13 and the index-block
entries 14, 15; `Deallocate` frees them again. -/
theorem Allocate_then_Deallocate_restores_witness :
    (roomyFreeMap.NumClear = 7 ∧
      ((demoFileHeader.Allocate demoFs (fun _ => 0) roomyFreeMap demoDisk 700).hdr.sectors demoFs (demoFileHeader.Allocate demoFs (fun _ => 0) roomyFreeMap demoDisk 700).disk) = [9, 10, 11, 12, 13, 14, 15] ∧
      (List.range 16).map (demoFileHeader.Allocate demoFs (fun _ => 0) roomyFreeMap demoDisk 700).freeMap.map = List.replicate 16 true ∧
      ((demoFileHeader.Allocate demoFs (fun _ => 0) roomyFreeMap demoDisk 700).hdr.Deallocate demoFs (demoFileHeader.Allocate demoFs (fun _ => 0) roomyFreeMap demoDisk 700).freeMap (demoFileHeader.Allocate demoFs (fun _ => 0) roomyFreeMap demoDisk 700).disk).map
          (fun b => (List.range 16).map b.map) =
        some ((List.range 16).map roomyFreeMap.map)) ∧
    ((demoFileHeader.Allocate demoFs (fun _ => 0) roomyFreeMap demoDisk 700).hdr.Deallocate demoFs
        (demoFileHeader.Allocate demoFs (fun _ => 0) roomyFreeMap demoDisk 700).freeMap
        (demoFileHeader.Allocate demoFs (fun _ => 0) roomyFreeMap demoDisk 700).disk = some roomyFreeMap ∧
      ((demoFileHeader.Allocate demoFs (fun _ => 0) roomyFreeMap demoDisk 700).hdr.sectors demoFs (demoFileHeader.Allocate demoFs (fun _ => 0) roomyFreeMap demoDisk 700).disk).Nodup ∧
      (((demoFileHeader.Allocate demoFs (fun _ => 0) roomyFreeMap demoDisk 700).hdr.sectors demoFs (demoFileHeader.Allocate demoFs (fun _ => 0) roomyFreeMap demoDisk 700).disk).length : Int) =
        divRoundUpInt 700 demoFs.SectorSize +
          (if divRoundUpInt 700 demoFs.SectorSize > demoFs.NumIndex1 then 1 else 0) ∧
      (∀ s, s ∈ ((demoFileHeader.Allocate demoFs (fun _ => 0) roomyFreeMap demoDisk 700).hdr.sectors demoFs (demoFileHeader.Allocate demoFs (fun _ => 0) roomyFreeMap demoDisk 700).disk) →
        0 ≤ s ∧ s.toNat < roomyFreeMap.numBits) ∧
      (∀ x : Nat, (x : Int) ∈ ((demoFileHeader.Allocate demoFs (fun _ => 0) roomyFreeMap demoDisk 700).hdr.sectors demoFs (demoFileHeader.Allocate demoFs (fun _ => 0) roomyFreeMap demoDisk 700).disk) ↔
        (roomyFreeMap.map x = false ∧
          (demoFileHeader.Allocate demoFs (fun _ => 0) roomyFreeMap demoDisk 700).freeMap.map x = true))) :=
  ⟨by decide,
    Allocate_then_Deallocate_restores demoFs (fun _ => 0) demoFileHeader roomyFreeMap demoDisk 700
      (by decide) (by decide) (by decide)⟩

/-! ## `ChangeFileSize` and the sectors of the existing data -/

/-- The loop of `Find()` calls writes the entries `start .. start + k - 1` of
the array only. -/
theorem findInto_frame (start : Nat) (arr : Nat → Int) (b : BitMap) :
    ∀ k j, (j < start ∨ start + k ≤ j) → (findInto start arr b k).1 j = arr j := by
  intro k
  induction k with
  | zero => intro j _; rfl
  | succ k ih =>
    intro j hj
    show Function.update (findInto start arr b k).1 (start + k) _ j = arr j
    rw [Function.update_noteq (by omega)]
    exact ih j (by omega)

/-- The sector index of a byte of the file is below `numSectors`. -/
theorem sector_lt_numSectors (s : Nat) (offset numBytes : Int) (h0 : 0 ≤ offset)
    (hlt : offset < numBytes) :
    0 ≤ Int.tdiv offset (s : Int) ∧ Int.tdiv offset (s : Int) < divRoundUpInt numBytes (s : Int) := by
  obtain ⟨o, rfl⟩ := Int.eq_ofNat_of_zero_le h0
  obtain ⟨n, rfl⟩ := Int.eq_ofNat_of_zero_le (show 0 ≤ numBytes by omega)
  have hon : o < n := by omega
  unfold divRoundUpInt
  rw [← Int.ofNat_tdiv, ← Int.ofNat_tdiv, ← Int.ofNat_tmod]
  refine ⟨Int.natCast_nonneg _, ?_⟩
  have hle : o / s ≤ n / s := Nat.div_le_div_right (Nat.le_of_lt hon)
  by_cases hmod : n % s = 0
  · have hn : n = s * (n / s) := by
      have := Nat.div_add_mod n s
      omega
    have : o / s < n / s := Nat.div_lt_of_lt_mul (by rw [← hn]; exact hon)
    split_ifs <;> omega
  · rw [if_pos (by omega)]
    omega

/-- What `ChangeFileSize` keeps: the entries of `dataSectors` below the old
`numSectors`, and with an index block already there its sector and its entries
below `numSectors - NumIndex1`. -/
theorem ChangeFileSize_frame (c : FsConfig) (h : FileHeader) (fs : FileSys) (newFileSize : Int) :
    (∀ j : Nat, (j : Int) < h.numSectors →
      (h.ChangeFileSize c fs newFileSize).hdr.dataSectors j = h.dataSectors j) ∧
    ((c.NumIndex1 : Int) < h.numSectors → ∀ j : Nat, (j : Int) < h.numSectors - c.NumIndex1 →
      (h.ChangeFileSize c fs newFileSize).fs.synchDisk.ReadSector (h.dataSectors c.NumIndex1) j =
        fs.synchDisk.ReadSector (h.dataSectors c.NumIndex1) j) := by
  unfold FileHeader.ChangeFileSize
  by_cases h1 : newFileSize ≤ h.numBytes
  · rw [if_pos h1]
    exact ⟨fun _ _ => rfl, fun _ _ _ => rfl⟩
  rw [if_neg h1]
  dsimp only
  by_cases h2 : divRoundUpInt newFileSize c.SectorSize = h.numSectors
  · rw [if_pos h2]
    exact ⟨fun _ _ => rfl, fun _ _ _ => rfl⟩
  rw [if_neg h2]
  by_cases h3 : divRoundUpInt newFileSize c.SectorSize > c.MaxFileSectors ∨
      ((fs.fetchFreeMap c).NumClear : Int) < divRoundUpInt newFileSize c.SectorSize - h.numSectors
  · rw [if_pos h3]
    exact ⟨fun _ _ => rfl, fun _ _ _ => rfl⟩
  rw [if_neg h3]
  by_cases h4 : divRoundUpInt newFileSize c.SectorSize ≤ c.NumIndex1
  · rw [if_pos h4]
    dsimp only
    exact ⟨fun j hj => findInto_frame _ _ _ _ j (Or.inl (by omega)), fun _ _ _ => rfl⟩
  rw [if_neg h4]
  dsimp only
  by_cases h5 : h.numSectors ≤ c.NumIndex1
  · simp only [if_pos h5]
    exact ⟨fun j hj => findInto_frame _ _ _ _ j (Or.inl (by omega)), fun hc => by omega⟩
  · simp only [if_neg h5]
    refine ⟨fun _ _ => trivial, fun _ j hj => ?_⟩
    unfold SynchDisk.ReadSector SynchDisk.WriteSector
    dsimp only
    rw [Function.update_same]
    exact findInto_frame _ _ _ _ j (Or.inl (by omega))

/-- C34: for a header with `numSectors = divRoundUp(numBytes, SectorSize)`
(and `numSectors ≥ 0`) and every `newFileSize`, `ChangeFileSize(newFileSize)`
returns, true or false, and afterwards `ByteToSector(offset)` gives for every
`offset` in `[0, numBytes)` of the old length the sector it gave before the
call, through the direct entries and through the index block, also when the
call creates the index block; and `FileLength()` is not smaller than
before. -/
theorem ChangeFileSize_keeps_mapping (c : FsConfig) (h : FileHeader) (fs : FileSys)
    (newFileSize : Int) (_hss : 0 < c.SectorSize)
    (hsec : h.numSectors = divRoundUpInt h.numBytes c.SectorSize) (_hns : 0 ≤ h.numSectors) :
    (∀ offset, 0 ≤ offset → offset < h.numBytes →
      (h.ChangeFileSize c fs newFileSize).hdr.ByteToSector c
          (h.ChangeFileSize c fs newFileSize).fs.synchDisk offset =
        h.ByteToSector c fs.synchDisk offset) ∧
      h.FileLength ≤ (h.ChangeFileSize c fs newFileSize).hdr.FileLength := by
  constructor
  · intro offset h0 hlt
    obtain ⟨hq0, hqlt⟩ := sector_lt_numSectors c.SectorSize offset h.numBytes h0 hlt
    rw [← hsec] at hqlt
    obtain ⟨hds, hblock⟩ := ChangeFileSize_frame c h fs newFileSize
    have hbts : ∀ (h1 : FileHeader) (d : SynchDisk),
        h1.ByteToSector c d offset =
          if Int.tdiv offset (c.SectorSize : Int) < (c.NumIndex1 : Int) then
            h1.dataSectors (Int.tdiv offset (c.SectorSize : Int)).toNat
          else (d.ReadSector (h1.dataSectors c.NumIndex1))
            (Int.tdiv offset (c.SectorSize : Int) - (c.NumIndex1 : Int)).toNat :=
      fun _ _ => rfl
    rw [hbts, hbts]
    generalize Int.tdiv offset (c.SectorSize : Int) = q at hq0 hqlt
    by_cases hq : q < (c.NumIndex1 : Int)
    · rw [if_pos hq, if_pos hq]
      exact hds q.toNat (by omega)
    · rw [if_neg hq, if_neg hq, hds c.NumIndex1 (by omega)]
      exact hblock (by omega) (q - (c.NumIndex1 : Int)).toNat (by omega)
  · unfold FileHeader.ChangeFileSize FileHeader.FileLength
    dsimp only
    split_ifs <;> dsimp only <;> omega

/-- Witness of C34: the file of 200 bytes in the sectors 3 and 4 grows to 640
bytes on a disk with 7 free sectors, which creates the index block.  Bytes 0
and 130 stay in the sectors 3 and 4; the length grows from 200 to 640. -/
theorem ChangeFileSize_keeps_mapping_witness :
    ((twoSectorHeader.ChangeFileSize demoFs roomyFileSys 640).ret = true ∧
      (List.range 5).map (twoSectorHeader.ChangeFileSize demoFs roomyFileSys 640).hdr.dataSectors = [3, 4, 9, 10, 11] ∧
      (twoSectorHeader.ChangeFileSize demoFs roomyFileSys 640).fs.synchDisk.ReadSector 11 0 = 12 ∧
      twoSectorHeader.ByteToSector demoFs roomyFileSys.synchDisk 0 = 3 ∧
      twoSectorHeader.ByteToSector demoFs roomyFileSys.synchDisk 130 = 4 ∧
      (twoSectorHeader.ChangeFileSize demoFs roomyFileSys 640).hdr.ByteToSector demoFs (twoSectorHeader.ChangeFileSize demoFs roomyFileSys 640).fs.synchDisk 0 = 3 ∧
      (twoSectorHeader.ChangeFileSize demoFs roomyFileSys 640).hdr.ByteToSector demoFs (twoSectorHeader.ChangeFileSize demoFs roomyFileSys 640).fs.synchDisk 130 = 4 ∧
      (twoSectorHeader.ChangeFileSize demoFs roomyFileSys 640).hdr.ByteToSector demoFs (twoSectorHeader.ChangeFileSize demoFs roomyFileSys 640).fs.synchDisk 639 = 12 ∧
      (twoSectorHeader.ChangeFileSize demoFs roomyFileSys 640).hdr.FileLength = 640) ∧
    ((∀ offset, 0 ≤ offset → offset < twoSectorHeader.numBytes →
      (twoSectorHeader.ChangeFileSize demoFs roomyFileSys 640).hdr.ByteToSector demoFs
          (twoSectorHeader.ChangeFileSize demoFs roomyFileSys 640).fs.synchDisk offset =
        twoSectorHeader.ByteToSector demoFs roomyFileSys.synchDisk offset) ∧
      twoSectorHeader.FileLength ≤ (twoSectorHeader.ChangeFileSize demoFs roomyFileSys 640).hdr.FileLength) :=
  ⟨by decide,
    ChangeFileSize_keeps_mapping demoFs twoSectorHeader roomyFileSys 640
      (by decide) (by decide) (by decide)⟩
end Nachos
